import Mathlib

/-!
# SoulFlow: the run/step state machine and its coordination logic

A shallow embedding of `src/lib/state-manager.js`, `src/lib/agent-system.js`
and `src/lib/orchestrator.js`.

* The SQLite database is a record of four tables, each a list of rows in
  insertion order.  An `UPDATE ... WHERE` is a map over the rows that satisfy
  the condition, `result.changes` is the number of such rows, a lookup by id
  is the first row with that id, and an `INSERT` of an id that is already
  present raises a constraint error (`id TEXT PRIMARY KEY`).
* `Date.now()` and the generated identifiers
  (`step-<Date.now()>-<Math.random()...>`) are inputs of the operation that
  reads them.
* A JavaScript exception is the `error` case of `Except String`, carrying
  `error.message`.
* `INTEGER` columns are `Nat` (timestamps, indexes) or `Int` (`attempts`,
  `max_attempts`); nullable columns are `Option`.
-/

namespace SoulFlow

/-! ## Data model: the four tables of `initSchema` -/

/-- Row of `workflow_runs`. -/
structure RunRow where
  id : String
  workflow_name : String
  workflow_path : String
  status : String
  created_at : Nat
  updated_at : Nat
  completed_at : Option Nat
  error : Option String
  use_git : Nat
  git_branch : Option String
deriving DecidableEq, Repr

/-- Row of `step_executions`. -/
structure StepRow where
  id : String
  run_id : String
  step_name : String
  step_index : Nat
  agent_type : String
  status : String
  assigned_agent : Option String
  created_at : Nat
  started_at : Option Nat
  completed_at : Option Nat
  attempts : Int
  max_attempts : Int
  result : Option String
  error : Option String
  escalated_from : Option String
deriving DecidableEq, Repr

/-- Row of `agent_sessions`. -/
structure AgentRow where
  id : String
  agent_type : String
  status : String
  current_step_id : Option String
  last_heartbeat : Nat
  created_at : Nat
deriving DecidableEq, Repr

/-- Row of `verifications`. -/
structure VerificationRow where
  id : String
  step_id : String
  verifier_agent : String
  status : String
  result : Option String
  created_at : Nat
  completed_at : Option Nat
deriving DecidableEq, Repr

/-- The database held by a `StateManager`. -/
structure Store where
  workflow_runs : List RunRow
  step_executions : List StepRow
  agent_sessions : List AgentRow
  verifications : List VerificationRow
deriving DecidableEq, Repr

/-- The database right after `initSchema` on a new file: four empty tables. -/
def Store.empty : Store :=
  { workflow_runs := [], step_executions := [], agent_sessions := [], verifications := [] }

/-- An opaque result payload, carried as its JSON text. -/
abbrev Payload := String

/-- `JSON.stringify` on a payload carried as its JSON text. -/
def JSON_stringify (result : Payload) : String := result

/-- `UPDATE t SET ... WHERE cond`: every row satisfying `cond` is rewritten by `set`. -/
def sqlUpdate {α : Type} (cond : α → Bool) (set : α → α) (rows : List α) : List α :=
  rows.map (fun r => if cond r then set r else r)

/-- The `changes` field of the result of an `UPDATE`: the number of rows matched. -/
def sqlChanges {α : Type} (cond : α → Bool) (rows : List α) : Nat :=
  rows.countP cond

/-! ## Workflow run operations -/

/-- `getRun(runId)`: `SELECT * FROM workflow_runs WHERE id = ?`. -/
def getRun (db : Store) (runId : String) : Option RunRow :=
  db.workflow_runs.find? (fun r => r.id == runId)

/-- The value returned by `createRun`: `{ id, gitBranch }`. -/
structure CreatedRun where
  id : String
  gitBranch : Option String
deriving DecidableEq, Repr

/-- `createRun(workflowName, workflowPath, useGit)`; `id` is the generated
identifier and `now` the value of `Date.now()`. -/
def createRun (db : Store) (id : String) (now : Nat) (workflowName workflowPath : String)
    (useGit : Bool) : Except String (CreatedRun × Store) :=
  let gitBranch : Option String :=
    if useGit then some ("soulflow/" ++ workflowName ++ "/" ++ id) else none
  if (getRun db id).isSome then
    .error "UNIQUE constraint failed: workflow_runs.id"
  else
    .ok ({ id := id, gitBranch := gitBranch },
      { db with workflow_runs := db.workflow_runs ++
          [{ id := id, workflow_name := workflowName, workflow_path := workflowPath,
             status := "pending", created_at := now, updated_at := now,
             completed_at := none, error := none,
             use_git := if useGit then 1 else 0, git_branch := gitBranch }] })

/-- `updateRunStatus(runId, status, error)`. -/
def updateRunStatus (db : Store) (now : Nat) (runId status : String)
    (error : Option String) : Store :=
  let completedAt : Option Nat :=
    if ["completed", "failed", "cancelled"].contains status then some now else none
  let rows : List RunRow :=
    sqlUpdate (fun r => r.id == runId)
      (fun r => { r with status := status, updated_at := now,
                         completed_at := completedAt, error := error })
      db.workflow_runs
  { db with workflow_runs := rows }

/-! ## Step execution operations -/

/-- `getStep(stepId)`: `SELECT * FROM step_executions WHERE id = ?`. -/
def getStep (db : Store) (stepId : String) : Option StepRow :=
  db.step_executions.find? (fun r => r.id == stepId)

/-- `createStep(runId, stepName, stepIndex, agentType, maxAttempts)`; `id` is
the generated identifier and `now` the value of `Date.now()`.  Columns that the
`INSERT` does not list take their defaults (`attempts` 0, the others `NULL`).
The `INSERT` raises when `id` is already a key, and when no run has the id
`runId` (`FOREIGN KEY (run_id) REFERENCES workflow_runs(id)`). -/
def createStep (db : Store) (id : String) (now : Nat) (runId stepName : String)
    (stepIndex : Nat) (agentType : String) (maxAttempts : Int) : Except String (String × Store) :=
  if (getStep db id).isSome then
    .error "UNIQUE constraint failed: step_executions.id"
  else if (getRun db runId).isNone then
    .error "FOREIGN KEY constraint failed"
  else
    .ok (id,
      { db with step_executions := db.step_executions ++
          [{ id := id, run_id := runId, step_name := stepName, step_index := stepIndex,
             agent_type := agentType, status := "pending", assigned_agent := none,
             created_at := now, started_at := none, completed_at := none,
             attempts := 0, max_attempts := maxAttempts, result := none, error := none,
             escalated_from := none }] })

/-- `claimStep(stepId, agentId)`: returns whether the step was claimed, and the
database afterwards. -/
def claimStep (db : Store) (now : Nat) (stepId agentId : String) : Bool × Store :=
  match getStep db stepId with
  | none => (false, db)
  | some step =>
    if step.status != "pending" then (false, db)
    else
      let cond : StepRow → Bool := fun r => r.id == stepId && r.status == "pending"
      let rows : List StepRow :=
        sqlUpdate cond
          (fun r => { r with status := "running", assigned_agent := some agentId,
                             started_at := some now, attempts := r.attempts + 1 })
          db.step_executions
      (decide (sqlChanges cond db.step_executions > 0), { db with step_executions := rows })

/-- `completeStep(stepId, result)`. -/
def completeStep (db : Store) (now : Nat) (stepId : String) (result : Payload) : Store :=
  let rows : List StepRow :=
    sqlUpdate (fun r => r.id == stepId)
      (fun r => { r with status := "completed", completed_at := some now,
                         result := some (JSON_stringify result) })
      db.step_executions
  { db with step_executions := rows }

/-- `failStep(stepId, error, canRetry)`: returns `retry` or `failed` and the
database afterwards.  On a missing step the test
`canRetry && step.attempts < step.max_attempts` raises when it comes to read
`step.attempts`, that is when `canRetry` holds; otherwise the `UPDATE` of the
second branch runs (it matches no row) and `failed` is returned. -/
def failStep (db : Store) (now : Nat) (stepId error : String) (canRetry : Bool) :
    Except String (String × Store) :=
  match getStep db stepId with
  | none =>
    if canRetry then .error "Cannot read properties of undefined (reading \x27attempts\x27)"
    else
      let rows : List StepRow :=
        sqlUpdate (fun r => r.id == stepId)
          (fun r => { r with status := "failed", completed_at := some now,
                             error := some error })
          db.step_executions
      .ok ("failed", { db with step_executions := rows })
  | some step =>
    if canRetry && decide (step.attempts < step.max_attempts) then
      let rows : List StepRow :=
        sqlUpdate (fun r => r.id == stepId)
          (fun r => { r with status := "pending", error := some error })
          db.step_executions
      .ok ("retry", { db with step_executions := rows })
    else
      let rows : List StepRow :=
        sqlUpdate (fun r => r.id == stepId)
          (fun r => { r with status := "failed", completed_at := some now,
                             error := some error })
          db.step_executions
      .ok ("failed", { db with step_executions := rows })

/-- `escalateStep(stepId, newAgentType)`; `newId` is the generated identifier
and `now` the value of `Date.now()`.  Returns the id of the new step; reading
`step.run_id` of a missing step raises, and so does the `INSERT` when `newId`
is already a key.  The new row takes the `run_id` of the step, the id of a run
that was there when `createStep` inserted the step and that no operation
deletes, so the foreign key on `run_id` is not tested again. -/
def escalateStep (db : Store) (newId : String) (now : Nat) (stepId newAgentType : String) :
    Except String (String × Store) :=
  match getStep db stepId with
  | none => .error "Cannot read properties of undefined (reading \x27run_id\x27)"
  | some step =>
    if (getStep db newId).isSome then
      .error "UNIQUE constraint failed: step_executions.id"
    else
      let inserted : List StepRow := db.step_executions ++
        [{ id := newId, run_id := step.run_id, step_name := step.step_name,
           step_index := step.step_index, agent_type := newAgentType, status := "pending",
           assigned_agent := none, created_at := now, started_at := none,
           completed_at := none, attempts := 0, max_attempts := step.max_attempts,
           result := none, error := none, escalated_from := some stepId }]
      let rows : List StepRow :=
        sqlUpdate (fun r => r.id == stepId) (fun r => { r with status := "escalated" }) inserted
      .ok (newId, { db with step_executions := rows })

/-! ## Agent sessions and verification gates -/

/-- `registerAgent(agentType)`; `id` is the generated identifier and `now` the
value of `Date.now()`. -/
def registerAgent (db : Store) (id : String) (now : Nat) (agentType : String) :
    Except String (String × Store) :=
  if (db.agent_sessions.find? (fun r => r.id == id)).isSome then
    .error "UNIQUE constraint failed: agent_sessions.id"
  else
    .ok (id,
      { db with agent_sessions := db.agent_sessions ++
          [{ id := id, agent_type := agentType, status := "idle", current_step_id := none,
             last_heartbeat := now, created_at := now }] })

/-- `createVerification(stepId, verifierAgent)`; `id` is the generated
identifier and `now` the value of `Date.now()`.  The `INSERT` raises when `id`
is already a key, and when no step has the id `stepId`
(`FOREIGN KEY (step_id) REFERENCES step_executions(id)`). -/
def createVerification (db : Store) (id : String) (now : Nat) (stepId verifierAgent : String) :
    Except String (String × Store) :=
  if (db.verifications.find? (fun r => r.id == id)).isSome then
    .error "UNIQUE constraint failed: verifications.id"
  else if (getStep db stepId).isNone then
    .error "FOREIGN KEY constraint failed"
  else
    .ok (id,
      { db with verifications := db.verifications ++
          [{ id := id, step_id := stepId, verifier_agent := verifierAgent, status := "pending",
             result := none, created_at := now, completed_at := none }] })

/-- `completeVerification(verificationId, passed, result)`. -/
def completeVerification (db : Store) (now : Nat) (verificationId : String) (passed : Bool)
    (result : Payload) : Store :=
  let status : String := if passed then "passed" else "failed"
  let rows : List VerificationRow :=
    sqlUpdate (fun r => r.id == verificationId)
      (fun r => { r with status := status, result := some (JSON_stringify result),
                         completed_at := some now })
      db.verifications
  { db with verifications := rows }

/-- The later of two verification rows by `created_at`; on a tie the row met
first is kept (SQL leaves the order of ties open). -/
def laterVerification (best : Option VerificationRow) (r : VerificationRow) :
    Option VerificationRow :=
  match best with
  | none => some r
  | some b => if b.created_at < r.created_at then some r else some b

/-- `getStepVerification(stepId)`:
`SELECT * FROM verifications WHERE step_id = ? ORDER BY created_at DESC LIMIT 1`. -/
def getStepVerification (db : Store) (stepId : String) : Option VerificationRow :=
  (db.verifications.filter (fun r => r.step_id == stepId)).foldl laterVerification none

/-! ## Workflow descriptions -/

/-- One step of a workflow description; an absent key is `none`. -/
structure WorkflowStep where
  name : String
  agent : String
  task : String
  retry : Option Int
  escalate_to : Option String
  verify_with : Option String
  verify_criteria : Option String
deriving DecidableEq, Repr

/-- A workflow description as `loadWorkflow` returns it. -/
structure Workflow where
  name : String
  description : Option String
  steps : List WorkflowStep
deriving DecidableEq, Repr

/-- JavaScript truthiness of an optional string: present and not empty. -/
def truthy (v : Option String) : Bool :=
  match v with
  | some s => s != ""
  | none => false

/-- The keys of `agentDefinitions` in `AgentSystem`; the role of each
definition is its key. -/
def agentDefinitions : List String :=
  ["planner", "developer", "verifier", "tester", "reviewer"]

/-- The names of the properties that every object inherits from
`Object.prototype`. -/
def objectPrototypeKeys : List String :=
  ["constructor", "__defineGetter__", "__defineSetter__", "hasOwnProperty",
   "__lookupGetter__", "__lookupSetter__", "isPrototypeOf", "propertyIsEnumerable",
   "toString", "valueOf", "__proto__", "toLocaleString"]

/-- Whether `this.agentDefinitions[name]` is a value that JavaScript counts as
true: `name` is one of the five keys, or the name of an inherited property
(the lookup then yields a function or `Object.prototype`, not a definition, and
`prepareAgentContext` raises inside the `try` block of `executeStep`, which is
a raise of the execution collaborator). -/
def hasAgentDefinition (name : String) : Bool :=
  agentDefinitions.contains name || objectPrototypeKeys.contains name

/-! ## The collaborators and the world the coordinator runs in -/

/-- Outcome of one run of the agent-execution collaborator
(`prepareAgentContext` followed by `runAgent`): a result payload, or a raised
error with its message. -/
inductive AgentOutcome where
  | success (result : Payload)
  | raise (message : String)
deriving DecidableEq, Repr

/-- Outcome of the verification collaborator inside `verifyStep`: the value of
`passed` together with the detail payload stored for it, or a raised error
with its message. -/
inductive VerifyOutcome where
  | verdict (passed : Bool) (detail : Payload)
  | raise (message : String)
deriving DecidableEq, Repr

/-- Everything the coordinator reads from outside: the clock, the identifier
generator and the two collaborators, each indexed by the number of earlier
reads or calls.  `now reads waits` is the value of `Date.now()` after `reads`
earlier reads and `waits` completed backoff waits of `executeStepWithRetry`. -/
structure Env where
  now : Nat → Nat → Nat
  newId : Nat → String
  runAgent : Nat → String → String → AgentOutcome
  verify : Nat → String → Payload → VerifyOutcome

/-- A call observed during a run (a record kept beside the database, not part
of it). -/
inductive Event where
  | claim (stepId agentId : String) (claimed : Bool)
  | agent (stepId role task : String)
  | verify (stepId role : String)
  | escalate (stepId newAgentType : String)
deriving DecidableEq, Repr

/-- The database together with the number of clock reads, backoff waits,
generated identifiers and collaborator calls so far, and the calls observed. -/
structure World where
  db : Store
  clock : Nat
  waits : Nat
  ids : Nat
  agentCalls : Nat
  verifyCalls : Nat
  log : List Event
deriving DecidableEq, Repr

/-- A world around a database in which nothing has been read or called yet. -/
def World.start (db : Store) : World :=
  { db := db, clock := 0, waits := 0, ids := 0, agentCalls := 0, verifyCalls := 0, log := [] }

/-- The object returned by `executeStep`; an absent key is `none`. -/
structure StepResult where
  status : String
  result : Option Payload
  reason : Option String
  error : Option String
  newStepId : Option String
deriving DecidableEq, Repr

/-- The object returned by `verifyStep`: `{ passed, reason }`. -/
structure VerificationResult where
  passed : Bool
  reason : String
deriving DecidableEq, Repr

/-- The serialised `{ error: message }` stored by `verifyStep` when the
verification raised (escaping inside the message is not modelled). -/
def errorDetail (message : String) : Payload :=
  "\x7b\"error\":\"" ++ message ++ "\"\x7d"

/-! ## `AgentSystem` -/

/-- `verifyStep(stepId, step, result)`.  An unknown verifier raises before any
row is written; an error raised while verifying is caught and recorded as a
failed verification. -/
def verifyStep (env : Env) (w : World) (stepId : String) (step : WorkflowStep)
    (result : Payload) : Except String VerificationResult × World :=
  let verifierType : String := step.verify_with.getD "undefined"
  if !(hasAgentDefinition verifierType) then
    (.error ("Unknown verifier agent type: " ++ verifierType), w)
  else
    match createVerification w.db (env.newId w.ids) (env.now w.clock w.waits) stepId verifierType with
    | .error e => (.error e, { w with ids := w.ids + 1, clock := w.clock + 1 })
    | .ok created =>
      let verificationId := created.1
      let w1 : World :=
        { w with db := created.2, ids := w.ids + 1, clock := w.clock + 1,
                 verifyCalls := w.verifyCalls + 1,
                 log := w.log ++ [Event.verify stepId verifierType] }
      match env.verify w.verifyCalls verifierType result with
      | .verdict passed detail =>
        (.ok { passed := passed,
               reason := if passed then "Verification passed" else "Requirements not met" },
          { w1 with db := completeVerification w1.db (env.now w1.clock w1.waits) verificationId passed detail,
                    clock := w1.clock + 1 })
      | .raise message =>
        (.ok { passed := false, reason := message },
          { w1 with db := completeVerification w1.db (env.now w1.clock w1.waits) verificationId false
                            (errorDetail message),
                    clock := w1.clock + 1 })

/-- The `try` block of `executeStep`: run the agent, verify when the step
declares a verifier, then complete the step or fail it on a failed
verification.  An `error` is an exception raised inside the block. -/
def executeStepTry (env : Env) (w : World) (stepId : String) (step : WorkflowStep) :
    Except String StepResult × World :=
  let w1 : World :=
    { w with agentCalls := w.agentCalls + 1,
             log := w.log ++ [Event.agent stepId step.agent step.task] }
  match env.runAgent w.agentCalls step.agent step.task with
  | .raise message => (.error message, w1)
  | .success result =>
    let complete (w2 : World) : Except String StepResult × World :=
      (.ok { status := "completed", result := some result, reason := none, error := none,
             newStepId := none },
        { w2 with db := completeStep w2.db (env.now w2.clock w2.waits) stepId result,
                  clock := w2.clock + 1 })
    if truthy step.verify_with then
      match verifyStep env w1 stepId step result with
      | (.error e, w2) => (.error e, w2)
      | (.ok verificationResult, w2) =>
        if !verificationResult.passed then
          let w3 : World := { w2 with clock := w2.clock + 1 }
          match failStep w2.db (env.now w2.clock w2.waits) stepId
              ("Verification failed: " ++ verificationResult.reason) true with
          | .error e => (.error e, w3)
          | .ok failed =>
            if failed.1 == "retry" then
              (.ok { status := "retry", result := none,
                     reason := some verificationResult.reason, error := none,
                     newStepId := none },
                { w3 with db := failed.2 })
            else
              (.ok { status := "failed", result := none,
                     reason := some verificationResult.reason, error := none,
                     newStepId := none },
                { w3 with db := failed.2 })
        else complete w2
    else complete w1

/-- `executeStep(stepId, workflow, step)`: register a session, claim the step,
run the `try` block, and on an exception from it escalate (when the step
descriptor has `escalate_to`) or fail the step.  An `error` is an exception
that leaves `executeStep`.  The `workflow` argument only feeds
`prepareAgentContext`, which belongs to the collaborator here, so it is not
passed. -/
def executeStep (env : Env) (w : World) (stepId : String) (step : WorkflowStep) :
    Except String StepResult × World :=
  let agentType : String := step.agent
  if !(hasAgentDefinition agentType) then
    (.error ("Unknown agent type: " ++ agentType), w)
  else
    match registerAgent w.db (env.newId w.ids) (env.now w.clock w.waits) agentType with
    | .error e => (.error e, { w with ids := w.ids + 1, clock := w.clock + 1 })
    | .ok registered =>
      let agentId := registered.1
      let claim := claimStep registered.2 (env.now (w.clock + 1) w.waits) stepId agentId
      let w1 : World :=
        { w with db := claim.2, ids := w.ids + 1, clock := w.clock + 2,
                 log := w.log ++ [Event.claim stepId agentId claim.1] }
      if !claim.1 then
        (.error ("Failed to claim step " ++ stepId), w1)
      else
        match executeStepTry env w1 stepId step with
        | (.ok r, w2) => (.ok r, w2)
        | (.error message, w2) =>
          if truthy step.escalate_to then
            let target : String := step.escalate_to.getD "undefined"
            let w3 : World :=
              { w2 with ids := w2.ids + 1, clock := w2.clock + 1,
                        log := w2.log ++ [Event.escalate stepId target] }
            match escalateStep w2.db (env.newId w2.ids) (env.now w2.clock w2.waits) stepId target with
            | .error e => (.error e, w3)
            | .ok escalated =>
              (.ok { status := "escalated", result := none, reason := some message,
                     error := none, newStepId := some escalated.1 },
                { w3 with db := escalated.2 })
          else
            let w3 : World := { w2 with clock := w2.clock + 1 }
            match failStep w2.db (env.now w2.clock w2.waits) stepId message (step.retry != some 0) with
            | .error e => (.error e, w3)
            | .ok failed =>
              (.ok { status := failed.1, result := none, reason := none,
                     error := some message, newStepId := none },
                { w3 with db := failed.2 })

/-! ## `Orchestrator` -/

/-- The wait before a retry, `setTimeout(resolve, 1000)`, taken when
`attempt < maxAttempts`, that is when iterations remain. -/
def backoff (remaining : Nat) (w : World) : World :=
  if 0 < remaining then { w with waits := w.waits + 1 } else w

/-- The loop of `executeStepWithRetry` with `n` iterations left and
`lastResult` so far (`none` is `null`). -/
def retryLoop (env : Env) (stepId : String) (step : WorkflowStep) :
    Nat → World → Option StepResult → Except String (Option StepResult) × World
  | 0, w, lastResult => (.ok lastResult, w)
  | n + 1, w, _ =>
    match executeStep env w stepId step with
    | (.error e, w1) => (.error e, w1)
    | (.ok lastResult, w1) =>
      if lastResult.status == "completed" then (.ok (some lastResult), w1)
      else if lastResult.status == "escalated" then (.ok (some lastResult), w1)
      else if lastResult.status == "failed" then (.ok (some lastResult), w1)
      else retryLoop env stepId step n (backoff n w1) (some lastResult)

/-- `executeStepWithRetry(stepId, workflow, step)`: the loop
`for (attempt = 1; attempt <= maxAttempts; attempt++)` runs `maxAttempts`
times, and not at all when `maxAttempts` is below 1. -/
def executeStepWithRetry (env : Env) (w : World) (stepId : String) (step : WorkflowStep) :
    Except String (Option StepResult) × World :=
  let maxAttempts : Int := step.retry.getD 3
  retryLoop env stepId step maxAttempts.toNat w none

/-- The body of the step loop of `runWorkflow` for one workflow step: an
`error` is an exception thrown inside the `try` block. -/
def runOneStep (env : Env) (w : World) (stepId : String) (step : WorkflowStep) :
    Except String Unit × World :=
  match executeStepWithRetry env w stepId step with
  | (.error e, w1) => (.error e, w1)
  | (.ok none, w1) => (.error "Cannot read properties of null (reading \x27status\x27)", w1)
  | (.ok (some result), w1) =>
    if result.status == "completed" then (.ok (), w1)
    else if result.status == "failed" then
      (.error ("Step \"" ++ step.name ++ "\" failed: " ++ result.error.getD "undefined"), w1)
    else if result.status == "escalated" then
      let escalatedStep : WorkflowStep := { step with agent := step.escalate_to.getD "undefined" }
      match executeStep env w1 (result.newStepId.getD "undefined") escalatedStep with
      | (.error e, w2) => (.error e, w2)
      | (.ok escalateResult, w2) =>
        if escalateResult.status != "completed" then
          (.error ("Escalated step \"" ++ step.name ++ "\" failed"), w2)
        else (.ok (), w2)
    else (.ok (), w1)

/-- The step loop of `runWorkflow` over the created step ids paired with their
descriptors; it stops at the first exception. -/
def runSteps (env : Env) : World → List (String × WorkflowStep) → Except String Unit × World
  | w, [] => (.ok (), w)
  | w, (stepId, step) :: rest =>
    match runOneStep env w stepId step with
    | (.error e, w1) => (.error e, w1)
    | (.ok _, w1) => runSteps env w1 rest

/-- The first loop of `runWorkflow`: one `createStep` per workflow step, in
order, from index `i`; returns the ids created. -/
def createSteps (env : Env) (runId : String) :
    World → Nat → List WorkflowStep → Except String (List String) × World
  | w, _, [] => (.ok [], w)
  | w, i, step :: rest =>
    let maxAttempts : Int := step.retry.getD 3
    let w1 : World := { w with ids := w.ids + 1, clock := w.clock + 1 }
    match createStep w.db (env.newId w.ids) (env.now w.clock w.waits) runId step.name i step.agent
        maxAttempts with
    | .error e => (.error e, w1)
    | .ok created =>
      match createSteps env runId { w1 with db := created.2 } (i + 1) rest with
      | (.error e, w2) => (.error e, w2)
      | (.ok stepIds, w2) => (.ok (created.1 :: stepIds), w2)

/-- The object returned by `runWorkflow`. -/
structure RunResult where
  success : Bool
  runId : String
  error : Option String
deriving DecidableEq, Repr

/-- `runWorkflow(workflowPath, options)` on the workflow that `loadWorkflow`
returned for the path.  The git collaborator is left out: its failures are
caught where it is called and it writes nothing to the database.  An `error`
is an exception that leaves `runWorkflow` (raised before the `try` block). -/
def runWorkflow (env : Env) (w : World) (workflowPath : String) (workflow : Workflow)
    (useGit : Bool) : Except String RunResult × World :=
  let w1 : World := { w with ids := w.ids + 1, clock := w.clock + 1 }
  match createRun w.db (env.newId w.ids) (env.now w.clock w.waits) workflow.name workflowPath useGit with
  | .error e => (.error e, w1)
  | .ok created =>
    let runId := created.1.id
    match createSteps env runId { w1 with db := created.2 } 0 workflow.steps with
    | (.error e, w2) => (.error e, w2)
    | (.ok stepIds, w2) =>
      let w3 : World :=
        { w2 with db := updateRunStatus w2.db (env.now w2.clock w2.waits) runId "running" none,
                  clock := w2.clock + 1 }
      match runSteps env w3 (stepIds.zip workflow.steps) with
      | (.ok _, w4) =>
        (.ok { success := true, runId := runId, error := none },
          { w4 with db := updateRunStatus w4.db (env.now w4.clock w4.waits) runId "completed" none,
                    clock := w4.clock + 1 })
      | (.error message, w4) =>
        (.ok { success := false, runId := runId, error := some message },
          { w4 with db := updateRunStatus w4.db (env.now w4.clock w4.waits) runId "failed" (some message),
                    clock := w4.clock + 1 })

/-- `cancelRun(runId)` of the `Orchestrator`; `now` is the value of
`Date.now()` read by `updateRunStatus`.  An `error` is the exception thrown. -/
def cancelRun (db : Store) (now : Nat) (runId : String) : Except String Store :=
  match getRun db runId with
  | none => .error ("Run not found: " ++ runId)
  | some run =>
    if run.status == "completed" || run.status == "failed" then
      .error ("Cannot cancel " ++ run.status ++ " run")
    else
      .ok (updateRunStatus db now runId "cancelled" none)

/-! ## Sequences of step operations -/

/-- One call of a step operation of the `StateManager`, with the values it
reads from the clock and the identifier generator. -/
inductive StepOp where
  | createStep (id : String) (now : Nat) (runId stepName : String) (stepIndex : Nat)
      (agentType : String) (maxAttempts : Int)
  | claimStep (now : Nat) (stepId agentId : String)
  | completeStep (now : Nat) (stepId : String) (result : Payload)
  | failStep (now : Nat) (stepId error : String) (canRetry : Bool)
  | escalateStep (newId : String) (now : Nat) (stepId newAgentType : String)
deriving DecidableEq, Repr

/-- The database after one call; a call that raises leaves it as it was. -/
def StepOp.apply (db : Store) : StepOp → Store
  | .createStep id now runId stepName stepIndex agentType maxAttempts =>
    match SoulFlow.createStep db id now runId stepName stepIndex agentType maxAttempts with
    | .ok out => out.2
    | .error _ => db
  | .claimStep now stepId agentId => (SoulFlow.claimStep db now stepId agentId).2
  | .completeStep now stepId result => SoulFlow.completeStep db now stepId result
  | .failStep now stepId error canRetry =>
    match SoulFlow.failStep db now stepId error canRetry with
    | .ok out => out.2
    | .error _ => db
  | .escalateStep newId now stepId newAgentType =>
    match SoulFlow.escalateStep db newId now stepId newAgentType with
    | .ok out => out.2
    | .error _ => db

/-- The database after a sequence of calls. -/
def runStepOps (db : Store) (ops : List StepOp) : Store :=
  ops.foldl StepOp.apply db

/-- One call of a run operation of the `StateManager`, with the values it
reads from the clock and the identifier generator. -/
inductive RunOp where
  | createRun (id : String) (now : Nat) (workflowName workflowPath : String) (useGit : Bool)
  | updateRunStatus (now : Nat) (runId status : String) (error : Option String)
deriving DecidableEq, Repr

/-- The database after one call; a call that raises leaves it as it was. -/
def RunOp.apply (db : Store) : RunOp → Store
  | .createRun id now workflowName workflowPath useGit =>
    match SoulFlow.createRun db id now workflowName workflowPath useGit with
    | .ok out => out.2
    | .error _ => db
  | .updateRunStatus now runId status error =>
    SoulFlow.updateRunStatus db now runId status error

/-- The database after a sequence of calls. -/
def runRunOps (db : Store) (ops : List RunOp) : Store :=
  ops.foldl RunOp.apply db

/-- The terminal statuses of a run. -/
def RunRow.terminal (r : RunRow) : Prop :=
  r.status = "completed" ∨ r.status = "failed" ∨ r.status = "cancelled"

/-- The retry-budget condition on one step row: `attempts` is at most
`max_attempts`, or at most 1 when the budget is below 1; and a `pending` row
still has budget left or has never been claimed. -/
def StepRow.withinBudget (st : StepRow) : Prop :=
  st.attempts ≤ max st.max_attempts 1
    ∧ (st.status = "pending" → st.attempts < st.max_attempts ∨ st.attempts = 0)

/-- No two rows of `step_executions` share an id (`id TEXT PRIMARY KEY`). -/
def Store.stepIdsNodup (db : Store) : Prop :=
  (db.step_executions.map (fun r => r.id)).Nodup

/-! ## Sample data -/

/-- A run as `createRun` leaves it. -/
def sampleRun : RunRow :=
  { id := "run-1", workflow_name := "demo", workflow_path := "demo.yaml", status := "pending",
    created_at := 100, updated_at := 100, completed_at := none, error := none,
    use_git := 0, git_branch := none }

/-- A step as `createStep` leaves it, with the default budget of 3. -/
def sampleStep : StepRow :=
  { id := "step-1", run_id := "run-1", step_name := "build", step_index := 0,
    agent_type := "developer", status := "pending", assigned_agent := none,
    created_at := 101, started_at := none, completed_at := none,
    attempts := 0, max_attempts := 3, result := none, error := none,
    escalated_from := none }

/-- A database with one run and one pending step. -/
def sampleStore : Store :=
  { workflow_runs := [sampleRun], step_executions := [sampleStep],
    agent_sessions := [], verifications := [] }

/-- The sample database after the step was claimed by `agent-a` at time 5. -/
def runningStore : Store :=
  (claimStep sampleStore 5 "step-1" "agent-a").2

/-- The sample step while it runs. -/
def runningStep : StepRow :=
  { sampleStep with status := "running", assigned_agent := some "agent-a",
                    started_at := some 5, attempts := 1 }

/-- The sample database after the running step was completed at time 6. -/
def completedStore : Store :=
  completeStep runningStore 6 "step-1" "r1"

/-- The sample step once completed. -/
def completedStep : StepRow :=
  { runningStep with status := "completed", completed_at := some 6, result := some "r1" }

/-- A one-step workflow whose step declares `escalate_to: reviewer`. -/
def escalatingWorkflow : Workflow :=
  { name := "demo", description := none,
    steps := [{ name := "build", agent := "developer", task := "compile", retry := some 3,
                escalate_to := some "reviewer", verify_with := none,
                verify_criteria := none }] }

/-- Identifiers handed out in order: the run, its step, then alternately a
session and a step. -/
def sampleIds : Nat → String
  | 0 => "run-1"
  | 1 => "step-1"
  | 2 => "agent-1"
  | 3 => "step-2"
  | 4 => "agent-2"
  | 5 => "step-3"
  | 6 => "agent-3"
  | _ => "step-4"

/-- An environment whose agent-execution collaborator raises on every call. -/
def raisingEnv : Env :=
  { now := fun k _ => 1000 + k,
    newId := sampleIds,
    runAgent := fun _ _ _ => AgentOutcome.raise "boom",
    verify := fun _ _ _ => VerifyOutcome.verdict true "ok" }

/-- The world after `runWorkflow` on `escalatingWorkflow` when the
collaborator raises on every call. -/
def twoHopWorld : World :=
  (runWorkflow raisingEnv (World.start Store.empty) "demo.yaml" escalatingWorkflow false).2

/-- A database that holds the sample run and no step, as `createRun` leaves a
new database. -/
def runOnlyStore : Store :=
  { workflow_runs := [sampleRun], step_executions := [], agent_sessions := [],
    verifications := [] }

/-- A step of the sample run created with `max_attempts` 0 at time 101 and
claimed once at time 102. -/
def claimedOnceZeroBudget : StepRow :=
  { id := "step-1", run_id := "run-1", step_name := "build", step_index := 0,
    agent_type := "developer", status := "running", assigned_agent := some "agent-a",
    created_at := 101, started_at := some 102, completed_at := none,
    attempts := 1, max_attempts := 0, result := none, error := none,
    escalated_from := none }

/-- The sample database after its run was cancelled at time 5. -/
def cancelledStore : Store :=
  updateRunStatus sampleStore 5 "run-1" "cancelled" none

/-! ## Freshness of generated identifiers and the shape of one attempt -/

/-- The string `s` occurs in the database as an identifier: as the id of a
row of some table, or as the run, the predecessor or the step that a row
refers to. -/
def Store.mentions (db : Store) (s : String) : Prop :=
  (∃ r ∈ db.workflow_runs, r.id = s)
  ∨ (∃ r ∈ db.step_executions, r.id = s ∨ r.run_id = s ∨ r.escalated_from = some s)
  ∨ (∃ r ∈ db.agent_sessions, r.id = s)
  ∨ (∃ r ∈ db.verifications, r.id = s ∨ r.step_id = s)

/-- The identifier generator never repeats itself, and no identifier it will
hand out from now on occurs in the database. -/
def Fresh (env : Env) (w : World) : Prop :=
  Function.Injective env.newId ∧ ∀ n, w.ids ≤ n → ¬ w.db.mentions (env.newId n)

/-- The identifier `s` was generated between the worlds `w` and `w1`. -/
def IsNew (env : Env) (w w1 : World) (s : String) : Prop :=
  ∃ j, w.ids ≤ j ∧ j < w1.ids ∧ s = env.newId j

/-- The columns of a step row that no operation rewrites. -/
def SameKeys (r r2 : StepRow) : Prop :=
  r2.id = r.id ∧ r2.run_id = r.run_id ∧ r2.step_name = r.step_name
  ∧ r2.step_index = r.step_index ∧ r2.agent_type = r.agent_type
  ∧ r2.created_at = r.created_at ∧ r2.max_attempts = r.max_attempts
  ∧ r2.escalated_from = r.escalated_from

/-- The step an event is about. -/
def Event.stepId : Event → String
  | .claim stepId _ _ => stepId
  | .agent stepId _ _ => stepId
  | .verify stepId _ => stepId
  | .escalate stepId _ => stepId

/-- The row of a step after a successful `claimStep`. -/
def StepRow.claimed (r : StepRow) (agentId : String) (now : Nat) : StepRow :=
  { r with status := "running", assigned_agent := some agentId, started_at := some now,
           attempts := r.attempts + 1 }

/-- The row of a step after `completeStep`. -/
def StepRow.completed (r : StepRow) (now : Nat) (result : Payload) : StepRow :=
  { r with status := "completed", completed_at := some now,
           result := some (JSON_stringify result) }

/-- The row of a step after the retry branch of `failStep`. -/
def StepRow.retried (r : StepRow) (error : String) : StepRow :=
  { r with status := "pending", error := some error }

/-- The row of a step after the failing branch of `failStep`. -/
def StepRow.failedAt (r : StepRow) (now : Nat) (error : String) : StepRow :=
  { r with status := "failed", completed_at := some now, error := some error }

/-- The row of a step after `escalateStep` marked it. -/
def StepRow.escalated (r : StepRow) : StepRow :=
  { r with status := "escalated" }

/-- The row that `escalateStep` inserts for the step `st`. -/
def StepRow.successor (st : StepRow) (newId : String) (now : Nat) (stepId newAgentType : String) :
    StepRow :=
  { id := newId, run_id := st.run_id, step_name := st.step_name,
    step_index := st.step_index, agent_type := newAgentType, status := "pending",
    assigned_agent := none, created_at := now, started_at := none,
    completed_at := none, attempts := 0, max_attempts := st.max_attempts,
    result := none, error := none, escalated_from := some stepId }

/-- What every attempt on the step `id` that got past the claim does to the
world: the step table is rewritten at `id` by `G` and grows by `added`, one
session is registered, the verification table grows by `vs`, and nothing else
changes. -/
structure AttemptShape (env : Env) (w w1 : World) (id : String) (step : WorkflowStep)
    (G : StepRow → StepRow) (added : List StepRow) (vs : List VerificationRow) : Prop where
  runs : w1.db.workflow_runs = w.db.workflow_runs
  steps : w1.db.step_executions
    = sqlUpdate (fun r => r.id == id) G w.db.step_executions ++ added
  agents : ∃ a : AgentRow, a.id = env.newId w.ids
    ∧ w1.db.agent_sessions = w.db.agent_sessions ++ [a]
  verifs : w1.db.verifications = w.db.verifications ++ vs
  keys : ∀ r, SameKeys r (G r) ∧ (G r).attempts = r.attempts + 1
  ids : w1.ids = w.ids + 1 + vs.length + added.length
  clock : w.clock ≤ w1.clock
  waits : w1.waits = w.waits
  agentCalls : w1.agentCalls = w.agentCalls + 1
  verifyCalls : w1.verifyCalls = w.verifyCalls + vs.length
  log : w1.log = w.log ++ (Event.claim id (env.newId w.ids) true
    :: Event.agent id step.agent step.task
    :: (vs.map (fun v => Event.verify id v.verifier_agent)
        ++ added.map (fun a => Event.escalate id a.agent_type)))
  vs_spec : ∀ v ∈ vs, vs = [v] ∧ v.id = env.newId (w.ids + 1) ∧ v.step_id = id
    ∧ (v.status = "passed" ∨ v.status = "failed")
    ∧ ∃ c, w.clock ≤ c ∧ c < w1.clock ∧ v.created_at = env.now c w.waits

/-- The exceptions the `try` block of `executeStep` can raise with message
`m`: the collaborator raised `m`, or it succeeded and `verifyStep` rejected an
unknown verifier role. -/
def TryRaised (env : Env) (w : World) (step : WorkflowStep) (m : String) : Prop :=
  env.runAgent w.agentCalls step.agent step.task = .raise m
  ∨ ((∃ p, env.runAgent w.agentCalls step.agent step.task = .success p)
      ∧ truthy step.verify_with = true
      ∧ hasAgentDefinition (step.verify_with.getD "undefined") = false
      ∧ m = "Unknown verifier agent type: " ++ step.verify_with.getD "undefined")

/-- The verification inside the `try` block of `executeStep` came out negative
with reason `reason`: the collaborator succeeded with `p`, the step declares a
known verifier, and the verification collaborator said no or raised. -/
def Rejected (env : Env) (w : World) (step : WorkflowStep) (p : Payload) (reason : String) :
    Prop :=
  env.runAgent w.agentCalls step.agent step.task = .success p
  ∧ truthy step.verify_with = true
  ∧ hasAgentDefinition (step.verify_with.getD "undefined") = true
  ∧ ((∃ d, env.verify w.verifyCalls (step.verify_with.getD "undefined") p = .verdict false d
        ∧ reason = "Requirements not met")
      ∨ env.verify w.verifyCalls (step.verify_with.getD "undefined") p = .raise reason)

/-- The `try` block of `executeStep` ran to `completeStep`: the collaborator
succeeded with `p`, and a declared verifier is known and said yes. -/
def Accepted (env : Env) (w : World) (step : WorkflowStep) (p : Payload) : Prop :=
  env.runAgent w.agentCalls step.agent step.task = .success p
  ∧ (truthy step.verify_with = true →
      hasAgentDefinition (step.verify_with.getD "undefined") = true
      ∧ ∃ d, env.verify w.verifyCalls (step.verify_with.getD "undefined") p = .verdict true d)

/-- The four ways `executeStep` can end on a step `st` that is pending, with
its result `r` and the world `w1` it leaves. -/
inductive ExecOutcome (env : Env) (w : World) (id : String) (step : WorkflowStep)
    (st : StepRow) : Except String StepResult → World → Prop where
  | unknownAgent (h : hasAgentDefinition step.agent = false) :
      ExecOutcome env w id step st (.error ("Unknown agent type: " ++ step.agent)) w
  | completed (w1 : World) (p : Payload) (G : StepRow → StepRow) (vs : List VerificationRow)
      (shape : AttemptShape env w w1 id step G [] vs)
      (accepted : Accepted env w step p)
      (status : ∀ r, (G r).status = "completed" ∧ (G r).result = some (JSON_stringify p)
        ∧ (G r).error = r.error)
      (verified : truthy step.verify_with = true → ∃ v, vs = [v] ∧ v.status = "passed")
      (unverified : truthy step.verify_with = false → vs = []) :
      ExecOutcome env w id step st
        (.ok { status := "completed", result := some p, reason := none, error := none,
               newStepId := none }) w1
  | failStepped (w1 : World) (res : StepResult) (G : StepRow → StepRow)
      (vs : List VerificationRow) (canRetry : Bool) (e : String)
      (shape : AttemptShape env w w1 id step G [] vs)
      (source :
        (truthy step.escalate_to = false ∧ TryRaised env w step e
          ∧ canRetry = (step.retry != some 0) ∧ res.error = some e ∧ res.reason = none
          ∧ vs = [])
        ∨ (∃ p reason, Rejected env w step p reason ∧ canRetry = true
            ∧ e = "Verification failed: " ++ reason ∧ res.error = none
            ∧ res.reason = some reason ∧ ∃ v, vs = [v] ∧ v.status = "failed"))
      (result : res.result = none ∧ res.newStepId = none)
      (retry : canRetry = true ∧ st.attempts + 1 < st.max_attempts →
        res.status = "retry" ∧ ∀ r, (G r).status = "pending")
      (failed : ¬ (canRetry = true ∧ st.attempts + 1 < st.max_attempts) →
        res.status = "failed" ∧ ∀ r, (G r).status = "failed")
      (error : ∀ r, (G r).error = some e ∧ (G r).result = r.result) :
      ExecOutcome env w id step st (.ok res) w1
  | escalated (w1 : World) (m : String) (G : StepRow → StepRow) (now : Nat)
      (shape : AttemptShape env w w1 id step G
        [(G st).successor (env.newId (w.ids + 1)) now id (step.escalate_to.getD "undefined")]
        [])
      (declared : truthy step.escalate_to = true)
      (raised : TryRaised env w step m)
      (status : ∀ r, (G r).status = "escalated" ∧ (G r).result = r.result
        ∧ (G r).error = r.error) :
      ExecOutcome env w id step st
        (.ok { status := "escalated", result := none, reason := some m, error := none,
               newStepId := some (env.newId (w.ids + 1)) }) w1

/-- The value of `passed` that `verifyStep` returns for an outcome of the
verification collaborator. -/
def VerifyOutcome.passed : VerifyOutcome → Bool
  | .verdict passed _ => passed
  | .raise _ => false

/-- The `reason` that `verifyStep` returns for an outcome of the verification
collaborator. -/
def VerifyOutcome.reason : VerifyOutcome → String
  | .verdict passed _ => if passed then "Verification passed" else "Requirements not met"
  | .raise message => message

/-- The payload that `verifyStep` stores for an outcome of the verification
collaborator. -/
def VerifyOutcome.detail : VerifyOutcome → Payload
  | .verdict _ detail => detail
  | .raise message => errorDetail message

/-- The verification row that `verifyStep` leaves behind in world `w` for the
step `stepId` and the outcome `o`. -/
def verificationRow (env : Env) (w : World) (stepId verifierType : String) (o : VerifyOutcome) :
    VerificationRow :=
  { id := env.newId w.ids, step_id := stepId, verifier_agent := verifierType,
    status := if o.passed then "passed" else "failed",
    result := some (JSON_stringify o.detail),
    created_at := env.now w.clock w.waits,
    completed_at := some (env.now (w.clock + 1) w.waits) }

/-- The database with its step table replaced. -/
def Store.withSteps (db : Store) (rows : List StepRow) : Store :=
  { db with step_executions := rows }

/-- The database with its session table replaced. -/
def Store.withAgents (db : Store) (rows : List AgentRow) : Store :=
  { db with agent_sessions := rows }

/-- The database with its verification table replaced. -/
def Store.withVerifications (db : Store) (rows : List VerificationRow) : Store :=
  { db with verifications := rows }

/-- The session row that `registerAgent` inserts. -/
def agentRow (id agentType : String) (now : Nat) : AgentRow :=
  { id := id, agent_type := agentType, status := "idle", current_step_id := none,
    last_heartbeat := now, created_at := now }

/-- The world in which `executeStep` enters its `try` block: a session was
registered and the step claimed by it. -/
def claimedWorld (env : Env) (w : World) (stepId agentType : String) : World :=
  { w with
      db := (w.db.withAgents (w.db.agent_sessions ++
              [agentRow (env.newId w.ids) agentType (env.now w.clock w.waits)])).withSteps
            (sqlUpdate (fun r => r.id == stepId)
              (fun r => r.claimed (env.newId w.ids) (env.now (w.clock + 1) w.waits))
              w.db.step_executions),
      ids := w.ids + 1, clock := w.clock + 2,
      log := w.log ++ [Event.claim stepId (env.newId w.ids) true] }

/-- The part of `executeStep` after the claim: the `try` block and, on an
exception from it, the `catch` block. -/
def afterClaim (env : Env) (w1 : World) (stepId : String) (step : WorkflowStep) :
    Except String StepResult × World :=
  match executeStepTry env w1 stepId step with
  | (.ok r, w2) => (.ok r, w2)
  | (.error message, w2) =>
    if truthy step.escalate_to then
      let target : String := step.escalate_to.getD "undefined"
      let w3 : World :=
        { w2 with ids := w2.ids + 1, clock := w2.clock + 1,
                  log := w2.log ++ [Event.escalate stepId target] }
      match escalateStep w2.db (env.newId w2.ids) (env.now w2.clock w2.waits) stepId target with
      | .error e => (.error e, w3)
      | .ok escalated =>
        (.ok { status := "escalated", result := none, reason := some message,
               error := none, newStepId := some escalated.1 },
          { w3 with db := escalated.2 })
    else
      let w3 : World := { w2 with clock := w2.clock + 1 }
      match failStep w2.db (env.now w2.clock w2.waits) stepId message (step.retry != some 0) with
      | .error e => (.error e, w3)
      | .ok failed =>
        (.ok { status := failed.1, result := none, reason := none,
               error := some message, newStepId := none },
          { w3 with db := failed.2 })

/-- The frame of the operations on the steps in `S`: between `w` and `w1` the
run table is unchanged, the step table is rewritten only at rows whose id is
in `S` (keeping the key columns) and grows by rows with newly generated ids
that are escalated from a step in `S` or from a new step, and the session
table, the verification table and the record of calls only grow, by entries
with new ids that concern steps in `S` or new steps. -/
structure Touches (env : Env) (S : String → Prop) (w w1 : World) : Prop where
  runs : w1.db.workflow_runs = w.db.workflow_runs
  ids : w.ids ≤ w1.ids
  clock : w.clock ≤ w1.clock
  waits : w.waits ≤ w1.waits
  steps : ∃ (F : StepRow → StepRow) (added : List StepRow),
    w1.db.step_executions = w.db.step_executions.map F ++ added
    ∧ (∀ r, SameKeys r (F r))
    ∧ (∀ r ∈ w.db.step_executions, ¬ S r.id → F r = r)
    ∧ (added.map (fun r => r.id)).Nodup
    ∧ ∀ a ∈ added, IsNew env w w1 a.id
        ∧ (w.db.mentions a.run_id ∨ IsNew env w w1 a.run_id)
        ∧ ∃ k, a.escalated_from = some k ∧ (S k ∨ IsNew env w w1 k)
  agents : ∃ added : List AgentRow,
    w1.db.agent_sessions = w.db.agent_sessions ++ added
    ∧ ∀ a ∈ added, IsNew env w w1 a.id
  verifs : ∃ added : List VerificationRow,
    w1.db.verifications = w.db.verifications ++ added
    ∧ ∀ v ∈ added, IsNew env w w1 v.id ∧ (S v.step_id ∨ IsNew env w w1 v.step_id)
  log : ∃ evs : List Event,
    w1.log = w.log ++ evs ∧ ∀ e ∈ evs, S e.stepId ∨ IsNew env w w1 e.stepId

/-- The world `w` is ready for an attempt on step `id`: identifiers are fresh,
step ids are unique, and the step's row `st` is pending. -/
def Ready (env : Env) (w : World) (id : String) (st : StepRow) : Prop :=
  Fresh env w ∧ w.db.stepIdsNodup ∧ getStep w.db id = some st ∧ st.status = "pending"

/-- A run of the loop of `executeStepWithRetry` with the given number of
iterations left, from a world that is ready for the step: the first call of
`executeStep` raises, or settles the step, or asks for a retry, after which
the loop waits and goes on from the row the attempt left. -/
inductive LoopRun (env : Env) (id : String) (step : WorkflowStep) :
    Nat → World → StepRow → Except String (Option StepResult) → World → Prop where
  | raised (n : Nat) (w : World) (st : StepRow) (e : String) (w1 : World)
      (ready : Ready env w id st)
      (first : ExecOutcome env w id step st (.error e) w1) :
      LoopRun env id step (n + 1) w st (.error e) w1
  | settled (n : Nat) (w : World) (st : StepRow) (r : StepResult) (w1 : World)
      (ready : Ready env w id st)
      (first : ExecOutcome env w id step st (.ok r) w1)
      (hs : r.status = "completed" ∨ r.status = "escalated" ∨ r.status = "failed") :
      LoopRun env id step (n + 1) w st (.ok (some r)) w1
  | again (n : Nat) (w : World) (st : StepRow) (r : StepResult) (w1 : World)
      (G : StepRow → StepRow) (vs : List VerificationRow)
      (res : Except String (Option StepResult)) (w2 : World)
      (ready : Ready env w id st)
      (first : ExecOutcome env w id step st (.ok r) w1)
      (hs : r.status = "retry")
      (shape : AttemptShape env w w1 id step G [] vs)
      (pending : ∀ r, (G r).status = "pending")
      (kept : ∀ r, (∃ e, (G r).error = some e) ∧ (G r).result = r.result)
      (rejected : ∀ v ∈ vs, v.status = "failed")
      (rest : LoopRun env id step (n + 1) (backoff (n + 1) w1) (G st) res w2) :
      LoopRun env id step (n + 2) w st res w2

/-- The row that `createStep` inserts for a workflow step. -/
def StepRow.created (id : String) (now : Nat) (runId : String) (i : Nat) (step : WorkflowStep) :
    StepRow :=
  { id := id, run_id := runId, step_name := step.name, step_index := i,
    agent_type := step.agent, status := "pending", assigned_agent := none,
    created_at := now, started_at := none, completed_at := none,
    attempts := 0, max_attempts := step.retry.getD 3, result := none, error := none,
    escalated_from := none }

/-- The rows that the first loop of `runWorkflow` inserts, in order, when the
generator stands at `ids`, the clock at `clock` and the index at `i`. -/
def createdRows (env : Env) (runId : String) (waits : Nat) :
    Nat → Nat → Nat → List WorkflowStep → List StepRow
  | _, _, _, [] => []
  | ids, clock, i, step :: rest =>
    StepRow.created (env.newId ids) (env.now clock waits) runId i step
      :: createdRows env runId waits (ids + 1) (clock + 1) (i + 1) rest

/-- The end of `runWorkflow`: after the step loop returned, the run is written
`completed`; after it raised `message` (the `catch` block), the run is written
`failed` with that message. -/
def finishRun (env : Env) (runId : String) (loop : Except String Unit × World) :
    Except String RunResult × World :=
  match loop with
  | (.ok _, w4) =>
    (.ok { success := true, runId := runId, error := none },
      { w4 with db := updateRunStatus w4.db (env.now w4.clock w4.waits) runId "completed" none,
                clock := w4.clock + 1 })
  | (.error message, w4) =>
    (.ok { success := false, runId := runId, error := some message },
      { w4 with db := updateRunStatus w4.db (env.now w4.clock w4.waits) runId "failed" (some message),
                clock := w4.clock + 1 })

/-- The world in which the step loop of `runWorkflow` starts when the run and
its steps were inserted without a key collision. -/
def loopWorld (env : Env) (w : World) (workflowPath : String) (workflow : Workflow)
    (useGit : Bool) : World :=
  let n := workflow.steps.length
  let runId := env.newId w.ids
  let now := env.now w.clock w.waits
  let inserted : List RunRow := w.db.workflow_runs ++
    [{ id := runId, workflow_name := workflow.name, workflow_path := workflowPath,
       status := "pending", created_at := now, updated_at := now,
       completed_at := none, error := none,
       use_git := if useGit then 1 else 0,
       git_branch := if useGit then some ("soulflow/" ++ workflow.name ++ "/" ++ runId)
                     else none }]
  let db1 : Store := { w.db with workflow_runs := inserted }
  let db2 : Store := db1.withSteps (db1.step_executions
    ++ createdRows env runId w.waits (w.ids + 1) (w.clock + 1) 0 workflow.steps)
  { w with db := updateRunStatus db2 (env.now (w.clock + 1 + n) w.waits) runId "running" none,
           ids := w.ids + 1 + n,
           clock := w.clock + 1 + n + 1 }

/-- The ids of the steps that `runWorkflow` creates from world `w`, in order. -/
def stepIdsFrom (env : Env) (ids : Nat) (n : Nat) : List String :=
  (List.range n).map (fun j => env.newId (ids + j))

/-- The chain of step `id` ended completed: its row is `completed`, or it is
`escalated` and a step escalated from it is `completed`. -/
def chainCompleted (db : Store) (id : String) : Bool :=
  match getStep db id with
  | none => false
  | some r =>
    r.status == "completed"
      || (r.status == "escalated"
          && db.step_executions.any
              (fun s => s.escalated_from == some id && s.status == "completed"))

/-- Whether an event is a successful claim of step `id`. -/
def Event.isClaim (id : String) : Event → Bool
  | .claim stepId _ claimed => stepId == id && claimed
  | _ => false

/-- Whether an event is a call of the agent-execution collaborator for step `id`. -/
def Event.isAgentCall (id : String) : Event → Bool
  | .agent stepId _ _ => stepId == id
  | _ => false

/-- The step `id` is in world `w` as `createStep` left it for the descriptor
`step`: pending, never attempted, with the descriptor's budget, and no step or
verification refers to it. -/
def Declared (w : World) (id : String) (step : WorkflowStep) : Prop :=
  ∃ st, getStep w.db id = some st ∧ st.status = "pending" ∧ st.attempts = 0
    ∧ st.max_attempts = step.retry.getD 3 ∧ st.result = none
    ∧ (∀ r ∈ w.db.step_executions, r.escalated_from ≠ some id)
    ∧ (∀ v ∈ w.db.verifications, v.step_id ≠ id)

/-- Identifiers in unary: the `n`-th identifier is `n + 1` strokes. -/
def tallyId (n : Nat) : String :=
  String.mk (List.replicate (n + 1) 'i')

/-- Between the worlds `w` and `w1` only attempts on step `id` that ended in a
retry happened: the other steps are as they were, the row of the step went
from `st` to `st1`, and the verifications added all failed before the last
wait. -/
structure Retried (env : Env) (id : String) (w w1 : World) (st st1 : StepRow) : Prop where
  rows : ∀ r ∈ w1.db.step_executions, r.id ≠ id → r ∈ w.db.step_executions
  keys : SameKeys st st1
  result : st1.result = st.result
  attempts : st.attempts ≤ st1.attempts
  verifs : ∃ vs, w1.db.verifications = w.db.verifications ++ vs
    ∧ ∀ v ∈ vs, v.step_id = id ∧ v.status = "failed"
        ∧ ∃ c s, s < w1.waits ∧ c < w1.clock ∧ v.created_at = env.now c s

/-- How the body of the step loop of `runWorkflow` runs for a step that is
ready: the retry loop did not run at all, or it raised, or it settled the step
as completed or failed, or it escalated the step and the successor was
attempted once under the escalation role. -/
inductive OneStep (env : Env) (id : String) (step : WorkflowStep) (w : World) (st : StepRow) :
    Except String Unit → World → Prop where
  | noBudget (h : (step.retry.getD 3).toNat = 0) :
      OneStep env id step w st
        (.error "Cannot read properties of null (reading \x27status\x27)") w
  | raised (n : Nat) (e : String) (w1 : World)
      (loop : LoopRun env id step n w st (.error e) w1)
      (budget : n = (step.retry.getD 3).toNat) :
      OneStep env id step w st (.error e) w1
  | completed (n : Nat) (r : StepResult) (w1 : World)
      (loop : LoopRun env id step n w st (.ok (some r)) w1)
      (hs : r.status = "completed")
      (budget : n = (step.retry.getD 3).toNat) :
      OneStep env id step w st (.ok ()) w1
  | failed (n : Nat) (r : StepResult) (w1 : World)
      (loop : LoopRun env id step n w st (.ok (some r)) w1)
      (hs : r.status = "failed")
      (budget : n = (step.retry.getD 3).toNat) :
      OneStep env id step w st
        (.error ("Step \"" ++ step.name ++ "\" failed: " ++ r.error.getD "undefined")) w1
  | escalated (n : Nat) (r : StepResult) (w1 : World) (succ : StepRow)
      (rr : Except String StepResult) (w2 : World)
      (loop : LoopRun env id step n w st (.ok (some r)) w1)
      (hs : r.status = "escalated")
      (ready : Ready env w1 (r.newStepId.getD "undefined") succ)
      (hop : ExecOutcome env w1 (r.newStepId.getD "undefined")
        { step with agent := step.escalate_to.getD "undefined" } succ rr w2)
      (budget : n = (step.retry.getD 3).toNat) :
      OneStep env id step w st
        (match rr with
          | .error e => .error e
          | .ok er =>
            if er.status != "completed" then
              .error ("Escalated step \"" ++ step.name ++ "\" failed")
            else .ok ()) w2

/-- How the step loop of `runWorkflow` runs over steps that are all as
created: it stops at the first step whose body raises. -/
inductive StepsRun (env : Env) :
    List (String × WorkflowStep) → World → Except String Unit → World → Prop where
  | done (w : World) : StepsRun env [] w (.ok ()) w
  | stop (id : String) (step : WorkflowStep) (rest : List (String × WorkflowStep)) (w : World)
      (st : StepRow) (e : String) (w1 : World)
      (decl : Declared w id step) (ready : Ready env w id st)
      (first : OneStep env id step w st (.error e) w1) :
      StepsRun env ((id, step) :: rest) w (.error e) w1
  | next (id : String) (step : WorkflowStep) (rest : List (String × WorkflowStep)) (w : World)
      (st : StepRow) (w1 : World) (res : Except String Unit) (w2 : World)
      (decl : Declared w id step) (ready : Ready env w id st)
      (first : OneStep env id step w st (.ok ()) w1)
      (tail : StepsRun env rest w1 res w2) :
      StepsRun env ((id, step) :: rest) w res w2

/-- The status in which an attempt with outcome `rr` leaves the row of its
step, which was pending: an exception before the claim leaves it pending, a
`retry` puts it back to pending, and every other result names the status. -/
def settledStatus (rr : Except String StepResult) : String :=
  match rr with
  | .error _ => "pending"
  | .ok er => if er.status == "retry" then "pending" else er.status

/-- The ids of the steps that `runWorkflow` creates from world `w`, paired
with their descriptors. -/
def declaredSteps (env : Env) (w : World) (workflow : Workflow) :
    List (String × WorkflowStep) :=
  (stepIdsFrom env (w.ids + 1) workflow.steps.length).zip workflow.steps

/-- An environment with unary identifiers, a clock that gains a second with
every wait, and collaborators that always succeed. -/
def tallyEnv : Env :=
  { now := fun reads waits => 1000 * waits + reads,
    newId := tallyId,
    runAgent := fun _ _ _ => AgentOutcome.success "done",
    verify := fun _ _ _ => VerifyOutcome.verdict true "ok" }

/-- A workflow of two plain steps. -/
def twoStepWorkflow : Workflow :=
  { name := "demo", description := none,
    steps := [{ name := "plan", agent := "planner", task := "plan it", retry := none,
                escalate_to := none, verify_with := none, verify_criteria := none },
              { name := "build", agent := "developer", task := "build it", retry := some 2,
                escalate_to := none, verify_with := none, verify_criteria := none }] }

/-- An environment in which the `developer` role raises, every other role
succeeds, and every verification says no. -/
def rejectingEnv : Env :=
  { now := fun reads waits => 1000 * waits + reads,
    newId := tallyId,
    runAgent := fun _ role _ =>
      if role == "developer" then AgentOutcome.raise "compile error"
      else AgentOutcome.success "patched",
    verify := fun _ _ _ => VerifyOutcome.verdict false "not good enough" }

/-- A one-step workflow whose step escalates to `reviewer` and is verified by
`verifier`. -/
def verifiedEscalation : Workflow :=
  { name := "demo", description := none,
    steps := [{ name := "build", agent := "developer", task := "build it", retry := none,
                escalate_to := some "reviewer", verify_with := some "verifier",
                verify_criteria := none }] }

/-- A workflow whose first step is run by `developer` with a budget of two
attempts, followed by a `tester` step. -/
def buildThenTest : Workflow :=
  { name := "demo", description := none,
    steps := [{ name := "build", agent := "developer", task := "build it", retry := some 2,
                escalate_to := none, verify_with := none, verify_criteria := none },
              { name := "test", agent := "tester", task := "test it", retry := none,
                escalate_to := none, verify_with := none, verify_criteria := none }] }

/-- An environment with unary identifiers whose agent-execution collaborator
raises on every call. -/
def alwaysFailingEnv : Env :=
  { now := fun reads waits => 1000 * waits + reads,
    newId := tallyId,
    runAgent := fun _ _ _ => AgentOutcome.raise "boom",
    verify := fun _ _ _ => VerifyOutcome.verdict true "ok" }

/-- A step with a budget of three attempts and no escalation. -/
def buildStep : WorkflowStep :=
  { name := "build", agent := "developer", task := "build it", retry := some 3,
    escalate_to := none, verify_with := none, verify_criteria := none }

/-- The one-step workflow around `buildStep`. -/
def buildOnly : Workflow :=
  { name := "demo", description := none, steps := [buildStep] }

/-- An environment with unary identifiers whose agent-execution collaborator
raises on its first two calls and succeeds from the third on. -/
def flakyEnv : Env :=
  { now := fun reads waits => 1000 * waits + reads,
    newId := tallyId,
    runAgent := fun call _ _ =>
      if call < 2 then AgentOutcome.raise "boom" else AgentOutcome.success "done",
    verify := fun _ _ _ => VerifyOutcome.verdict true "ok" }

/-- A step verified by `reviewer`, with the default budget. -/
def reviewedStep : WorkflowStep :=
  { name := "build", agent := "developer", task := "build it", retry := none,
    escalate_to := none, verify_with := some "reviewer", verify_criteria := none }

/-- The one-step workflow around `reviewedStep`. -/
def reviewedOnly : Workflow :=
  { name := "demo", description := none, steps := [reviewedStep] }

/-- An environment with unary identifiers in which execution always succeeds
and verification says no on its first call and yes afterwards. -/
def strictOnceEnv : Env :=
  { now := fun reads waits => 1000 * waits + reads,
    newId := tallyId,
    runAgent := fun _ _ _ => AgentOutcome.success "done",
    verify := fun call _ _ =>
      if call < 1 then VerifyOutcome.verdict false "nope" else VerifyOutcome.verdict true "ok" }

/-- The step of `escalatingWorkflow`. -/
def escalatingStep : WorkflowStep :=
  { name := "build", agent := "developer", task := "compile", retry := some 3,
    escalate_to := some "reviewer", verify_with := none, verify_criteria := none }

/-- The database with its run table replaced. -/
def Store.setRuns (db : Store) (rows : List RunRow) : Store :=
  { db with workflow_runs := rows }

/-- The world with the run table of its database replaced. -/
def World.setRuns (w : World) (rows : List RunRow) : World :=
  { w with db := w.db.setRuns rows }

/-- The step loop of `runWorkflow` over `first ++ rest` when an operator's
`cancelRun(runId)` is served at time `now` between the two parts: after the
last step of `first` has been dealt with and before the first step of `rest`
is claimed.  A `cancelRun` that raises changes nothing. -/
def cancelBetween (env : Env) (w : World) (runId : String) (now : Nat)
    (first rest : List (String × WorkflowStep)) : Except String Unit × World :=
  match runSteps env w first with
  | (.error e, w1) => (.error e, w1)
  | (.ok _, w1) =>
    match cancelRun w1.db now runId with
    | .error _ => runSteps env w1 rest
    | .ok cancelled => runSteps env { w1 with db := cancelled } rest

/-- A one-step workflow whose step declares `retry: 0`. -/
def noRetryWorkflow : Workflow :=
  { name := "demo", description := none,
    steps := [{ name := "build", agent := "developer", task := "build it", retry := some 0,
                escalate_to := none, verify_with := none, verify_criteria := none }] }

/-- An environment with unary identifiers in which execution always succeeds
and every verification says no. -/
def naysayerEnv : Env :=
  { now := fun reads waits => 1000 * waits + reads,
    newId := tallyId,
    runAgent := fun _ _ _ => AgentOutcome.success "done",
    verify := fun _ _ _ => VerifyOutcome.verdict false "nope" }

/-- One row of the result of `getAgentStats`. -/
structure AgentStat where
  agent_type : String
  total : Nat
  busy : Nat
  idle : Nat
deriving DecidableEq, Repr

/-- The `WHERE last_heartbeat > ?` of `getAgentStats`, with the parameter
`Date.now() - 5 * 60 * 1000`. -/
def heartbeatRecent (now : Nat) (r : AgentRow) : Bool :=
  decide ((now : Int) - 5 * 60 * 1000 < (r.last_heartbeat : Int))

/-- `getAgentStats()`; `now` is the value of `Date.now()`.  One row per
`agent_type` among the sessions that pass the `WHERE`, in ascending order of
`agent_type` (SQLite forms the groups by sorting on the `GROUP BY` column). -/
def getAgentStats (db : Store) (now : Nat) : List AgentStat :=
  let recent := db.agent_sessions.filter (heartbeatRecent now)
  let groups := ((recent.map (fun r => r.agent_type)).dedup).insertionSort (fun a b => a ≤ b)
  groups.map (fun t =>
    let rows := recent.filter (fun r => r.agent_type == t)
    { agent_type := t, total := rows.length,
      busy := rows.countP (fun r => r.status == "busy"),
      idle := rows.countP (fun r => r.status == "idle") })

/-- Three sessions at time 1000000: a recent `developer`, a `developer` whose
heartbeat is exactly five minutes old, and a recent `tester`. -/
def sessionStore : Store :=
  { Store.empty with
    agent_sessions :=
      [{ id := "a1", agent_type := "developer", status := "idle", current_step_id := none,
         last_heartbeat := 900000, created_at := 900000 },
       { id := "a2", agent_type := "developer", status := "idle", current_step_id := none,
         last_heartbeat := 700000, created_at := 700000 },
       { id := "a3", agent_type := "tester", status := "busy", current_step_id := none,
         last_heartbeat := 700001, created_at := 700001 }] }

/-! ## `WorkflowEngine`: values and validation -/

/-- A JavaScript number, as far as `typeof` and truthiness can tell numbers
apart. -/
inductive JsNumber where
  | finite (q : ℚ)
  | nan
  | infinite (negative : Bool)
deriving DecidableEq

/-- The JavaScript values a parsed workflow can be made of. -/
inductive JsValue where
  | undefined
  | null
  | bool (b : Bool)
  | number (n : JsNumber)
  | str (s : String)
  | array (items : List JsValue)
  | object (fields : List (String × JsValue))

/-- JavaScript truthiness: `!v` is the negation of this. -/
def JsValue.truthy : JsValue → Bool
  | .undefined => false
  | .null => false
  | .bool b => b
  | .number (.finite q) => decide (q ≠ 0)
  | .number .nan => false
  | .number (.infinite _) => true
  | .str s => s != ""
  | .array _ => true
  | .object _ => true

/-- Whether reading a property of the value raises a `TypeError`. -/
def JsValue.nullish : JsValue → Bool
  | .undefined => true
  | .null => true
  | _ => false

/-- The value of `v[key]` for one of the keys the engine reads (`name`,
`steps`, `agent`, `task`, `retry`, `escalate_to`, `verify_with`): the field of
an object, and `undefined` when the object lacks it or the value is not an
object. -/
def JsValue.prop (v : JsValue) (key : String) : JsValue :=
  match v with
  | .object fields =>
    match fields.find? (fun f => f.1 == key) with
    | some f => f.2
    | none => .undefined
  | _ => .undefined

/-- `typeof v === 'number'`. -/
def JsValue.isNumber : JsValue → Bool
  | .number _ => true
  | _ => false

/-- `v !== undefined`. -/
def JsValue.isDefined : JsValue → Bool
  | .undefined => false
  | _ => true

/-- `this.agentTypes` of the `WorkflowEngine`. -/
def agentTypes : List String :=
  ["planner", "developer", "verifier", "tester", "reviewer"]

/-- `this.agentTypes.includes(v)`: strict equality with one of the role names. -/
def includesAgentType (v : JsValue) : Bool :=
  match v with
  | .str s => agentTypes.contains s
  | _ => false

/-- The exceptions of `validateWorkflow`, by the check that raised them; `i`
is the index of the offending step.  The message of the `Error` names the step
by `i` (missing name) or by its `name`; `typeError` is the `TypeError` raised
by reading a property of `null` or `undefined`. -/
inductive ValidationError where
  | typeError
  | workflowName
  | noSteps
  | stepName (i : Nat)
  | stepAgent (i : Nat)
  | invalidAgent (i : Nat)
  | stepTask (i : Nat)
  | retryType (i : Nat)
  | invalidEscalateTo (i : Nat)
  | invalidVerifyWith (i : Nat)
deriving DecidableEq, Repr

/-- The body of the loop of `validateWorkflow` for the step at index `i`. -/
def validateStep (i : Nat) (step : JsValue) : Except ValidationError Unit :=
  if step.nullish then .error .typeError
  else if !(step.prop "name").truthy then .error (.stepName i)
  else if !(step.prop "agent").truthy then .error (.stepAgent i)
  else if !(includesAgentType (step.prop "agent")) then .error (.invalidAgent i)
  else if !(step.prop "task").truthy then .error (.stepTask i)
  else if (step.prop "retry").isDefined && !(step.prop "retry").isNumber then
    .error (.retryType i)
  else if (step.prop "escalate_to").truthy && !(includesAgentType (step.prop "escalate_to")) then
    .error (.invalidEscalateTo i)
  else if (step.prop "verify_with").truthy && !(includesAgentType (step.prop "verify_with")) then
    .error (.invalidVerifyWith i)
  else .ok ()

/-- The loop of `validateWorkflow` from index `i`; it stops at the first
exception. -/
def validateSteps : Nat → List JsValue → Except ValidationError Unit
  | _, [] => .ok ()
  | i, step :: rest =>
    match validateStep i step with
    | .error e => .error e
    | .ok _ => validateSteps (i + 1) rest

/-- `validateWorkflow(workflow)`: returns `true` or raises. -/
def validateWorkflow (workflow : JsValue) : Except ValidationError Bool :=
  if workflow.nullish then .error .typeError
  else if !(workflow.prop "name").truthy then .error .workflowName
  else
    match workflow.prop "steps" with
    | .array steps =>
      if steps.length == 0 then .error .noSteps
      else
        match validateSteps 0 steps with
        | .error e => .error e
        | .ok _ => .ok true
    | _ => .error .noSteps

/-- What the specification asks of a step: a non-empty name and task, an agent
among the five roles, `escalate_to` and `verify_with` among the five roles
when present (a value JavaScript counts as true), and `retry` a number when
present (not `undefined`). -/
def specValidStep (step : JsValue) : Prop :=
  step.nullish = false
  ∧ (step.prop "name").truthy = true
  ∧ (step.prop "task").truthy = true
  ∧ (∃ role ∈ agentTypes, step.prop "agent" = .str role)
  ∧ ((step.prop "escalate_to").truthy = true →
      ∃ role ∈ agentTypes, step.prop "escalate_to" = .str role)
  ∧ ((step.prop "verify_with").truthy = true →
      ∃ role ∈ agentTypes, step.prop "verify_with" = .str role)
  ∧ ((step.prop "retry").isDefined = true → ∃ n, step.prop "retry" = .number n)

/-- What the specification asks of a workflow: a non-empty name and a
non-empty list of steps, each of them valid. -/
def specValidWorkflow (workflow : JsValue) : Prop :=
  workflow.nullish = false
  ∧ (workflow.prop "name").truthy = true
  ∧ ∃ steps, workflow.prop "steps" = .array steps ∧ steps ≠ []
      ∧ ∀ step ∈ steps, specValidStep step

/-- A step object with the given `retry`. -/
def stepWithRetry (retry : JsValue) : JsValue :=
  .object [("name", .str "build"), ("agent", .str "developer"), ("task", .str "build it"),
           ("retry", retry)]

/-- A one-step workflow object around `stepWithRetry`. -/
def workflowWithRetry (retry : JsValue) : JsValue :=
  .object [("name", .str "demo"), ("steps", .array [stepWithRetry retry])]

/-- The relation between the status of a step and its `result` and `error`
that the operations keep: a result is present exactly on completed steps, and
a failed step has an error. -/
def StepRow.consistent (r : StepRow) : Prop :=
  (r.result.isSome = true ↔ r.status = "completed")
  ∧ (r.status = "failed" → r.error.isSome = true)

/-- Every step of the database is consistent. -/
def Store.consistent (db : Store) : Prop :=
  ∀ r ∈ db.step_executions, r.consistent

/-- The verification gate holds for step `id`: if the step is `completed`, its
most recent verification is `passed`. -/
def Gated (db : Store) (id : String) : Prop :=
  ∀ row, getStep db id = some row → row.status = "completed" →
    ∃ v, getStepVerification db id = some v ∧ v.status = "passed"

/-- The clock advances between a read and a later read that follows a backoff
wait. -/
def ClockAdvances (env : Env) : Prop :=
  ∀ c c2 s s2, c < c2 → s < s2 → env.now c s < env.now c2 s2

/-- The verification gate holds for the declared step `id` and for every step
escalated from it. -/
def GatedChain (db : Store) (id : String) : Prop :=
  Gated db id ∧ ∀ s ∈ db.step_executions, s.escalated_from = some id → Gated db s.id

/-! ## `WorkflowEngine.parseYaml` -/

/-- The code points that `String.prototype.trim` removes: the `WhiteSpace` and
`LineTerminator` productions of ECMAScript. -/
def isJsWhiteSpace (c : Char) : Bool :=
  c.toNat == 0x09 || c.toNat == 0x0A || c.toNat == 0x0B || c.toNat == 0x0C
    || c.toNat == 0x0D || c.toNat == 0x20 || c.toNat == 0xA0 || c.toNat == 0x1680
    || (0x2000 ≤ c.toNat && c.toNat ≤ 0x200A)
    || c.toNat == 0x2028 || c.toNat == 0x2029 || c.toNat == 0x202F || c.toNat == 0x205F
    || c.toNat == 0x3000 || c.toNat == 0xFEFF

/-- `s.trim()` on the characters of a string. -/
def jsTrim (s : List Char) : List Char :=
  ((s.dropWhile isJsWhiteSpace).reverse.dropWhile isJsWhiteSpace).reverse

/-- `s.split(sep)` for a one-character separator: the pieces between the
occurrences of `sep`, of which there is always at least one. -/
def jsSplit (sep : Char) : List Char → List (List Char)
  | [] => [[]]
  | c :: cs =>
    if c == sep then [] :: jsSplit sep cs
    else
      match jsSplit sep cs with
      | [] => [[c]]
      | piece :: pieces => (c :: piece) :: pieces

/-- `s.startsWith(p)`. -/
def jsStartsWith (s p : List Char) : Bool :=
  p.isPrefixOf s

/-- `s.endsWith(p)`. -/
def jsEndsWith (s p : List Char) : Bool :=
  p.reverse.isPrefixOf s.reverse

/-- The double quote and the single quote. -/
def doubleQuote : Char := Char.ofNat 34

/-- The single quote. -/
def singleQuote : Char := Char.ofNat 39

/-- The double that `parseInt` returns for the natural number a decimal
numeral denotes: the number itself below 2^53, and otherwise the nearest
number with a 53-bit mantissa, ties to even, or `Infinity` from 2^1024 on. -/
def toDouble (n : Nat) : JsNumber :=
  if n < 2 ^ 53 then .finite n
  else
    let e := Nat.log2 n - 52
    let q := n / 2 ^ e
    let r := n % 2 ^ e
    let half := 2 ^ (e - 1)
    let m := if half < r || (r == half && q % 2 == 1) then q + 1 else q
    if 2 ^ 1024 ≤ m * 2 ^ e then .infinite false else .finite (m * 2 ^ e : Nat)

/-- The natural number a string of decimal digits denotes. -/
def digitsValue (value : List Char) : Nat :=
  value.foldl (fun acc c => 10 * acc + (c.toNat - 48)) 0

/-- `parseValue(value)`: a quoted value loses its quotes, a string of decimal
digits becomes a number, `true`, `false` and `null` become the constants, and
everything else stays the string it is. -/
def parseValue (value : List Char) : JsValue :=
  if (jsStartsWith value [doubleQuote] && jsEndsWith value [doubleQuote])
      || (jsStartsWith value [singleQuote] && jsEndsWith value [singleQuote]) then
    .str (String.mk (value.drop 1).dropLast)
  else if !value.isEmpty && value.all Char.isDigit then
    .number (toDouble (digitsValue value))
  else if value == "true".data then .bool true
  else if value == "false".data then .bool false
  else if value == "null".data then .null
  else .str (String.mk value)

/-- The assignment `obj[key] = v` on the fields of an object, in insertion
order: an existing field is overwritten in place, a new one is appended.  (The
accessor `__proto__` and the numeric ordering of index-like keys are not
modelled.) -/
def setField (fields : List (String × JsValue)) (key : String) (v : JsValue) :
    List (String × JsValue) :=
  match fields with
  | [] => [(key, v)]
  | f :: rest => if f.1 == key then (key, v) :: rest else f :: setField rest key v

/-- The assignment `obj[key] = v`. -/
def JsValue.setProp (o : JsValue) (key : String) (v : JsValue) : JsValue :=
  match o with
  | .object fields => .object (setField fields key v)
  | other => other

/-- `Array.isArray(v)`. -/
def JsValue.isArray : JsValue → Bool
  | .array _ => true
  | _ => false

/-- The items of an array (none for another value). -/
def JsValue.items : JsValue → List JsValue
  | .array items => items
  | _ => []

/-- A list with its `i`-th element rewritten by `f`. -/
def modifyItem (f : JsValue → JsValue) : Nat → List JsValue → List JsValue
  | _, [] => []
  | 0, x :: xs => f x :: xs
  | i + 1, x :: xs => x :: modifyItem f i xs

/-- An object of the document is named by the way to it from the root: the
key of an array and the index in it, repeatedly.  `modifyAt f path root` is
the document after the object at `path` was mutated by `f` (an object of the
stack is always reachable from the root: the entries below it hold its
ancestors, and only the object of the top entry is ever assigned to). -/
def JsValue.modifyAt (f : JsValue → JsValue) : List (String × Nat) → JsValue → JsValue
  | [], v => f v
  | (key, i) :: rest, v =>
    match v.prop key with
    | .array items =>
      v.setProp key (.array (modifyItem (fun item => JsValue.modifyAt f rest item) i items))
    | _ => v

/-- The object at `path` of the document. -/
def JsValue.atPath : List (String × Nat) → JsValue → JsValue
  | [], v => v
  | (key, i) :: rest, v => JsValue.atPath rest ((v.prop key).items.getD i .undefined)

/-- An entry of the stack of `parseYaml`: `{ obj, indent, lastKey, isArrayItem }`,
with the object given by its path in the document; an absent `lastKey` is
`none`, an absent `isArrayItem` is `false`. -/
structure StackEntry where
  obj : List (String × Nat)
  indent : Int
  lastKey : Option String
  isArrayItem : Bool
deriving DecidableEq, Repr

/-- The state of the loop of `parseYaml`: the document under `root`, the top of
the stack and the entries below it (the stack is never empty). -/
structure YamlState where
  root : JsValue
  top : StackEntry
  below : List StackEntry

/-- The loop `while (stack.length > 1 && stack[stack.length - 1].indent >= indent)
stack.pop()`. -/
def popStack (indent : Nat) : StackEntry → List StackEntry → StackEntry × List StackEntry
  | top, [] => (top, [])
  | top, next :: rest =>
    if top.indent ≥ (indent : Int) then popStack indent next rest else (top, next :: rest)

/-- The statements `if (!Array.isArray(parent[lastKey])) parent[lastKey] = [];
parent[lastKey].push(item)` on the object `parent`. -/
def pushItem (lastKey : String) (item : JsValue) (parent : JsValue) : JsValue :=
  parent.setProp lastKey (.array ((parent.prop lastKey).items ++ [item]))

/-- The body of the loop of `parseYaml` for one line. -/
def parseLine (st : YamlState) (line : List Char) : YamlState :=
  let trimmed := jsTrim line
  if trimmed.isEmpty || jsStartsWith trimmed ['#'] then st
  else
    let indent := (line.takeWhile (fun c => c == ' ')).length
    if jsStartsWith trimmed ['-', ' '] then
      let value := trimmed.drop 2
      let stack := popStack indent st.top st.below
      let parent := stack.1.obj
      if value.contains ':' then
        let parts := (jsSplit ':' value).map jsTrim
        let key := parts.getD 0 []
        let val := parts.getD 1 []
        let obj : JsValue :=
          if !val.isEmpty then .object [(String.mk key, parseValue val)] else .object []
        if truthy stack.1.lastKey then
          let lastKey := stack.1.lastKey.getD ""
          let index := ((st.root.atPath parent).prop lastKey).items.length
          { root := st.root.modifyAt (pushItem lastKey obj) parent,
            top := { obj := parent ++ [(lastKey, index)], indent := indent, lastKey := none,
                     isArrayItem := true },
            below := stack.1 :: stack.2 }
        else { root := st.root, top := stack.1, below := stack.2 }
      else
        if truthy stack.1.lastKey then
          let lastKey := stack.1.lastKey.getD ""
          { root := st.root.modifyAt (pushItem lastKey (parseValue value)) parent,
            top := stack.1, below := stack.2 }
        else { root := st.root, top := stack.1, below := stack.2 }
    else if trimmed.contains ':' then
      let key := jsTrim (trimmed.takeWhile (fun c => c != ':'))
      let value := jsTrim ((trimmed.dropWhile (fun c => c != ':')).drop 1)
      let stack := popStack indent st.top st.below
      let parent := stack.1.obj
      if !value.isEmpty then
        { root := st.root.modifyAt (fun o => o.setProp (String.mk key) (parseValue value)) parent,
          top := stack.1, below := stack.2 }
      else if stack.1.isArrayItem then
        { root := st.root.modifyAt (fun o => o.setProp (String.mk key) .null) parent,
          top := { stack.1 with lastKey := some (String.mk key) }, below := stack.2 }
      else
        { root := st.root.modifyAt (fun o => o.setProp (String.mk key) .null) parent,
          top := { obj := parent, indent := indent, lastKey := some (String.mk key),
                   isArrayItem := false },
          below := stack.1 :: stack.2 }
    else st

/-- The state in which the loop of `parseYaml` starts: an empty root object
and the stack `[{ obj: root, indent: -1 }]`. -/
def YamlState.initial : YamlState :=
  { root := .object [],
    top := { obj := [], indent := -1, lastKey := none, isArrayItem := false },
    below := [] }

/-- `parseYaml(content)` on the characters of the content. -/
def parseLines (content : List Char) : JsValue :=
  ((jsSplit '\n' content).foldl parseLine YamlState.initial).root

/-- `parseYaml(content)`. -/
def parseYaml (content : String) : JsValue :=
  parseLines content.data

/-! ## The workflow format of the help text -/

/-- The line of an optional field: none when the field is absent. -/
def optionalLine (pre : String) (value : Option (List Char)) : List (List Char) :=
  match value with
  | none => []
  | some v => [pre.data ++ v]

/-- The lines of one step in the format the help text shows (`showHelp`,
WORKFLOW FORMAT): the step is opened by `  - name: ...` and continued by
four-space-indented `key: value` lines, `retry` in decimal. -/
def renderStep (step : WorkflowStep) : List (List Char) :=
  ["  - name: ".data ++ step.name.data,
   "    agent: ".data ++ step.agent.data,
   "    task: ".data ++ step.task.data]
    ++ optionalLine "    retry: " (step.retry.map (fun r => Nat.toDigits 10 r.toNat))
    ++ optionalLine "    escalate_to: " (step.escalate_to.map String.data)
    ++ optionalLine "    verify_with: " (step.verify_with.map String.data)

/-- The lines of the steps, in order. -/
def renderSteps : List WorkflowStep → List (List Char)
  | [] => []
  | step :: rest => renderStep step ++ renderSteps rest

/-- The lines of a workflow in the format the help text shows: the top-level
`name` and `description` lines, `steps:`, and the steps. -/
def renderLines (workflow : Workflow) : List (List Char) :=
  ["name: ".data ++ workflow.name.data]
    ++ optionalLine "description: " (workflow.description.map String.data)
    ++ ["steps:".data] ++ renderSteps workflow.steps

/-- Lines joined by newlines. -/
def joinLines : List (List Char) → List Char
  | [] => []
  | [line] => line
  | line :: rest => line ++ '\n' :: joinLines rest

/-- The text of a workflow in the format the help text shows. -/
def renderWorkflow (workflow : Workflow) : String :=
  String.mk (joinLines (renderLines workflow))

/-- A text that the format carries unchanged: not empty, without colon or
newline, without leading or trailing whitespace, not surrounded by quotes and
not spelling a numeral, `true`, `false` or `null`. -/
def isPlainText (s : List Char) : Bool :=
  !s.isEmpty && !s.contains ':' && !s.contains '\n' && jsTrim s == s
    && !(jsStartsWith s [doubleQuote] && jsEndsWith s [doubleQuote])
    && !(jsStartsWith s [singleQuote] && jsEndsWith s [singleQuote])
    && !(s.all Char.isDigit)
    && s != "true".data && s != "false".data && s != "null".data

/-- The field of an optional value of an object: none when it is absent. -/
def optionalField (key : String) (value : Option JsValue) : List (String × JsValue) :=
  match value with
  | none => []
  | some v => [(key, v)]

/-- The object that denotes a step of a workflow description. -/
def stepObject (step : WorkflowStep) : JsValue :=
  .object ([("name", .str step.name), ("agent", .str step.agent), ("task", .str step.task)]
    ++ optionalField "retry" (step.retry.map (fun (r : Int) => JsValue.number (.finite (r : ℚ))))
    ++ optionalField "escalate_to" (step.escalate_to.map .str)
    ++ optionalField "verify_with" (step.verify_with.map .str))

/-- The object that denotes a workflow description. -/
def workflowObject (workflow : Workflow) : JsValue :=
  .object ([("name", .str workflow.name)]
    ++ optionalField "description" (workflow.description.map .str)
    ++ [("steps", .array (workflow.steps.map stepObject))])

/-- The fields of a step that the format can carry: `name`, `agent`, `task`,
`escalate_to` and `verify_with` are plain texts, and `retry` is a natural
number that a JavaScript number holds exactly. -/
def renderableStep (step : WorkflowStep) : Prop :=
  isPlainText step.name.data = true ∧ isPlainText step.agent.data = true
    ∧ isPlainText step.task.data = true
    ∧ (∀ r, step.retry = some r → 0 ≤ r ∧ r < 2 ^ 53)
    ∧ (∀ e, step.escalate_to = some e → isPlainText e.data = true)
    ∧ (∀ v, step.verify_with = some v → isPlainText v.data = true)

/-- A workflow that the format can carry. -/
def renderable (workflow : Workflow) : Prop :=
  isPlainText workflow.name.data = true
    ∧ (∀ d, workflow.description = some d → isPlainText d.data = true)
    ∧ ∀ step ∈ workflow.steps, renderableStep step

/-- The roles of a step are among the agent types. -/
def rolesValid (step : WorkflowStep) : Prop :=
  step.agent ∈ agentTypes
    ∧ (∀ e, step.escalate_to = some e → e ∈ agentTypes)
    ∧ (∀ v, step.verify_with = some v → v ∈ agentTypes)

/-- The two-step example of the help text. -/
def helpExample : Workflow :=
  { name := "My Workflow", description := some "Workflow description",
    steps := [{ name := "Step 1", agent := "planner", task := "Define the plan",
                retry := some 3, escalate_to := none, verify_with := some "reviewer",
                verify_criteria := none },
              { name := "Step 2", agent := "developer", task := "Implement solution",
                retry := none, escalate_to := some "reviewer", verify_with := none,
                verify_criteria := none }] }

/-- A workflow without steps. -/
def steplessWorkflow : Workflow :=
  { name := "demo", description := none, steps := [] }

/-! ## Texts of a line -/

/-- A text that `trim` leaves alone and that is not empty. -/
def Trimmed (s : List Char) : Prop :=
  s ≠ [] ∧ s.dropWhile isJsWhiteSpace = s ∧ s.reverse.dropWhile isJsWhiteSpace = s.reverse

/-- A key of the format: not empty, and made of characters that are neither
whitespace nor one of `:`, `#` and `-`. -/
def isKeyText (key : List Char) : Bool :=
  !key.isEmpty && key.all (fun c => !isJsWhiteSpace c && c != ':' && c != '#' && c != '-')

/-- A value that a line carries: not empty, without colon, and left alone by
`trim`. -/
def Carried (v : List Char) : Prop :=
  v ≠ [] ∧ ':' ∉ v ∧ jsTrim v = v

/-! ## The states of `parseYaml` on the format of the help text -/

/-- The entry `{ obj: root, indent: -1 }` at the bottom of the stack. -/
def rootEntry : StackEntry :=
  { obj := [], indent := -1, lastKey := none, isArrayItem := false }

/-- The entry that the line `steps:` pushes. -/
def stepsEntry : StackEntry :=
  { obj := [], indent := 0, lastKey := some "steps", isArrayItem := false }

/-- The entry that the line opening the step of index `j` pushes. -/
def itemEntry (j : Nat) : StackEntry :=
  { obj := [("steps", j)], indent := 2, lastKey := none, isArrayItem := true }

/-- The state after the line `steps:`, the root holding the fields `hdr`. -/
def headerState (hdr : List (String × JsValue)) : YamlState :=
  { root := .object (hdr ++ [("steps", .null)]), top := stepsEntry, below := [rootEntry] }

/-- The state while a step is read, of which the fields `cur` are in, after
the steps `done`. -/
def itemState (hdr : List (String × JsValue)) (done : List JsValue)
    (cur : List (String × JsValue)) : YamlState :=
  { root := .object (hdr ++ [("steps", .array (done ++ [.object cur]))]),
    top := itemEntry done.length, below := [stepsEntry, rootEntry] }

/-- The state after the steps `done` were read. -/
def loopState (hdr : List (String × JsValue)) (done : List JsValue) : YamlState :=
  if done.isEmpty then headerState hdr
  else
    { root := .object (hdr ++ [("steps", .array done)]),
      top := itemEntry (done.length - 1), below := [stepsEntry, rootEntry] }

/-! ## Lookup lemmas for the table operations -/

theorem find?_sqlUpdate {α : Type} (key : α → String) (cond : α → Bool) (set : α → α)
    (k : String) (rows : List α) (hset : ∀ r, key (set r) = key r) :
    (sqlUpdate cond set rows).find? (fun r => key r == k)
      = (rows.find? (fun r => key r == k)).map (fun r => if cond r then set r else r) := by
  induction rows with
  | nil => rfl
  | cons r rows ih =>
    have ih2 : List.find? (fun r => key r == k) (List.map (fun r => if cond r then set r else r) rows)
        = Option.map (fun r => if cond r then set r else r) (List.find? (fun r => key r == k) rows) := ih
    have hk : key (if cond r then set r else r) = key r := by
      split
      · exact hset r
      · rfl
    by_cases h : key r = k
    · simp [sqlUpdate, List.find?_cons, hk, h]
    · simp [sqlUpdate, List.find?_cons, hk, h, ih2]

theorem find?_append_single {α : Type} (key : α → String) (k : String) (rows : List α) (x : α) :
    (rows ++ [x]).find? (fun r => key r == k)
      = ((rows.find? (fun r => key r == k)).or (if key x == k then some x else none)) := by
  rw [List.find?_append]
  by_cases h : key x = k <;> simp [List.find?_cons, h]

theorem sqlChanges_pos_of_find? {α : Type} (cond : α → Bool) (p : α → Bool) (rows : List α)
    (x : α) (hx : rows.find? p = some x) (hc : cond x = true) : 0 < sqlChanges cond rows := by
  unfold sqlChanges
  rw [List.countP_pos_iff]
  exact ⟨x, List.mem_of_find?_eq_some hx, hc⟩

theorem getStep_id {db : Store} {k : String} {st : StepRow} (h : getStep db k = some st) :
    st.id = k := by
  have := List.find?_some h
  simpa using this

theorem getRun_id {db : Store} {k : String} {r : RunRow} (h : getRun db k = some r) :
    r.id = k := by
  have := List.find?_some h
  simpa using this

theorem find?_sqlUpdate_id (set : StepRow → StepRow) (stepId k : String) (rows : List StepRow)
    (hset : ∀ r, (set r).id = r.id) :
    (sqlUpdate (fun r => r.id == stepId) set rows).find? (fun r => r.id == k)
      = if k = stepId then (rows.find? (fun r => r.id == k)).map set
        else rows.find? (fun r => r.id == k) := by
  rw [find?_sqlUpdate (fun r : StepRow => r.id) _ _ _ _ hset]
  cases hf : List.find? (fun r => r.id == k) rows with
  | none => simp
  | some r =>
    have hr : r.id = k := by simpa using List.find?_some hf
    by_cases hk : k = stepId
    · simp [hk, hr ▸ hk]
    · simp [hk, hr]

/-- Lookup of any step after `completeStep`. -/
theorem getStep_completeStep (db : Store) (now : Nat) (stepId : String) (result : Payload)
    (k : String) :
    getStep (completeStep db now stepId result) k
      = if k = stepId then
          (getStep db k).map
            (fun r => { r with status := "completed", completed_at := some now,
                               result := some (JSON_stringify result) })
        else getStep db k := by
  unfold completeStep getStep
  exact find?_sqlUpdate_id _ stepId k _ (by intro r; rfl)

/-- The value of `failStep` on an existing step, and the lookup of any step
after it. -/
theorem failStep_of_getStep (db : Store) (now : Nat) (stepId error : String) (canRetry : Bool)
    (st : StepRow) (hg : getStep db stepId = some st) :
    ∃ db2, failStep db now stepId error canRetry
        = .ok (if canRetry = true ∧ st.attempts < st.max_attempts then "retry" else "failed", db2)
      ∧ db2.workflow_runs = db.workflow_runs
      ∧ db2.agent_sessions = db.agent_sessions
      ∧ db2.verifications = db.verifications
      ∧ db2.step_executions.length = db.step_executions.length
      ∧ ∀ k, getStep db2 k
          = if k = stepId then
              some (if canRetry = true ∧ st.attempts < st.max_attempts then
                      { st with status := "pending", error := some error }
                    else
                      { st with status := "failed", completed_at := some now,
                                error := some error })
            else getStep db k := by
  unfold failStep
  rw [hg]
  by_cases h : canRetry = true ∧ st.attempts < st.max_attempts
  · have h2 : (canRetry && decide (st.attempts < st.max_attempts)) = true := by simpa using h
    simp only [h2, h, if_true, and_self]
    refine ⟨_, rfl, rfl, rfl, rfl, by simp [sqlUpdate], ?_⟩
    intro k
    unfold getStep at hg ⊢
    simp only
    rw [find?_sqlUpdate_id _ stepId k _ (by intro r; rfl)]
    by_cases hk : k = stepId
    · subst hk
      simp [hg]
    · simp [hk]
  · have h2 : ¬ (canRetry && decide (st.attempts < st.max_attempts)) = true := by simpa using h
    simp only [h2, h, if_false]
    refine ⟨_, rfl, rfl, rfl, rfl, by simp [sqlUpdate], ?_⟩
    intro k
    unfold getStep at hg ⊢
    simp only
    rw [find?_sqlUpdate_id _ stepId k _ (by intro r; rfl)]
    by_cases hk : k = stepId
    · subst hk
      simp [hg]
    · simp [hk]

/-- The value of `failStep` on a missing step: it raises, or changes no step. -/
theorem failStep_of_getStep_none (db : Store) (now : Nat) (stepId error : String)
    (canRetry : Bool) (hg : getStep db stepId = none) :
    (∃ msg, failStep db now stepId error canRetry = .error msg)
      ∨ ∃ db2, failStep db now stepId error canRetry = .ok ("failed", db2)
          ∧ ∀ k, getStep db2 k = getStep db k := by
  unfold failStep
  rw [hg]
  cases canRetry with
  | true => exact Or.inl ⟨_, rfl⟩
  | false =>
    refine Or.inr ⟨_, rfl, fun k => ?_⟩
    unfold getStep at hg ⊢
    simp only
    rw [find?_sqlUpdate_id _ stepId k _ (by intro r; rfl)]
    by_cases hk : k = stepId
    · subst hk
      simp [hg]
    · simp [hk]

/-- Lookup of any step after a `createStep` that returned. -/
theorem getStep_createStep (db db2 : Store) (id : String) (now : Nat) (runId stepName : String)
    (stepIndex : Nat) (agentType : String) (maxAttempts : Int) (out : String)
    (h : createStep db id now runId stepName stepIndex agentType maxAttempts = .ok (out, db2))
    (k : String) :
    out = id ∧ getStep db id = none ∧
    getStep db2 k
      = if k = id then
          some { id := id, run_id := runId, step_name := stepName, step_index := stepIndex,
                 agent_type := agentType, status := "pending", assigned_agent := none,
                 created_at := now, started_at := none, completed_at := none,
                 attempts := 0, max_attempts := maxAttempts, result := none, error := none,
                 escalated_from := none }
        else getStep db k := by
  unfold createStep at h
  cases hg : getStep db id with
  | some st => simp [hg] at h
  | none =>
    cases hrun : getRun db runId with
    | none => simp [hg, hrun] at h
    | some run =>
    simp only [hg, hrun, Option.isSome_none, Option.isNone_some, Bool.false_eq_true, if_false,
      Except.ok.injEq, Prod.mk.injEq] at h
    obtain ⟨h1, h2⟩ := h
    subst h2
    refine ⟨h1.symm, rfl, ?_⟩
    unfold getStep at hg ⊢
    simp only
    rw [find?_append_single (fun r : StepRow => r.id)]
    by_cases hk : k = id
    · subst hk
      simp [hg]
    · have hk2 : ¬ id = k := fun h => hk h.symm
      simp [hk, hk2]

/-- The value of `escalateStep` and the lookup of any step after it. -/
theorem getStep_escalateStep (db : Store) (newId : String) (now : Nat)
    (stepId newAgentType : String) (st : StepRow) (hg : getStep db stepId = some st)
    (hfresh : getStep db newId = none) :
    ∃ db2, escalateStep db newId now stepId newAgentType = .ok (newId, db2)
      ∧ db2.workflow_runs = db.workflow_runs
      ∧ db2.agent_sessions = db.agent_sessions
      ∧ db2.verifications = db.verifications
      ∧ db2.step_executions.length = db.step_executions.length + 1
      ∧ ∀ k, getStep db2 k
          = if k = newId then
              some { id := newId, run_id := st.run_id, step_name := st.step_name,
                     step_index := st.step_index, agent_type := newAgentType,
                     status := "pending", assigned_agent := none, created_at := now,
                     started_at := none, completed_at := none, attempts := 0,
                     max_attempts := st.max_attempts, result := none, error := none,
                     escalated_from := some stepId }
            else if k = stepId then some { st with status := "escalated" }
            else getStep db k := by
  have hne : newId ≠ stepId := by
    intro h
    rw [h, hg] at hfresh
    exact Option.noConfusion hfresh
  unfold escalateStep
  simp only [hg, hfresh, Option.isSome_none, Bool.false_eq_true, if_false]
  refine ⟨_, rfl, rfl, rfl, rfl, by simp [sqlUpdate], ?_⟩
  intro k
  unfold getStep at hg hfresh ⊢
  simp only
  rw [find?_sqlUpdate_id _ stepId k _ (by intro r; rfl),
    find?_append_single (fun r : StepRow => r.id)]
  by_cases hk : k = newId
  · subst hk
    simp [hne, hfresh]
  · have hk2 : ¬ newId = k := fun h => hk h.symm
    by_cases hs : k = stepId
    · subst hs
      simp [hk, hg]
    · simp [hk, hk2, hs]

/-- Lookup of any step after `claimStep`, in terms of the lookup before. -/
theorem getStep_claimStep (db : Store) (now : Nat) (stepId agentId k : String) :
    getStep (claimStep db now stepId agentId).2 k
      = if (claimStep db now stepId agentId).1 = true ∧ k = stepId then
          (getStep db k).map
            (fun r => { r with status := "running", assigned_agent := some agentId,
                               started_at := some now, attempts := r.attempts + 1 })
        else getStep db k := by
  unfold claimStep
  cases hg : getStep db stepId with
  | none => simp
  | some st =>
    by_cases hp : st.status = "pending"
    · have hpos : 0 < sqlChanges (fun r : StepRow => r.id == stepId && r.status == "pending")
          db.step_executions :=
        sqlChanges_pos_of_find? _ _ _ st hg (by simp [getStep_id hg, hp])
      simp only [hp, bne_self_eq_false, Bool.false_eq_true, if_false, gt_iff_lt, hpos,
        decide_True, true_and]
      unfold getStep
      simp only
      rw [find?_sqlUpdate (fun r : StepRow => r.id) _ _ _ _ (by intro r; rfl)]
      by_cases hk : k = stepId
      · subst hk
        have hg2 : List.find? (fun r => r.id == k) db.step_executions = some st := hg
        simp [hg2, hp, getStep_id hg]
      · simp only [hk, if_false]
        cases hf : List.find? (fun r => r.id == k) db.step_executions with
        | none => rfl
        | some r =>
          have : r.id = k := by simpa using List.find?_some hf
          simp [this, hk]
    · simp [hp]

/-- Whether `claimStep` succeeds. -/
theorem claimStep_fst (db : Store) (now : Nat) (stepId agentId : String) :
    (claimStep db now stepId agentId).1 = true
      ↔ ∃ st, getStep db stepId = some st ∧ st.status = "pending" := by
  unfold claimStep
  cases hg : getStep db stepId with
  | none => simp
  | some st =>
    by_cases hp : st.status = "pending"
    · have hpos : 0 < sqlChanges (fun r : StepRow => r.id == stepId && r.status == "pending")
          db.step_executions :=
        sqlChanges_pos_of_find? _ _ _ st hg (by simp [getStep_id hg, hp])
      simp [hp, hpos]
    · simp [hp]

/-- A rejected `claimStep` leaves the database as it was. -/
theorem claimStep_snd_of_false (db : Store) (now : Nat) (stepId agentId : String)
    (h : (claimStep db now stepId agentId).1 = false) :
    (claimStep db now stepId agentId).2 = db := by
  have h2 := claimStep_fst db now stepId agentId
  unfold claimStep at h ⊢
  cases hg : getStep db stepId with
  | none => simp
  | some st =>
    by_cases hp : st.status = "pending"
    · exfalso
      have : (claimStep db now stepId agentId).1 = true := h2.mpr ⟨st, hg, hp⟩
      unfold claimStep at this
      rw [this] at h
      exact Bool.noConfusion h
    · simp [hp]

/-- The tables other than `step_executions` are not written by `claimStep`. -/
theorem claimStep_frame (db : Store) (now : Nat) (stepId agentId : String) :
    (claimStep db now stepId agentId).2.workflow_runs = db.workflow_runs
    ∧ (claimStep db now stepId agentId).2.agent_sessions = db.agent_sessions
    ∧ (claimStep db now stepId agentId).2.verifications = db.verifications
    ∧ (claimStep db now stepId agentId).2.step_executions.length = db.step_executions.length := by
  unfold claimStep
  cases hg : getStep db stepId with
  | none => simp
  | some st =>
    by_cases hp : st.status = "pending"
    · simp [hp, sqlUpdate]
    · simp [hp]

/-! ## Primary keys -/

theorem map_id_sqlUpdate (cond : StepRow → Bool) (set : StepRow → StepRow)
    (rows : List StepRow) (hset : ∀ r, (set r).id = r.id) :
    (sqlUpdate cond set rows).map (fun r => r.id) = rows.map (fun r => r.id) := by
  unfold sqlUpdate
  rw [List.map_map]
  apply List.map_congr_left
  intro r _
  simp only [Function.comp]
  split
  · exact hset r
  · rfl

theorem not_mem_ids_of_getStep_none (db : Store) (k : String) (h : getStep db k = none) :
    k ∉ db.step_executions.map (fun r => r.id) := by
  unfold getStep at h
  rw [List.find?_eq_none] at h
  intro hm
  rw [List.mem_map] at hm
  obtain ⟨r, hr, hk⟩ := hm
  exact h r hr (by simpa using hk)

theorem getStep_of_mem (db : Store) (hnd : db.stepIdsNodup) (st : StepRow)
    (hm : st ∈ db.step_executions) : getStep db st.id = some st := by
  unfold Store.stepIdsNodup at hnd
  unfold getStep
  generalize db.step_executions = rows at hnd hm
  induction rows with
  | nil => cases hm
  | cons r rows ih =>
    rw [List.map_cons, List.nodup_cons] at hnd
    rw [List.find?_cons]
    rcases List.mem_cons.mp hm with h | h
    · subst h
      simp
    · have hne : ¬ r.id = st.id := by
        intro he
        apply hnd.1
        rw [he]
        exact List.mem_map_of_mem (fun r => r.id) h
      have hb : (r.id == st.id) = false := by simpa using hne
      rw [hb]
      exact ih hnd.2 h

theorem mem_of_getStep (db : Store) (k : String) (st : StepRow) (h : getStep db k = some st) :
    st ∈ db.step_executions :=
  List.mem_of_find?_eq_some h

theorem stepIdsNodup_createStep (db db2 : Store) (id : String) (now : Nat)
    (runId stepName : String) (stepIndex : Nat) (agentType : String) (maxAttempts : Int)
    (out : String) (hnd : db.stepIdsNodup)
    (h : createStep db id now runId stepName stepIndex agentType maxAttempts = .ok (out, db2)) :
    db2.stepIdsNodup := by
  unfold createStep at h
  cases hg : getStep db id with
  | some st => simp [hg] at h
  | none =>
    cases hrun : getRun db runId with
    | none => simp [hg, hrun] at h
    | some run =>
    simp only [hg, hrun, Option.isSome_none, Option.isNone_some, Bool.false_eq_true, if_false,
      Except.ok.injEq, Prod.mk.injEq] at h
    obtain ⟨_, h2⟩ := h
    subst h2
    unfold Store.stepIdsNodup at hnd ⊢
    simp only [List.map_append, List.map_cons, List.map_nil]
    rw [List.nodup_append]
    refine ⟨hnd, List.nodup_singleton _, ?_⟩
    intro a ha hb
    rw [List.mem_singleton] at hb
    subst hb
    exact not_mem_ids_of_getStep_none db a hg ha

theorem stepIdsNodup_claimStep (db : Store) (now : Nat) (stepId agentId : String)
    (hnd : db.stepIdsNodup) : (claimStep db now stepId agentId).2.stepIdsNodup := by
  unfold claimStep
  cases hg : getStep db stepId with
  | none => exact hnd
  | some st =>
    by_cases hp : st.status = "pending"
    · simp only [hp, bne_self_eq_false, Bool.false_eq_true, if_false]
      unfold Store.stepIdsNodup at hnd ⊢
      simp only
      rw [map_id_sqlUpdate _ _ _ (by intro r; rfl)]
      exact hnd
    · simpa [hp] using hnd

theorem stepIdsNodup_completeStep (db : Store) (now : Nat) (stepId : String) (result : Payload)
    (hnd : db.stepIdsNodup) : (completeStep db now stepId result).stepIdsNodup := by
  unfold completeStep Store.stepIdsNodup at *
  simp only
  rw [map_id_sqlUpdate _ _ _ (by intro r; rfl)]
  exact hnd

theorem stepIdsNodup_failStep (db db2 : Store) (now : Nat) (stepId error : String)
    (canRetry : Bool) (out : String) (hnd : db.stepIdsNodup)
    (h : failStep db now stepId error canRetry = .ok (out, db2)) : db2.stepIdsNodup := by
  unfold failStep at h
  cases hg : getStep db stepId with
  | none =>
    simp only [hg] at h
    unfold Store.stepIdsNodup at hnd ⊢
    split at h
    · cases h
    · simp only [Except.ok.injEq, Prod.mk.injEq] at h
      rw [← h.2]
      simp only
      rw [map_id_sqlUpdate _ _ _ (by intro r; rfl)]
      exact hnd
  | some st =>
    simp only [hg] at h
    unfold Store.stepIdsNodup at hnd ⊢
    split at h
    · simp only [Except.ok.injEq, Prod.mk.injEq] at h
      rw [← h.2]
      simp only
      rw [map_id_sqlUpdate _ _ _ (by intro r; rfl)]
      exact hnd
    · simp only [Except.ok.injEq, Prod.mk.injEq] at h
      rw [← h.2]
      simp only
      rw [map_id_sqlUpdate _ _ _ (by intro r; rfl)]
      exact hnd

theorem stepIdsNodup_escalateStep (db db2 : Store) (newId : String) (now : Nat)
    (stepId newAgentType : String) (out : String) (hnd : db.stepIdsNodup)
    (h : escalateStep db newId now stepId newAgentType = .ok (out, db2)) :
    db2.stepIdsNodup := by
  unfold escalateStep at h
  cases hg : getStep db stepId with
  | none => simp [hg] at h
  | some st =>
    cases hf : getStep db newId with
    | some st2 => simp [hg, hf] at h
    | none =>
      simp only [hg, hf, Option.isSome_none, Bool.false_eq_true, if_false, Except.ok.injEq,
        Prod.mk.injEq] at h
      rw [← h.2]
      unfold Store.stepIdsNodup at hnd ⊢
      simp only
      rw [map_id_sqlUpdate _ _ _ (by intro r; rfl)]
      simp only [List.map_append, List.map_cons, List.map_nil]
      rw [List.nodup_append]
      refine ⟨hnd, List.nodup_singleton _, ?_⟩
      intro a ha hb
      rw [List.mem_singleton] at hb
      subst hb
      exact not_mem_ids_of_getStep_none db a hf ha

theorem stepIdsNodup_apply (db : Store) (op : StepOp) (hnd : db.stepIdsNodup) :
    (StepOp.apply db op).stepIdsNodup := by
  cases op with
  | createStep id now runId stepName stepIndex agentType maxAttempts =>
    cases h : createStep db id now runId stepName stepIndex agentType maxAttempts with
    | error e => simpa only [StepOp.apply, h] using hnd
    | ok out =>
      simpa only [StepOp.apply, h] using
        stepIdsNodup_createStep db out.2 _ _ _ _ _ _ _ out.1 hnd h
  | claimStep now stepId agentId => exact stepIdsNodup_claimStep db now stepId agentId hnd
  | completeStep now stepId result => exact stepIdsNodup_completeStep db now stepId result hnd
  | failStep now stepId error canRetry =>
    cases h : failStep db now stepId error canRetry with
    | error e => simpa only [StepOp.apply, h] using hnd
    | ok out =>
      simpa only [StepOp.apply, h] using stepIdsNodup_failStep db out.2 _ _ _ _ out.1 hnd h
  | escalateStep newId now stepId newAgentType =>
    cases h : escalateStep db newId now stepId newAgentType with
    | error e => simpa only [StepOp.apply, h] using hnd
    | ok out =>
      simpa only [StepOp.apply, h] using stepIdsNodup_escalateStep db out.2 _ _ _ _ out.1 hnd h

theorem stepIdsNodup_runStepOps (ops : List StepOp) (db : Store) (hnd : db.stepIdsNodup) :
    (runStepOps db ops).stepIdsNodup := by
  induction ops generalizing db with
  | nil => exact hnd
  | cons op ops ih => exact ih _ (stepIdsNodup_apply db op hnd)

/-! ## The retry budget along sequences of step operations -/

theorem escalateStep_ok_inv (db db2 : Store) (newId : String) (now : Nat)
    (stepId newAgentType out : String)
    (h : escalateStep db newId now stepId newAgentType = .ok (out, db2)) :
    (∃ st, getStep db stepId = some st) ∧ getStep db newId = none := by
  unfold escalateStep at h
  cases hg : getStep db stepId with
  | none => simp [hg] at h
  | some st =>
    cases hf : getStep db newId with
    | some st2 => simp [hg, hf] at h
    | none => exact ⟨⟨st, rfl⟩, rfl⟩

theorem withinBudget_apply (db : Store) (op : StepOp)
    (hinv : ∀ k st, getStep db k = some st → st.withinBudget) :
    ∀ k st, getStep (StepOp.apply db op) k = some st → st.withinBudget := by
  intro k st hk
  cases op with
  | createStep id now runId stepName stepIndex agentType maxAttempts =>
    cases h : createStep db id now runId stepName stepIndex agentType maxAttempts with
    | error e =>
      simp only [StepOp.apply, h] at hk
      exact hinv k st hk
    | ok out =>
      simp only [StepOp.apply, h] at hk
      have hl := (getStep_createStep db out.2 _ _ _ _ _ _ _ out.1 h k).2.2
      rw [hl] at hk
      by_cases hki : k = id
      · rw [if_pos hki] at hk
        cases hk
        exact ⟨by simp, fun _ => Or.inr rfl⟩
      · rw [if_neg hki] at hk
        exact hinv k st hk
  | claimStep now stepId agentId =>
    simp only [StepOp.apply] at hk
    rw [getStep_claimStep] at hk
    by_cases hc : (claimStep db now stepId agentId).1 = true ∧ k = stepId
    · rw [if_pos hc] at hk
      obtain ⟨st0, hg0, hp0⟩ := (claimStep_fst db now stepId agentId).mp hc.1
      rw [hc.2, hg0] at hk
      cases hk
      obtain ⟨hb, hpend⟩ := hinv stepId st0 hg0
      refine ⟨?_, ?_⟩
      · show st0.attempts + 1 ≤ max st0.max_attempts 1
        rcases hpend hp0 with h1 | h1
        · exact le_max_of_le_left (by omega)
        · exact le_max_of_le_right (by omega)
      · intro hcontra
        simp at hcontra
    · rw [if_neg hc] at hk
      exact hinv k st hk
  | completeStep now stepId result =>
    simp only [StepOp.apply] at hk
    rw [getStep_completeStep] at hk
    by_cases hki : k = stepId
    · rw [if_pos hki] at hk
      cases hg0 : getStep db k with
      | none => simp [hg0] at hk
      | some st0 =>
        rw [hg0] at hk
        cases hk
        exact ⟨(hinv k st0 hg0).1, fun hcontra => by simp at hcontra⟩
    · rw [if_neg hki] at hk
      exact hinv k st hk
  | failStep now stepId error canRetry =>
    cases hg0 : getStep db stepId with
    | none =>
      rcases failStep_of_getStep_none db now stepId error canRetry hg0 with
        ⟨msg, hm⟩ | ⟨db2, hm, hsame⟩
      · simp only [StepOp.apply, hm] at hk
        exact hinv k st hk
      · simp only [StepOp.apply, hm] at hk
        rw [hsame] at hk
        exact hinv k st hk
    | some st0 =>
      obtain ⟨db2, hf, _, _, _, _, hl⟩ := failStep_of_getStep db now stepId error canRetry st0 hg0
      simp only [StepOp.apply, hf] at hk
      rw [hl] at hk
      by_cases hki : k = stepId
      · rw [if_pos hki] at hk
        obtain ⟨hb, _⟩ := hinv stepId st0 hg0
        by_cases hr : canRetry = true ∧ st0.attempts < st0.max_attempts
        · rw [if_pos hr] at hk
          cases hk
          exact ⟨hb, fun _ => Or.inl hr.2⟩
        · rw [if_neg hr] at hk
          cases hk
          exact ⟨hb, fun hcontra => by simp at hcontra⟩
      · rw [if_neg hki] at hk
        exact hinv k st hk
  | escalateStep newId now stepId newAgentType =>
    cases h : escalateStep db newId now stepId newAgentType with
    | error e =>
      simp only [StepOp.apply, h] at hk
      exact hinv k st hk
    | ok out =>
      simp only [StepOp.apply, h] at hk
      obtain ⟨⟨st0, hg0⟩, hfresh⟩ := escalateStep_ok_inv db out.2 _ _ _ _ out.1 h
      obtain ⟨db2, he, _, _, _, _, hl⟩ :=
        getStep_escalateStep db newId now stepId newAgentType st0 hg0 hfresh
      rw [h] at he
      have hdb : out.2 = db2 := by
        have := Except.ok.inj he
        rw [this]
      rw [hdb, hl] at hk
      by_cases hkn : k = newId
      · rw [if_pos hkn] at hk
        cases hk
        exact ⟨by simp, fun _ => Or.inr rfl⟩
      · rw [if_neg hkn] at hk
        by_cases hks : k = stepId
        · rw [if_pos hks] at hk
          cases hk
          exact ⟨(hinv stepId st0 hg0).1, fun hcontra => by simp at hcontra⟩
        · rw [if_neg hks] at hk
          exact hinv k st hk

theorem withinBudget_runStepOps (ops : List StepOp) (db : Store)
    (hinv : ∀ k st, getStep db k = some st → st.withinBudget) :
    ∀ k st, getStep (runStepOps db ops) k = some st → st.withinBudget := by
  induction ops generalizing db with
  | nil => exact hinv
  | cons op ops ih => exact ih _ (withinBudget_apply db op hinv)

/-- C3 (as stated, refuted): in a database that holds the run `run-1`, a step
of that run created with `max_attempts` 0 and then claimed has `attempts` 1,
above its `max_attempts`. -/
theorem C3_attempts_le_max_counterexample :
    ¬ (∀ (ops : List StepOp) (st : StepRow),
        st ∈ (runStepOps runOnlyStore ops).step_executions → st.attempts ≤ st.max_attempts) := by
  intro h
  have h1 := h [StepOp.createStep "step-1" 101 "run-1" "build" 0 "developer" 0,
                StepOp.claimStep 102 "step-1" "agent-a"]
    claimedOnceZeroBudget (by decide)
  exact absurd h1 (by decide)

/-- C3 (amended): in every database reached from one without steps by any
sequence of `createStep`, `claimStep`, `completeStep`, `failStep` and
`escalateStep` calls, every step has `attempts` at most the larger of
`max_attempts` and 1; so `attempts ≤ max_attempts` for every step whose
`max_attempts` is at least 1. -/
theorem C3_attempts_bounded (db0 : Store) (h0 : db0.step_executions = [])
    (ops : List StepOp) (st : StepRow) (hm : st ∈ (runStepOps db0 ops).step_executions) :
    st.attempts ≤ max st.max_attempts 1
      ∧ (1 ≤ st.max_attempts → st.attempts ≤ st.max_attempts) := by
  have hnd0 : db0.stepIdsNodup := by
    unfold Store.stepIdsNodup
    rw [h0]
    exact List.nodup_nil
  have hinv0 : ∀ k st, getStep db0 k = some st → st.withinBudget := by
    intro k st hk
    unfold getStep at hk
    rw [h0] at hk
    cases hk
  have hnd := stepIdsNodup_runStepOps ops db0 hnd0
  have hg := getStep_of_mem _ hnd st hm
  have hb := (withinBudget_runStepOps ops db0 hinv0 _ st hg).1
  refine ⟨hb, fun h1 => ?_⟩
  rwa [max_eq_left h1] at hb

theorem C3_attempts_bounded_witness :
    claimedOnceZeroBudget ∈
        (runStepOps runOnlyStore
          [StepOp.createStep "step-1" 101 "run-1" "build" 0 "developer" 0,
           StepOp.claimStep 102 "step-1" "agent-a"]).step_executions
    ∧ claimedOnceZeroBudget.attempts ≤ max claimedOnceZeroBudget.max_attempts 1
    ∧ (1 ≤ claimedOnceZeroBudget.max_attempts →
        claimedOnceZeroBudget.attempts ≤ claimedOnceZeroBudget.max_attempts) :=
  ⟨by decide,
    C3_attempts_bounded runOnlyStore rfl
      [StepOp.createStep "step-1" 101 "run-1" "build" 0 "developer" 0,
       StepOp.claimStep 102 "step-1" "agent-a"]
      claimedOnceZeroBudget (by decide)⟩

/-! ## The step state machine: claim -/

/-- C1: `claimStep(stepId, agentId)` returns true exactly when the step exists
with status `pending`; on success the step is afterwards `running`, assigned to
`agentId`, with `attempts` one more than before (and `started_at` set to the
call time, nothing else changed); every other step and every run is
unchanged. -/
theorem C1_claimStep_contract (db : Store) (now : Nat) (stepId agentId : String) :
    ((claimStep db now stepId agentId).1 = true
        ↔ ∃ st, getStep db stepId = some st ∧ st.status = "pending")
    ∧ ((claimStep db now stepId agentId).1 = true →
        ∃ st, getStep db stepId = some st
          ∧ getStep (claimStep db now stepId agentId).2 stepId
              = some { st with status := "running", assigned_agent := some agentId,
                               started_at := some now, attempts := st.attempts + 1 })
    ∧ (∀ k, k ≠ stepId → getStep (claimStep db now stepId agentId).2 k = getStep db k)
    ∧ (claimStep db now stepId agentId).2.step_executions.length = db.step_executions.length
    ∧ (claimStep db now stepId agentId).2.workflow_runs = db.workflow_runs := by
  refine ⟨claimStep_fst db now stepId agentId, ?_, ?_, (claimStep_frame db now stepId agentId).2.2.2,
    (claimStep_frame db now stepId agentId).1⟩
  · intro h
    obtain ⟨st, hg, _⟩ := (claimStep_fst db now stepId agentId).mp h
    refine ⟨st, hg, ?_⟩
    rw [getStep_claimStep, if_pos ⟨h, rfl⟩, hg]
    rfl
  · intro k hk
    rw [getStep_claimStep, if_neg (fun h => hk h.2)]

/-- C2: on a pending step, of two `claimStep` calls applied one after the
other (for any two session ids, hence in either order) the first returns true
and the second returns false and leaves the database unchanged; afterwards
`attempts` has grown by exactly one and `assigned_agent` is the first
caller. -/
theorem C2_claim_exclusive (db : Store) (now1 now2 : Nat) (stepId a b : String) (st : StepRow)
    (hg : getStep db stepId = some st) (hp : st.status = "pending") :
    (claimStep db now1 stepId a).1 = true
    ∧ (claimStep (claimStep db now1 stepId a).2 now2 stepId b).1 = false
    ∧ (claimStep (claimStep db now1 stepId a).2 now2 stepId b).2 = (claimStep db now1 stepId a).2
    ∧ ∃ st2, getStep (claimStep (claimStep db now1 stepId a).2 now2 stepId b).2 stepId = some st2
        ∧ st2.status = "running" ∧ st2.attempts = st.attempts + 1
        ∧ st2.assigned_agent = some a := by
  have h1 : (claimStep db now1 stepId a).1 = true := (claimStep_fst db now1 stepId a).mpr ⟨st, hg, hp⟩
  have hg1 : getStep (claimStep db now1 stepId a).2 stepId
      = some { st with status := "running", assigned_agent := some a,
                       started_at := some now1, attempts := st.attempts + 1 } := by
    rw [getStep_claimStep, if_pos ⟨h1, rfl⟩, hg]
    rfl
  have h2 : (claimStep (claimStep db now1 stepId a).2 now2 stepId b).1 = false := by
    cases hc : (claimStep (claimStep db now1 stepId a).2 now2 stepId b).1 with
    | false => rfl
    | true =>
      obtain ⟨st1, hs1, hp1⟩ := (claimStep_fst _ now2 stepId b).mp hc
      rw [hg1] at hs1
      cases hs1
      simp at hp1
  have h3 := claimStep_snd_of_false _ now2 stepId b h2
  rw [h3]
  exact ⟨h1, h2, rfl, _, hg1, rfl, rfl, rfl⟩

theorem C2_claim_exclusive_witness :
    getStep sampleStore "step-1" = some sampleStep ∧ sampleStep.status = "pending"
    ∧ (claimStep sampleStore 5 "step-1" "agent-a").1 = true
    ∧ (claimStep (claimStep sampleStore 5 "step-1" "agent-a").2 6 "step-1" "agent-b").1 = false :=
  ⟨by decide, by decide,
    (C2_claim_exclusive sampleStore 5 6 "step-1" "agent-a" "agent-b" sampleStep
      (by decide) (by decide)).1,
    (C2_claim_exclusive sampleStore 5 6 "step-1" "agent-a" "agent-b" sampleStep
      (by decide) (by decide)).2.1⟩

/-! ## The step state machine: fail, complete, escalate -/

/-- C4: on a running step `failStep(stepId, error, canRetry)` returns `retry`
exactly when `canRetry` holds and `attempts < max_attempts`, and the step is
then `pending` with the error recorded; in every other case it returns
`failed` and the step is `failed` with `completed_at` set and the error
recorded.  No other value is returned. -/
theorem C4_failStep_contract (db : Store) (now : Nat) (stepId error : String) (canRetry : Bool)
    (st : StepRow) (hg : getStep db stepId = some st) (_hrun : st.status = "running") :
    ∃ out db2, failStep db now stepId error canRetry = .ok (out, db2)
      ∧ (out = "retry" ∨ out = "failed")
      ∧ (out = "retry" ↔ (canRetry = true ∧ st.attempts < st.max_attempts))
      ∧ (out = "retry" →
          getStep db2 stepId = some { st with status := "pending", error := some error })
      ∧ (out = "failed" →
          getStep db2 stepId
            = some { st with status := "failed", completed_at := some now,
                             error := some error }) := by
  obtain ⟨db2, hf, _, _, _, _, hl⟩ := failStep_of_getStep db now stepId error canRetry st hg
  refine ⟨_, db2, hf, ?_, ?_, ?_, ?_⟩
  · by_cases h : canRetry = true ∧ st.attempts < st.max_attempts
    · exact Or.inl (if_pos h)
    · exact Or.inr (if_neg h)
  · by_cases h : canRetry = true ∧ st.attempts < st.max_attempts
    · rw [if_pos h]
      exact ⟨fun _ => h, fun _ => rfl⟩
    · rw [if_neg h]
      exact ⟨fun ho => absurd ho (by decide), fun hh => absurd hh h⟩
  · intro ho
    by_cases h : canRetry = true ∧ st.attempts < st.max_attempts
    · rw [hl, if_pos rfl, if_pos h]
    · rw [if_neg h] at ho
      exact absurd ho (by decide)
  · intro ho
    by_cases h : canRetry = true ∧ st.attempts < st.max_attempts
    · rw [if_pos h] at ho
      exact absurd ho (by decide)
    · rw [hl, if_pos rfl, if_neg h]

theorem C4_failStep_contract_witness :
    ∃ out db2, failStep runningStore 7 "step-1" "boom" true = .ok (out, db2)
      ∧ (out = "retry" ∨ out = "failed")
      ∧ (out = "retry" ↔ ((true = true) ∧ runningStep.attempts < runningStep.max_attempts))
      ∧ (out = "retry" →
          getStep db2 "step-1" = some { runningStep with status := "pending", error := some "boom" })
      ∧ (out = "failed" →
          getStep db2 "step-1"
            = some { runningStep with status := "failed", completed_at := some 7,
                                      error := some "boom" }) :=
  C4_failStep_contract runningStore 7 "step-1" "boom" true runningStep (by decide) (by decide)

/-- C5 (as stated, refuted): `failStep` on a completed step that has budget
left returns `retry` and puts the step back to `pending`, replacing its
error. -/
theorem C5_failStep_terminal_counterexample :
    getStep completedStore "step-1" = some completedStep
    ∧ completedStep.status = "completed"
    ∧ ∃ db2, failStep completedStore 9 "step-1" "late" true = .ok ("retry", db2)
        ∧ getStep db2 "step-1"
            = some { completedStep with status := "pending", error := some "late" }
        ∧ (getStep db2 "step-1").map (fun r => r.status) ≠ some completedStep.status := by
  refine ⟨by decide, by decide, _, rfl, by decide, by decide⟩

/-- C5 (amended): `failStep` does not look at the current status.  On a step
that is already `completed`, `failed` or `escalated` it returns `failed` and
writes status `failed`, `completed_at` and the new error when `canRetry` is
false or `attempts ≥ max_attempts` (so an already failed step keeps status
`failed`), and it returns `retry` and resets the step to `pending` with the
new error when `canRetry` holds and `attempts < max_attempts`; the other
columns of the step, every other step and the other tables are unchanged. -/
theorem C5_failStep_terminal (db : Store) (now : Nat) (stepId error : String)
    (canRetry : Bool) (st : StepRow) (hg : getStep db stepId = some st)
    (_hterm : st.status = "completed" ∨ st.status = "failed" ∨ st.status = "escalated") :
    ∃ db2,
      failStep db now stepId error canRetry
        = .ok (if canRetry = true ∧ st.attempts < st.max_attempts then "retry" else "failed", db2)
      ∧ (¬ (canRetry = true ∧ st.attempts < st.max_attempts) →
          getStep db2 stepId
            = some { st with status := "failed", completed_at := some now,
                             error := some error })
      ∧ (canRetry = true ∧ st.attempts < st.max_attempts →
          getStep db2 stepId = some { st with status := "pending", error := some error })
      ∧ (∀ k, k ≠ stepId → getStep db2 k = getStep db k)
      ∧ db2.workflow_runs = db.workflow_runs
      ∧ db2.agent_sessions = db.agent_sessions
      ∧ db2.verifications = db.verifications := by
  obtain ⟨db2, hf, h1, h2, h3, _, hl⟩ := failStep_of_getStep db now stepId error canRetry st hg
  refine ⟨db2, hf, ?_, ?_, ?_, h1, h2, h3⟩
  · intro h
    rw [hl, if_pos rfl, if_neg h]
  · intro h
    rw [hl, if_pos rfl, if_pos h]
  · intro k hk
    rw [hl, if_neg hk]

theorem C5_failStep_terminal_witness :
    ∃ db2,
      failStep completedStore 9 "step-1" "late" true
        = .ok (if (true = true) ∧ completedStep.attempts < completedStep.max_attempts
                then "retry" else "failed", db2)
      ∧ (¬ ((true = true) ∧ completedStep.attempts < completedStep.max_attempts) →
          getStep db2 "step-1"
            = some { completedStep with status := "failed", completed_at := some 9,
                                        error := some "late" })
      ∧ ((true = true) ∧ completedStep.attempts < completedStep.max_attempts →
          getStep db2 "step-1"
            = some { completedStep with status := "pending", error := some "late" })
      ∧ (∀ k, k ≠ "step-1" → getStep db2 k = getStep completedStore k)
      ∧ db2.workflow_runs = completedStore.workflow_runs
      ∧ db2.agent_sessions = completedStore.agent_sessions
      ∧ db2.verifications = completedStore.verifications :=
  C5_failStep_terminal completedStore 9 "step-1" "late" true completedStep (by decide)
    (Or.inl (by decide))

/-- C6: on a running step `completeStep(stepId, result)` leaves the step
`completed`, with `completed_at` set and `result` the serialised payload, and
changes no other column of that step, no other step and no other table. -/
theorem C6_completeStep_frame (db : Store) (now : Nat) (stepId : String) (result : Payload)
    (st : StepRow) (hg : getStep db stepId = some st) (_hrun : st.status = "running") :
    getStep (completeStep db now stepId result) stepId
        = some { st with status := "completed", completed_at := some now,
                         result := some (JSON_stringify result) }
    ∧ (∀ k, k ≠ stepId → getStep (completeStep db now stepId result) k = getStep db k)
    ∧ (completeStep db now stepId result).step_executions.length = db.step_executions.length
    ∧ (completeStep db now stepId result).workflow_runs = db.workflow_runs
    ∧ (completeStep db now stepId result).agent_sessions = db.agent_sessions
    ∧ (completeStep db now stepId result).verifications = db.verifications := by
  refine ⟨?_, ?_, ?_, rfl, rfl, rfl⟩
  · rw [getStep_completeStep, if_pos rfl, hg]
    rfl
  · intro k hk
    rw [getStep_completeStep, if_neg hk]
  · simp [completeStep, sqlUpdate]

theorem C6_completeStep_frame_witness :
    getStep (completeStep runningStore 6 "step-1" "r1") "step-1"
        = some { runningStep with status := "completed", completed_at := some 6,
                                  result := some (JSON_stringify "r1") }
    ∧ (∀ k, k ≠ "step-1" → getStep (completeStep runningStore 6 "step-1" "r1") k
          = getStep runningStore k)
    ∧ (completeStep runningStore 6 "step-1" "r1").step_executions.length
        = runningStore.step_executions.length
    ∧ (completeStep runningStore 6 "step-1" "r1").workflow_runs = runningStore.workflow_runs
    ∧ (completeStep runningStore 6 "step-1" "r1").agent_sessions = runningStore.agent_sessions
    ∧ (completeStep runningStore 6 "step-1" "r1").verifications = runningStore.verifications :=
  C6_completeStep_frame runningStore 6 "step-1" "r1" runningStep (by decide) (by decide)

/-- C7 (as stated, refuted): a second `completeStep` on a step that is already
completed replaces its result and its `completed_at`. -/
theorem C7_completeStep_repeat_counterexample :
    getStep completedStore "step-1" = some completedStep
    ∧ completedStep.status ≠ "running"
    ∧ completedStep.result = some "r1"
    ∧ getStep (completeStep completedStore 7 "step-1" "r2") "step-1"
        = some { completedStep with completed_at := some 7, result := some "r2" }
    ∧ (getStep (completeStep completedStore 7 "step-1" "r2") "step-1").map (fun r => r.result)
        ≠ some completedStep.result := by
  decide

/-- C7 (amended): the write of `completeStep` is keyed by the id alone.  On an
existing step whose status is not `running` it still sets status `completed`,
`completed_at` to the call time and `result` to the serialised payload; so
`completeStep(r2)` after `completeStep(r1)` leaves `result` equal to the
serialisation of `r2`. -/
theorem C7_completeStep_unconditional (db : Store) (now1 now2 : Nat) (stepId : String)
    (r1 r2 : Payload) (st : StepRow) (hg : getStep db stepId = some st)
    (_hnot : st.status ≠ "running") :
    getStep (completeStep db now1 stepId r1) stepId
        = some { st with status := "completed", completed_at := some now1,
                         result := some (JSON_stringify r1) }
    ∧ getStep (completeStep (completeStep db now1 stepId r1) now2 stepId r2) stepId
        = some { st with status := "completed", completed_at := some now2,
                         result := some (JSON_stringify r2) } := by
  have h1 : getStep (completeStep db now1 stepId r1) stepId
      = some { st with status := "completed", completed_at := some now1,
                       result := some (JSON_stringify r1) } := by
    rw [getStep_completeStep, if_pos rfl, hg]
    rfl
  refine ⟨h1, ?_⟩
  rw [getStep_completeStep, if_pos rfl, h1]
  rfl

theorem C7_completeStep_unconditional_witness :
    getStep (completeStep sampleStore 6 "step-1" "r1") "step-1"
        = some { sampleStep with status := "completed", completed_at := some 6,
                                 result := some (JSON_stringify "r1") }
    ∧ getStep (completeStep (completeStep sampleStore 6 "step-1" "r1") 7 "step-1" "r2") "step-1"
        = some { sampleStep with status := "completed", completed_at := some 7,
                                 result := some (JSON_stringify "r2") } :=
  C7_completeStep_unconditional sampleStore 6 7 "step-1" "r1" "r2" sampleStep (by decide)
    (by decide)

/-- C8: for an existing step `s` and a role `r`, `escalateStep(s, r)` (with a
generated id that is not yet a key) adds exactly one step and returns its id;
the new step has the `run_id`, `step_name`, `step_index` and `max_attempts` of
`s`, `agent_type` `r`, `escalated_from` `s`, status `pending` and `attempts`
0; `s` itself is afterwards `escalated`, and a later `claimStep` on `s`
returns false. -/
theorem C8_escalateStep_contract (db : Store) (newId : String) (now : Nat)
    (stepId newAgentType : String) (st : StepRow) (hg : getStep db stepId = some st)
    (hfresh : getStep db newId = none) (now2 : Nat) (agentId : String) :
    ∃ db2, escalateStep db newId now stepId newAgentType = .ok (newId, db2)
      ∧ db2.step_executions.length = db.step_executions.length + 1
      ∧ getStep db2 newId
          = some { id := newId, run_id := st.run_id, step_name := st.step_name,
                   step_index := st.step_index, agent_type := newAgentType,
                   status := "pending", assigned_agent := none, created_at := now,
                   started_at := none, completed_at := none, attempts := 0,
                   max_attempts := st.max_attempts, result := none, error := none,
                   escalated_from := some stepId }
      ∧ getStep db2 stepId = some { st with status := "escalated" }
      ∧ (∀ k, k ≠ newId → k ≠ stepId → getStep db2 k = getStep db k)
      ∧ (claimStep db2 now2 stepId agentId).1 = false
      ∧ db2.workflow_runs = db.workflow_runs := by
  have hne : stepId ≠ newId := by
    intro h
    rw [← h, hg] at hfresh
    exact Option.noConfusion hfresh
  obtain ⟨db2, he, h1, _, _, hlen, hl⟩ :=
    getStep_escalateStep db newId now stepId newAgentType st hg hfresh
  have hs : getStep db2 stepId = some { st with status := "escalated" } := by
    rw [hl, if_neg hne, if_pos rfl]
  refine ⟨db2, he, hlen, ?_, hs, ?_, ?_, h1⟩
  · rw [hl, if_pos rfl]
  · intro k hk1 hk2
    rw [hl, if_neg hk1, if_neg hk2]
  · cases hc : (claimStep db2 now2 stepId agentId).1 with
    | false => rfl
    | true =>
      obtain ⟨st1, hs1, hp1⟩ := (claimStep_fst db2 now2 stepId agentId).mp hc
      rw [hs] at hs1
      cases hs1
      simp at hp1

theorem C8_escalateStep_contract_witness :
    ∃ db2, escalateStep runningStore "step-2" 8 "step-1" "reviewer" = .ok ("step-2", db2)
      ∧ db2.step_executions.length = runningStore.step_executions.length + 1
      ∧ getStep db2 "step-2"
          = some { id := "step-2", run_id := runningStep.run_id,
                   step_name := runningStep.step_name,
                   step_index := runningStep.step_index, agent_type := "reviewer",
                   status := "pending", assigned_agent := none, created_at := 8,
                   started_at := none, completed_at := none, attempts := 0,
                   max_attempts := runningStep.max_attempts, result := none, error := none,
                   escalated_from := some "step-1" }
      ∧ getStep db2 "step-1" = some { runningStep with status := "escalated" }
      ∧ (∀ k, k ≠ "step-2" → k ≠ "step-1" → getStep db2 k = getStep runningStore k)
      ∧ (claimStep db2 9 "step-1" "agent-b").1 = false
      ∧ db2.workflow_runs = runningStore.workflow_runs :=
  C8_escalateStep_contract runningStore "step-2" 8 "step-1" "reviewer" runningStep
    (by decide) (by decide) 9 "agent-b"

/-! ## Runs -/

theorem completedAt_iff_apply (db : Store) (op : RunOp)
    (hinv : ∀ r ∈ db.workflow_runs, (r.completed_at.isSome = true ↔ r.terminal)) :
    ∀ r ∈ (RunOp.apply db op).workflow_runs, (r.completed_at.isSome = true ↔ r.terminal) := by
  intro r hr
  cases op with
  | createRun id now workflowName workflowPath useGit =>
    simp only [RunOp.apply, createRun] at hr
    by_cases hx : (getRun db id).isSome = true
    · simp only [hx, if_true] at hr
      exact hinv r hr
    · simp only [hx, Bool.false_eq_true, if_false, List.mem_append, List.mem_singleton] at hr
      rcases hr with h | h
      · exact hinv r h
      · subst h
        simp [RunRow.terminal]
  | updateRunStatus now runId status error =>
    simp only [RunOp.apply, updateRunStatus, sqlUpdate, List.mem_map] at hr
    obtain ⟨r0, hr0, he⟩ := hr
    by_cases hid : r0.id = runId
    · simp only [hid, beq_self_eq_true, if_true] at he
      subst he
      by_cases ht : status = "completed" ∨ status = "failed" ∨ status = "cancelled"
      · simp [RunRow.terminal, ht]
      · simp only [not_or] at ht
        simp [RunRow.terminal, ht]
    · have hb : (r0.id == runId) = false := by simpa using hid
      simp only [hb, Bool.false_eq_true, if_false] at he
      subst he
      exact hinv r0 hr0

/-- C10: in every database reached from a new one by any sequence of
`createRun` and `updateRunStatus` calls (with any status value, in particular
each of the five run statuses), every run has `completed_at` set if and only
if its status is `completed`, `failed` or `cancelled`. -/
theorem C10_completed_at_iff_terminal (ops : List RunOp) (r : RunRow)
    (hr : r ∈ (runRunOps Store.empty ops).workflow_runs) :
    r.completed_at.isSome = true
      ↔ (r.status = "completed" ∨ r.status = "failed" ∨ r.status = "cancelled") := by
  have key : ∀ (ops : List RunOp) (db : Store),
      (∀ r ∈ db.workflow_runs, (r.completed_at.isSome = true ↔ r.terminal)) →
      ∀ r ∈ (runRunOps db ops).workflow_runs, (r.completed_at.isSome = true ↔ r.terminal) := by
    intro ops
    induction ops with
    | nil => exact fun db h => h
    | cons op ops ih => exact fun db h => ih _ (completedAt_iff_apply db op h)
  exact key ops Store.empty (by intro r hr; cases hr) r hr

theorem C10_completed_at_iff_terminal_witness :
    (some 7 : Option Nat).isSome = true
      ↔ (("failed" : String) = "completed" ∨ ("failed" : String) = "failed"
          ∨ ("failed" : String) = "cancelled") :=
  C10_completed_at_iff_terminal
    [RunOp.createRun "run-1" 1 "demo" "demo.yaml" false,
     RunOp.updateRunStatus 2 "run-1" "running" none,
     RunOp.updateRunStatus 7 "run-1" "failed" (some "boom")]
    { id := "run-1", workflow_name := "demo", workflow_path := "demo.yaml", status := "failed",
      created_at := 1, updated_at := 7, completed_at := some 7, error := some "boom",
      use_git := 0, git_branch := none } (by decide)

/-! ## Escalation in `runWorkflow` -/

/-- C9 (the code at the failing input): for a one-step workflow with
`escalate_to: reviewer` whose collaborator raises on every call, `runWorkflow`
passes the escalated step `step-2` (whose `escalated_from` is `step-1`) to
`escalateStep` again; the database ends with `step-3` escalated from `step-2`,
which is itself escalated from `step-1`, and with `step-3` left `pending`. -/
theorem C9_second_hop_escalation :
    (runWorkflow raisingEnv (World.start Store.empty) "demo.yaml" escalatingWorkflow false).1
        = .ok { success := false, runId := "run-1",
                error := some "Escalated step \"build\" failed" }
    ∧ (getStep twoHopWorld.db "step-2").map (fun r => (r.status, r.escalated_from))
        = some ("escalated", some "step-1")
    ∧ (getStep twoHopWorld.db "step-3").map (fun r => (r.status, r.escalated_from))
        = some ("pending", some "step-2")
    ∧ Event.escalate "step-2" "reviewer" ∈ twoHopWorld.log :=
  ⟨rfl, by decide, by decide, by decide⟩

/-! ## Cancelling a run -/

/-- Lookup of any run after `updateRunStatus`. -/
theorem getRun_updateRunStatus (db : Store) (now : Nat) (runId status : String)
    (error : Option String) (k : String) :
    getRun (updateRunStatus db now runId status error) k
      = if k = runId then
          (getRun db k).map
            (fun r => { r with status := status, updated_at := now,
                               completed_at := if ["completed", "failed", "cancelled"].contains
                                 status then some now else none,
                               error := error })
        else getRun db k := by
  unfold updateRunStatus getRun
  simp only
  rw [find?_sqlUpdate (fun r : RunRow => r.id) _ _ _ _ (by intro r; rfl)]
  cases hf : List.find? (fun r : RunRow => r.id == k) db.workflow_runs with
  | none => simp
  | some r =>
    have hr : r.id = k := by simpa using List.find?_some hf
    by_cases hk : k = runId
    · simp [hk, hr ▸ hk]
    · simp [hk, hr]

/-- The other tables are not written by `updateRunStatus`. -/
theorem updateRunStatus_frame (db : Store) (now : Nat) (runId status : String)
    (error : Option String) :
    (updateRunStatus db now runId status error).step_executions = db.step_executions
    ∧ (updateRunStatus db now runId status error).agent_sessions = db.agent_sessions
    ∧ (updateRunStatus db now runId status error).verifications = db.verifications :=
  ⟨rfl, rfl, rfl⟩

/-- What `cancelRun` does, by the state of the run. -/
theorem cancelRun_cases (db : Store) (now : Nat) (runId : String) :
    (getRun db runId = none → ∃ msg, cancelRun db now runId = .error msg)
    ∧ (∀ r, getRun db runId = some r → (r.status = "completed" ∨ r.status = "failed") →
        ∃ msg, cancelRun db now runId = .error msg)
    ∧ (∀ r, getRun db runId = some r → ¬ (r.status = "completed" ∨ r.status = "failed") →
        cancelRun db now runId = .ok (updateRunStatus db now runId "cancelled" none)) := by
  refine ⟨?_, ?_, ?_⟩
  · intro h
    refine ⟨"Run not found: " ++ runId, ?_⟩
    simp only [cancelRun, h]
  · intro r h ht
    have hb : (r.status == "completed" || r.status == "failed") = true := by simpa using ht
    refine ⟨"Cannot cancel " ++ r.status ++ " run", ?_⟩
    simp only [cancelRun, h, hb, if_true]
  · intro r h ht
    have hb : (r.status == "completed" || r.status == "failed") = false := by
      simpa using ht
    simp only [cancelRun, h, hb, Bool.false_eq_true, if_false]

/-- C12 (the code at the failing input): `cancelRun` on a run that is already
`cancelled` does not raise; it writes the run again, replacing `completed_at`
and `updated_at` by the time of the second call. -/
theorem C12_cancel_cancelled_run :
    (getRun cancelledStore "run-1").map (fun r => (r.status, r.completed_at, r.updated_at))
        = some ("cancelled", some 5, 5)
    ∧ cancelRun cancelledStore 9 "run-1"
        = .ok (updateRunStatus cancelledStore 9 "run-1" "cancelled" none)
    ∧ (getRun (updateRunStatus cancelledStore 9 "run-1" "cancelled" none) "run-1").map
          (fun r => (r.status, r.completed_at, r.updated_at))
        = some ("cancelled", some 9, 9)
    ∧ updateRunStatus cancelledStore 9 "run-1" "cancelled" none ≠ cancelledStore :=
  ⟨by decide, rfl, by decide, by decide⟩

/-! ## The run table is not written while steps execute -/

theorem claimStep_runs (db : Store) (now : Nat) (stepId agentId : String) :
    (claimStep db now stepId agentId).2.workflow_runs = db.workflow_runs :=
  (claimStep_frame db now stepId agentId).1

theorem failStep_runs {db db2 : Store} {now : Nat} {stepId error : String} {canRetry : Bool}
    {out : String} (h : failStep db now stepId error canRetry = .ok (out, db2)) :
    db2.workflow_runs = db.workflow_runs := by
  unfold failStep at h
  split at h
  · split at h
    · cases h
    · cases h; rfl
  · split at h <;> (cases h; rfl)

theorem escalateStep_runs {db db2 : Store} {newId : String} {now : Nat}
    {stepId newAgentType out : String}
    (h : escalateStep db newId now stepId newAgentType = .ok (out, db2)) :
    db2.workflow_runs = db.workflow_runs := by
  unfold escalateStep at h
  split at h
  · cases h
  · split at h
    · cases h
    · cases h; rfl

theorem registerAgent_tables {db db2 : Store} {id : String} {now : Nat} {agentType out : String}
    (h : registerAgent db id now agentType = .ok (out, db2)) :
    out = id ∧ db2.workflow_runs = db.workflow_runs ∧ db2.step_executions = db.step_executions
      ∧ db2.verifications = db.verifications := by
  unfold registerAgent at h
  split at h
  · cases h
  · cases h; exact ⟨rfl, rfl, rfl, rfl⟩

theorem createVerification_tables {db db2 : Store} {id : String} {now : Nat}
    {stepId verifierAgent out : String}
    (h : createVerification db id now stepId verifierAgent = .ok (out, db2)) :
    out = id ∧ db2.workflow_runs = db.workflow_runs
      ∧ db2.step_executions = db.step_executions
      ∧ db2.agent_sessions = db.agent_sessions := by
  unfold createVerification at h
  split at h
  · cases h
  · split at h
    · cases h
    · cases h; exact ⟨rfl, rfl, rfl, rfl⟩

theorem verifyStep_tables {env : Env} {w w2 : World} {stepId : String} {step : WorkflowStep}
    {result : Payload} {r : Except String VerificationResult}
    (h : verifyStep env w stepId step result = (r, w2)) :
    w2.db.workflow_runs = w.db.workflow_runs
    ∧ w2.db.step_executions = w.db.step_executions := by
  unfold verifyStep at h
  simp only at h
  split at h
  · cases h; exact ⟨rfl, rfl⟩
  · split at h
    · cases h; exact ⟨rfl, rfl⟩
    · rename_i created hc
      have hc2 : createVerification w.db (env.newId w.ids) (env.now w.clock w.waits) stepId
          (step.verify_with.getD "undefined") = .ok (created.1, created.2) := hc
      have ht := createVerification_tables hc2
      split at h <;> (cases h; exact ⟨ht.2.1, ht.2.2.1⟩)

theorem executeStepTry_runs {env : Env} {w w2 : World} {stepId : String} {step : WorkflowStep}
    {r : Except String StepResult} (h : executeStepTry env w stepId step = (r, w2)) :
    w2.db.workflow_runs = w.db.workflow_runs := by
  unfold executeStepTry at h
  simp only at h
  split at h
  · cases h; rfl
  · split at h
    · split at h
      · rename_i hv
        cases h
        exact (verifyStep_tables hv).1
      · rename_i hv
        have hv' := (verifyStep_tables hv).1
        split at h
        · split at h
          · cases h; exact hv'
          · rename_i failed hf
            have hf2 := failStep_runs (show _ = Except.ok (failed.1, failed.2) from hf)
            split at h <;> (cases h; simp only; rw [hf2]; exact hv')
        · cases h; exact hv'
    · cases h; rfl

theorem executeStep_runs {env : Env} {w w2 : World} {stepId : String} {step : WorkflowStep}
    {r : Except String StepResult} (h : executeStep env w stepId step = (r, w2)) :
    w2.db.workflow_runs = w.db.workflow_runs := by
  unfold executeStep at h
  simp only at h
  split at h
  · cases h; rfl
  · split at h
    · cases h; rfl
    · rename_i registered hr
      have h1 := (registerAgent_tables (show _ = Except.ok (registered.1, registered.2) from hr)).2.1
      have h2 := claimStep_runs registered.2 (env.now (w.clock + 1) w.waits) stepId registered.1
      split at h
      · cases h
        simp only
        rw [h2, h1]
      · split at h
        · rename_i ht
          have h3 := executeStepTry_runs ht
          cases h
          simp only at h3
          rw [h3, h2, h1]
        · rename_i ht
          have h3 := executeStepTry_runs ht
          simp only at h3
          split at h
          · split at h
            · cases h
              simp only
              rw [h3, h2, h1]
            · rename_i escalated he
              have h4 := escalateStep_runs (show _ = Except.ok (escalated.1, escalated.2) from he)
              cases h
              simp only
              rw [h4, h3, h2, h1]
          · split at h
            · cases h
              simp only
              rw [h3, h2, h1]
            · rename_i failed hf
              have h4 := failStep_runs (show _ = Except.ok (failed.1, failed.2) from hf)
              cases h
              simp only
              rw [h4, h3, h2, h1]

theorem backoff_db (n : Nat) (w : World) : (backoff n w).db = w.db := by
  unfold backoff
  split <;> rfl

theorem retryLoop_runs (env : Env) (stepId : String) (step : WorkflowStep) (n : Nat) :
    ∀ (w w2 : World) (last : Option StepResult) (r : Except String (Option StepResult)),
      retryLoop env stepId step n w last = (r, w2) →
      w2.db.workflow_runs = w.db.workflow_runs := by
  induction n with
  | zero =>
    intro w w2 last r h
    unfold retryLoop at h
    cases h; rfl
  | succ n ih =>
    intro w w2 last r h
    unfold retryLoop at h
    split at h
    · rename_i he
      cases h
      exact executeStep_runs he
    · rename_i he
      have h1 := executeStep_runs he
      split at h
      · cases h; exact h1
      · split at h
        · cases h; exact h1
        · split at h
          · cases h; exact h1
          · rw [ih _ _ _ _ h, backoff_db]
            exact h1

theorem runOneStep_runs {env : Env} {w w2 : World} {stepId : String} {step : WorkflowStep}
    {r : Except String Unit} (h : runOneStep env w stepId step = (r, w2)) :
    w2.db.workflow_runs = w.db.workflow_runs := by
  unfold runOneStep executeStepWithRetry at h
  simp only at h
  split at h
  · rename_i he
    cases h
    exact retryLoop_runs _ _ _ _ _ _ _ _ he
  · rename_i he
    cases h
    exact retryLoop_runs _ _ _ _ _ _ _ _ he
  · rename_i he
    have h1 := retryLoop_runs _ _ _ _ _ _ _ _ he
    split at h
    · cases h; exact h1
    · split at h
      · cases h; exact h1
      · split at h
        · split at h
          · rename_i he2
            cases h
            rw [executeStep_runs he2, h1]
          · rename_i he2
            have h2 := executeStep_runs he2
            split at h <;> (cases h; rw [h2, h1])
        · cases h; exact h1

theorem runSteps_runs (env : Env) (l : List (String × WorkflowStep)) :
    ∀ (w w2 : World) (r : Except String Unit), runSteps env w l = (r, w2) →
      w2.db.workflow_runs = w.db.workflow_runs := by
  induction l with
  | nil =>
    intro w w2 r h
    unfold runSteps at h
    cases h; rfl
  | cons x l ih =>
    intro w w2 r h
    obtain ⟨stepId, step⟩ := x
    unfold runSteps at h
    split at h
    · rename_i he
      cases h
      exact runOneStep_runs he
    · rename_i he
      rw [ih _ _ _ h]
      exact runOneStep_runs he

theorem createStep_runs {db db2 : Store} {id : String} {now : Nat} {runId stepName : String}
    {stepIndex : Nat} {agentType : String} {maxAttempts : Int} {out : String}
    (h : createStep db id now runId stepName stepIndex agentType maxAttempts = .ok (out, db2)) :
    db2.workflow_runs = db.workflow_runs := by
  unfold createStep at h
  split at h
  · cases h
  · split at h
    · cases h
    · cases h; rfl

theorem createSteps_runs (env : Env) (runId : String) (l : List WorkflowStep) :
    ∀ (w w2 : World) (i : Nat) (r : Except String (List String)),
      createSteps env runId w i l = (r, w2) → w2.db.workflow_runs = w.db.workflow_runs := by
  induction l with
  | nil =>
    intro w w2 i r h
    unfold createSteps at h
    cases h; rfl
  | cons step l ih =>
    intro w w2 i r h
    unfold createSteps at h
    simp only at h
    split at h
    · cases h; rfl
    · rename_i created hc
      have h1 := createStep_runs (show _ = Except.ok (created.1, created.2) from hc)
      split at h
      · rename_i hr
        cases h
        rw [ih _ _ _ _ hr]
        exact h1
      · rename_i hr
        cases h
        rw [ih _ _ _ _ hr]
        exact h1

/-! ## The writes of `runWorkflow` to the run table -/

theorem getRun_congr {db db2 : Store} (h : db2.workflow_runs = db.workflow_runs) (k : String) :
    getRun db2 k = getRun db k := by
  unfold getRun
  rw [h]

theorem createRun_ok {db db1 : Store} {id : String} {now : Nat} {workflowName workflowPath : String}
    {useGit : Bool} {created : CreatedRun}
    (h : createRun db id now workflowName workflowPath useGit = .ok (created, db1)) :
    created.id = id ∧ getRun db id = none
    ∧ db1.step_executions = db.step_executions
    ∧ db1.agent_sessions = db.agent_sessions
    ∧ db1.verifications = db.verifications
    ∧ ∀ k, getRun db1 k
        = if k = id then
            some { id := id, workflow_name := workflowName, workflow_path := workflowPath,
                   status := "pending", created_at := now, updated_at := now,
                   completed_at := none, error := none,
                   use_git := if useGit then 1 else 0,
                   git_branch := if useGit then some ("soulflow/" ++ workflowName ++ "/" ++ id)
                                 else none }
          else getRun db k := by
  unfold createRun at h
  simp only at h
  cases hg : getRun db id with
  | some r => simp [hg] at h
  | none =>
    simp only [hg, Option.isSome_none, Bool.false_eq_true, if_false, Except.ok.injEq,
      Prod.mk.injEq] at h
    obtain ⟨h1, h2⟩ := h
    subst h1 h2
    refine ⟨rfl, rfl, rfl, rfl, rfl, ?_⟩
    intro k
    unfold getRun at hg ⊢
    simp only
    rw [find?_append_single (fun r : RunRow => r.id)]
    by_cases hk : k = id
    · subst hk
      simp [hg]
    · have hk2 : ¬ id = k := fun h => hk h.symm
      simp [hk, hk2]

theorem updateRunStatus_runs_congr {db db2 : Store} (h : db2.workflow_runs = db.workflow_runs)
    (now : Nat) (runId status : String) (error : Option String) :
    (updateRunStatus db2 now runId status error).workflow_runs
      = (updateRunStatus db now runId status error).workflow_runs := by
  unfold updateRunStatus
  simp only
  rw [h]

/-- The run table after a `runWorkflow` that returned: the run was inserted as
`pending`, written `running`, and written once more with the final status. -/
theorem runWorkflow_runs {env : Env} {w w2 : World} {workflowPath : String}
    {workflow : Workflow} {useGit : Bool} {res : RunResult}
    (h : runWorkflow env w workflowPath workflow useGit = (.ok res, w2)) :
    ∃ created db1 t1 t2 status error,
      createRun w.db (env.newId w.ids) (env.now w.clock w.waits) workflow.name workflowPath
          useGit = .ok (created, db1)
      ∧ res.runId = env.newId w.ids
      ∧ ((status = "completed" ∧ error = none ∧ res.success = true ∧ res.error = none)
          ∨ (status = "failed" ∧ error = res.error ∧ res.success = false
              ∧ res.error.isSome = true))
      ∧ w2.db.workflow_runs
          = (updateRunStatus (updateRunStatus db1 t1 res.runId "running" none) t2 res.runId
              status error).workflow_runs := by
  unfold runWorkflow at h
  simp only at h
  split at h
  · cases h
  · rename_i created hc
    have hc2 : createRun w.db (env.newId w.ids) (env.now w.clock w.waits) workflow.name
        workflowPath useGit = .ok (created.1, created.2) := hc
    have hid := (createRun_ok hc2).1
    split at h
    · cases h
    · rename_i stepIds w3 hs
      have h1 := createSteps_runs _ _ _ _ _ _ _ hs
      simp only at h1
      split at h
      · rename_i w4 hr
        have h2 := runSteps_runs _ _ _ _ _ hr
        simp only at h2
        cases h
        refine ⟨created.1, created.2, env.now w3.clock w3.waits, env.now w4.clock w4.waits,
          "completed", none, hc2, hid, Or.inl ⟨rfl, rfl, rfl, rfl⟩, ?_⟩
        exact updateRunStatus_runs_congr
          (h2.trans (updateRunStatus_runs_congr h1 _ _ _ _)) _ _ _ _
      · rename_i message w4 hr
        have h2 := runSteps_runs _ _ _ _ _ hr
        simp only at h2
        cases h
        refine ⟨created.1, created.2, env.now w3.clock w3.waits, env.now w4.clock w4.waits,
          "failed", some message, hc2, hid, Or.inr ⟨rfl, rfl, rfl, rfl⟩, ?_⟩
        exact updateRunStatus_runs_congr
          (h2.trans (updateRunStatus_runs_congr h1 _ _ _ _)) _ _ _ _

/-- C11 (as stated, refuted): `updateRunStatus(runId, 'completed')`, the final
write of `runWorkflow`, applied to a run that was cancelled in the meantime
replaces its status and its `completed_at`. -/
theorem C11_terminal_run_overwritten_counterexample :
    (getRun cancelledStore "run-1").map (fun r => (r.status, r.completed_at))
        = some ("cancelled", some 5)
    ∧ (getRun (updateRunStatus cancelledStore 9 "run-1" "completed" none) "run-1").map
          (fun r => (r.status, r.completed_at))
        = some ("completed", some 9) := by
  decide

/-- C11 (amended): the run table is written only through `updateRunStatus`,
which is keyed by the run id alone: on every existing run, terminal or not, it
replaces status, `completed_at` and error.  The order pending → running →
{completed, failed, cancelled} comes from the call sites: a `runWorkflow` call
that returns has inserted its run as new, written `running` and then exactly
one of `completed` and `failed`, so that its run ends terminal with
`completed_at` set and every other run is unchanged; and `cancelRun` raises on
a completed or failed run, which leaves the store as it was. -/
theorem C11_run_status_writes (env : Env) (w w2 : World) (workflowPath : String)
    (workflow : Workflow) (useGit : Bool) (res : RunResult)
    (h : runWorkflow env w workflowPath workflow useGit = (.ok res, w2)) :
    (getRun w.db res.runId = none
      ∧ (∃ r, getRun w2.db res.runId = some r
          ∧ ((r.status = "completed" ∧ res.success = true)
              ∨ (r.status = "failed" ∧ res.success = false ∧ r.error = res.error))
          ∧ r.completed_at.isSome = true)
      ∧ (∀ k, k ≠ res.runId → getRun w2.db k = getRun w.db k))
    ∧ (∀ (db : Store) (now : Nat) (runId : String) (r : RunRow),
        getRun db runId = some r → (r.status = "completed" ∨ r.status = "failed") →
        ∃ msg, cancelRun db now runId = .error msg)
    ∧ (∀ (db : Store) (now : Nat) (runId status : String) (error : Option String) (r : RunRow),
        getRun db runId = some r →
        getRun (updateRunStatus db now runId status error) runId
          = some { r with status := status, updated_at := now,
                          completed_at := if ["completed", "failed", "cancelled"].contains
                            status then some now else none,
                          error := error }) := by
  refine ⟨?_, ?_, ?_⟩
  · obtain ⟨created, db1, t1, t2, status, error, hc, hid, hst, hruns⟩ := runWorkflow_runs h
    obtain ⟨_, hnew, _, _, _, hl⟩ := createRun_ok hc
    have hg : ∀ k, getRun w2.db k
        = getRun (updateRunStatus (updateRunStatus db1 t1 res.runId "running" none) t2
            res.runId status error) k := fun k => getRun_congr hruns k
    refine ⟨hid ▸ hnew, ?_, ?_⟩
    · rw [hg, getRun_updateRunStatus, if_pos rfl, getRun_updateRunStatus, if_pos rfl, hl,
        if_pos hid]
      refine ⟨_, rfl, ?_, ?_⟩
      · rcases hst with ⟨h1, _, h3, _⟩ | ⟨h1, h2, h3, _⟩
        · exact Or.inl ⟨h1, h3⟩
        · exact Or.inr ⟨h1, h3, h2⟩
      · rcases hst with ⟨h1, _⟩ | ⟨h1, _⟩ <;> (subst h1; rfl)
    · intro k hk
      rw [hg, getRun_updateRunStatus, if_neg hk, getRun_updateRunStatus, if_neg hk, hl,
        if_neg (hid ▸ hk)]
  · intro db now runId r hg ht
    exact (cancelRun_cases db now runId).2.1 r hg ht
  · intro db now runId status error r hg
    rw [getRun_updateRunStatus, if_pos rfl, hg]
    rfl

theorem C11_run_status_writes_witness :
    (getRun (World.start Store.empty).db "run-1" = none
      ∧ (∃ r, getRun twoHopWorld.db "run-1" = some r
          ∧ ((r.status = "completed" ∧ false = true)
              ∨ (r.status = "failed" ∧ false = false
                  ∧ r.error = some "Escalated step \"build\" failed"))
          ∧ r.completed_at.isSome = true)
      ∧ (∀ k, k ≠ "run-1" → getRun twoHopWorld.db k = getRun (World.start Store.empty).db k))
    ∧ (∀ (db : Store) (now : Nat) (runId : String) (r : RunRow),
        getRun db runId = some r → (r.status = "completed" ∨ r.status = "failed") →
        ∃ msg, cancelRun db now runId = .error msg)
    ∧ (∀ (db : Store) (now : Nat) (runId status : String) (error : Option String) (r : RunRow),
        getRun db runId = some r →
        getRun (updateRunStatus db now runId status error) runId
          = some { r with status := status, updated_at := now,
                          completed_at := if ["completed", "failed", "cancelled"].contains
                            status then some now else none,
                          error := error }) :=
  C11_run_status_writes raisingEnv (World.start Store.empty) twoHopWorld "demo.yaml"
    escalatingWorkflow false
    { success := false, runId := "run-1", error := some "Escalated step \"build\" failed" } rfl

/-! ## The table operations on fresh identifiers and pending steps -/

theorem sqlUpdate_append {α : Type} (cond : α → Bool) (set : α → α) (rows more : List α) :
    sqlUpdate cond set (rows ++ more) = sqlUpdate cond set rows ++ sqlUpdate cond set more := by
  simp [sqlUpdate]

theorem sqlUpdate_sqlUpdate_id (k : String) (f1 f2 : StepRow → StepRow) (rows : List StepRow)
    (hf1 : ∀ r, (f1 r).id = r.id) :
    sqlUpdate (fun r => r.id == k) f2 (sqlUpdate (fun r => r.id == k) f1 rows)
      = sqlUpdate (fun r => r.id == k) (fun r => f2 (f1 r)) rows := by
  unfold sqlUpdate
  rw [List.map_map]
  apply List.map_congr_left
  intro r _
  by_cases h : r.id = k
  · simp [h, hf1]
  · simp [h]

theorem sqlUpdate_of_forall_ne {α : Type} (cond : α → Bool) (set : α → α) (rows : List α)
    (h : ∀ r ∈ rows, cond r = false) : sqlUpdate cond set rows = rows := by
  unfold sqlUpdate
  conv_rhs => rw [← List.map_id rows]
  apply List.map_congr_left
  intro r hr
  simp [h r hr]

theorem eq_of_getStep_of_mem (db : Store) (hnd : db.stepIdsNodup) {k : String} {st r : StepRow}
    (hg : getStep db k = some st) (hr : r ∈ db.step_executions) (hk : r.id = k) : r = st := by
  have h := getStep_of_mem db hnd r hr
  rw [hk, hg] at h
  exact (Option.some.inj h).symm

theorem registerAgent_fresh (db : Store) (id : String) (now : Nat) (agentType : String)
    (h : ∀ r ∈ db.agent_sessions, r.id ≠ id) :
    registerAgent db id now agentType
      = .ok (id, db.withAgents (db.agent_sessions ++ [agentRow id agentType now])) := by
  unfold registerAgent
  have hn : db.agent_sessions.find? (fun r => r.id == id) = none := by
    rw [List.find?_eq_none]
    intro r hr
    simpa using h r hr
  simp [hn, Store.withAgents, agentRow]

theorem claimStep_pending (db : Store) (hnd : db.stepIdsNodup) (now : Nat)
    (stepId agentId : String) (st : StepRow) (hg : getStep db stepId = some st)
    (hp : st.status = "pending") :
    claimStep db now stepId agentId
      = (true, db.withSteps
          (sqlUpdate (fun r => r.id == stepId) (fun r => r.claimed agentId now)
            db.step_executions)) := by
  have hpos : 0 < sqlChanges (fun r : StepRow => r.id == stepId && r.status == "pending")
      db.step_executions :=
    sqlChanges_pos_of_find? _ _ _ st hg (by simp [getStep_id hg, hp])
  have hrows : sqlUpdate (fun r : StepRow => r.id == stepId && r.status == "pending")
      (fun r => { r with status := "running", assigned_agent := some agentId,
                         started_at := some now, attempts := r.attempts + 1 })
      db.step_executions
      = sqlUpdate (fun r => r.id == stepId) (fun r => r.claimed agentId now)
          db.step_executions := by
    unfold sqlUpdate
    apply List.map_congr_left
    intro r hr
    by_cases hk : r.id = stepId
    · have := eq_of_getStep_of_mem db hnd hg hr hk
      subst this
      simp [hk, hp, StepRow.claimed]
    · simp [hk]
  unfold claimStep
  simp only [hg, hp, bne_self_eq_false, Bool.false_eq_true, if_false, gt_iff_lt, hpos,
    decide_True, hrows, Store.withSteps]

theorem failStep_existing (db : Store) (now : Nat) (stepId error : String) (canRetry : Bool)
    (st : StepRow) (hg : getStep db stepId = some st) :
    failStep db now stepId error canRetry
      = .ok (if canRetry = true ∧ st.attempts < st.max_attempts then "retry" else "failed",
          db.withSteps
            (sqlUpdate (fun r => r.id == stepId)
              (fun r => if canRetry = true ∧ st.attempts < st.max_attempts
                then r.retried error else r.failedAt now error)
              db.step_executions)) := by
  unfold failStep
  rw [hg]
  by_cases h : canRetry = true ∧ st.attempts < st.max_attempts
  · have h2 : (canRetry && decide (st.attempts < st.max_attempts)) = true := by simpa using h
    simp only [h2, h, if_true, and_self]
    rfl
  · have h2 : ¬ (canRetry && decide (st.attempts < st.max_attempts)) = true := by simpa using h
    simp only [h2, h, if_false]
    rfl

theorem escalateStep_fresh (db : Store) (newId : String) (now : Nat)
    (stepId newAgentType : String) (st : StepRow) (hg : getStep db stepId = some st)
    (hfresh : ∀ r ∈ db.step_executions, r.id ≠ newId) :
    escalateStep db newId now stepId newAgentType
      = .ok (newId, db.withSteps
          (sqlUpdate (fun r => r.id == stepId) (fun r => r.escalated) db.step_executions
            ++ [st.successor newId now stepId newAgentType])) := by
  have hn : getStep db newId = none := by
    unfold getStep
    rw [List.find?_eq_none]
    intro r hr
    simpa using hfresh r hr
  have hne : newId ≠ stepId := by
    intro h
    rw [h, hg] at hn
    exact Option.noConfusion hn
  unfold escalateStep
  simp only [hg, hn, Option.isSome_none, Bool.false_eq_true, if_false]
  rw [sqlUpdate_append]
  have : sqlUpdate (fun r : StepRow => r.id == stepId) (fun r => { r with status := "escalated" })
      [{ id := newId, run_id := st.run_id, step_name := st.step_name,
         step_index := st.step_index, agent_type := newAgentType, status := "pending",
         assigned_agent := none, created_at := now, started_at := none,
         completed_at := none, attempts := 0, max_attempts := st.max_attempts,
         result := none, error := none, escalated_from := some stepId }]
      = [st.successor newId now stepId newAgentType] := by
    simp [sqlUpdate, hne, StepRow.successor]
  rw [this]
  rfl

theorem createVerification_fresh (db : Store) (id : String) (now : Nat)
    (stepId verifierAgent : String) (h : ∀ r ∈ db.verifications, r.id ≠ id)
    (hstep : (getStep db stepId).isSome = true) :
    createVerification db id now stepId verifierAgent
      = .ok (id, db.withVerifications (db.verifications ++
          [{ id := id, step_id := stepId, verifier_agent := verifierAgent, status := "pending",
             result := none, created_at := now, completed_at := none }])) := by
  unfold createVerification
  have hn : db.verifications.find? (fun r => r.id == id) = none := by
    rw [List.find?_eq_none]
    intro r hr
    simpa using h r hr
  have hs : (getStep db stepId).isNone = false := by
    cases hg : getStep db stepId with
    | none => rw [hg] at hstep; cases hstep
    | some _ => rfl
  simp [hn, hs, Store.withVerifications]

/-- `verifyStep` for a known verifier role and a fresh verification id. -/
theorem verifyStep_known (env : Env) (w : World) (stepId : String) (step : WorkflowStep)
    (result : Payload)
    (hk : hasAgentDefinition (step.verify_with.getD "undefined") = true)
    (hfresh : ∀ r ∈ w.db.verifications, r.id ≠ env.newId w.ids)
    (hstep : (getStep w.db stepId).isSome = true) :
    verifyStep env w stepId step result
      = (.ok { passed := (env.verify w.verifyCalls (step.verify_with.getD "undefined")
                  result).passed,
               reason := (env.verify w.verifyCalls (step.verify_with.getD "undefined")
                  result).reason },
          { w with db := w.db.withVerifications (w.db.verifications ++
                     [verificationRow env w stepId (step.verify_with.getD "undefined")
                       (env.verify w.verifyCalls (step.verify_with.getD "undefined") result)]),
                   ids := w.ids + 1, clock := w.clock + 2, verifyCalls := w.verifyCalls + 1,
                   log := w.log ++ [Event.verify stepId (step.verify_with.getD "undefined")] }) := by
  unfold verifyStep
  simp only [hk, Bool.not_true, Bool.false_eq_true, if_false]
  rw [createVerification_fresh _ _ _ _ _ hfresh hstep]
  simp only
  have hupd : ∀ (passed : Bool) (detail : Payload),
      completeVerification
        (w.db.withVerifications (w.db.verifications ++
            [{ id := env.newId w.ids, step_id := stepId,
               verifier_agent := step.verify_with.getD "undefined", status := "pending",
               result := none, created_at := env.now w.clock w.waits,
               completed_at := none }]))
        (env.now (w.clock + 1) w.waits) (env.newId w.ids) passed detail
      = w.db.withVerifications (w.db.verifications ++
            [{ id := env.newId w.ids, step_id := stepId,
               verifier_agent := step.verify_with.getD "undefined",
               status := if passed then "passed" else "failed",
               result := some (JSON_stringify detail),
               created_at := env.now w.clock w.waits,
               completed_at := some (env.now (w.clock + 1) w.waits) }]) := by
    intro passed detail
    unfold completeVerification Store.withVerifications
    simp only
    rw [sqlUpdate_append, sqlUpdate_of_forall_ne _ _ w.db.verifications
      (by intro r hr; simpa using hfresh r hr)]
    simp [sqlUpdate]
  cases ho : env.verify w.verifyCalls (step.verify_with.getD "undefined") result with
  | verdict passed detail =>
    simp only [hupd, VerifyOutcome.passed, VerifyOutcome.reason, verificationRow,
      VerifyOutcome.detail]
  | raise message =>
    simp only [hupd, VerifyOutcome.passed, VerifyOutcome.reason, verificationRow,
      VerifyOutcome.detail, Bool.false_eq_true, if_false]

/-! ## The `try` block of `executeStep`, by the outcomes of the collaborators -/

theorem executeStepTry_raise (env : Env) (w : World) (stepId : String) (step : WorkflowStep)
    (m : String) (ho : env.runAgent w.agentCalls step.agent step.task = .raise m) :
    executeStepTry env w stepId step
      = (.error m, { w with agentCalls := w.agentCalls + 1,
                            log := w.log ++ [Event.agent stepId step.agent step.task] }) := by
  unfold executeStepTry
  simp only [ho]

theorem executeStepTry_unknownVerifier (env : Env) (w : World) (stepId : String)
    (step : WorkflowStep) (p : Payload)
    (ho : env.runAgent w.agentCalls step.agent step.task = .success p)
    (hv : truthy step.verify_with = true)
    (hk : hasAgentDefinition (step.verify_with.getD "undefined") = false) :
    executeStepTry env w stepId step
      = (.error ("Unknown verifier agent type: " ++ step.verify_with.getD "undefined"),
          { w with agentCalls := w.agentCalls + 1,
                   log := w.log ++ [Event.agent stepId step.agent step.task] }) := by
  unfold executeStepTry
  simp only [ho, hv, if_true]
  unfold verifyStep
  simp only [hk, Bool.not_false, if_true]

theorem executeStepTry_plain (env : Env) (w : World) (stepId : String) (step : WorkflowStep)
    (p : Payload) (ho : env.runAgent w.agentCalls step.agent step.task = .success p)
    (hv : truthy step.verify_with = false) :
    executeStepTry env w stepId step
      = (.ok { status := "completed", result := some p, reason := none, error := none,
               newStepId := none },
          { w with db := completeStep w.db (env.now w.clock w.waits) stepId p,
                   clock := w.clock + 1, agentCalls := w.agentCalls + 1,
                   log := w.log ++ [Event.agent stepId step.agent step.task] }) := by
  unfold executeStepTry
  simp only [ho, hv, Bool.false_eq_true, if_false]

theorem executeStepTry_passed (env : Env) (w : World) (stepId : String) (step : WorkflowStep)
    (p : Payload) (ho : env.runAgent w.agentCalls step.agent step.task = .success p)
    (hv : truthy step.verify_with = true)
    (hk : hasAgentDefinition (step.verify_with.getD "undefined") = true)
    (hfresh : ∀ r ∈ w.db.verifications, r.id ≠ env.newId w.ids)
    (hstep : (getStep w.db stepId).isSome = true)
    (hpass : (env.verify w.verifyCalls (step.verify_with.getD "undefined") p).passed = true) :
    executeStepTry env w stepId step
      = (.ok { status := "completed", result := some p, reason := none, error := none,
               newStepId := none },
          { w with db := completeStep
                     (w.db.withVerifications (w.db.verifications ++
                       [verificationRow env
                         { w with agentCalls := w.agentCalls + 1,
                                  log := w.log ++ [Event.agent stepId step.agent step.task] }
                         stepId (step.verify_with.getD "undefined")
                         (env.verify w.verifyCalls (step.verify_with.getD "undefined") p)]))
                     (env.now (w.clock + 2) w.waits) stepId p,
                   ids := w.ids + 1, clock := w.clock + 3, agentCalls := w.agentCalls + 1,
                   verifyCalls := w.verifyCalls + 1,
                   log := w.log ++ [Event.agent stepId step.agent step.task]
                          ++ [Event.verify stepId (step.verify_with.getD "undefined")] }) := by
  unfold executeStepTry
  simp only [ho, hv, if_true]
  rw [verifyStep_known env
    { w with agentCalls := w.agentCalls + 1,
             log := w.log ++ [Event.agent stepId step.agent step.task] } stepId step p hk hfresh
    hstep]
  simp only [hpass, Bool.not_true, Bool.false_eq_true, if_false]

theorem executeStepTry_rejected (env : Env) (w : World) (stepId : String) (step : WorkflowStep)
    (p : Payload) (st : StepRow) (hg : getStep w.db stepId = some st)
    (ho : env.runAgent w.agentCalls step.agent step.task = .success p)
    (hv : truthy step.verify_with = true)
    (hk : hasAgentDefinition (step.verify_with.getD "undefined") = true)
    (hfresh : ∀ r ∈ w.db.verifications, r.id ≠ env.newId w.ids)
    (hpass : (env.verify w.verifyCalls (step.verify_with.getD "undefined") p).passed = false) :
    executeStepTry env w stepId step
      = (.ok { status := if st.attempts < st.max_attempts then "retry" else "failed",
               result := none,
               reason := some (env.verify w.verifyCalls (step.verify_with.getD "undefined")
                 p).reason,
               error := none, newStepId := none },
          { w with db := (w.db.withVerifications (w.db.verifications ++
                       [verificationRow env
                         { w with agentCalls := w.agentCalls + 1,
                                  log := w.log ++ [Event.agent stepId step.agent step.task] }
                         stepId (step.verify_with.getD "undefined")
                         (env.verify w.verifyCalls (step.verify_with.getD "undefined")
                           p)])).withSteps
                     (sqlUpdate (fun r => r.id == stepId)
                       (fun r => if st.attempts < st.max_attempts
                         then r.retried ("Verification failed: "
                           ++ (env.verify w.verifyCalls (step.verify_with.getD "undefined")
                                p).reason)
                         else r.failedAt (env.now (w.clock + 2) w.waits)
                           ("Verification failed: "
                             ++ (env.verify w.verifyCalls (step.verify_with.getD "undefined")
                                  p).reason))
                       w.db.step_executions),
                   ids := w.ids + 1, clock := w.clock + 3, agentCalls := w.agentCalls + 1,
                   verifyCalls := w.verifyCalls + 1,
                   log := w.log ++ [Event.agent stepId step.agent step.task]
                          ++ [Event.verify stepId (step.verify_with.getD "undefined")] }) := by
  unfold executeStepTry
  simp only [ho, hv, if_true]
  rw [verifyStep_known env
    { w with agentCalls := w.agentCalls + 1,
             log := w.log ++ [Event.agent stepId step.agent step.task] } stepId step p hk hfresh
    (by rw [show getStep _ stepId = some st from hg]; rfl)]
  simp only [hpass, Bool.not_false, if_true]
  have hg2 : getStep (w.db.withVerifications (w.db.verifications ++
      [verificationRow env
        { w with agentCalls := w.agentCalls + 1,
                 log := w.log ++ [Event.agent stepId step.agent step.task] }
        stepId (step.verify_with.getD "undefined")
        (env.verify w.verifyCalls (step.verify_with.getD "undefined") p)])) stepId
      = some st := hg
  rw [failStep_existing _ _ _ _ _ st hg2]
  by_cases hb : st.attempts < st.max_attempts
  · simp [hb, Store.withSteps, Store.withVerifications]
  · simp [hb, Store.withSteps, Store.withVerifications]

/-! ## `executeStep` on a pending step -/

theorem fresh_agents {env : Env} {w : World} (hF : Fresh env w) (n : Nat) (hn : w.ids ≤ n) :
    ∀ r ∈ w.db.agent_sessions, r.id ≠ env.newId n := by
  intro r hr he
  exact hF.2 n hn (Or.inr (Or.inr (Or.inl ⟨r, hr, he⟩)))

theorem fresh_verifications {env : Env} {w : World} (hF : Fresh env w) (n : Nat)
    (hn : w.ids ≤ n) :
    ∀ r ∈ w.db.verifications, r.id ≠ env.newId n ∧ r.step_id ≠ env.newId n := by
  intro r hr
  exact ⟨fun he => hF.2 n hn (Or.inr (Or.inr (Or.inr ⟨r, hr, Or.inl he⟩))),
    fun he => hF.2 n hn (Or.inr (Or.inr (Or.inr ⟨r, hr, Or.inr he⟩)))⟩

theorem fresh_steps {env : Env} {w : World} (hF : Fresh env w) (n : Nat) (hn : w.ids ≤ n) :
    ∀ r ∈ w.db.step_executions,
      r.id ≠ env.newId n ∧ r.run_id ≠ env.newId n ∧ r.escalated_from ≠ some (env.newId n) := by
  intro r hr
  exact ⟨fun he => hF.2 n hn (Or.inr (Or.inl ⟨r, hr, Or.inl he⟩)),
    fun he => hF.2 n hn (Or.inr (Or.inl ⟨r, hr, Or.inr (Or.inl he)⟩)),
    fun he => hF.2 n hn (Or.inr (Or.inl ⟨r, hr, Or.inr (Or.inr he)⟩))⟩

theorem fresh_runs {env : Env} {w : World} (hF : Fresh env w) (n : Nat) (hn : w.ids ≤ n) :
    ∀ r ∈ w.db.workflow_runs, r.id ≠ env.newId n := by
  intro r hr he
  exact hF.2 n hn (Or.inl ⟨r, hr, he⟩)

/-- `executeStep` on a pending step of a known role gets past the claim. -/
theorem executeStep_eq_afterClaim (env : Env) (w : World) (stepId : String)
    (step : WorkflowStep) (st : StepRow) (hF : Fresh env w) (hnd : w.db.stepIdsNodup)
    (hg : getStep w.db stepId = some st) (hp : st.status = "pending")
    (hk : hasAgentDefinition step.agent = true) :
    executeStep env w stepId step
      = afterClaim env (claimedWorld env w stepId step.agent) stepId step := by
  unfold executeStep
  simp only [hk, Bool.not_true, Bool.false_eq_true, if_false]
  rw [registerAgent_fresh _ _ _ _ (fresh_agents hF w.ids (le_refl _))]
  simp only
  have hg2 : getStep (w.db.withAgents (w.db.agent_sessions ++
      [agentRow (env.newId w.ids) step.agent (env.now w.clock w.waits)])) stepId = some st := hg
  rw [claimStep_pending (w.db.withAgents (w.db.agent_sessions ++
      [agentRow (env.newId w.ids) step.agent (env.now w.clock w.waits)])) hnd _ _ _ st hg2 hp]
  simp only [Bool.not_true, Bool.false_eq_true, if_false]
  rfl

theorem getStep_claimedWorld (env : Env) (w : World) (stepId agentType : String) (st : StepRow)
    (hg : getStep w.db stepId = some st) :
    getStep (claimedWorld env w stepId agentType).db stepId
      = some (st.claimed (env.newId w.ids) (env.now (w.clock + 1) w.waits)) := by
  unfold claimedWorld getStep Store.withSteps
  simp only
  rw [find?_sqlUpdate_id _ stepId stepId _ (by intro r; rfl), if_pos rfl]
  unfold getStep at hg
  rw [hg]
  rfl

theorem fresh_claimedWorld_steps {env : Env} {w : World} (hF : Fresh env w)
    (stepId agentType : String) :
    ∀ r ∈ (claimedWorld env w stepId agentType).db.step_executions,
      r.id ≠ env.newId (claimedWorld env w stepId agentType).ids := by
  intro r hr
  have hr2 : r ∈ sqlUpdate (fun r => r.id == stepId)
      (fun r => r.claimed (env.newId w.ids) (env.now (w.clock + 1) w.waits))
      w.db.step_executions := hr
  unfold sqlUpdate at hr2
  rw [List.mem_map] at hr2
  obtain ⟨r0, hr0, he⟩ := hr2
  have h0 := (fresh_steps hF (w.ids + 1) (Nat.le_succ _) r0 hr0).1
  have hid : r.id = r0.id := by
    rw [← he]
    split <;> rfl
  rw [hid]
  exact h0

/-- The `catch` block of `executeStep` after an exception with message `m`
from the `try` block. -/
theorem afterClaim_raised (env : Env) (w : World) (stepId : String) (step : WorkflowStep)
    (st : StepRow) (hF : Fresh env w) (hg : getStep w.db stepId = some st) (m : String)
    (hr : TryRaised env w step m)
    (ht : executeStepTry env (claimedWorld env w stepId step.agent) stepId step
      = (.error m,
          { claimedWorld env w stepId step.agent with
              agentCalls := (claimedWorld env w stepId step.agent).agentCalls + 1,
              log := (claimedWorld env w stepId step.agent).log
                ++ [Event.agent stepId step.agent step.task] })) :
    ExecOutcome env w stepId step st
      (afterClaim env (claimedWorld env w stepId step.agent) stepId step).1
      (afterClaim env (claimedWorld env w stepId step.agent) stepId step).2 := by
  have hga := getStep_claimedWorld env w stepId step.agent st hg
  have hfs := fresh_claimedWorld_steps hF stepId step.agent
  unfold afterClaim
  rw [ht]
  simp only
  by_cases he : truthy step.escalate_to = true
  · simp only [he, if_true]
    rw [escalateStep_fresh _ _ _ _ _ _ hga hfs]
    simp only
    refine ExecOutcome.escalated _ m
      (fun r => (r.claimed (env.newId w.ids) (env.now (w.clock + 1) w.waits)).escalated)
      (env.now (w.clock + 2) w.waits) ?_ he hr (fun r => ⟨rfl, rfl, rfl⟩)
    refine ⟨rfl, ?_, ⟨_, rfl, rfl⟩, (List.append_nil _).symm, fun r => ⟨⟨rfl, rfl, rfl, rfl,
      rfl, rfl, rfl, rfl⟩, rfl⟩, rfl, ?_, rfl, rfl, rfl, ?_, ?_⟩
    · show sqlUpdate _ _ (sqlUpdate _ _ _) ++ _ = _
      rw [sqlUpdate_sqlUpdate_id _ _ _ _ (by intro r; rfl)]
      rfl
    · show w.clock ≤ w.clock + 2 + 1
      omega
    · simp [claimedWorld, StepRow.successor]
    · intro v hv
      cases hv
  · have he2 : truthy step.escalate_to = false := by simpa using he
    simp only [he2, Bool.false_eq_true, if_false]
    rw [failStep_existing (claimedWorld env w stepId step.agent).db _ stepId m _ _ hga]
    simp only
    refine ExecOutcome.failStepped _ _
      (fun r => if (step.retry != some 0) = true ∧ st.attempts + 1 < st.max_attempts
        then (r.claimed (env.newId w.ids) (env.now (w.clock + 1) w.waits)).retried m
        else (r.claimed (env.newId w.ids) (env.now (w.clock + 1) w.waits)).failedAt
          (env.now (w.clock + 2) w.waits) m)
      [] (step.retry != some 0) m ?_ (Or.inl ⟨he2, hr, rfl, rfl, rfl, rfl⟩)
      ⟨rfl, rfl⟩ ?_ ?_ ?_
    · refine ⟨rfl, ?_, ⟨_, rfl, rfl⟩, (List.append_nil _).symm, ?_, rfl,
        ?_, rfl, rfl, rfl, ?_, ?_⟩
      · show sqlUpdate _ _ (sqlUpdate _ _ _) = _ ++ []
        rw [sqlUpdate_sqlUpdate_id _ _ _ _ (by intro r; rfl), List.append_nil]
        rfl
      · intro r
        split <;> exact ⟨⟨rfl, rfl, rfl, rfl, rfl, rfl, rfl, rfl⟩, rfl⟩
      · show w.clock ≤ w.clock + 2 + 1
        omega
      · simp [claimedWorld]
      · intro v hv
        cases hv
    · intro hc
      have hc2 : (step.retry != some 0) = true
          ∧ (st.claimed (env.newId w.ids) (env.now (w.clock + 1) w.waits)).attempts
            < (st.claimed (env.newId w.ids) (env.now (w.clock + 1) w.waits)).max_attempts := hc
      refine ⟨if_pos hc2, fun r => ?_⟩
      simp only [if_pos hc]
      rfl
    · intro hc
      have hc2 : ¬ ((step.retry != some 0) = true
          ∧ (st.claimed (env.newId w.ids) (env.now (w.clock + 1) w.waits)).attempts
            < (st.claimed (env.newId w.ids) (env.now (w.clock + 1) w.waits)).max_attempts) := hc
      refine ⟨if_neg hc2, fun r => ?_⟩
      simp only [if_neg hc]
      rfl
    · intro r
      split <;> exact ⟨rfl, rfl⟩

/-- The cases of `executeStep` on a pending step. -/
theorem executeStep_outcome (env : Env) (w : World) (stepId : String) (step : WorkflowStep)
    (st : StepRow) (hF : Fresh env w) (hnd : w.db.stepIdsNodup)
    (hg : getStep w.db stepId = some st) (hp : st.status = "pending") :
    ExecOutcome env w stepId step st (executeStep env w stepId step).1
      (executeStep env w stepId step).2 := by
  by_cases hk : hasAgentDefinition step.agent = true
  swap
  · have hk2 : hasAgentDefinition step.agent = false := by simpa using hk
    have : executeStep env w stepId step = (.error ("Unknown agent type: " ++ step.agent), w) := by
      unfold executeStep
      simp only [hk2, Bool.not_false, if_true]
    rw [this]
    exact ExecOutcome.unknownAgent hk2
  rw [executeStep_eq_afterClaim env w stepId step st hF hnd hg hp hk]
  have hga := getStep_claimedWorld env w stepId step.agent st hg
  have hfv : ∀ r ∈ (claimedWorld env w stepId step.agent).db.verifications,
      r.id ≠ env.newId (claimedWorld env w stepId step.agent).ids :=
    fun r hr => (fresh_verifications hF (w.ids + 1) (Nat.le_succ _) r hr).1
  cases ho : env.runAgent w.agentCalls step.agent step.task with
  | raise m =>
    exact afterClaim_raised env w stepId step st hF hg m (Or.inl ho)
      (executeStepTry_raise env (claimedWorld env w stepId step.agent) stepId step m ho)
  | success p =>
    by_cases hv : truthy step.verify_with = true
    swap
    · have hv2 : truthy step.verify_with = false := by simpa using hv
      unfold afterClaim
      rw [executeStepTry_plain env (claimedWorld env w stepId step.agent) stepId step p ho hv2]
      simp only
      refine ExecOutcome.completed _ p
        (fun r => (r.claimed (env.newId w.ids) (env.now (w.clock + 1) w.waits)).completed
          (env.now (w.clock + 2) w.waits) p)
        [] ?_ ⟨ho, fun h => absurd h hv⟩ (fun r => ⟨rfl, rfl, rfl⟩)
        (fun h => absurd h hv) (fun _ => rfl)
      refine ⟨rfl, ?_, ⟨_, rfl, rfl⟩, (List.append_nil _).symm, fun r => ⟨⟨rfl, rfl, rfl, rfl,
        rfl, rfl, rfl, rfl⟩, rfl⟩, rfl, ?_, rfl, rfl, rfl, ?_, ?_⟩
      · show sqlUpdate _ _ (sqlUpdate _ _ _) = _ ++ []
        rw [sqlUpdate_sqlUpdate_id _ _ _ _ (by intro r; rfl), List.append_nil]
        rfl
      · show w.clock ≤ w.clock + 2 + 1
        omega
      · simp [claimedWorld]
      · intro v hv
        cases hv
    by_cases hkv : hasAgentDefinition (step.verify_with.getD "undefined") = true
    swap
    · have hkv2 : hasAgentDefinition (step.verify_with.getD "undefined") = false := by
        simpa using hkv
      exact afterClaim_raised env w stepId step st hF hg _
        (Or.inr ⟨⟨p, ho⟩, hv, hkv2, rfl⟩)
        (executeStepTry_unknownVerifier env (claimedWorld env w stepId step.agent) stepId step
          p ho hv hkv2)
    cases hpass : (env.verify w.verifyCalls (step.verify_with.getD "undefined") p).passed with
    | true =>
      unfold afterClaim
      rw [executeStepTry_passed env (claimedWorld env w stepId step.agent) stepId step p ho hv
        hkv hfv (by rw [hga]; rfl) hpass]
      simp only
      have hacc : Accepted env w step p := by
        refine ⟨ho, fun _ => ⟨hkv, ?_⟩⟩
        cases hq : env.verify w.verifyCalls (step.verify_with.getD "undefined") p with
        | verdict b d =>
          rw [hq] at hpass
          have : b = true := hpass
          exact ⟨d, by rw [this]⟩
        | raise m2 =>
          rw [hq] at hpass
          exact absurd hpass (by simp [VerifyOutcome.passed])
      refine ExecOutcome.completed _ p
        (fun r => (r.claimed (env.newId w.ids) (env.now (w.clock + 1) w.waits)).completed
          (env.now (w.clock + 4) w.waits) p)
        [verificationRow env
          { claimedWorld env w stepId step.agent with
              agentCalls := (claimedWorld env w stepId step.agent).agentCalls + 1,
              log := (claimedWorld env w stepId step.agent).log
                ++ [Event.agent stepId step.agent step.task] }
          stepId (step.verify_with.getD "undefined")
          (env.verify w.verifyCalls (step.verify_with.getD "undefined") p)]
        ?_ hacc (fun r => ⟨rfl, rfl, rfl⟩)
        (fun _ => ⟨_, rfl, by simp [verificationRow, hpass]⟩) (fun h => absurd hv (by simp [h]))
      refine ⟨rfl, ?_, ⟨_, rfl, rfl⟩, rfl, fun r => ⟨⟨rfl, rfl, rfl, rfl,
        rfl, rfl, rfl, rfl⟩, rfl⟩, rfl, ?_, rfl, rfl, rfl, ?_, ?_⟩
      · show sqlUpdate _ _ (sqlUpdate _ _ _) = _ ++ []
        rw [sqlUpdate_sqlUpdate_id _ _ _ _ (by intro r; rfl), List.append_nil]
        rfl
      · show w.clock ≤ w.clock + 2 + 3
        omega
      · simp [claimedWorld, verificationRow]
      · intro v hv
        rw [List.mem_singleton] at hv
        subst hv
        refine ⟨rfl, rfl, rfl, Or.inl (by simp [verificationRow, hpass]), w.clock + 2,
          by omega, ?_, rfl⟩
        show w.clock + 2 < w.clock + 2 + 3
        omega
    | false =>
      unfold afterClaim
      rw [executeStepTry_rejected env (claimedWorld env w stepId step.agent) stepId step p _
        hga ho hv hkv hfv hpass]
      simp only
      have hrej : Rejected env w step p
          (env.verify w.verifyCalls (step.verify_with.getD "undefined") p).reason := by
        refine ⟨ho, hv, hkv, ?_⟩
        cases hq : env.verify w.verifyCalls (step.verify_with.getD "undefined") p with
        | verdict b d =>
          rw [hq] at hpass
          have : b = false := hpass
          subst this
          exact Or.inl ⟨d, rfl, rfl⟩
        | raise m2 => exact Or.inr rfl
      refine ExecOutcome.failStepped _ _
        (fun r => if st.attempts + 1 < st.max_attempts
          then (r.claimed (env.newId w.ids) (env.now (w.clock + 1) w.waits)).retried
            ("Verification failed: "
              ++ (env.verify w.verifyCalls (step.verify_with.getD "undefined") p).reason)
          else (r.claimed (env.newId w.ids) (env.now (w.clock + 1) w.waits)).failedAt
            (env.now (w.clock + 4) w.waits)
            ("Verification failed: "
              ++ (env.verify w.verifyCalls (step.verify_with.getD "undefined") p).reason))
        [verificationRow env
          { claimedWorld env w stepId step.agent with
              agentCalls := (claimedWorld env w stepId step.agent).agentCalls + 1,
              log := (claimedWorld env w stepId step.agent).log
                ++ [Event.agent stepId step.agent step.task] }
          stepId (step.verify_with.getD "undefined")
          (env.verify w.verifyCalls (step.verify_with.getD "undefined") p)]
        true _ ?_
        (Or.inr ⟨p, _, hrej, rfl, rfl, rfl, rfl, _, rfl, by simp [verificationRow, hpass]⟩)
        ⟨rfl, rfl⟩ ?_ ?_ ?_
      · refine ⟨rfl, ?_, ⟨_, rfl, rfl⟩, rfl, ?_, rfl, ?_, rfl, rfl, rfl, ?_, ?_⟩
        · show sqlUpdate _ _ (sqlUpdate _ _ _) = _ ++ []
          rw [sqlUpdate_sqlUpdate_id _ _ _ _ (by intro r; rfl), List.append_nil]
          unfold sqlUpdate
          apply List.map_congr_left
          intro r _
          by_cases hb : st.attempts + 1 < st.max_attempts
          · have hb2 : (st.claimed (env.newId w.ids) (env.now (w.clock + 1) w.waits)).attempts
                < (st.claimed (env.newId w.ids) (env.now (w.clock + 1) w.waits)).max_attempts :=
              hb
            simp only [hb, hb2, if_true]
            rfl
          · have hb2 : ¬ (st.claimed (env.newId w.ids) (env.now (w.clock + 1) w.waits)).attempts
                < (st.claimed (env.newId w.ids) (env.now (w.clock + 1) w.waits)).max_attempts :=
              hb
            simp only [hb, hb2, if_false]
            rfl
        · intro r
          split <;> exact ⟨⟨rfl, rfl, rfl, rfl, rfl, rfl, rfl, rfl⟩, rfl⟩
        · show w.clock ≤ w.clock + 2 + 3
          omega
        · simp [claimedWorld, verificationRow]
        · intro v hv
          rw [List.mem_singleton] at hv
          subst hv
          refine ⟨rfl, rfl, rfl, Or.inr (by simp [verificationRow, hpass]), w.clock + 2,
            by omega, ?_, rfl⟩
          show w.clock + 2 < w.clock + 2 + 3
          omega
      · intro hc
        have hc2 : (st.claimed (env.newId w.ids) (env.now (w.clock + 1) w.waits)).attempts
            < (st.claimed (env.newId w.ids) (env.now (w.clock + 1) w.waits)).max_attempts := hc.2
        refine ⟨if_pos hc2, fun r => ?_⟩
        show (if st.attempts + 1 < st.max_attempts then _ else _ : StepRow).status = _
        split
        · rfl
        · rename_i h
          exact absurd hc.2 h
      · intro hc
        have hc2 : ¬ (st.claimed (env.newId w.ids) (env.now (w.clock + 1) w.waits)).attempts
            < (st.claimed (env.newId w.ids) (env.now (w.clock + 1) w.waits)).max_attempts :=
          fun h => hc ⟨rfl, h⟩
        refine ⟨if_neg hc2, fun r => ?_⟩
        have hc3 : ¬ st.attempts + 1 < st.max_attempts := fun h => hc ⟨rfl, h⟩
        show (if st.attempts + 1 < st.max_attempts then _ else _ : StepRow).status = _
        split
        · rename_i h
          exact absurd h hc3
        · rfl
      · intro r
        split <;> exact ⟨rfl, rfl⟩

/-! ## The frame of the operations on a set of steps -/

theorem IsNew.mono {env : Env} {w w1 w0 w2 : World} {s : String} (h : IsNew env w w1 s)
    (h0 : w0.ids ≤ w.ids) (h2 : w1.ids ≤ w2.ids) : IsNew env w0 w2 s := by
  obtain ⟨j, h1, h3, h4⟩ := h
  exact ⟨j, le_trans h0 h1, lt_of_lt_of_le h3 h2, h4⟩

theorem IsNew.not_mentions {env : Env} {w w1 : World} {s : String} (hF : Fresh env w)
    (h : IsNew env w w1 s) : ¬ w.db.mentions s := by
  obtain ⟨j, h1, _, h4⟩ := h
  rw [h4]
  exact hF.2 j h1

theorem mentions_of_step {db : Store} {r : StepRow} (hr : r ∈ db.step_executions) :
    db.mentions r.id ∧ db.mentions r.run_id
      ∧ ∀ k, r.escalated_from = some k → db.mentions k :=
  ⟨Or.inr (Or.inl ⟨r, hr, Or.inl rfl⟩), Or.inr (Or.inl ⟨r, hr, Or.inr (Or.inl rfl)⟩),
    fun _ hk => Or.inr (Or.inl ⟨r, hr, Or.inr (Or.inr hk)⟩)⟩

theorem Touches.refl (env : Env) (S : String → Prop) (w : World) : Touches env S w w where
  runs := rfl
  ids := le_refl _
  clock := le_refl _
  waits := le_refl _
  steps := ⟨id, [], by simp, fun r => ⟨rfl, rfl, rfl, rfl, rfl, rfl, rfl, rfl⟩,
    fun _ _ _ => rfl, List.nodup_nil, fun a ha => by cases ha⟩
  agents := ⟨[], by simp, fun a ha => by cases ha⟩
  verifs := ⟨[], by simp, fun a ha => by cases ha⟩
  log := ⟨[], by simp, fun a ha => by cases ha⟩

theorem Touches.weaken {env : Env} {S T : String → Prop} {w w1 : World} (h : Touches env S w w1)
    (hST : ∀ k, S k → T k) : Touches env T w w1 where
  runs := h.runs
  ids := h.ids
  clock := h.clock
  waits := h.waits
  steps := by
    obtain ⟨F, added, h1, h2, h3, h4, h5⟩ := h.steps
    refine ⟨F, added, h1, h2, fun r hr hn => h3 r hr (fun hs => hn (hST _ hs)), h4, ?_⟩
    intro a ha
    obtain ⟨a1, a2, k, a3, a4⟩ := h5 a ha
    exact ⟨a1, a2, k, a3, a4.imp (hST k) id⟩
  agents := h.agents
  verifs := by
    obtain ⟨vs, h1, h2⟩ := h.verifs
    exact ⟨vs, h1, fun v hv => ⟨(h2 v hv).1, (h2 v hv).2.imp (hST _) id⟩⟩
  log := by
    obtain ⟨evs, h1, h2⟩ := h.log
    exact ⟨evs, h1, fun e he => (h2 e he).imp (hST _) id⟩

/-- Every identifier in the database after the operations was there before
or was generated in between. -/
theorem Touches.mentions {env : Env} {S : String → Prop} {w w1 : World}
    (h : Touches env S w w1) (hS : ∀ k, S k → w.db.mentions k) (s : String)
    (hm : w1.db.mentions s) : w.db.mentions s ∨ IsNew env w w1 s := by
  obtain ⟨F, added, h1, h2, _, _, h5⟩ := h.steps
  obtain ⟨as, ha1, ha2⟩ := h.agents
  obtain ⟨vs, hv1, hv2⟩ := h.verifs
  rcases hm with ⟨r, hr, he⟩ | ⟨r, hr, he⟩ | ⟨r, hr, he⟩ | ⟨r, hr, he⟩
  · rw [h.runs] at hr
    exact Or.inl (Or.inl ⟨r, hr, he⟩)
  · rw [h1, List.mem_append, List.mem_map] at hr
    rcases hr with ⟨r0, hr0, hF⟩ | hr
    · obtain ⟨k1, k2, _, _, _, _, _, k8⟩ := h2 r0
      rw [hF] at k1 k2 k8
      left
      rcases he with he | he | he
      · exact he ▸ k1 ▸ (mentions_of_step hr0).1
      · exact he ▸ k2 ▸ (mentions_of_step hr0).2.1
      · exact (mentions_of_step hr0).2.2 s (k8 ▸ he)
    · obtain ⟨a1, a2, k, a3, a4⟩ := h5 r hr
      rcases he with he | he | he
      · exact Or.inr (he ▸ a1)
      · exact he ▸ a2
      · rw [a3] at he
        have hks : k = s := Option.some.inj he
        rw [← hks]
        exact a4.imp (hS k) id
  · rw [ha1, List.mem_append] at hr
    rcases hr with hr | hr
    · exact Or.inl (Or.inr (Or.inr (Or.inl ⟨r, hr, he⟩)))
    · exact Or.inr (he ▸ ha2 r hr)
  · rw [hv1, List.mem_append] at hr
    rcases hr with hr | hr
    · exact Or.inl (Or.inr (Or.inr (Or.inr ⟨r, hr, he⟩)))
    · rcases he with he | he
      · exact Or.inr (he ▸ (hv2 r hr).1)
      · exact he ▸ (hv2 r hr).2.imp (hS _) id

theorem Touches.fresh {env : Env} {S : String → Prop} {w w1 : World}
    (h : Touches env S w w1) (hS : ∀ k, S k → w.db.mentions k) (hF : Fresh env w) :
    Fresh env w1 := by
  refine ⟨hF.1, fun n hn hm => ?_⟩
  rcases h.mentions hS _ hm with h1 | ⟨j, _, h3, h4⟩
  · exact hF.2 n (le_trans h.ids hn) h1
  · have := hF.1 h4
    omega

theorem Touches.nodup {env : Env} {S : String → Prop} {w w1 : World}
    (h : Touches env S w w1) (hF : Fresh env w) (hnd : w.db.stepIdsNodup) :
    w1.db.stepIdsNodup := by
  obtain ⟨F, added, h1, h2, _, h4, h5⟩ := h.steps
  unfold Store.stepIdsNodup at hnd ⊢
  rw [h1, List.map_append, List.map_map]
  have hmap : List.map ((fun r => r.id) ∘ F) w.db.step_executions
      = List.map (fun r => r.id) w.db.step_executions := by
    apply List.map_congr_left
    intro r _
    exact (h2 r).1
  rw [hmap, List.nodup_append]
  refine ⟨hnd, h4, ?_⟩
  intro s hs1 hs2
  rw [List.mem_map] at hs1 hs2
  obtain ⟨r, hr, rfl⟩ := hs1
  obtain ⟨a, ha, hid⟩ := hs2
  have hn := (h5 a ha).1
  rw [hid] at hn
  exact hn.not_mentions hF (mentions_of_step hr).1

/-! ## From the shape of one attempt to its frame -/

theorem Fresh.after_backoff {env : Env} {w : World} (n : Nat) (hF : Fresh env w) :
    Fresh env (backoff n w) := by
  unfold SoulFlow.backoff
  split
  · exact hF
  · exact hF

theorem getStep_of_shape {env : Env} {w w1 : World} {id : String} {step : WorkflowStep}
    {G : StepRow → StepRow} {added : List StepRow} {vs : List VerificationRow}
    (h : AttemptShape env w w1 id step G added vs) {st : StepRow}
    (hg : getStep w.db id = some st) : getStep w1.db id = some (G st) := by
  unfold getStep at hg ⊢
  rw [h.steps, List.find?_append,
    find?_sqlUpdate_id G id id _ (fun r => (h.keys r).1.1), if_pos rfl, hg]
  rfl

theorem getStep_of_shape_ne {env : Env} {w w1 : World} {id : String} {step : WorkflowStep}
    {G : StepRow → StepRow} {vs : List VerificationRow}
    (h : AttemptShape env w w1 id step G [] vs) {k : String} (hk : k ≠ id) :
    getStep w1.db k = getStep w.db k := by
  unfold getStep
  rw [h.steps, List.append_nil,
    find?_sqlUpdate_id G id k _ (fun r => (h.keys r).1.1), if_neg hk]

theorem AttemptShape.shape_touches {env : Env} {w w1 : World} {id : String} {step : WorkflowStep}
    {G : StepRow → StepRow} {added : List StepRow} {vs : List VerificationRow}
    (h : AttemptShape env w w1 id step G added vs) {st : StepRow}
    (hg : getStep w.db id = some st)
    (hadded : added = [] ∨ ∃ now t,
      added = [(G st).successor (env.newId (w.ids + 1)) now id t] ∧ vs = []) :
    Touches env (fun k => k = id) w w1 where
  runs := h.runs
  ids := by rw [h.ids]; omega
  clock := h.clock
  waits := by rw [h.waits]
  steps := by
    refine ⟨fun r => if r.id == id then G r else r, added, h.steps, ?_, ?_, ?_, ?_⟩
    · intro r
      show SameKeys r (if r.id == id then G r else r)
      by_cases hr : (r.id == id) = true
      · rw [if_pos hr]
        exact (h.keys r).1
      · rw [if_neg hr]
        exact ⟨rfl, rfl, rfl, rfl, rfl, rfl, rfl, rfl⟩
    · intro r _ hn
      have : (r.id == id) = false := by simpa using hn
      simp [this]
    · rcases hadded with ha | ⟨now, t, ha, _⟩ <;> (rw [ha]; simp)
    · intro a ha
      rcases hadded with ha2 | ⟨now, t, ha2, hvs⟩
      · rw [ha2] at ha
        cases ha
      · rw [ha2, List.mem_singleton] at ha
        subst ha
        have hst : st ∈ w.db.step_executions := mem_of_getStep _ _ _ hg
        refine ⟨⟨w.ids + 1, by omega, ?_, rfl⟩, Or.inl ?_, id, rfl, Or.inl rfl⟩
        · rw [h.ids, ha2, hvs]
          simp
        · have : ((G st).successor (env.newId (w.ids + 1)) now id t).run_id = st.run_id :=
            (h.keys st).1.2.1
          rw [this]
          exact (mentions_of_step hst).2.1
  agents := by
    obtain ⟨a, ha1, ha2⟩ := h.agents
    refine ⟨[a], ha2, fun b hb => ?_⟩
    rw [List.mem_singleton] at hb
    subst hb
    exact ⟨w.ids, le_refl _, by rw [h.ids]; omega, ha1⟩
  verifs := by
    refine ⟨vs, h.verifs, fun v hv => ?_⟩
    obtain ⟨h1, h2, h3, _, _⟩ := h.vs_spec v hv
    refine ⟨⟨w.ids + 1, by omega, ?_, h2⟩, Or.inl h3⟩
    rw [h.ids, h1]
    simp only [List.length_singleton]
    omega
  log := by
    refine ⟨_, h.log, fun e he => Or.inl ?_⟩
    simp only [List.mem_cons, List.mem_append, List.mem_map] at he
    rcases he with he | he | ⟨v, _, he⟩ | ⟨a, _, he⟩ <;> (subst he; rfl)

theorem mentions_of_getStep {db : Store} {k : String} {st : StepRow}
    (hg : getStep db k = some st) : db.mentions k := by
  have h1 := mem_of_getStep _ _ _ hg
  have h2 := getStep_id hg
  exact h2 ▸ (mentions_of_step h1).1

/-! ## Composition of frames -/

theorem SameKeys.compose {a b c : StepRow} (h1 : SameKeys a b) (h2 : SameKeys b c) :
    SameKeys a c := by
  obtain ⟨a1, a2, a3, a4, a5, a6, a7, a8⟩ := h1
  obtain ⟨b1, b2, b3, b4, b5, b6, b7, b8⟩ := h2
  exact ⟨b1.trans a1, b2.trans a2, b3.trans a3, b4.trans a4, b5.trans a5, b6.trans a6,
    b7.trans a7, b8.trans a8⟩

theorem IsNew.disjoint {env : Env} {w w1 w2 : World} {s : String} (hF : Fresh env w)
    (h1 : IsNew env w w1 s) (h2 : IsNew env w1 w2 s) : False := by
  obtain ⟨j, _, a2, a3⟩ := h1
  obtain ⟨k, b1, _, b3⟩ := h2
  have := hF.1 (a3.symm.trans b3)
  omega

theorem Touches.trans {env : Env} {S T : String → Prop} {w w1 w2 : World}
    (h1 : Touches env S w w1) (h2 : Touches env T w1 w2)
    (hT : ∀ k, T k → S k ∨ IsNew env w w1 k) (hS : ∀ k, S k → w.db.mentions k)
    (hF : Fresh env w) : Touches env S w w2 where
  runs := h2.runs.trans h1.runs
  ids := le_trans h1.ids h2.ids
  clock := le_trans h1.clock h2.clock
  waits := le_trans h1.waits h2.waits
  steps := by
    obtain ⟨F1, add1, e1, k1, f1, n1, p1⟩ := h1.steps
    obtain ⟨F2, add2, e2, k2, f2, n2, p2⟩ := h2.steps
    refine ⟨F2 ∘ F1, add1.map F2 ++ add2, ?_, fun r => (k1 r).compose (k2 _), ?_, ?_, ?_⟩
    · rw [e2, e1, List.map_append, List.map_map, List.append_assoc]
    · intro r hr hn
      have hr1 : F1 r = r := f1 r hr hn
      show F2 (F1 r) = r
      rw [hr1]
      apply f2 r
      · rw [e1, List.mem_append, List.mem_map]
        exact Or.inl ⟨r, hr, hr1⟩
      · intro ht
        rcases hT _ ht with hs | hnew
        · exact hn hs
        · exact hnew.not_mentions hF (mentions_of_step hr).1
    · rw [List.map_append, List.map_map, List.nodup_append]
      have hmap : List.map ((fun r => r.id) ∘ F2) add1 = List.map (fun r => r.id) add1 := by
        apply List.map_congr_left
        intro r _
        exact (k2 r).1
      rw [hmap]
      refine ⟨n1, n2, ?_⟩
      intro s hs1 hs2
      rw [List.mem_map] at hs1 hs2
      obtain ⟨a1, ha1, rfl⟩ := hs1
      obtain ⟨a2, ha2, he⟩ := hs2
      have q1 := (p1 a1 ha1).1
      have q2 := (p2 a2 ha2).1
      rw [he] at q2
      exact IsNew.disjoint hF q1 q2
    · intro a ha
      rw [List.mem_append, List.mem_map] at ha
      rcases ha with ⟨a1, ha1, rfl⟩ | ha
      · obtain ⟨q1, q2, k, q3, q4⟩ := p1 a1 ha1
        obtain ⟨s1, s2, _, _, _, _, _, s8⟩ := k2 a1
        rw [s1, s2, s8]
        exact ⟨q1.mono (le_refl _) h2.ids, q2.imp id (fun h => h.mono (le_refl _) h2.ids),
          k, q3, q4.imp id (fun h => h.mono (le_refl _) h2.ids)⟩
      · obtain ⟨q1, q2, k, q3, q4⟩ := p2 a ha
        refine ⟨q1.mono h1.ids (le_refl _), ?_, k, q3, ?_⟩
        · rcases q2 with q2 | q2
          · exact (h1.mentions hS _ q2).imp id (fun h => h.mono (le_refl _) h2.ids)
          · exact Or.inr (q2.mono h1.ids (le_refl _))
        · rcases q4 with q4 | q4
          · exact (hT _ q4).imp id (fun h => h.mono (le_refl _) h2.ids)
          · exact Or.inr (q4.mono h1.ids (le_refl _))
  agents := by
    obtain ⟨a1, e1, p1⟩ := h1.agents
    obtain ⟨a2, e2, p2⟩ := h2.agents
    refine ⟨a1 ++ a2, by rw [e2, e1, List.append_assoc], fun a ha => ?_⟩
    rw [List.mem_append] at ha
    rcases ha with ha | ha
    · exact (p1 a ha).mono (le_refl _) h2.ids
    · exact (p2 a ha).mono h1.ids (le_refl _)
  verifs := by
    obtain ⟨a1, e1, p1⟩ := h1.verifs
    obtain ⟨a2, e2, p2⟩ := h2.verifs
    refine ⟨a1 ++ a2, by rw [e2, e1, List.append_assoc], fun a ha => ?_⟩
    rw [List.mem_append] at ha
    rcases ha with ha | ha
    · exact ⟨(p1 a ha).1.mono (le_refl _) h2.ids,
        (p1 a ha).2.imp id (fun h => h.mono (le_refl _) h2.ids)⟩
    · refine ⟨(p2 a ha).1.mono h1.ids (le_refl _), ?_⟩
      rcases (p2 a ha).2 with q | q
      · exact (hT _ q).imp id (fun h => h.mono (le_refl _) h2.ids)
      · exact Or.inr (q.mono h1.ids (le_refl _))
  log := by
    obtain ⟨a1, e1, p1⟩ := h1.log
    obtain ⟨a2, e2, p2⟩ := h2.log
    refine ⟨a1 ++ a2, by rw [e2, e1, List.append_assoc], fun a ha => ?_⟩
    rw [List.mem_append] at ha
    rcases ha with ha | ha
    · exact (p1 a ha).imp id (fun h => h.mono (le_refl _) h2.ids)
    · rcases p2 a ha with q | q
      · exact (hT _ q).imp id (fun h => h.mono (le_refl _) h2.ids)
      · exact Or.inr (q.mono h1.ids (le_refl _))

theorem Touches.backoff (env : Env) (S : String → Prop) (n : Nat) (w : World) :
    Touches env S w (backoff n w) := by
  unfold SoulFlow.backoff
  split
  · exact { runs := rfl, ids := le_refl _, clock := le_refl _, waits := Nat.le_succ _
            steps := ⟨id, [], by simp, fun r => ⟨rfl, rfl, rfl, rfl, rfl, rfl, rfl, rfl⟩,
              fun _ _ _ => rfl, List.nodup_nil, fun a ha => by cases ha⟩
            agents := ⟨[], by simp, fun a ha => by cases ha⟩
            verifs := ⟨[], by simp, fun a ha => by cases ha⟩
            log := ⟨[], by simp, fun a ha => by cases ha⟩ }
  · exact Touches.refl env S w

/-! ## The retry loop on a pending step -/

theorem ExecOutcome.exec_touches {env : Env} {w w1 : World} {id : String} {step : WorkflowStep}
    {st : StepRow} {r : Except String StepResult}
    (h : ExecOutcome env w id step st r w1) (hg : getStep w.db id = some st) :
    Touches env (fun k => k = id) w w1 := by
  cases h with
  | unknownAgent _ => exact Touches.refl _ _ _
  | completed _ p G vs shape _ _ _ _ => exact shape.shape_touches hg (Or.inl rfl)
  | failStepped _ res G vs canRetry e shape _ _ _ _ _ => exact shape.shape_touches hg (Or.inl rfl)
  | escalated _ m G now shape _ _ _ => exact shape.shape_touches hg (Or.inr ⟨now, _, rfl, rfl⟩)

theorem Ready.after {env : Env} {w w1 : World} {id : String} {st : StepRow}
    (hr : Ready env w id st) (ht : Touches env (fun k => k = id) w w1) :
    Fresh env w1 ∧ w1.db.stepIdsNodup :=
  ⟨ht.fresh (fun _ hk => hk ▸ mentions_of_getStep hr.2.2.1) hr.1, ht.nodup hr.1 hr.2.1⟩

theorem ExecOutcome.status_cases {env : Env} {w w1 : World} {id : String}
    {step : WorkflowStep} {st : StepRow} {r : StepResult}
    (h : ExecOutcome env w id step st (.ok r) w1) :
    r.status = "completed" ∨ r.status = "escalated" ∨ r.status = "failed"
      ∨ (r.status = "retry" ∧ st.attempts + 1 < st.max_attempts
          ∧ ∃ G vs, AttemptShape env w w1 id step G [] vs ∧ (∀ r, (G r).status = "pending")
            ∧ (∀ r, (∃ e, (G r).error = some e) ∧ (G r).result = r.result)
            ∧ ∀ v ∈ vs, v.status = "failed") := by
  cases h with
  | completed _ p G vs shape _ _ _ _ => exact Or.inl rfl
  | failStepped _ _ G vs canRetry e shape source _ retry failed error =>
    by_cases hc : canRetry = true ∧ st.attempts + 1 < st.max_attempts
    · refine Or.inr (Or.inr (Or.inr ⟨(retry hc).1, hc.2, G, vs, shape, (retry hc).2,
        fun r => ⟨⟨e, (error r).1⟩, (error r).2⟩, ?_⟩))
      intro v hv
      rcases source with ⟨_, _, _, _, _, h6⟩ | ⟨_, _, _, _, _, _, _, v2, h7, h8⟩
      · rw [h6] at hv
        cases hv
      · rw [h7, List.mem_singleton] at hv
        rw [hv]
        exact h8
    · exact Or.inr (Or.inr (Or.inl (failed hc).1))
  | escalated _ m G now shape _ _ _ => exact Or.inr (Or.inl rfl)

theorem retryLoop_run (env : Env) (id : String) (step : WorkflowStep) :
    ∀ (n : Nat) (w : World) (st : StepRow) (last : Option StepResult),
      Ready env w id st → (n : Int) + 1 = st.max_attempts - st.attempts →
      LoopRun env id step (n + 1) w st (retryLoop env id step (n + 1) w last).1
        (retryLoop env id step (n + 1) w last).2 := by
  intro n
  induction n with
  | zero =>
    intro w st last hr hb
    have ho := executeStep_outcome env w id step st hr.1 hr.2.1 hr.2.2.1 hr.2.2.2
    unfold retryLoop
    generalize executeStep env w id step = p at ho
    obtain ⟨r, w1⟩ := p
    cases r with
    | error e => exact LoopRun.raised 0 w st e w1 hr ho
    | ok res =>
      rcases ho.status_cases with hs | hs | hs | ⟨_, hlt, _⟩
      · simp only [hs, beq_self_eq_true, if_true]
        exact LoopRun.settled 0 w st res w1 hr ho (Or.inl hs)
      · simp only [hs]
        exact LoopRun.settled 0 w st res w1 hr ho (Or.inr (Or.inl hs))
      · simp only [hs]
        exact LoopRun.settled 0 w st res w1 hr ho (Or.inr (Or.inr hs))
      · exfalso
        simp only [Nat.cast_zero, zero_add] at hb
        omega
  | succ m ih =>
    intro w st last hr hb
    have ho := executeStep_outcome env w id step st hr.1 hr.2.1 hr.2.2.1 hr.2.2.2
    unfold retryLoop
    generalize executeStep env w id step = p at ho
    obtain ⟨r, w1⟩ := p
    cases r with
    | error e => exact LoopRun.raised (m + 1) w st e w1 hr ho
    | ok res =>
      rcases ho.status_cases with hs | hs | hs | ⟨hs, hlt, G, vs, shape, hp, hkept, hrej⟩
      · simp only [hs, beq_self_eq_true, if_true]
        exact LoopRun.settled (m + 1) w st res w1 hr ho (Or.inl hs)
      · simp only [hs]
        exact LoopRun.settled (m + 1) w st res w1 hr ho (Or.inr (Or.inl hs))
      · simp only [hs]
        exact LoopRun.settled (m + 1) w st res w1 hr ho (Or.inr (Or.inr hs))
      · simp only [hs]
        have ht := shape.shape_touches hr.2.2.1 (Or.inl rfl)
        have hfn := hr.after ht
        have hr1 : Ready env (backoff (m + 1) w1) id (G st) :=
          ⟨hfn.1.after_backoff _, by unfold SoulFlow.backoff; split <;> exact hfn.2,
            by unfold SoulFlow.backoff; split <;> exact getStep_of_shape shape hr.2.2.1, hp st⟩
        have hb1 : (m : Int) + 1 = (G st).max_attempts - (G st).attempts := by
          rw [(shape.keys st).2, (shape.keys st).1.2.2.2.2.2.2.1]
          push_cast at hb
          omega
        exact LoopRun.again m w st res w1 G vs _ _ hr ho hs shape hp hkept hrej
          (ih (backoff (m + 1) w1) (G st) (some res) hr1 hb1)

/-! ## The start of `runWorkflow` -/

theorem tallyId_injective : Function.Injective tallyId := by
  intro a b h
  unfold tallyId at h
  have h2 : List.replicate (a + 1) 'i' = List.replicate (b + 1) 'i' :=
    congrArg String.data h
  have h3 := congrArg List.length h2
  simpa using h3

theorem fresh_start_empty (env : Env) (h : Function.Injective env.newId) :
    Fresh env (World.start Store.empty) := by
  refine ⟨h, fun n _ hm => ?_⟩
  rcases hm with ⟨r, hr, _⟩ | ⟨r, hr, _⟩ | ⟨r, hr, _⟩ | ⟨r, hr, _⟩ <;> cases hr

theorem getStep_none_of_fresh {env : Env} {w : World} (hF : Fresh env w) (n : Nat)
    (hn : w.ids ≤ n) : getStep w.db (env.newId n) = none := by
  unfold getStep
  rw [List.find?_eq_none]
  intro r hr
  have := (fresh_steps hF n hn r hr).1
  simpa using this

theorem getRun_none_of_fresh {env : Env} {w : World} (hF : Fresh env w) (n : Nat)
    (hn : w.ids ≤ n) : getRun w.db (env.newId n) = none := by
  unfold getRun
  rw [List.find?_eq_none]
  intro r hr
  have := fresh_runs hF n hn r hr
  simpa using this

theorem createSteps_eq (env : Env) (runId : String) (steps : List WorkflowStep) :
    ∀ (w : World) (i : Nat), (∀ j, w.ids ≤ j → getStep w.db (env.newId j) = none) →
      Function.Injective env.newId → (getRun w.db runId).isSome = true →
      createSteps env runId w i steps
        = (.ok (stepIdsFrom env w.ids steps.length),
            { w with
              db := w.db.withSteps (w.db.step_executions
                ++ createdRows env runId w.waits w.ids w.clock i steps),
              ids := w.ids + steps.length,
              clock := w.clock + steps.length }) := by
  induction steps with
  | nil =>
    intro w i _ _ _
    simp [createSteps, createdRows, stepIdsFrom, Store.withSteps]
  | cons step rest ih =>
    intro w i hfree hinj hrun
    unfold createSteps
    simp only
    have hc : createStep w.db (env.newId w.ids) (env.now w.clock w.waits) runId step.name i
        step.agent (step.retry.getD 3)
        = .ok (env.newId w.ids, w.db.withSteps (w.db.step_executions
            ++ [StepRow.created (env.newId w.ids) (env.now w.clock w.waits) runId i step])) := by
      unfold createStep
      rw [hfree w.ids (le_refl _)]
      have hsome : (getRun w.db runId).isNone = false := by
        cases hg : getRun w.db runId with
        | none => rw [hg] at hrun; cases hrun
        | some _ => rfl
      rw [hsome]
      rfl
    rw [hc]
    simp only
    rw [ih]
    · simp only [createdRows, stepIdsFrom, List.length_cons, Store.withSteps, List.append_assoc,
        List.singleton_append, List.range_succ_eq_map, List.map_cons, List.map_map,
        Nat.add_zero]
      refine Prod.ext ?_ ?_
      · simp only [Except.ok.injEq, List.cons.injEq, true_and]
        apply List.map_congr_left
        intro j _
        simp only [Function.comp]
        congr 1
        omega
      · simp only [World.mk.injEq, true_and, and_true]
        omega
    · intro j hj
      have hj2 : w.ids ≤ j := by
        have : w.ids + 1 ≤ j := hj
        omega
      have hne : env.newId w.ids ≠ env.newId j := by
        intro he
        have := hinj he
        have : w.ids + 1 ≤ j := hj
        omega
      have h0 := hfree j hj2
      unfold getStep at h0 ⊢
      show List.find? _ (w.db.step_executions ++ [_]) = none
      rw [List.find?_append, h0]
      simp [StepRow.created, hne]
    · exact hinj
    · exact hrun

theorem runWorkflow_eq (env : Env) (w : World) (workflowPath : String) (workflow : Workflow)
    (useGit : Bool) (hF : Fresh env w) :
    runWorkflow env w workflowPath workflow useGit
      = finishRun env (env.newId w.ids)
          (runSteps env (loopWorld env w workflowPath workflow useGit)
            ((stepIdsFrom env (w.ids + 1) workflow.steps.length).zip workflow.steps)) := by
  unfold runWorkflow
  simp only
  have hc : createRun w.db (env.newId w.ids) (env.now w.clock w.waits) workflow.name
      workflowPath useGit
      = .ok ({ id := env.newId w.ids,
               gitBranch := if useGit then some ("soulflow/" ++ workflow.name ++ "/"
                 ++ env.newId w.ids) else none },
          { w.db with workflow_runs := w.db.workflow_runs ++
            [{ id := env.newId w.ids, workflow_name := workflow.name,
               workflow_path := workflowPath,
               status := "pending", created_at := env.now w.clock w.waits,
               updated_at := env.now w.clock w.waits,
               completed_at := none, error := none,
               use_git := if useGit then 1 else 0,
               git_branch := if useGit then some ("soulflow/" ++ workflow.name ++ "/"
                 ++ env.newId w.ids) else none }] }) := by
    unfold createRun
    rw [getRun_none_of_fresh hF w.ids (le_refl _)]
    rfl
  rw [hc]
  simp only
  rw [createSteps_eq]
  · simp only
    unfold finishRun loopWorld
    rfl
  · intro j hj
    have hj2 : w.ids ≤ j := by
      have : w.ids + 1 ≤ j := hj
      omega
    exact getStep_none_of_fresh hF j hj2
  · exact hF.1
  · have h0 := getRun_none_of_fresh hF w.ids (le_refl _)
    unfold getRun at h0 ⊢
    simp only
    rw [List.find?_append, h0]
    simp

/-! ## The world in which the step loop starts -/

theorem createdRows_ids (env : Env) (runId : String) (waits : Nat) (steps : List WorkflowStep) :
    ∀ ids clock i, (createdRows env runId waits ids clock i steps).map (fun r => r.id)
      = stepIdsFrom env ids steps.length := by
  induction steps with
  | nil => intro ids clock i; rfl
  | cons step rest ih =>
    intro ids clock i
    simp only [createdRows, List.map_cons, ih, stepIdsFrom, List.length_cons,
      List.range_succ_eq_map, List.map_map, Nat.add_zero, StepRow.created]
    congr 1
    apply List.map_congr_left
    intro j _
    simp only [Function.comp]
    congr 1
    omega

theorem mem_createdRows (env : Env) (runId : String) (waits : Nat) (steps : List WorkflowStep) :
    ∀ ids clock i r, r ∈ createdRows env runId waits ids clock i steps →
      ∃ j now k step, ids ≤ j ∧ j < ids + steps.length ∧ step ∈ steps
        ∧ r = StepRow.created (env.newId j) now runId k step := by
  induction steps with
  | nil => intro ids clock i r hr; cases hr
  | cons step rest ih =>
    intro ids clock i r hr
    simp only [createdRows, List.mem_cons] at hr
    rcases hr with hr | hr
    · exact ⟨ids, _, i, step, le_refl _, by simp, List.mem_cons_self _ _, hr⟩
    · obtain ⟨j, now, k, s, h1, h2, h3, h4⟩ := ih _ _ _ r hr
      refine ⟨j, now, k, s, by omega, ?_, List.mem_cons_of_mem _ h3, h4⟩
      simp only [List.length_cons]
      omega

theorem createdRows_zip (env : Env) (runId : String) (waits : Nat) (steps : List WorkflowStep) :
    ∀ ids clock i id step, (id, step) ∈ (stepIdsFrom env ids steps.length).zip steps →
      ∃ now k, StepRow.created id now runId k step
        ∈ createdRows env runId waits ids clock i steps := by
  induction steps with
  | nil => intro ids clock i id step h; simp at h
  | cons s rest ih =>
    intro ids clock i id step h
    simp only [stepIdsFrom, List.length_cons, List.range_succ_eq_map, List.map_cons,
      List.map_map, List.zip_cons_cons, List.mem_cons, Prod.mk.injEq, Nat.add_zero] at h
    rcases h with ⟨h1, h2⟩ | h
    · subst h1 h2
      exact ⟨_, i, List.mem_cons_self _ _⟩
    · have h2 : (id, step) ∈ (stepIdsFrom env (ids + 1) rest.length).zip rest := by
        have he : List.map ((fun j => env.newId (ids + j)) ∘ Nat.succ) (List.range rest.length)
            = stepIdsFrom env (ids + 1) rest.length := by
          unfold stepIdsFrom
          apply List.map_congr_left
          intro j _
          simp only [Function.comp]
          congr 1
          omega
        rw [← he]
        exact h
      obtain ⟨now, k, hm⟩ := ih (ids + 1) (clock + 1) (i + 1) id step h2
      exact ⟨now, k, List.mem_cons_of_mem _ hm⟩

theorem stepIdsFrom_nodup (env : Env) (hinj : Function.Injective env.newId) (ids n : Nat) :
    (stepIdsFrom env ids n).Nodup := by
  unfold stepIdsFrom
  apply List.Nodup.map_on
  · intro a _ b _ h
    have := hinj h
    omega
  · exact List.nodup_range n

theorem mem_stepIdsFrom {env : Env} {ids n : Nat} {k : String}
    (h : k ∈ stepIdsFrom env ids n) : ∃ j, ids ≤ j ∧ j < ids + n ∧ k = env.newId j := by
  unfold stepIdsFrom at h
  rw [List.mem_map] at h
  obtain ⟨j, hj, he⟩ := h
  rw [List.mem_range] at hj
  exact ⟨ids + j, by omega, by omega, he.symm⟩

theorem loopWorld_steps (env : Env) (w : World) (workflowPath : String) (workflow : Workflow)
    (useGit : Bool) :
    (loopWorld env w workflowPath workflow useGit).db.step_executions
      = w.db.step_executions
        ++ createdRows env (env.newId w.ids) w.waits (w.ids + 1) (w.clock + 1) 0
            workflow.steps := rfl

theorem loopWorld_run_ids (env : Env) (w : World) (workflowPath : String) (workflow : Workflow)
    (useGit : Bool) :
    ∀ r ∈ (loopWorld env w workflowPath workflow useGit).db.workflow_runs,
      r.id = env.newId w.ids ∨ ∃ r0 ∈ w.db.workflow_runs, r0.id = r.id := by
  intro r hr
  have hr2 : r ∈ sqlUpdate (fun r => r.id == env.newId w.ids)
      (fun r => { r with status := "running",
                         updated_at := env.now (w.clock + 1 + workflow.steps.length) w.waits,
                         completed_at := if ["completed", "failed", "cancelled"].contains
                           "running" then some
                             (env.now (w.clock + 1 + workflow.steps.length) w.waits) else none,
                         error := none })
      (w.db.workflow_runs ++
        [{ id := env.newId w.ids, workflow_name := workflow.name,
           workflow_path := workflowPath,
           status := "pending", created_at := env.now w.clock w.waits,
           updated_at := env.now w.clock w.waits,
           completed_at := none, error := none,
           use_git := if useGit then 1 else 0,
           git_branch := if useGit then some ("soulflow/" ++ workflow.name ++ "/"
             ++ env.newId w.ids) else none }]) := hr
  unfold sqlUpdate at hr2
  rw [List.mem_map] at hr2
  obtain ⟨r0, hr0, he⟩ := hr2
  have hid : r.id = r0.id := by
    rw [← he]
    split <;> rfl
  rw [List.mem_append, List.mem_singleton] at hr0
  rcases hr0 with hr0 | hr0
  · exact Or.inr ⟨r0, hr0, hid.symm⟩
  · left
    rw [hid, hr0]

theorem loopWorld_fresh {env : Env} {w : World} (workflowPath : String) (workflow : Workflow)
    (useGit : Bool) (hF : Fresh env w) :
    Fresh env (loopWorld env w workflowPath workflow useGit) := by
  refine ⟨hF.1, fun n hn hm => ?_⟩
  have hn2 : w.ids + 1 + workflow.steps.length ≤ n := hn
  have hne : ∀ j, j < w.ids + 1 + workflow.steps.length → env.newId j ≠ env.newId n := by
    intro j hj he
    have := hF.1 he
    omega
  rcases hm with ⟨r, hr, he⟩ | ⟨r, hr, he⟩ | ⟨r, hr, he⟩ | ⟨r, hr, he⟩
  · rcases loopWorld_run_ids env w workflowPath workflow useGit r hr with h1 | ⟨r0, h0, h1⟩
    · exact hne w.ids (by omega) (h1.symm.trans he)
    · exact fresh_runs hF n (by omega) r0 h0 (h1.trans he)
  · rw [loopWorld_steps, List.mem_append] at hr
    rcases hr with hr | hr
    · have h3 := fresh_steps hF n (by omega) r hr
      rcases he with he | he | he
      · exact h3.1 he
      · exact h3.2.1 he
      · exact h3.2.2 he
    · obtain ⟨j, now, k, step, h1, h2, _, h4⟩ := mem_createdRows _ _ _ _ _ _ _ r hr
      subst h4
      rcases he with he | he | he
      · exact hne j (by omega) he
      · exact hne w.ids (by omega) he
      · cases he
  · exact fresh_agents hF n (by omega) r hr he
  · have h3 := fresh_verifications hF n (by omega) r hr
    rcases he with he | he
    · exact h3.1 he
    · exact h3.2 he

theorem loopWorld_nodup {env : Env} {w : World} (workflowPath : String) (workflow : Workflow)
    (useGit : Bool) (hF : Fresh env w) (hnd : w.db.stepIdsNodup) :
    (loopWorld env w workflowPath workflow useGit).db.stepIdsNodup := by
  unfold Store.stepIdsNodup at hnd ⊢
  rw [loopWorld_steps, List.map_append, createdRows_ids, List.nodup_append]
  refine ⟨hnd, stepIdsFrom_nodup env hF.1 _ _, ?_⟩
  intro s hs1 hs2
  rw [List.mem_map] at hs1
  obtain ⟨r, hr, he⟩ := hs1
  obtain ⟨j, h1, _, h3⟩ := mem_stepIdsFrom hs2
  exact (fresh_steps hF j (by omega) r hr).1 (he.trans h3)

theorem loopWorld_declared {env : Env} {w : World} (workflowPath : String) (workflow : Workflow)
    (useGit : Bool) (hF : Fresh env w) (hnd : w.db.stepIdsNodup) (id : String)
    (step : WorkflowStep)
    (hm : (id, step) ∈ (stepIdsFrom env (w.ids + 1) workflow.steps.length).zip workflow.steps) :
    Declared (loopWorld env w workflowPath workflow useGit) id step := by
  obtain ⟨now, k, hc⟩ := createdRows_zip env (env.newId w.ids) w.waits workflow.steps
    (w.ids + 1) (w.clock + 1) 0 id step hm
  obtain ⟨j, h1, _, h3⟩ := mem_stepIdsFrom (List.of_mem_zip hm).1
  have hmem : StepRow.created id now (env.newId w.ids) k step
      ∈ (loopWorld env w workflowPath workflow useGit).db.step_executions := by
    rw [loopWorld_steps]
    exact List.mem_append_right _ hc
  have hg := getStep_of_mem _ (loopWorld_nodup workflowPath workflow useGit hF hnd) _ hmem
  refine ⟨_, hg, rfl, rfl, rfl, rfl, ?_, ?_⟩
  · intro r hr he
    rw [loopWorld_steps, List.mem_append] at hr
    rcases hr with hr | hr
    · rw [h3] at he
      exact (fresh_steps hF j (by omega) r hr).2.2 he
    · obtain ⟨_, _, _, _, _, _, _, h4⟩ := mem_createdRows _ _ _ _ _ _ _ r hr
      subst h4
      cases he
  · intro v hv he
    rw [h3] at he
    exact (fresh_verifications hF j (by omega) v hv).2 he

theorem loopWorld_getRun {env : Env} {w : World} (workflowPath : String) (workflow : Workflow)
    (useGit : Bool) (hF : Fresh env w) :
    ∃ r, getRun (loopWorld env w workflowPath workflow useGit).db (env.newId w.ids) = some r
      ∧ r.status = "running" := by
  have h0 := getRun_none_of_fresh hF w.ids (le_refl _)
  unfold getRun at h0
  unfold loopWorld
  simp only
  rw [getRun_updateRunStatus, if_pos rfl]
  unfold getRun Store.withSteps
  simp only
  rw [List.find?_append, h0]
  simp

/-! ## The last attempt of a retry loop -/

theorem backoff_succ_waits (n : Nat) (w : World) : (backoff (n + 1) w).waits = w.waits + 1 := by
  unfold backoff
  simp

theorem Touches.trans_same {env : Env} {w w1 w2 : World} {id : String} {st : StepRow}
    (h1 : Touches env (fun k => k = id) w w1) (h2 : Touches env (fun k => k = id) w1 w2)
    (hg : getStep w.db id = some st) (hF : Fresh env w) :
    Touches env (fun k => k = id) w w2 :=
  h1.trans h2 (fun _ hk => Or.inl hk) (fun _ hk => hk ▸ mentions_of_getStep hg) hF

theorem LoopRun.loop_touches {env : Env} {id : String} {step : WorkflowStep} {n : Nat} {w w2 : World}
    {st : StepRow} {res : Except String (Option StepResult)}
    (h : LoopRun env id step n w st res w2) : Touches env (fun k => k = id) w w2 := by
  induction h with
  | raised n w st e w1 ready first => exact first.exec_touches ready.2.2.1
  | settled n w st r w1 ready first hs => exact first.exec_touches ready.2.2.1
  | again n w st r w1 G vs res w2 ready first hs shape pending kept rejected rest ih =>
    have t1 := first.exec_touches ready.2.2.1
    have t2 := t1.trans_same (Touches.backoff env _ (n + 1) w1) ready.2.2.1 ready.1
    exact t2.trans_same ih ready.2.2.1 ready.1

theorem Retried.none_yet (env : Env) (id : String) (w : World) (st : StepRow) :
    Retried env id w w st st where
  rows := fun _ hr _ => hr
  keys := ⟨rfl, rfl, rfl, rfl, rfl, rfl, rfl, rfl⟩
  result := rfl
  attempts := le_refl _
  verifs := ⟨[], by simp, fun v hv => by cases hv⟩

theorem LoopRun.last {env : Env} {id : String} {step : WorkflowStep} {n : Nat} {w w2 : World}
    {st : StepRow} {res : Except String (Option StepResult)}
    (h : LoopRun env id step n w st res w2) :
    ∃ w1 st1 rr, Ready env w1 id st1 ∧ Touches env (fun k => k = id) w w1
      ∧ Retried env id w w1 st st1
      ∧ ExecOutcome env w1 id step st1 rr w2
      ∧ ((∃ e, rr = .error e ∧ res = .error e)
          ∨ (∃ r, rr = .ok r ∧ res = .ok (some r)
              ∧ (r.status = "completed" ∨ r.status = "escalated" ∨ r.status = "failed"))) := by
  induction h with
  | raised n w st e w1 ready first =>
    exact ⟨w, st, _, ready, Touches.refl _ _ _, Retried.none_yet _ _ _ _, first,
      Or.inl ⟨e, rfl, rfl⟩⟩
  | settled n w st r w1 ready first hs =>
    exact ⟨w, st, _, ready, Touches.refl _ _ _, Retried.none_yet _ _ _ _, first,
      Or.inr ⟨r, rfl, rfl, hs⟩⟩
  | again n w st r w1 G vs res w2 ready first hs shape pending kept rejected rest ih =>
    obtain ⟨wl, stl, rr, hr, ht, hret, ho, hres⟩ := ih
    have t1 := first.exec_touches ready.2.2.1
    have t2 := t1.trans_same (Touches.backoff env _ (n + 1) w1) ready.2.2.1 ready.1
    have t3 := t2.trans_same ht ready.2.2.1 ready.1
    refine ⟨wl, stl, rr, hr, t3, ?_, ho, hres⟩
    have hw : w.waits + 1 ≤ wl.waits := by
      have := ht.waits
      rw [backoff_succ_waits, shape.waits] at this
      exact this
    refine ⟨?_, (shape.keys st).1.compose hret.keys, hret.result.trans (kept st).2, ?_, ?_⟩
    · intro r hr1 hne
      have h1 := hret.rows r hr1 hne
      rw [backoff_db, shape.steps, List.append_nil] at h1
      unfold sqlUpdate at h1
      rw [List.mem_map] at h1
      obtain ⟨r0, hr0, he⟩ := h1
      by_cases hid : r0.id = id
      · exfalso
        have hc : (r0.id == id) = true := by simpa using hid
        rw [if_pos hc] at he
        apply hne
        rw [← he, (shape.keys r0).1.1]
        exact hid
      · have hc : ¬ (r0.id == id) = true := by simpa using hid
        rw [if_neg hc] at he
        rw [← he]
        exact hr0
    · have := hret.attempts
      rw [(shape.keys st).2] at this
      omega
    · obtain ⟨vs2, hv1, hv2⟩ := hret.verifs
      refine ⟨vs ++ vs2, ?_, ?_⟩
      · rw [hv1, backoff_db, shape.verifs, List.append_assoc]
      · intro v hv
        rw [List.mem_append] at hv
        rcases hv with hv | hv
        · obtain ⟨_, _, h3, _, c, _, h4, h5⟩ := shape.vs_spec v hv
          have hclk := ht.clock
          have hbc : (backoff (n + 1) w1).clock = w1.clock := by
            unfold SoulFlow.backoff
            simp
          rw [hbc] at hclk
          exact ⟨h3, rejected v hv, c, w.waits, by omega, by omega, h5⟩
        · exact hv2 v hv

/-! ## Reading an outcome of `executeStep` back from its status -/

theorem ExecOutcome.inv_completed {env : Env} {w w1 : World} {id : String}
    {step : WorkflowStep} {st : StepRow} {r : StepResult}
    (h : ExecOutcome env w id step st (.ok r) w1) (hs : r.status = "completed") :
    ∃ p G vs, AttemptShape env w w1 id step G [] vs ∧ Accepted env w step p
      ∧ (∀ r, (G r).status = "completed" ∧ (G r).result = some (JSON_stringify p)
          ∧ (G r).error = r.error)
      ∧ (truthy step.verify_with = true → ∃ v, vs = [v] ∧ v.status = "passed")
      ∧ (truthy step.verify_with = false → vs = [])
      ∧ r.result = some p := by
  cases h with
  | completed _ p G vs shape accepted status verified unverified =>
    exact ⟨p, G, vs, shape, accepted, status, verified, unverified, rfl⟩
  | failStepped _ _ G vs canRetry e shape source _ retry failed error =>
    exfalso
    by_cases hc : canRetry = true ∧ st.attempts + 1 < st.max_attempts
    · rw [(retry hc).1] at hs
      exact absurd hs (by decide)
    · rw [(failed hc).1] at hs
      exact absurd hs (by decide)
  | escalated _ m G now shape _ _ _ => simp at hs

theorem ExecOutcome.inv_failed {env : Env} {w w1 : World} {id : String}
    {step : WorkflowStep} {st : StepRow} {r : StepResult}
    (h : ExecOutcome env w id step st (.ok r) w1) (hs : r.status = "failed") :
    ∃ G vs canRetry e, AttemptShape env w w1 id step G [] vs
      ∧ ((truthy step.escalate_to = false ∧ TryRaised env w step e
            ∧ canRetry = (step.retry != some 0) ∧ r.error = some e ∧ r.reason = none
            ∧ vs = [])
          ∨ (∃ p reason, Rejected env w step p reason ∧ canRetry = true
              ∧ e = "Verification failed: " ++ reason ∧ r.error = none
              ∧ r.reason = some reason ∧ ∃ v, vs = [v] ∧ v.status = "failed"))
      ∧ ¬ (canRetry = true ∧ st.attempts + 1 < st.max_attempts)
      ∧ (∀ r, (G r).status = "failed")
      ∧ (∀ r, (G r).error = some e ∧ (G r).result = r.result) := by
  cases h with
  | completed _ p G vs shape accepted status verified unverified =>
    simp at hs
  | failStepped _ _ G vs canRetry e shape source _ retry failed error =>
    by_cases hc : canRetry = true ∧ st.attempts + 1 < st.max_attempts
    · rw [(retry hc).1] at hs
      exact absurd hs (by decide)
    · exact ⟨G, vs, canRetry, e, shape, source, hc, (failed hc).2, error⟩
  | escalated _ m G now shape _ _ _ => simp at hs

theorem ExecOutcome.inv_escalated {env : Env} {w w1 : World} {id : String}
    {step : WorkflowStep} {st : StepRow} {r : StepResult}
    (h : ExecOutcome env w id step st (.ok r) w1) (hs : r.status = "escalated") :
    ∃ m G now, AttemptShape env w w1 id step G
        [(G st).successor (env.newId (w.ids + 1)) now id (step.escalate_to.getD "undefined")]
        []
      ∧ truthy step.escalate_to = true ∧ TryRaised env w step m
      ∧ (∀ r, (G r).status = "escalated" ∧ (G r).result = r.result ∧ (G r).error = r.error)
      ∧ r.newStepId = some (env.newId (w.ids + 1)) ∧ r.reason = some m := by
  cases h with
  | completed _ p G vs shape accepted status verified unverified =>
    simp at hs
  | failStepped _ _ G vs canRetry e shape source _ retry failed error =>
    exfalso
    by_cases hc : canRetry = true ∧ st.attempts + 1 < st.max_attempts
    · rw [(retry hc).1] at hs
      exact absurd hs (by decide)
    · rw [(failed hc).1] at hs
      exact absurd hs (by decide)
  | escalated _ m G now shape declared raised status =>
    exact ⟨m, G, now, shape, declared, raised, status, rfl, rfl⟩

theorem getStep_successor {env : Env} {w w1 : World} {id : String} {step : WorkflowStep}
    {G : StepRow → StepRow} {succ : StepRow}
    (h : AttemptShape env w w1 id step G [succ] []) (hF : Fresh env w)
    (hid : succ.id = env.newId (w.ids + 1)) :
    getStep w1.db (env.newId (w.ids + 1)) = some succ := by
  unfold getStep
  rw [h.steps, List.find?_append,
    find?_sqlUpdate_id G id _ _ (fun r => (h.keys r).1.1)]
  have h0 := getStep_none_of_fresh hF (w.ids + 1) (Nat.le_succ _)
  unfold getStep at h0
  rw [h0]
  simp [hid]

/-! ## The body of the step loop follows `OneStep` -/

theorem LoopRun.escalated_ready {env : Env} {id : String} {step : WorkflowStep} {n : Nat}
    {w w1 : World} {st : StepRow} {r : StepResult}
    (h : LoopRun env id step n w st (.ok (some r)) w1) (hs : r.status = "escalated") :
    ∃ succ, Ready env w1 (r.newStepId.getD "undefined") succ
      ∧ IsNew env w w1 (r.newStepId.getD "undefined")
      ∧ succ.attempts = 0 ∧ succ.escalated_from = some id ∧ succ.result = none
      ∧ succ.agent_type = step.escalate_to.getD "undefined" := by
  obtain ⟨wl, stl, rr, hr, ht, _, ho, hres⟩ := h.last
  rcases hres with ⟨e, _, h2⟩ | ⟨r2, h1, h2, _⟩
  · cases h2
  · have h3 : r2 = r := by
      have := Except.ok.inj h2
      exact (Option.some.inj this).symm
    subst h3
    subst h1
    obtain ⟨m, G, now, shape, _, _, _, hnew, _⟩ := ho.inv_escalated hs
    have hfn := hr.after (ho.exec_touches hr.2.2.1)
    rw [hnew]
    refine ⟨_, ⟨hfn.1, hfn.2, getStep_successor shape hr.1 rfl, rfl⟩, ?_, rfl, rfl, rfl, rfl⟩
    refine ⟨wl.ids + 1, ?_, ?_, rfl⟩
    · have := ht.ids
      omega
    · rw [shape.ids]
      simp

theorem runOneStep_run (env : Env) (w : World) (id : String) (step : WorkflowStep)
    (st : StepRow) (hr : Ready env w id st) (ha : st.attempts = 0)
    (hm : st.max_attempts = step.retry.getD 3) :
    OneStep env id step w st (runOneStep env w id step).1 (runOneStep env w id step).2 := by
  unfold runOneStep executeStepWithRetry
  simp only
  cases hn : (step.retry.getD 3).toNat with
  | zero =>
    unfold retryLoop
    exact OneStep.noBudget hn
  | succ n =>
    have hb : (n : Int) + 1 = st.max_attempts - st.attempts := by
      rw [ha, hm]
      omega
    have hl := retryLoop_run env id step n w st none hr hb
    generalize retryLoop env id step (n + 1) w none = p at hl
    obtain ⟨res, w1⟩ := p
    obtain ⟨wl, stl, rr, _, _, _, _, hres⟩ := hl.last
    rcases hres with ⟨e, _, h2⟩ | ⟨r, _, h2, hs⟩
    · have h2 : res = .error e := h2
      subst h2
      exact OneStep.raised _ e w1 hl hn.symm
    · have h2 : res = .ok (some r) := h2
      subst h2
      rcases hs with hs | hs | hs
      · simp only [hs, beq_self_eq_true, if_true]
        exact OneStep.completed _ r w1 hl hs hn.symm
      · obtain ⟨succ, hready, _⟩ := hl.escalated_ready hs
        have ho := executeStep_outcome env w1 (r.newStepId.getD "undefined")
          { step with agent := step.escalate_to.getD "undefined" } succ
          hready.1 hready.2.1 hready.2.2.1 hready.2.2.2
        simp only [hs]
        rw [if_neg (by decide), if_neg (by decide), if_pos (by decide)]
        generalize executeStep env w1 (r.newStepId.getD "undefined")
          { step with agent := step.escalate_to.getD "undefined" } = q at ho ⊢
        obtain ⟨rr2, w2⟩ := q
        have hrun := OneStep.escalated _ r w1 succ _ _ hl hs hready ho hn.symm
        cases rr2 with
        | error e => exact hrun
        | ok er =>
          simp only at hrun ⊢
          by_cases hc : (er.status != "completed") = true
          · rw [if_pos hc] at hrun ⊢
            exact hrun
          · rw [if_neg hc] at hrun ⊢
            exact hrun
      · simp only [hs]
        rw [if_neg (by decide), if_pos (by decide)]
        exact OneStep.failed _ r w1 hl hs hn.symm

theorem OneStep.step_touches {env : Env} {id : String} {step : WorkflowStep} {w w1 : World}
    {st : StepRow} {res : Except String Unit}
    (h : OneStep env id step w st res w1) (hr : Ready env w id st) :
    Touches env (fun k => k = id) w w1 := by
  cases h with
  | noBudget _ => exact Touches.refl _ _ _
  | raised n e _ loop => exact loop.loop_touches
  | completed n r _ loop hs => exact loop.loop_touches
  | failed n r _ loop hs => exact loop.loop_touches
  | escalated n r wm succ rr _ loop hs ready hop =>
    obtain ⟨_, _, hnew, _⟩ := loop.escalated_ready hs
    exact loop.loop_touches.trans (hop.exec_touches ready.2.2.1) (fun k hk => Or.inr (hk ▸ hnew))
      (fun _ hk => hk ▸ mentions_of_getStep hr.2.2.1) hr.1

/-! ## The step loop follows `StepsRun` -/

theorem Touches.getStep_fixed {env : Env} {S : String → Prop} {w w1 : World} {k : String}
    {st : StepRow} (h : Touches env S w w1) (hg : getStep w.db k = some st) (hk : ¬ S k) :
    getStep w1.db k = some st := by
  obtain ⟨F, added, h1, h2, h3, _, _⟩ := h.steps
  have hmem := mem_of_getStep _ _ _ hg
  have hid := getStep_id hg
  unfold getStep at hg ⊢
  rw [h1, List.find?_append]
  have hmap : List.find? (fun r => r.id == k) (List.map F w.db.step_executions)
      = (List.find? (fun r => r.id == k) w.db.step_executions).map F := by
    have := find?_sqlUpdate (fun r : StepRow => r.id) (fun _ => true) F k w.db.step_executions
      (fun r => (h2 r).1)
    simpa [sqlUpdate] using this
  rw [hmap, hg]
  have : F st = st := h3 st hmem (by rw [hid]; exact hk)
  simp [this]

theorem Declared.preserved {env : Env} {S : String → Prop} {w w1 : World} {k : String}
    {step : WorkflowStep} (hd : Declared w k step) (h : Touches env S w w1) (hk : ¬ S k)
    (hF : Fresh env w) : Declared w1 k step := by
  obtain ⟨st, hg, h1, h2, h3, h4, h5, h6⟩ := hd
  have hmen := mentions_of_getStep hg
  refine ⟨st, h.getStep_fixed hg hk, h1, h2, h3, h4, ?_, ?_⟩
  · obtain ⟨F, added, e1, k1, _, _, p1⟩ := h.steps
    intro r hr he
    rw [e1, List.mem_append, List.mem_map] at hr
    rcases hr with ⟨r0, hr0, hF0⟩ | hr
    · apply h5 r0 hr0
      rw [← (k1 r0).2.2.2.2.2.2.2, hF0]
      exact he
    · obtain ⟨_, _, k2, q3, q4⟩ := p1 r hr
      rw [he] at q3
      have : k = k2 := Option.some.inj q3
      subst this
      rcases q4 with q4 | q4
      · exact hk q4
      · exact q4.not_mentions hF hmen
  · obtain ⟨vs, e1, p1⟩ := h.verifs
    intro v hv he
    rw [e1, List.mem_append] at hv
    rcases hv with hv | hv
    · exact h6 v hv he
    · rcases (p1 v hv).2 with q | q
      · exact hk (he ▸ q)
      · exact (he ▸ q : IsNew env w w1 k).not_mentions hF hmen

theorem runSteps_run (env : Env) (l : List (String × WorkflowStep)) :
    ∀ w : World, Fresh env w → w.db.stepIdsNodup → (l.map Prod.fst).Nodup →
      (∀ x ∈ l, Declared w x.1 x.2) →
      StepsRun env l w (runSteps env w l).1 (runSteps env w l).2 := by
  induction l with
  | nil =>
    intro w _ _ _ _
    exact StepsRun.done w
  | cons x rest ih =>
    intro w hF hnd hids hdecl
    obtain ⟨id, step⟩ := x
    have hd : Declared w id step := hdecl (id, step) (List.mem_cons_self _ _)
    have hd2 := hd
    obtain ⟨st, hg, h1, h2, h3, _⟩ := hd2
    have hr : Ready env w id st := ⟨hF, hnd, hg, h1⟩
    have ho := runOneStep_run env w id step st hr h2 h3
    unfold runSteps
    generalize runOneStep env w id step = p at ho
    obtain ⟨res, w1⟩ := p
    cases res with
    | error e => exact StepsRun.stop id step rest w st e w1 hd hr ho
    | ok u =>
      have ht := ho.step_touches hr
      have hfn := hr.after ht
      rw [List.map_cons, List.nodup_cons] at hids
      have htail := ih w1 hfn.1 hfn.2 hids.2 (fun x hx => by
        refine (hdecl x (List.mem_cons_of_mem _ hx)).preserved ht ?_ hF
        intro hk
        apply hids.1
        rw [← hk]
        exact List.mem_map.mpr ⟨x, hx, rfl⟩)
      exact StepsRun.next id step rest w st w1 _ _ hd hr ho htail

/-! ## The rows an attempt leaves -/

theorem AttemptShape.shape_mem_steps {env : Env} {w w1 : World} {id : String} {step : WorkflowStep}
    {G : StepRow → StepRow} {added : List StepRow} {vs : List VerificationRow}
    (h : AttemptShape env w w1 id step G added vs) {r : StepRow}
    (hr : r ∈ w1.db.step_executions) :
    (∃ r0 ∈ w.db.step_executions, SameKeys r0 r ∧ (r0.id ≠ id → r = r0)
        ∧ (r0.id = id → r = G r0))
      ∨ r ∈ added := by
  rw [h.steps, List.mem_append] at hr
  rcases hr with hr | hr
  · left
    unfold sqlUpdate at hr
    rw [List.mem_map] at hr
    obtain ⟨r0, hr0, he⟩ := hr
    refine ⟨r0, hr0, ?_, ?_, ?_⟩
    · rw [← he]
      split
      · exact (h.keys r0).1
      · exact ⟨rfl, rfl, rfl, rfl, rfl, rfl, rfl, rfl⟩
    · intro hne
      have hc : ¬ (r0.id == id) = true := by simpa using hne
      rw [if_neg hc] at he
      exact he.symm
    · intro hid
      have hc : (r0.id == id) = true := by simpa using hid
      rw [if_pos hc] at he
      exact he.symm
  · exact Or.inr hr

theorem ExecOutcome.mem_steps {env : Env} {w w1 : World} {id : String} {step : WorkflowStep}
    {st : StepRow} {rr : Except String StepResult}
    (h : ExecOutcome env w id step st rr w1) {r : StepRow}
    (hr : r ∈ w1.db.step_executions) :
    (∃ r0 ∈ w.db.step_executions, SameKeys r0 r ∧ (r0.id ≠ id → r = r0))
      ∨ (r.escalated_from = some id ∧ r.status = "pending" ∧ r.result = none
          ∧ ∃ er, rr = .ok er ∧ er.newStepId = some r.id) := by
  cases h with
  | unknownAgent _ =>
    exact Or.inl ⟨r, hr, ⟨rfl, rfl, rfl, rfl, rfl, rfl, rfl, rfl⟩, fun _ => rfl⟩
  | completed _ p G vs shape _ _ _ _ =>
    rcases shape.shape_mem_steps hr with ⟨r0, h0, h1, h2, _⟩ | h
    · exact Or.inl ⟨r0, h0, h1, h2⟩
    · cases h
  | failStepped _ res G vs canRetry e shape _ _ _ _ _ =>
    rcases shape.shape_mem_steps hr with ⟨r0, h0, h1, h2, _⟩ | h
    · exact Or.inl ⟨r0, h0, h1, h2⟩
    · cases h
  | escalated _ m G now shape _ _ _ =>
    rcases shape.shape_mem_steps hr with ⟨r0, h0, h1, h2, _⟩ | h
    · exact Or.inl ⟨r0, h0, h1, h2⟩
    · rw [List.mem_singleton] at h
      subst h
      exact Or.inr ⟨rfl, rfl, rfl, _, rfl, rfl⟩

theorem ExecOutcome.row {env : Env} {w w1 : World} {id : String} {step : WorkflowStep}
    {st : StepRow} {rr : Except String StepResult}
    (h : ExecOutcome env w id step st rr w1) (hr : Ready env w id st) :
    ∃ row, getStep w1.db id = some row ∧ SameKeys st row
      ∧ row.status = settledStatus rr := by
  cases h with
  | unknownAgent _ =>
    exact ⟨st, hr.2.2.1, ⟨rfl, rfl, rfl, rfl, rfl, rfl, rfl, rfl⟩, hr.2.2.2⟩
  | completed _ p G vs shape _ status _ _ =>
    exact ⟨G st, getStep_of_shape shape hr.2.2.1, (shape.keys st).1, (status st).1⟩
  | failStepped _ res G vs canRetry e shape _ _ retry failed _ =>
    refine ⟨G st, getStep_of_shape shape hr.2.2.1, (shape.keys st).1, ?_⟩
    by_cases hc : canRetry = true ∧ st.attempts + 1 < st.max_attempts
    · rw [((retry hc).2 st)]
      simp [settledStatus, (retry hc).1]
    · rw [((failed hc).2 st)]
      simp [settledStatus, (failed hc).1]
  | escalated _ m G now shape _ _ status =>
    exact ⟨G st, getStep_of_shape shape hr.2.2.1, (shape.keys st).1, (status st).1⟩

theorem ExecOutcome.getStep_ne {env : Env} {w w1 : World} {id : String} {step : WorkflowStep}
    {st : StepRow} {rr : Except String StepResult}
    (h : ExecOutcome env w id step st rr w1) (hg : getStep w.db id = some st) {k : String}
    {row : StepRow} (hk : k ≠ id) (hrow : getStep w.db k = some row) :
    getStep w1.db k = some row :=
  (h.exec_touches hg).getStep_fixed hrow hk

/-! ## The rows a retry loop leaves -/

theorem settledStatus_ok {r : StepResult}
    (hs : r.status = "completed" ∨ r.status = "escalated" ∨ r.status = "failed") :
    settledStatus (.ok r) = r.status := by
  unfold settledStatus
  rcases hs with hs | hs | hs <;> simp [hs]

theorem LoopRun.last_row {env : Env} {id : String} {step : WorkflowStep} {n : Nat} {w w2 : World}
    {st : StepRow} {res : Except String (Option StepResult)}
    (h : LoopRun env id step n w st res w2) :
    ∃ row, getStep w2.db id = some row ∧ SameKeys st row
      ∧ ((∃ e, res = .error e ∧ row.status = "pending")
          ∨ (∃ r, res = .ok (some r) ∧ row.status = r.status
              ∧ (r.status = "completed" ∨ r.status = "escalated" ∨ r.status = "failed"))) := by
  obtain ⟨wl, stl, rr, hr, _, hret, ho, hres⟩ := h.last
  obtain ⟨row, h1, h2, h3⟩ := ho.row hr
  refine ⟨row, h1, hret.keys.compose h2, ?_⟩
  rcases hres with ⟨e, he1, he2⟩ | ⟨r, hr1, hr2, hs⟩
  · left
    rw [he1] at h3
    exact ⟨e, he2, h3⟩
  · right
    rw [hr1, settledStatus_ok hs] at h3
    exact ⟨r, hr2, h3, hs⟩

theorem LoopRun.loop_mem_steps {env : Env} {id : String} {step : WorkflowStep} {n : Nat}
    {w w2 : World} {st : StepRow} {res : Except String (Option StepResult)}
    (h : LoopRun env id step n w st res w2) {r : StepRow}
    (hr : r ∈ w2.db.step_executions) (hne : r.id ≠ id) :
    r ∈ w.db.step_executions
      ∨ (r.escalated_from = some id ∧ r.status = "pending" ∧ r.result = none
          ∧ ∃ er, res = .ok (some er) ∧ er.newStepId = some r.id) := by
  obtain ⟨wl, stl, rr, _, _, hret, ho, hres⟩ := h.last
  rcases ho.mem_steps hr with ⟨r0, h0, h1, h2⟩ | ⟨h1, h2, h3, er, h4, h5⟩
  · left
    have hid : r0.id ≠ id := by
      rw [← h1.1]
      exact hne
    rw [h2 hid]
    exact hret.rows r0 h0 hid
  · right
    refine ⟨h1, h2, h3, er, ?_, h5⟩
    rcases hres with ⟨e, he1, _⟩ | ⟨r2, hr1, hr2, _⟩
    · rw [he1] at h4
      cases h4
    · rw [hr1] at h4
      cases h4
      exact hr2

/-! ## Whether the chain of a step ended completed -/

theorem chainCompleted_completed {db : Store} {id : String} {row : StepRow}
    (hg : getStep db id = some row) (hs : row.status = "completed") :
    chainCompleted db id = true := by
  unfold chainCompleted
  rw [hg]
  simp [hs]

theorem chainCompleted_escalated {db : Store} {id : String} {row s : StepRow}
    (hg : getStep db id = some row) (hm : s ∈ db.step_executions)
    (he : s.escalated_from = some id) (hc : s.status = "completed")
    (hs : row.status = "escalated") : chainCompleted db id = true := by
  unfold chainCompleted
  rw [hg]
  simp only [hs, Bool.or_eq_true, Bool.and_eq_true, List.any_eq_true, beq_iff_eq]
  exact Or.inr ⟨trivial, s, hm, he, hc⟩

theorem chainCompleted_false {db : Store} {id : String} {row : StepRow}
    (hg : getStep db id = some row) (hs : row.status ≠ "completed")
    (hsucc : row.status = "escalated" →
      ∀ s ∈ db.step_executions, s.escalated_from = some id → s.status ≠ "completed") :
    chainCompleted db id = false := by
  unfold chainCompleted
  rw [hg]
  simp only [Bool.or_eq_false_iff, Bool.and_eq_false_iff, beq_eq_false_iff_ne, ne_eq]
  refine ⟨hs, ?_⟩
  by_cases he : row.status = "escalated"
  · right
    rw [← Bool.not_eq_true, List.any_eq_true]
    rintro ⟨s, hm, hc⟩
    simp only [Bool.and_eq_true, beq_iff_eq] at hc
    exact hsucc he s hm hc.1 hc.2
  · exact Or.inl he

theorem OneStep.chain {env : Env} {id : String} {step : WorkflowStep} {w w1 : World}
    {st : StepRow} {res : Except String Unit}
    (h : OneStep env id step w st res w1) (hr : Ready env w id st) (hd : Declared w id step) :
    (res = .ok () → chainCompleted w1.db id = true)
      ∧ (∀ e, res = .error e → chainCompleted w1.db id = false) := by
  obtain ⟨_, _, _, _, _, _, hnos, _⟩ := hd
  have hst : st ∈ w.db.step_executions := mem_of_getStep _ _ _ hr.2.2.1
  cases h with
  | noBudget _ =>
    refine ⟨fun h => (by cases h), fun e _ => ?_⟩
    exact chainCompleted_false hr.2.2.1 (by rw [hr.2.2.2]; decide)
      (fun h => by rw [hr.2.2.2] at h; exact absurd h (by decide))
  | raised n e _ loop =>
    refine ⟨fun h => (by cases h), fun e _ => ?_⟩
    obtain ⟨row, h1, _, h3⟩ := loop.last_row
    rcases h3 with ⟨_, _, h4⟩ | ⟨_, h5, _⟩
    · exact chainCompleted_false h1 (by rw [h4]; decide)
        (fun h => by rw [h4] at h; exact absurd h (by decide))
    · cases h5
  | completed n r _ loop hs =>
    refine ⟨fun _ => ?_, fun e h => (by cases h)⟩
    obtain ⟨row, h1, _, h3⟩ := loop.last_row
    rcases h3 with ⟨_, h5, _⟩ | ⟨r2, h5, h6, _⟩
    · cases h5
    · cases h5
      exact chainCompleted_completed h1 (h6.trans hs)
  | failed n r _ loop hs =>
    refine ⟨fun h => (by cases h), fun e _ => ?_⟩
    obtain ⟨row, h1, _, h3⟩ := loop.last_row
    rcases h3 with ⟨_, h5, _⟩ | ⟨r2, h5, h6, _⟩
    · cases h5
    · cases h5
      have h7 := h6.trans hs
      exact chainCompleted_false h1 (by rw [h7]; decide)
        (fun h => by rw [h7] at h; exact absurd h (by decide))
  | escalated n r wm succ rr _ loop hs ready hop =>
    obtain ⟨row, h1, hkeys, h3⟩ := loop.last_row
    have hrow : row.status = "escalated" := by
      rcases h3 with ⟨_, h5, _⟩ | ⟨r2, h5, h6, _⟩
      · cases h5
      · cases h5
        exact h6.trans hs
    obtain ⟨succ2, hready2, hnew, _, hfrom, _⟩ := loop.escalated_ready hs
    have hsame : succ2 = succ := by
      have := hready2.2.2.1.symm.trans ready.2.2.1
      exact Option.some.inj this
    subst hsame
    have hne : id ≠ r.newStepId.getD "undefined" := by
      intro he
      exact (he ▸ hnew).not_mentions hr.1 (mentions_of_getStep hr.2.2.1)
    have hrow2 := hop.getStep_ne ready.2.2.1 hne h1
    obtain ⟨row3, g1, g2, g3⟩ := hop.row ready
    have hnd2 := (ready.after (hop.exec_touches ready.2.2.1)).2
    have hfrom3 : row3.escalated_from = some id := g2.2.2.2.2.2.2.2.trans hfrom
    have hsucc : settledStatus rr ≠ "completed" →
        ∀ s ∈ w1.db.step_executions, s.escalated_from = some id → s.status ≠ "completed" := by
      intro hnc s hs2 hes
      have hsid : s.id = r.newStepId.getD "undefined" := by
        rcases hop.mem_steps hs2 with ⟨r0, h0, k0, _⟩ | ⟨k1, _⟩
        · have hr0 : r0.escalated_from = some id := k0.2.2.2.2.2.2.2.symm.trans hes
          rw [k0.1]
          by_cases hid : r0.id = id
          · exfalso
            have := eq_of_getStep_of_mem _ ready.2.1 h1 h0 hid
            rw [this, hkeys.2.2.2.2.2.2.2] at hr0
            exact hnos st hst hr0
          · rcases loop.loop_mem_steps h0 hid with k2 | ⟨_, _, _, er, k3, k4⟩
            · exact absurd hr0 (hnos r0 k2)
            · cases k3
              rw [k4]
              rfl
        · rw [hes] at k1
          exact absurd (Option.some.inj k1) hne
      have := eq_of_getStep_of_mem _ hnd2 g1 hs2 hsid
      rw [this, g3]
      exact hnc
    have hmem3 := mem_of_getStep _ _ _ g1
    cases rr with
    | error e2 =>
      refine ⟨fun h => (by cases h), fun e _ => ?_⟩
      exact chainCompleted_false hrow2 (by rw [hrow]; decide)
        (fun _ => hsucc (by simp [settledStatus]))
    | ok er =>
      by_cases hc : er.status = "completed"
      · refine ⟨fun _ => ?_, fun e h => ?_⟩
        · refine chainCompleted_escalated hrow2 hmem3 hfrom3 ?_ hrow
          rw [g3]
          simp [settledStatus, hc]
        · simp [hc] at h
      · refine ⟨fun h => ?_, fun e _ => ?_⟩
        · simp [hc] at h
        · refine chainCompleted_false hrow2 (by rw [hrow]; decide) (fun _ => hsucc ?_)
          unfold settledStatus
          simp only
          split
          · decide
          · exact hc

/-! ## Chains along the step loop -/

theorem chainCompleted_touches {env : Env} {S : String → Prop} {w w1 : World} {id : String}
    (h : Touches env S w w1) (hnd : w.db.stepIdsNodup)
    (hS : ∀ k, S k → ∃ st, getStep w.db k = some st ∧ st.status = "pending")
    (hc : chainCompleted w.db id = true) : chainCompleted w1.db id = true := by
  unfold chainCompleted at hc
  cases hg : getStep w.db id with
  | none => simp [hg] at hc
  | some row =>
    rw [hg] at hc
    simp only [Bool.or_eq_true, Bool.and_eq_true, List.any_eq_true, beq_iff_eq] at hc
    have hnS : ¬ S id := by
      intro hs
      obtain ⟨st, h1, h2⟩ := hS id hs
      rw [hg] at h1
      have : row = st := Option.some.inj h1
      subst this
      rw [h2] at hc
      rcases hc with hc | ⟨hc, _⟩ <;> exact absurd hc (by decide)
    have hg1 := h.getStep_fixed hg hnS
    rcases hc with hc | ⟨hc, s, hm, he, hcs⟩
    · exact chainCompleted_completed hg1 hc
    · have hnSs : ¬ S s.id := by
        intro hs
        obtain ⟨st, h1, h2⟩ := hS s.id hs
        have := eq_of_getStep_of_mem _ hnd h1 hm rfl
        rw [this, h2] at hcs
        exact absurd hcs (by decide)
      have hgs := h.getStep_fixed (getStep_of_mem _ hnd s hm) hnSs
      exact chainCompleted_escalated hg1 (mem_of_getStep _ _ _ hgs) he hcs hc

theorem StepsRun.spec {env : Env} {l : List (String × WorkflowStep)} {w w2 : World}
    {res : Except String Unit} (h : StepsRun env l w res w2) :
    Fresh env w → w.db.stepIdsNodup → (l.map Prod.fst).Nodup →
    (∀ x ∈ l, Declared w x.1 x.2) →
    Touches env (fun k => k ∈ l.map Prod.fst) w w2
      ∧ (res = .ok () → ∀ x ∈ l, chainCompleted w2.db x.1 = true)
      ∧ (∀ e, res = .error e → ∃ l1 x l2, l = l1 ++ x :: l2
          ∧ Touches env (fun k => k ∈ (l1 ++ [x]).map Prod.fst) w w2
          ∧ (∀ y ∈ l1, chainCompleted w2.db y.1 = true)
          ∧ chainCompleted w2.db x.1 = false) := by
  induction h with
  | done w =>
    intro _ _ _ _
    exact ⟨Touches.refl _ _ _, fun _ x hx => (by cases hx), fun e he => (by cases he)⟩
  | stop id step rest w st e w1 decl ready first =>
    intro hF hnd hids hdecl
    have ht := first.step_touches ready
    refine ⟨ht.weaken (fun k hk => (by rw [hk]; simp)), fun he => (by cases he), fun e2 _ => ?_⟩
    exact ⟨[], (id, step), rest, rfl, ht.weaken (fun k hk => (by rw [hk]; simp)),
      fun y hy => (by cases hy), (first.chain ready decl).2 e rfl⟩
  | next id step rest w st w1 res w2 decl ready first tail ih =>
    intro hF hnd hids hdecl
    have ht := first.step_touches ready
    have hfn := ready.after ht
    rw [List.map_cons, List.nodup_cons] at hids
    have hdecl1 : ∀ x ∈ rest, Declared w1 x.1 x.2 := fun x hx => by
      refine (hdecl x (List.mem_cons_of_mem _ hx)).preserved ht ?_ hF
      intro hk
      apply hids.1
      rw [← hk]
      exact List.mem_map.mpr ⟨x, hx, rfl⟩
    obtain ⟨t1, c1, c2⟩ := ih hfn.1 hfn.2 hids.2 hdecl1
    have hmen : ∀ k, k ∈ List.map Prod.fst ((id, step) :: rest) → w.db.mentions k := by
      intro k hk
      rw [List.mem_map] at hk
      obtain ⟨x, hx, he⟩ := hk
      obtain ⟨sx, hgx, _⟩ := hdecl x hx
      rw [← he]
      exact mentions_of_getStep hgx
    have hpend : ∀ k, k ∈ rest.map Prod.fst →
        ∃ sx, getStep w1.db k = some sx ∧ sx.status = "pending" := by
      intro k hk
      rw [List.mem_map] at hk
      obtain ⟨x, hx, he⟩ := hk
      obtain ⟨sx, hgx, hpx, _⟩ := hdecl1 x hx
      rw [← he]
      exact ⟨sx, hgx, hpx⟩
    have hhead : chainCompleted w2.db id = true :=
      chainCompleted_touches t1 hfn.2 hpend ((first.chain ready decl).1 rfl)
    have t0 : Touches env (fun k => k ∈ List.map Prod.fst ((id, step) :: rest)) w w1 :=
      ht.weaken (fun k hk => by rw [hk]; simp)
    refine ⟨t0.trans t1 (fun k hk => Or.inl (List.mem_cons_of_mem _ hk)) hmen hF, ?_, ?_⟩
    · intro he x hx
      rw [List.mem_cons] at hx
      rcases hx with hx | hx
      · rw [hx]
        exact hhead
      · exact c1 he x hx
    · intro e he
      obtain ⟨l1, x, l2, e1, t2, d1, d2⟩ := c2 e he
      refine ⟨(id, step) :: l1, x, l2, by rw [e1]; rfl, ?_, ?_, d2⟩
      · have t0b : Touches env (fun k => k ∈ List.map Prod.fst ((id, step) :: l1 ++ [x])) w w1 :=
          ht.weaken (fun k hk => by rw [hk]; simp)
        refine t0b.trans t2 (fun k hk => Or.inl ?_) ?_ hF
        · simp only [List.cons_append, List.map_cons, List.mem_cons]
          exact Or.inr hk
        · intro k hk
          apply hmen k
          rw [e1]
          simp only [List.cons_append, List.map_cons, List.mem_cons, List.map_append,
            List.mem_append, List.map_nil, List.not_mem_nil, or_false] at hk ⊢
          tauto
      · intro y hy
        rw [List.mem_cons] at hy
        rcases hy with hy | hy
        · rw [hy]
          exact hhead
        · exact d1 y hy

/-! ## `runWorkflow` as a whole -/

theorem declaredSteps_ids (env : Env) (w : World) (workflow : Workflow) :
    (declaredSteps env w workflow).map Prod.fst
      = stepIdsFrom env (w.ids + 1) workflow.steps.length := by
  unfold declaredSteps
  apply List.map_fst_zip
  simp [stepIdsFrom]

theorem runWorkflow_spec (env : Env) (w : World) (workflowPath : String) (workflow : Workflow)
    (useGit : Bool) (hF : Fresh env w) (hnd : w.db.stepIdsNodup) :
    ∃ loopRes w4,
      StepsRun env (declaredSteps env w workflow)
        (loopWorld env w workflowPath workflow useGit) loopRes w4
      ∧ runWorkflow env w workflowPath workflow useGit
          = finishRun env (env.newId w.ids) (loopRes, w4)
      ∧ Fresh env (loopWorld env w workflowPath workflow useGit)
      ∧ (loopWorld env w workflowPath workflow useGit).db.stepIdsNodup
      ∧ ((declaredSteps env w workflow).map Prod.fst).Nodup
      ∧ (∀ x ∈ declaredSteps env w workflow,
          Declared (loopWorld env w workflowPath workflow useGit) x.1 x.2) := by
  have h1 := loopWorld_fresh workflowPath workflow useGit hF
  have h2 := loopWorld_nodup workflowPath workflow useGit hF hnd
  have h3 : ((declaredSteps env w workflow).map Prod.fst).Nodup := by
    rw [declaredSteps_ids]
    exact stepIdsFrom_nodup env hF.1 _ _
  have h4 : ∀ x ∈ declaredSteps env w workflow,
      Declared (loopWorld env w workflowPath workflow useGit) x.1 x.2 :=
    fun x hx => loopWorld_declared workflowPath workflow useGit hF hnd x.1 x.2 hx
  refine ⟨_, _, runSteps_run env _ _ h1 h2 h3 h4, ?_, h1, h2, h3, h4⟩
  rw [runWorkflow_eq env w workflowPath workflow useGit hF]
  rfl

theorem chainCompleted_congr {db db2 : Store} (h : db2.step_executions = db.step_executions)
    (id : String) : chainCompleted db2 id = chainCompleted db id := by
  unfold chainCompleted getStep
  rw [h]

theorem finishRun_steps (env : Env) (runId : String) (loop : Except String Unit × World) :
    (finishRun env runId loop).2.db.step_executions = loop.2.db.step_executions := by
  obtain ⟨r, w4⟩ := loop
  cases r <;> rfl

theorem finishRun_getRun (env : Env) (runId : String) (loop : Except String Unit × World)
    (run : RunRow) (hg : getRun loop.2.db runId = some run) :
    ∃ res row, (finishRun env runId loop).1 = .ok res ∧ res.runId = runId
      ∧ getRun (finishRun env runId loop).2.db runId = some row
      ∧ ((loop.1 = .ok () ∧ res.success = true ∧ res.error = none
            ∧ row.status = "completed" ∧ row.error = none)
          ∨ (∃ e, loop.1 = .error e ∧ res.success = false ∧ res.error = some e
              ∧ row.status = "failed" ∧ row.error = some e)) := by
  obtain ⟨r, w4⟩ := loop
  have hg2 : getRun w4.db runId = some run := hg
  cases r with
  | error e =>
    refine ⟨_, { run with status := "failed", updated_at := env.now w4.clock w4.waits,
                          completed_at := if ["completed", "failed", "cancelled"].contains
                            "failed" then some (env.now w4.clock w4.waits) else none,
                          error := some e },
      rfl, rfl, ?_, Or.inr ⟨e, rfl, rfl, rfl, rfl, rfl⟩⟩
    show getRun (updateRunStatus w4.db _ runId "failed" (some e)) runId = _
    rw [getRun_updateRunStatus, if_pos rfl, hg2]
    rfl
  | ok u =>
    refine ⟨_, { run with status := "completed", updated_at := env.now w4.clock w4.waits,
                          completed_at := if ["completed", "failed", "cancelled"].contains
                            "completed" then some (env.now w4.clock w4.waits) else none,
                          error := none },
      rfl, rfl, ?_, Or.inl ⟨rfl, rfl, rfl, rfl, rfl⟩⟩
    show getRun (updateRunStatus w4.db _ runId "completed" none) runId = _
    rw [getRun_updateRunStatus, if_pos rfl, hg2]
    rfl

theorem runWorkflow_getRun {env : Env} {w : World} (workflowPath : String) (workflow : Workflow)
    (useGit : Bool) (hF : Fresh env w) {S : String → Prop} {w4 : World}
    (ht : Touches env S (loopWorld env w workflowPath workflow useGit) w4) :
    ∃ run, getRun w4.db (env.newId w.ids) = some run := by
  obtain ⟨r, hr, _⟩ := loopWorld_getRun workflowPath workflow useGit hF
  refine ⟨r, ?_⟩
  unfold getRun at hr ⊢
  rw [ht.runs]
  exact hr

theorem Touches.getStep_keys {env : Env} {S : String → Prop} {w w1 : World} {k : String}
    {st : StepRow} (h : Touches env S w w1) (hg : getStep w.db k = some st) :
    ∃ row, getStep w1.db k = some row ∧ SameKeys st row := by
  obtain ⟨F, added, h1, h2, _, _, _⟩ := h.steps
  refine ⟨F st, ?_, h2 st⟩
  unfold getStep at hg ⊢
  rw [h1, List.find?_append]
  have hmap : List.find? (fun r => r.id == k) (List.map F w.db.step_executions)
      = (List.find? (fun r => r.id == k) w.db.step_executions).map F := by
    have := find?_sqlUpdate (fun r : StepRow => r.id) (fun _ => true) F k w.db.step_executions
      (fun r => (h2 r).1)
    simpa [sqlUpdate] using this
  rw [hmap, hg]
  rfl

theorem loopWorld_getStep {env : Env} {w : World} (workflowPath : String) (workflow : Workflow)
    (useGit : Bool) (hF : Fresh env w) (hnd : w.db.stepIdsNodup) (x : String × WorkflowStep)
    (hm : x ∈ declaredSteps env w workflow) :
    ∃ now k, getStep (loopWorld env w workflowPath workflow useGit).db x.1
      = some (StepRow.created x.1 now (env.newId w.ids) k x.2) := by
  obtain ⟨now, k, hc⟩ := createdRows_zip env (env.newId w.ids) w.waits workflow.steps
    (w.ids + 1) (w.clock + 1) 0 x.1 x.2 hm
  have hmem : StepRow.created x.1 now (env.newId w.ids) k x.2
      ∈ (loopWorld env w workflowPath workflow useGit).db.step_executions := by
    rw [loopWorld_steps]
    exact List.mem_append_right _ hc
  exact ⟨now, k, getStep_of_mem _ (loopWorld_nodup workflowPath workflow useGit hF hnd) _ hmem⟩

/-- C13: when identifiers are fresh, `runWorkflow` returns, and it leaves the
run `completed` (returning success) exactly when the chain of every declared
step ended completed: the step created for the declaration is `completed`, or
it is `escalated` and a step escalated from it is `completed`.  The outcomes
of both collaborators are arbitrary. -/
theorem C13_completed_iff_chains_completed (env : Env) (w : World) (workflowPath : String)
    (workflow : Workflow) (useGit : Bool) (hF : Fresh env w) (hnd : w.db.stepIdsNodup) :
    ∃ res run, (runWorkflow env w workflowPath workflow useGit).1 = .ok res
      ∧ getRun (runWorkflow env w workflowPath workflow useGit).2.db res.runId = some run
      ∧ (run.status = "completed" ↔ res.success = true)
      ∧ (run.status = "completed" ↔
          ∀ x ∈ declaredSteps env w workflow,
            chainCompleted (runWorkflow env w workflowPath workflow useGit).2.db x.1 = true)
      ∧ (∀ x ∈ declaredSteps env w workflow, ∃ row,
          getStep (runWorkflow env w workflowPath workflow useGit).2.db x.1 = some row
          ∧ row.run_id = res.runId ∧ row.step_name = x.2.name
          ∧ row.escalated_from = none) := by
  obtain ⟨loopRes, w4, hrun, heq, hF1, hnd1, hids, hdecl⟩ :=
    runWorkflow_spec env w workflowPath workflow useGit hF hnd
  obtain ⟨ht, hok, herr⟩ := hrun.spec hF1 hnd1 hids hdecl
  obtain ⟨run0, hrun0⟩ := runWorkflow_getRun workflowPath workflow useGit hF ht
  obtain ⟨res, row, f1, f2, f3, f4⟩ := finishRun_getRun env (env.newId w.ids) (loopRes, w4)
    run0 hrun0
  have hsteps := finishRun_steps env (env.newId w.ids) (loopRes, w4)
  rw [heq]
  refine ⟨res, row, f1, by rw [f2]; exact f3, ?_, ?_, ?_⟩
  · rcases f4 with ⟨_, h2, _, h4, _⟩ | ⟨e, _, h2, _, h4, _⟩
    · simp [h2, h4]
    · simp [h2, h4]
  · rcases f4 with ⟨h1, _, _, h4, _⟩ | ⟨e, h1, _, _, h4, _⟩
    · refine ⟨fun _ x hx => ?_, fun _ => h4⟩
      rw [chainCompleted_congr hsteps]
      exact hok h1 x hx
    · refine ⟨fun h => by rw [h4] at h; exact absurd h (by decide), fun h => ?_⟩
      exfalso
      obtain ⟨l1, x, l2, e1, _, _, d2⟩ := herr e h1
      have := h x (by rw [e1]; simp)
      rw [chainCompleted_congr hsteps, d2] at this
      exact absurd this (by decide)
  · intro x hx
    obtain ⟨now, k, hg⟩ := loopWorld_getStep workflowPath workflow useGit hF hnd x hx
    obtain ⟨r2, g1, g2⟩ := ht.getStep_keys hg
    refine ⟨r2, ?_, by rw [g2.2.1, f2]; rfl, by rw [g2.2.2.1]; rfl,
      by rw [g2.2.2.2.2.2.2.2]; rfl⟩
    unfold getStep at g1 ⊢
    rw [hsteps]
    exact g1

theorem C13_completed_iff_chains_completed_witness :
    ∃ res run,
      (runWorkflow tallyEnv (World.start Store.empty) "demo.yaml" twoStepWorkflow false).1
          = .ok res
      ∧ getRun (runWorkflow tallyEnv (World.start Store.empty) "demo.yaml" twoStepWorkflow
          false).2.db res.runId = some run
      ∧ (run.status = "completed" ↔ res.success = true)
      ∧ (run.status = "completed" ↔
          ∀ x ∈ declaredSteps tallyEnv (World.start Store.empty) twoStepWorkflow,
            chainCompleted (runWorkflow tallyEnv (World.start Store.empty) "demo.yaml"
              twoStepWorkflow false).2.db x.1 = true)
      ∧ (∀ x ∈ declaredSteps tallyEnv (World.start Store.empty) twoStepWorkflow, ∃ row,
          getStep (runWorkflow tallyEnv (World.start Store.empty) "demo.yaml" twoStepWorkflow
            false).2.db x.1 = some row
          ∧ row.run_id = res.runId ∧ row.step_name = x.2.name
          ∧ row.escalated_from = none) :=
  C13_completed_iff_chains_completed tallyEnv (World.start Store.empty) "demo.yaml"
    twoStepWorkflow false (fresh_start_empty tallyEnv tallyId_injective) List.nodup_nil

/-! ## Steps that failed -/

theorem LoopRun.loop_failed_rows {env : Env} {id : String} {step : WorkflowStep} {n : Nat}
    {w w2 : World} {st : StepRow} {r : StepResult}
    (h : LoopRun env id step n w st (.ok (some r)) w2) (hs : r.status ≠ "failed")
    {row : StepRow} (hm : row ∈ w2.db.step_executions) (hf : row.status = "failed") :
    row ∈ w.db.step_executions := by
  obtain ⟨row0, h1, _, h3⟩ := h.last_row
  obtain ⟨wl, stl, rr, hr, ht, _, ho, _⟩ := h.last
  have hnd2 := (hr.after (ho.exec_touches hr.2.2.1)).2
  by_cases hid : row.id = id
  · exfalso
    have := eq_of_getStep_of_mem _ hnd2 h1 hm hid
    rcases h3 with ⟨_, h5, _⟩ | ⟨r2, h5, h6, _⟩
    · cases h5
    · cases h5
      rw [this, h6] at hf
      exact hs hf
  · rcases h.loop_mem_steps hm hid with h4 | ⟨_, h5, _⟩
    · exact h4
    · rw [h5] at hf
      exact absurd hf (by decide)

theorem OneStep.step_failed_rows {env : Env} {id : String} {step : WorkflowStep} {w w1 : World}
    {st : StepRow} {res : Except String Unit}
    (h : OneStep env id step w st res w1) (hres : res = .ok ()) {row : StepRow}
    (hm : row ∈ w1.db.step_executions) (hf : row.status = "failed") :
    row ∈ w.db.step_executions := by
  cases h with
  | noBudget _ => cases hres
  | raised n e _ loop => cases hres
  | completed n r _ loop hs => exact loop.loop_failed_rows (by rw [hs]; decide) hm hf
  | failed n r _ loop hs => cases hres
  | escalated n r wm succ rr _ loop hs ready hop =>
    obtain ⟨row3, g1, _, g3⟩ := hop.row ready
    have hnd2 := (ready.after (hop.exec_touches ready.2.2.1)).2
    have hst3 : row3.status = "completed" := by
      cases rr with
      | error e => cases hres
      | ok er =>
        by_cases hc : er.status = "completed"
        · rw [g3]
          simp [settledStatus, hc]
        · simp [hc] at hres
    rcases hop.mem_steps hm with ⟨r0, h0, k0, k1⟩ | ⟨_, k2, _⟩
    · by_cases hid : r0.id = r.newStepId.getD "undefined"
      · exfalso
        have := eq_of_getStep_of_mem _ hnd2 g1 hm (k0.1.trans hid)
        rw [this, hst3] at hf
        exact absurd hf (by decide)
      · rw [k1 hid] at hf ⊢
        exact loop.loop_failed_rows (by rw [hs]; decide) h0 hf
    · rw [k2] at hf
      exact absurd hf (by decide)

theorem StepsRun.failed_rows {env : Env} {l : List (String × WorkflowStep)} {w w2 : World}
    {res : Except String Unit} (h : StepsRun env l w res w2) :
    res = .ok () → ∀ row ∈ w2.db.step_executions, row.status = "failed" →
      row ∈ w.db.step_executions := by
  induction h with
  | done w => exact fun _ _ hm _ => hm
  | stop id step rest w st e w1 decl ready first => exact fun h => (by cases h)
  | next id step rest w st w1 res w2 decl ready first tail ih =>
    intro hres row hm hf
    exact first.step_failed_rows rfl (ih hres row hm hf) hf

theorem loopWorld_failed_rows {env : Env} {w : World} (workflowPath : String)
    (workflow : Workflow) (useGit : Bool) (hF : Fresh env w) {row : StepRow}
    (hm : row ∈ (loopWorld env w workflowPath workflow useGit).db.step_executions)
    (hf : row.status = "failed") : row.run_id ≠ env.newId w.ids := by
  rw [loopWorld_steps, List.mem_append] at hm
  rcases hm with hm | hm
  · exact (fresh_steps hF w.ids (le_refl _) row hm).2.1
  · obtain ⟨_, _, _, _, _, _, _, h4⟩ := mem_createdRows _ _ _ _ _ _ _ row hm
    rw [h4] at hf
    simp [StepRow.created] at hf

/-- C14, counterexample: a run that ends `failed` while none of its steps is
`failed`.  The step is escalated, and the single attempt on the successor ends
in a failed verification that `failStep` turns into a retry, so the successor
is left `pending`. -/
theorem C14_failed_run_without_failed_step_counterexample :
    (runWorkflow rejectingEnv (World.start Store.empty) "demo.yaml" verifiedEscalation false).1
      = .ok { success := false, runId := "i",
              error := some "Escalated step \"build\" failed" }
    ∧ ((getRun (runWorkflow rejectingEnv (World.start Store.empty) "demo.yaml"
          verifiedEscalation false).2.db "i").map (fun r => r.status) = some "failed")
    ∧ ((runWorkflow rejectingEnv (World.start Store.empty) "demo.yaml" verifiedEscalation
          false).2.db.step_executions.map (fun r => (r.id, r.status, r.escalated_from))
        = [("ii", "escalated", none), ("iiii", "pending", some "ii")]) := by
  refine ⟨rfl, ?_, ?_⟩
  · decide
  · decide

/-- C14, amended: when identifiers are fresh, `runWorkflow` leaves the run
`failed` (returning failure) exactly when the chain of some declared step did
not end completed; and whenever a step of the run is `failed` on return, the
run is `failed`. -/
theorem C14_failed_iff_chain_not_completed (env : Env) (w : World) (workflowPath : String)
    (workflow : Workflow) (useGit : Bool) (hF : Fresh env w) (hnd : w.db.stepIdsNodup) :
    ∃ res run, (runWorkflow env w workflowPath workflow useGit).1 = .ok res
      ∧ getRun (runWorkflow env w workflowPath workflow useGit).2.db res.runId = some run
      ∧ (run.status = "failed" ↔ res.success = false)
      ∧ (run.status = "failed" ↔
          ∃ x ∈ declaredSteps env w workflow,
            chainCompleted (runWorkflow env w workflowPath workflow useGit).2.db x.1 = false)
      ∧ ((∃ row ∈ (runWorkflow env w workflowPath workflow useGit).2.db.step_executions,
            row.run_id = res.runId ∧ row.status = "failed") → run.status = "failed") := by
  obtain ⟨loopRes, w4, hrun, heq, hF1, hnd1, hids, hdecl⟩ :=
    runWorkflow_spec env w workflowPath workflow useGit hF hnd
  obtain ⟨ht, hok, herr⟩ := hrun.spec hF1 hnd1 hids hdecl
  obtain ⟨run0, hrun0⟩ := runWorkflow_getRun workflowPath workflow useGit hF ht
  obtain ⟨res, row, f1, f2, f3, f4⟩ := finishRun_getRun env (env.newId w.ids) (loopRes, w4)
    run0 hrun0
  have hsteps := finishRun_steps env (env.newId w.ids) (loopRes, w4)
  rw [heq]
  refine ⟨res, row, f1, by rw [f2]; exact f3, ?_, ?_, ?_⟩
  · rcases f4 with ⟨_, h2, _, h4, _⟩ | ⟨e, _, h2, _, h4, _⟩
    · simp [h2, h4]
    · simp [h2, h4]
  · rcases f4 with ⟨h1, _, _, h4, _⟩ | ⟨e, h1, _, _, h4, _⟩
    · refine ⟨fun h => by rw [h4] at h; exact absurd h (by decide), fun h => ?_⟩
      exfalso
      obtain ⟨x, hx, hc⟩ := h
      rw [chainCompleted_congr hsteps, hok h1 x hx] at hc
      exact absurd hc (by decide)
    · refine ⟨fun _ => ?_, fun _ => h4⟩
      obtain ⟨l1, x, l2, e1, _, _, d2⟩ := herr e h1
      exact ⟨x, by rw [e1]; simp, by rw [chainCompleted_congr hsteps]; exact d2⟩
  · rintro ⟨r, hm, hr1, hr2⟩
    rcases f4 with ⟨h1, _, _, _, _⟩ | ⟨e, _, _, _, h4, _⟩
    · exfalso
      rw [hsteps] at hm
      have hm2 := hrun.failed_rows h1 r hm hr2
      exact loopWorld_failed_rows workflowPath workflow useGit hF hm2 hr2 (hr1.trans f2)
    · exact h4

theorem C14_failed_iff_chain_not_completed_witness :
    ∃ res run,
      (runWorkflow rejectingEnv (World.start Store.empty) "demo.yaml" verifiedEscalation
          false).1 = .ok res
      ∧ getRun (runWorkflow rejectingEnv (World.start Store.empty) "demo.yaml"
          verifiedEscalation false).2.db res.runId = some run
      ∧ (run.status = "failed" ↔ res.success = false)
      ∧ (run.status = "failed" ↔
          ∃ x ∈ declaredSteps rejectingEnv (World.start Store.empty) verifiedEscalation,
            chainCompleted (runWorkflow rejectingEnv (World.start Store.empty) "demo.yaml"
              verifiedEscalation false).2.db x.1 = false)
      ∧ ((∃ row ∈ (runWorkflow rejectingEnv (World.start Store.empty) "demo.yaml"
              verifiedEscalation false).2.db.step_executions,
            row.run_id = res.runId ∧ row.status = "failed") → run.status = "failed") :=
  C14_failed_iff_chain_not_completed rejectingEnv (World.start Store.empty) "demo.yaml"
    verifiedEscalation false (fresh_start_empty rejectingEnv tallyId_injective) List.nodup_nil

/-! ## The steps after the one that failed -/

theorem mem_of_getElem?_eq_some {α : Type} {l : List α} {j : Nat} {a : α}
    (h : l[j]? = some a) : a ∈ l := by
  rw [List.getElem?_eq_some] at h
  obtain ⟨hj, he⟩ := h
  rw [← he]
  exact List.getElem_mem hj

theorem createdRows_getElem? (env : Env) (runId : String) (waits : Nat)
    (steps : List WorkflowStep) :
    ∀ (ids clock i j : Nat) (step : WorkflowStep), steps[j]? = some step →
      (createdRows env runId waits ids clock i steps)[j]?
        = some (StepRow.created (env.newId (ids + j)) (env.now (clock + j) waits) runId
            (i + j) step) := by
  induction steps with
  | nil => intro ids clock i j step h; simp at h
  | cons s rest ih =>
    intro ids clock i j step h
    cases j with
    | zero =>
      simp only [List.getElem?_cons_zero, Option.some.injEq] at h
      subst h
      simp [createdRows]
    | succ j =>
      rw [List.getElem?_cons_succ] at h
      have := ih (ids + 1) (clock + 1) (i + 1) j step h
      simp only [createdRows, List.getElem?_cons_succ]
      rw [this, show ids + 1 + j = ids + (j + 1) by omega,
        show clock + 1 + j = clock + (j + 1) by omega, show i + 1 + j = i + (j + 1) by omega]

theorem declaredSteps_getElem? {env : Env} {w : World} (workflowPath : String)
    (workflow : Workflow) (useGit : Bool) (hF : Fresh env w) (hnd : w.db.stepIdsNodup)
    {j : Nat} {y : String × WorkflowStep} (h : (declaredSteps env w workflow)[j]? = some y) :
    y.1 = env.newId (w.ids + 1 + j) ∧ workflow.steps[j]? = some y.2
      ∧ getStep (loopWorld env w workflowPath workflow useGit).db y.1
          = some (StepRow.created y.1 (env.now (w.clock + 1 + j) w.waits) (env.newId w.ids)
              j y.2) := by
  unfold declaredSteps at h
  rw [List.getElem?_zip_eq_some] at h
  obtain ⟨h1, h2⟩ := h
  have hj : j < workflow.steps.length := by
    rw [List.getElem?_eq_some] at h2
    exact h2.1
  have hid : y.1 = env.newId (w.ids + 1 + j) := by
    unfold stepIdsFrom at h1
    rw [List.getElem?_map, List.getElem?_range hj] at h1
    exact (Option.some.inj h1).symm
  refine ⟨hid, h2, ?_⟩
  have hc := createdRows_getElem? env (env.newId w.ids) w.waits workflow.steps (w.ids + 1)
    (w.clock + 1) 0 j y.2 h2
  rw [Nat.zero_add, ← hid] at hc
  have hmem : StepRow.created y.1 (env.now (w.clock + 1 + j) w.waits) (env.newId w.ids) j y.2
      ∈ (loopWorld env w workflowPath workflow useGit).db.step_executions := by
    rw [loopWorld_steps]
    exact List.mem_append_right _ (mem_of_getElem?_eq_some hc)
  exact getStep_of_mem _ (loopWorld_nodup workflowPath workflow useGit hF hnd) _ hmem

theorem finishRun_log (env : Env) (runId : String) (loop : Except String Unit × World) :
    (finishRun env runId loop).2.log = loop.2.log := by
  obtain ⟨r, w4⟩ := loop
  cases r <;> rfl

/-- C18: when `runWorkflow` ends with the run failed, there is a declared
step, at some index `i`, whose chain did not end completed, every declared
step before it ended completed, and every declared step with a larger index
`j` is exactly the row `createStep` inserted for it (pending, 0 attempts, no
assigned agent, step_index `j`), while no call recorded during the run (claim,
collaborator call, verification or escalation) concerns it. -/
theorem C18_no_step_after_failure (env : Env) (w : World) (workflowPath : String)
    (workflow : Workflow) (useGit : Bool) (hF : Fresh env w) (hnd : w.db.stepIdsNodup)
    (res : RunResult)
    (hres : (runWorkflow env w workflowPath workflow useGit).1 = .ok res)
    (hfail : res.success = false) :
    ∃ i x, (declaredSteps env w workflow)[i]? = some x
      ∧ chainCompleted (runWorkflow env w workflowPath workflow useGit).2.db x.1 = false
      ∧ (∀ j y, j < i → (declaredSteps env w workflow)[j]? = some y →
          chainCompleted (runWorkflow env w workflowPath workflow useGit).2.db y.1 = true)
      ∧ ∃ evs, (runWorkflow env w workflowPath workflow useGit).2.log = w.log ++ evs
        ∧ ∀ j y, i < j → (declaredSteps env w workflow)[j]? = some y →
          getStep (runWorkflow env w workflowPath workflow useGit).2.db y.1
            = some (StepRow.created y.1 (env.now (w.clock + 1 + j) w.waits) (env.newId w.ids)
                j y.2)
          ∧ ∀ e ∈ evs, e.stepId ≠ y.1 := by
  obtain ⟨loopRes, w4, hrun, heq, hF1, hnd1, hids, hdecl⟩ :=
    runWorkflow_spec env w workflowPath workflow useGit hF hnd
  obtain ⟨_, _, herr⟩ := hrun.spec hF1 hnd1 hids hdecl
  have hsteps := finishRun_steps env (env.newId w.ids) (loopRes, w4)
  have hlog := finishRun_log env (env.newId w.ids) (loopRes, w4)
  rw [heq] at hres ⊢
  cases loopRes with
  | ok u =>
    exfalso
    have : res = { success := true, runId := env.newId w.ids, error := none } :=
      (Except.ok.inj hres).symm
    rw [this] at hfail
    simp at hfail
  | error e =>
    obtain ⟨l1, x, l2, e1, t2, d1, d2⟩ := herr e rfl
    obtain ⟨evs, hev1, hev2⟩ := t2.log
    refine ⟨l1.length, x, by rw [e1, List.getElem?_append_right (le_refl _)]; simp,
      by rw [chainCompleted_congr hsteps]; exact d2,
      ?_, evs, by rw [hlog]; exact hev1, ?_⟩
    · intro j y hj hy
      rw [e1, List.getElem?_append_left hj] at hy
      rw [chainCompleted_congr hsteps]
      exact d1 y (mem_of_getElem?_eq_some hy)
    · intro j y hj hy
      obtain ⟨_, _, hg⟩ := declaredSteps_getElem? workflowPath workflow useGit hF hnd hy
      have hy2 : y ∈ l2 := by
        rw [e1, List.getElem?_append_right (le_of_lt hj)] at hy
        obtain ⟨k, hk⟩ : ∃ k, j - l1.length = k + 1 := ⟨j - l1.length - 1, by omega⟩
        rw [hk, List.getElem?_cons_succ] at hy
        exact mem_of_getElem?_eq_some hy
      have hnS : ¬ (y.1 ∈ (l1 ++ [x]).map Prod.fst) := by
        intro hm
        rw [e1] at hids
        have hsplit : l1 ++ x :: l2 = (l1 ++ [x]) ++ l2 := by simp
        rw [hsplit, List.map_append, List.nodup_append] at hids
        exact hids.2.2 hm (List.mem_map.mpr ⟨y, hy2, rfl⟩)
      refine ⟨?_, fun ev hev he => ?_⟩
      · have := t2.getStep_fixed hg hnS
        unfold getStep at this ⊢
        rw [hsteps]
        exact this
      · rcases hev2 ev hev with h1 | h1
        · exact hnS (he ▸ h1)
        · exact (he ▸ h1 : IsNew env _ w4 y.1).not_mentions hF1 (mentions_of_getStep hg)

theorem C18_no_step_after_failure_witness :
    ∃ i x, (declaredSteps rejectingEnv (World.start Store.empty) buildThenTest)[i]? = some x
      ∧ chainCompleted (runWorkflow rejectingEnv (World.start Store.empty) "demo.yaml"
          buildThenTest false).2.db x.1 = false
      ∧ (∀ j y, j < i →
          (declaredSteps rejectingEnv (World.start Store.empty) buildThenTest)[j]? = some y →
          chainCompleted (runWorkflow rejectingEnv (World.start Store.empty) "demo.yaml"
            buildThenTest false).2.db y.1 = true)
      ∧ ∃ evs, (runWorkflow rejectingEnv (World.start Store.empty) "demo.yaml" buildThenTest
          false).2.log = (World.start Store.empty).log ++ evs
        ∧ ∀ j y, i < j →
          (declaredSteps rejectingEnv (World.start Store.empty) buildThenTest)[j]? = some y →
          getStep (runWorkflow rejectingEnv (World.start Store.empty) "demo.yaml" buildThenTest
              false).2.db y.1
            = some (StepRow.created y.1
                (rejectingEnv.now ((World.start Store.empty).clock + 1 + j)
                  (World.start Store.empty).waits)
                (rejectingEnv.newId (World.start Store.empty).ids) j y.2)
          ∧ ∀ e ∈ evs, e.stepId ≠ y.1 :=
  C18_no_step_after_failure rejectingEnv (World.start Store.empty) "demo.yaml" buildThenTest
    false (fresh_start_empty rejectingEnv tallyId_injective) List.nodup_nil
    { success := false, runId := "i", error := some "Step \"build\" failed: compile error" }
    rfl rfl

/-! ## Scenario A: the collaborator fails on every call -/

theorem AttemptShape.counts {env : Env} {w w1 : World} {id : String} {step : WorkflowStep}
    {G : StepRow → StepRow} {added : List StepRow} {vs : List VerificationRow}
    (h : AttemptShape env w w1 id step G added vs) :
    ∃ evs, w1.log = w.log ++ evs ∧ evs.countP (Event.isClaim id) = 1
      ∧ evs.countP (Event.isAgentCall id) = 1 := by
  refine ⟨_, h.log, ?_, ?_⟩
  · rw [List.countP_cons, List.countP_cons, List.countP_append]
    have h1 : List.countP (Event.isClaim id)
        (List.map (fun v : VerificationRow => Event.verify id v.verifier_agent) vs) = 0 := by
      rw [List.countP_eq_zero]
      intro e he
      rw [List.mem_map] at he
      obtain ⟨v, _, rfl⟩ := he
      simp [Event.isClaim]
    have h2 : List.countP (Event.isClaim id)
        (List.map (fun a : StepRow => Event.escalate id a.agent_type) added) = 0 := by
      rw [List.countP_eq_zero]
      intro e he
      rw [List.mem_map] at he
      obtain ⟨v, _, rfl⟩ := he
      simp [Event.isClaim]
    rw [h1, h2]
    simp [Event.isClaim]
  · rw [List.countP_cons, List.countP_cons, List.countP_append]
    have h1 : List.countP (Event.isAgentCall id)
        (List.map (fun v : VerificationRow => Event.verify id v.verifier_agent) vs) = 0 := by
      rw [List.countP_eq_zero]
      intro e he
      rw [List.mem_map] at he
      obtain ⟨v, _, rfl⟩ := he
      simp [Event.isAgentCall]
    have h2 : List.countP (Event.isAgentCall id)
        (List.map (fun a : StepRow => Event.escalate id a.agent_type) added) = 0 := by
      rw [List.countP_eq_zero]
      intro e he
      rw [List.mem_map] at he
      obtain ⟨v, _, rfl⟩ := he
      simp [Event.isAgentCall]
    rw [h1, h2]
    simp [Event.isAgentCall]

theorem backoff_agentCalls (n : Nat) (w : World) : (backoff n w).agentCalls = w.agentCalls := by
  unfold backoff
  split <;> rfl

theorem backoff_log (n : Nat) (w : World) : (backoff n w).log = w.log := by
  unfold backoff
  split <;> rfl

theorem TryRaised.message_eq {env : Env} {w : World} {step : WorkflowStep} {e m : String}
    (h : TryRaised env w step e) (hm : env.runAgent w.agentCalls step.agent step.task = .raise m) :
    e = m := by
  rcases h with h | ⟨⟨p, hp⟩, _⟩
  · rw [hm] at h
    exact (AgentOutcome.raise.inj h).symm
  · rw [hm] at hp
    cases hp

theorem LoopRun.allRaise {env : Env} {id : String} {step : WorkflowStep} {n : Nat}
    {w w2 : World} {st : StepRow} {res : Except String (Option StepResult)}
    (h : LoopRun env id step n w st res w2)
    (hesc : truthy step.escalate_to = false)
    (hk : hasAgentDefinition step.agent = true)
    (hr0 : step.retry ≠ some 0)
    (hfail : ∀ j, ∃ m, env.runAgent j step.agent step.task = .raise m) :
    (n : Int) = st.max_attempts - st.attempts →
    ∃ r m row evs, res = .ok (some r) ∧ r.status = "failed" ∧ r.error = some m
      ∧ env.runAgent (w.agentCalls + (n - 1)) step.agent step.task = .raise m
      ∧ getStep w2.db id = some row ∧ row.status = "failed"
      ∧ row.attempts = st.attempts + n ∧ row.error = some m
      ∧ w2.log = w.log ++ evs ∧ evs.countP (Event.isClaim id) = n
      ∧ evs.countP (Event.isAgentCall id) = n := by
  induction h with
  | raised n w st e w1 ready first =>
    intro _
    cases first with
    | unknownAgent hu =>
      rw [hu] at hk
      cases hk
  | settled n w st r w1 ready first hs =>
    intro hb
    obtain ⟨m, hm⟩ := hfail w.agentCalls
    rcases hs with hs | hs | hs
    · obtain ⟨p, _, _, _, hacc, _⟩ := first.inv_completed hs
      rw [hacc.1] at hm
      cases hm
    · obtain ⟨_, _, _, _, hd, _⟩ := first.inv_escalated hs
      rw [hd] at hesc
      cases hesc
    · obtain ⟨G, vs, canRetry, e, shape, source, hno, hst, herr⟩ := first.inv_failed hs
      rcases source with ⟨_, htr, hcr, hre, _, _⟩ | ⟨p, _, hrej, _⟩
      · have hem := htr.message_eq hm
        subst hem
        have hc : canRetry = true := by
          rw [hcr]
          simpa using hr0
        have hn0 : n = 0 := by
          have : ¬ st.attempts + 1 < st.max_attempts := fun hlt => hno ⟨hc, hlt⟩
          push_cast at hb
          omega
        subst hn0
        obtain ⟨evs, l1, l2, l3⟩ := shape.counts
        refine ⟨r, e, G st, evs, rfl, hs, hre, hm, getStep_of_shape shape ready.2.2.1,
          hst st, ?_, (herr st).1, l1, l2, l3⟩
        rw [(shape.keys st).2]
        simp
      · rw [hrej.1] at hm
        cases hm
  | again n w st r w1 G vs res w2 ready first hs shape pending kept rejected rest ih =>
    intro hb
    have hb1 : ((n + 1 : Nat) : Int) = (G st).max_attempts - (G st).attempts := by
      rw [(shape.keys st).2, (shape.keys st).1.2.2.2.2.2.2.1]
      push_cast at hb ⊢
      omega
    obtain ⟨r2, m, row, evs2, h1, h2, h3, h4, h5, h6, h7, h8, h9, h10, h11⟩ := ih hb1
    obtain ⟨evs, l1, l2, l3⟩ := shape.counts
    refine ⟨r2, m, row, evs ++ evs2, h1, h2, h3, ?_, h5, h6, ?_, h8, ?_, ?_, ?_⟩
    · rw [backoff_agentCalls, shape.agentCalls] at h4
      have : w.agentCalls + (n + 2 - 1) = w.agentCalls + 1 + (n + 1 - 1) := by omega
      rw [this]
      exact h4
    · rw [h7, (shape.keys st).2]
      push_cast
      omega
    · rw [h9, backoff_log, l1, List.append_assoc]
    · rw [List.countP_append, l2, h10]
      omega
    · rw [List.countP_append, l3, h11]
      omega

theorem declaredSteps_single (env : Env) (w : World) (workflow : Workflow)
    (step : WorkflowStep) (h : workflow.steps = [step]) :
    declaredSteps env w workflow = [(env.newId (w.ids + 1), step)] := by
  unfold declaredSteps stepIdsFrom
  rw [h]
  rfl

theorem StepsRun.single {env : Env} {id : String} {step : WorkflowStep} {w w2 : World}
    {res : Except String Unit} (h : StepsRun env [(id, step)] w res w2) :
    ∃ st, Declared w id step ∧ Ready env w id st ∧ OneStep env id step w st res w2 := by
  cases h with
  | stop _ _ _ _ st e _ decl ready first => exact ⟨st, decl, ready, first⟩
  | next _ _ _ _ st w1 _ _ decl ready first tail =>
    cases tail
    exact ⟨st, decl, ready, first⟩

theorem runWorkflow_single (env : Env) (w : World) (workflowPath : String)
    (workflow : Workflow) (useGit : Bool) (step : WorkflowStep)
    (hF : Fresh env w) (hnd : w.db.stepIdsNodup) (h1 : workflow.steps = [step]) :
    ∃ loopRes w4 st,
      Declared (loopWorld env w workflowPath workflow useGit) (env.newId (w.ids + 1)) step
      ∧ Ready env (loopWorld env w workflowPath workflow useGit) (env.newId (w.ids + 1)) st
      ∧ OneStep env (env.newId (w.ids + 1)) step
          (loopWorld env w workflowPath workflow useGit) st loopRes w4
      ∧ runWorkflow env w workflowPath workflow useGit
          = finishRun env (env.newId w.ids) (loopRes, w4)
      ∧ ∃ run, getRun w4.db (env.newId w.ids) = some run := by
  obtain ⟨loopRes, w4, hrun, heq, hF1, hnd1, hids, hdecl⟩ :=
    runWorkflow_spec env w workflowPath workflow useGit hF hnd
  have ht := (hrun.spec hF1 hnd1 hids hdecl).1
  rw [declaredSteps_single env w workflow step h1] at hrun
  obtain ⟨st, d, r, o⟩ := hrun.single
  exact ⟨loopRes, w4, st, d, r, o, heq,
    runWorkflow_getRun workflowPath workflow useGit hF ht⟩

/-- C16 (Scenario A): for every budget `n ≥ 1`, a one-step workflow with
`retry = n`, no `escalate_to` and a collaborator that raises on every call is
run as follows: the step is claimed exactly `n` times (and the collaborator
called `n` times), the step ends `failed` with `attempts = n`, the run ends
`failed`, and the error of the run (and of the returned object) is
`Step "<name>" failed: ` followed by the message of the last failure. -/
theorem C16_scenario_always_failing (env : Env) (w : World) (workflowPath : String)
    (workflow : Workflow) (useGit : Bool) (step : WorkflowStep) (n : Nat)
    (hF : Fresh env w) (hnd : w.db.stepIdsNodup) (h1 : workflow.steps = [step])
    (hn : 1 ≤ n) (hretry : step.retry = some (n : Int))
    (hesc : truthy step.escalate_to = false)
    (hk : hasAgentDefinition step.agent = true)
    (hfail : ∀ j, ∃ m, env.runAgent j step.agent step.task = .raise m) :
    ∃ m row run evs,
      env.runAgent (w.agentCalls + (n - 1)) step.agent step.task = .raise m
      ∧ (runWorkflow env w workflowPath workflow useGit).1
          = .ok { success := false, runId := env.newId w.ids,
                  error := some ("Step \"" ++ step.name ++ "\" failed: " ++ m) }
      ∧ getStep (runWorkflow env w workflowPath workflow useGit).2.db (env.newId (w.ids + 1))
          = some row
      ∧ row.attempts = n ∧ row.status = "failed"
      ∧ getRun (runWorkflow env w workflowPath workflow useGit).2.db (env.newId w.ids)
          = some run
      ∧ run.status = "failed"
      ∧ run.error = some ("Step \"" ++ step.name ++ "\" failed: " ++ m)
      ∧ (runWorkflow env w workflowPath workflow useGit).2.log = w.log ++ evs
      ∧ evs.countP (Event.isClaim (env.newId (w.ids + 1))) = n
      ∧ evs.countP (Event.isAgentCall (env.newId (w.ids + 1))) = n := by
  obtain ⟨loopRes, w4, st, hd, hr, ho, heq, run0, hrun0⟩ :=
    runWorkflow_single env w workflowPath workflow useGit step hF hnd h1
  obtain ⟨st2, g1, _, g3, g4, _⟩ := hd
  have hst : st2 = st := Option.some.inj (g1.symm.trans hr.2.2.1)
  subst hst
  have hr0 : step.retry ≠ some 0 := by
    rw [hretry]
    intro h
    have := Option.some.inj h
    omega
  have hbud : ∀ k, k = (step.retry.getD 3).toNat → (k : Int) = st2.max_attempts - st2.attempts := by
    intro k hk
    rw [g3, g4, hk, hretry]
    simp
  have key : ∀ k res wz, k = (step.retry.getD 3).toNat →
      LoopRun env (env.newId (w.ids + 1)) step k
        (loopWorld env w workflowPath workflow useGit) st2 res wz →
      ∃ r m row evs, res = .ok (some r) ∧ r.status = "failed" ∧ r.error = some m
        ∧ env.runAgent (w.agentCalls + (n - 1)) step.agent step.task = .raise m
        ∧ getStep wz.db (env.newId (w.ids + 1)) = some row ∧ row.status = "failed"
        ∧ row.attempts = n ∧ row.error = some m
        ∧ wz.log = w.log ++ evs ∧ evs.countP (Event.isClaim (env.newId (w.ids + 1))) = n
        ∧ evs.countP (Event.isAgentCall (env.newId (w.ids + 1))) = n := by
    intro k res wz hkk loop
    have hkn : k = n := by
      rw [hkk, hretry]
      simp
    obtain ⟨r, m, row, evs, a1, a2, a3, a4, a5, a6, a7, a8, a9, a10, a11⟩ :=
      loop.allRaise hesc hk hr0 hfail (hbud k hkk)
    subst hkn
    refine ⟨r, m, row, evs, a1, a2, a3, a4, a5, a6, ?_, a8, a9, a10, a11⟩
    rw [a7, g3]
    simp
  have hsteps := finishRun_steps env (env.newId w.ids) (loopRes, w4)
  have hlog := finishRun_log env (env.newId w.ids) (loopRes, w4)
  obtain ⟨res, rrow, f1, f2, f3, f4⟩ := finishRun_getRun env (env.newId w.ids) (loopRes, w4)
    run0 hrun0
  have fin : ∀ (r : StepResult) (m : String) (row : StepRow) (evs : List Event), loopRes = .error ("Step \"" ++ step.name ++ "\" failed: "
        ++ r.error.getD "undefined") → r.error = some m
      → env.runAgent (w.agentCalls + (n - 1)) step.agent step.task = .raise m
      → getStep w4.db (env.newId (w.ids + 1)) = some row → row.status = "failed"
      → row.attempts = n
      → w4.log = w.log ++ evs → evs.countP (Event.isClaim (env.newId (w.ids + 1))) = n
      → evs.countP (Event.isAgentCall (env.newId (w.ids + 1))) = n
      → ∃ m row run evs,
      env.runAgent (w.agentCalls + (n - 1)) step.agent step.task = .raise m
      ∧ (finishRun env (env.newId w.ids) (loopRes, w4)).1
          = .ok { success := false, runId := env.newId w.ids,
                  error := some ("Step \"" ++ step.name ++ "\" failed: " ++ m) }
      ∧ getStep (finishRun env (env.newId w.ids) (loopRes, w4)).2.db (env.newId (w.ids + 1))
          = some row
      ∧ row.attempts = n ∧ row.status = "failed"
      ∧ getRun (finishRun env (env.newId w.ids) (loopRes, w4)).2.db (env.newId w.ids)
          = some run
      ∧ run.status = "failed"
      ∧ run.error = some ("Step \"" ++ step.name ++ "\" failed: " ++ m)
      ∧ (finishRun env (env.newId w.ids) (loopRes, w4)).2.log = w.log ++ evs
      ∧ evs.countP (Event.isClaim (env.newId (w.ids + 1))) = n
      ∧ evs.countP (Event.isAgentCall (env.newId (w.ids + 1))) = n := by
    intro r m row evs e1 e2 e3 e4 e5 e6 e7 e8 e9
    rw [e2] at e1
    rcases f4 with ⟨h1, _⟩ | ⟨e, h1, h2, h3, h4, h5⟩
    · rw [e1] at h1
      cases h1
    · have he : e = "Step \"" ++ step.name ++ "\" failed: " ++ m := by
        have h1b : loopRes = .error e := h1
        rw [e1] at h1b
        exact (Except.error.inj h1b).symm
      subst he
      refine ⟨m, row, rrow, evs, e3, ?_, ?_, e6, e5, f3, h4, h5, by rw [hlog]; exact e7, e8, e9⟩
      · rw [f1]
        congr 1
        cases res
        simp only at f2 h2 h3
        rw [f2, h2, h3]
      · unfold getStep at e4 ⊢
        rw [hsteps]
        exact e4
  rw [heq]
  cases ho with
  | noBudget h0 =>
    exfalso
    rw [hretry] at h0
    simp at h0
    omega
  | raised k e _ loop budget =>
    obtain ⟨r, m, row, evs, a1, _⟩ := key k _ _ budget loop
    cases a1
  | completed k r _ loop hs budget =>
    obtain ⟨r2, m, row, evs, a1, a2, _⟩ := key k _ _ budget loop
    cases a1
    rw [hs] at a2
    exact absurd a2 (by decide)
  | failed k r _ loop hs budget =>
    obtain ⟨r2, m, row, evs, a1, a2, a3, a4, a5, a6, a7, a8, a9, a10, a11⟩ := key k _ _ budget loop
    cases a1
    exact fin r m row evs rfl a3 a4 a5 a6 a7 a9 a10 a11
  | escalated k r wm succ rr _ loop hs ready hop budget =>
    obtain ⟨r2, m, row, evs, a1, a2, _⟩ := key k _ _ budget loop
    cases a1
    rw [hs] at a2
    exact absurd a2 (by decide)

theorem C16_scenario_always_failing_witness :
    ∃ m row run evs,
      alwaysFailingEnv.runAgent ((World.start Store.empty).agentCalls + (3 - 1))
          buildStep.agent buildStep.task = .raise m
      ∧ (runWorkflow alwaysFailingEnv (World.start Store.empty) "demo.yaml" buildOnly false).1
          = .ok { success := false,
                  runId := alwaysFailingEnv.newId (World.start Store.empty).ids,
                  error := some ("Step \"" ++ buildStep.name ++ "\" failed: " ++ m) }
      ∧ getStep (runWorkflow alwaysFailingEnv (World.start Store.empty) "demo.yaml" buildOnly
            false).2.db (alwaysFailingEnv.newId ((World.start Store.empty).ids + 1))
          = some row
      ∧ row.attempts = (3 : Nat) ∧ row.status = "failed"
      ∧ getRun (runWorkflow alwaysFailingEnv (World.start Store.empty) "demo.yaml" buildOnly
            false).2.db (alwaysFailingEnv.newId (World.start Store.empty).ids)
          = some run
      ∧ run.status = "failed"
      ∧ run.error = some ("Step \"" ++ buildStep.name ++ "\" failed: " ++ m)
      ∧ (runWorkflow alwaysFailingEnv (World.start Store.empty) "demo.yaml" buildOnly
            false).2.log = (World.start Store.empty).log ++ evs
      ∧ evs.countP (Event.isClaim
          (alwaysFailingEnv.newId ((World.start Store.empty).ids + 1))) = 3
      ∧ evs.countP (Event.isAgentCall
          (alwaysFailingEnv.newId ((World.start Store.empty).ids + 1))) = 3 :=
  C16_scenario_always_failing alwaysFailingEnv (World.start Store.empty) "demo.yaml" buildOnly
    false buildStep 3 (fresh_start_empty alwaysFailingEnv tallyId_injective) List.nodup_nil
    rfl (by decide) rfl rfl rfl (fun _ => ⟨"boom", rfl⟩)

/-! ## Scenario B: the collaborator fails a few times, then succeeds -/

theorem ExecOutcome.inv_retry {env : Env} {w w1 : World} {id : String}
    {step : WorkflowStep} {st : StepRow} {r : StepResult}
    (h : ExecOutcome env w id step st (.ok r) w1) (hs : r.status = "retry") :
    ∃ e, (truthy step.escalate_to = false ∧ TryRaised env w step e)
      ∨ (∃ p reason, Rejected env w step p reason) := by
  cases h with
  | completed _ p G vs shape accepted status verified unverified => simp at hs
  | failStepped _ _ G vs canRetry e shape source _ retry failed error =>
    rcases source with ⟨h1, h2, _⟩ | ⟨p, reason, h3, _⟩
    · exact ⟨e, Or.inl ⟨h1, h2⟩⟩
    · exact ⟨e, Or.inr ⟨p, reason, h3⟩⟩
  | escalated _ m G now shape _ _ _ => simp at hs

/-- What makes an attempt whose collaborator call succeeds complete the step:
a declared verifier is a known role and says yes to everything. -/
theorem ExecOutcome.of_success {env : Env} {w w1 : World} {id : String}
    {step : WorkflowStep} {st : StepRow} {r : StepResult} {p : Payload}
    (h : ExecOutcome env w id step st (.ok r) w1)
    (hp : env.runAgent w.agentCalls step.agent step.task = .success p)
    (hver : truthy step.verify_with = true →
      hasAgentDefinition (step.verify_with.getD "undefined") = true
      ∧ ∀ q, ∃ d, env.verify w.verifyCalls (step.verify_with.getD "undefined") q
          = .verdict true d) :
    r.status = "completed" := by
  have hnoraise : ∀ e, ¬ TryRaised env w step e := by
    intro e ht
    rcases ht with ht | ⟨_, h1, h2, _⟩
    · rw [hp] at ht
      cases ht
    · rw [(hver h1).1] at h2
      cases h2
  have hnorej : ∀ q reason, ¬ Rejected env w step q reason := by
    intro q reason hr
    obtain ⟨_, h1, _, h3⟩ := hr
    obtain ⟨d, hd⟩ := (hver h1).2 q
    rcases h3 with ⟨d2, h4, _⟩ | h4
    · rw [hd] at h4
      cases h4
    · rw [hd] at h4
      cases h4
  cases h with
  | completed _ p G vs shape accepted status verified unverified => rfl
  | failStepped _ _ G vs canRetry e shape source _ retry failed error =>
    exfalso
    rcases source with ⟨_, h2, _⟩ | ⟨q, reason, h3, _⟩
    · exact hnoraise e h2
    · exact hnorej q reason h3
  | escalated _ m G now shape _ raised _ => exact absurd raised (hnoraise m)

theorem ExecOutcome.of_raise {env : Env} {w w1 : World} {id : String}
    {step : WorkflowStep} {st : StepRow} {r : StepResult} {m : String}
    (h : ExecOutcome env w id step st (.ok r) w1)
    (hm : env.runAgent w.agentCalls step.agent step.task = .raise m)
    (hesc : truthy step.escalate_to = false) (hr0 : step.retry ≠ some 0) :
    (r.status = "retry" ∧ st.attempts + 1 < st.max_attempts)
      ∨ (r.status = "failed" ∧ ¬ st.attempts + 1 < st.max_attempts) := by
  cases h with
  | completed _ p G vs shape accepted status verified unverified =>
    rw [accepted.1] at hm
    cases hm
  | failStepped _ _ G vs canRetry e shape source _ retry failed error =>
    rcases source with ⟨_, _, h3, _⟩ | ⟨q, reason, h3, _⟩
    · have hc : canRetry = true := by
        rw [h3]
        simpa using hr0
      by_cases hlt : st.attempts + 1 < st.max_attempts
      · exact Or.inl ⟨(retry ⟨hc, hlt⟩).1, hlt⟩
      · exact Or.inr ⟨(failed (fun h => hlt h.2)).1, hlt⟩
    · rw [h3.1] at hm
      cases hm
  | escalated _ m G now shape declared _ _ =>
    rw [declared] at hesc
    cases hesc

theorem LoopRun.failsThenSucceeds {env : Env} {id : String} {step : WorkflowStep} {n : Nat}
    {w w2 : World} {st : StepRow} {res : Except String (Option StepResult)}
    (h : LoopRun env id step n w st res w2)
    (hesc : truthy step.escalate_to = false)
    (hk : hasAgentDefinition step.agent = true)
    (hr0 : step.retry ≠ some 0)
    (hver : truthy step.verify_with = true →
      hasAgentDefinition (step.verify_with.getD "undefined") = true
      ∧ ∀ j q, ∃ d, env.verify j (step.verify_with.getD "undefined") q = .verdict true d) :
    ∀ k, k < n → (n : Int) = st.max_attempts - st.attempts →
    (∀ j, j < k → ∃ m, env.runAgent (w.agentCalls + j) step.agent step.task = .raise m) →
    (∃ p, env.runAgent (w.agentCalls + k) step.agent step.task = .success p) →
    ∃ r row, res = .ok (some r) ∧ r.status = "completed"
      ∧ getStep w2.db id = some row ∧ row.status = "completed"
      ∧ row.attempts = st.attempts + (k + 1) := by
  induction h with
  | raised n w st e w1 ready first =>
    intro _ _ _ _ _
    cases first with
    | unknownAgent hu =>
      rw [hu] at hk
      cases hk
  | settled n w st r w1 ready first hs =>
    intro k hkn hb hfail hsucc
    cases k with
    | zero =>
      obtain ⟨p, hp⟩ := hsucc
      have hc := first.of_success hp (fun h => ⟨(hver h).1, fun q => (hver h).2 _ q⟩)
      obtain ⟨_, G, vs, shape, _, status, _⟩ := first.inv_completed hc
      refine ⟨r, G st, rfl, hc, getStep_of_shape shape ready.2.2.1, (status st).1, ?_⟩
      rw [(shape.keys st).2]
      simp
    | succ k =>
      exfalso
      obtain ⟨m, hm⟩ := hfail 0 (Nat.succ_pos _)
      rcases first.of_raise hm hesc hr0 with ⟨h1, _⟩ | ⟨_, h2⟩
      · rw [h1] at hs
        rcases hs with hs | hs | hs <;> exact absurd hs (by decide)
      · apply h2
        push_cast at hb
        omega
  | again n w st r w1 G vs res w2 ready first hs shape pending kept rejected rest ih =>
    intro k hkn hb hfail hsucc
    cases k with
    | zero =>
      exfalso
      obtain ⟨p, hp⟩ := hsucc
      have hc := first.of_success hp (fun h => ⟨(hver h).1, fun q => (hver h).2 _ q⟩)
      rw [hs] at hc
      exact absurd hc (by decide)
    | succ k =>
      have hb1 : ((n + 1 : Nat) : Int) = (G st).max_attempts - (G st).attempts := by
        rw [(shape.keys st).2, (shape.keys st).1.2.2.2.2.2.2.1]
        push_cast at hb ⊢
        omega
      have hcalls : (backoff (n + 1) w1).agentCalls = w.agentCalls + 1 := by
        rw [backoff_agentCalls, shape.agentCalls]
      obtain ⟨r2, row, h1, h2, h3, h4, h5⟩ := ih k (by omega) hb1
        (fun j hj => by
          rw [hcalls, show w.agentCalls + 1 + j = w.agentCalls + (j + 1) by omega]
          exact hfail (j + 1) (by omega))
        (by
          rw [hcalls, show w.agentCalls + 1 + k = w.agentCalls + (k + 1) by omega]
          exact hsucc)
      refine ⟨r2, row, h1, h2, h3, h4, ?_⟩
      rw [h5, (shape.keys st).2]
      push_cast
      omega

/-- C17 (Scenario B): for every budget `n ≥ 1` and every `k < n`, a one-step
workflow with `retry = n`, no `escalate_to`, and a collaborator that raises on
its first `k` calls and then succeeds (a declared verifier, if any, accepting)
ends with the step `completed` after `attempts = k + 1` and the run
`completed`. -/
theorem C17_scenario_fails_then_succeeds (env : Env) (w : World) (workflowPath : String)
    (workflow : Workflow) (useGit : Bool) (step : WorkflowStep) (n k : Nat)
    (hF : Fresh env w) (hnd : w.db.stepIdsNodup) (h1 : workflow.steps = [step])
    (hn : 1 ≤ n) (hkn : k < n) (hretry : step.retry = some (n : Int))
    (hesc : truthy step.escalate_to = false)
    (hk : hasAgentDefinition step.agent = true)
    (hver : truthy step.verify_with = true →
      hasAgentDefinition (step.verify_with.getD "undefined") = true
      ∧ ∀ j q, ∃ d, env.verify j (step.verify_with.getD "undefined") q = .verdict true d)
    (hfail : ∀ j, j < k → ∃ m, env.runAgent (w.agentCalls + j) step.agent step.task = .raise m)
    (hsucc : ∃ p, env.runAgent (w.agentCalls + k) step.agent step.task = .success p) :
    ∃ row run,
      (runWorkflow env w workflowPath workflow useGit).1
          = .ok { success := true, runId := env.newId w.ids, error := none }
      ∧ getStep (runWorkflow env w workflowPath workflow useGit).2.db (env.newId (w.ids + 1))
          = some row
      ∧ row.attempts = k + 1 ∧ row.status = "completed"
      ∧ getRun (runWorkflow env w workflowPath workflow useGit).2.db (env.newId w.ids)
          = some run
      ∧ run.status = "completed" := by
  obtain ⟨loopRes, w4, st, hd, hr, ho, heq, run0, hrun0⟩ :=
    runWorkflow_single env w workflowPath workflow useGit step hF hnd h1
  obtain ⟨st2, g1, _, g3, g4, _⟩ := hd
  have hst : st2 = st := Option.some.inj (g1.symm.trans hr.2.2.1)
  subst hst
  have hr0 : step.retry ≠ some 0 := by
    rw [hretry]
    intro h
    have := Option.some.inj h
    omega
  have key : ∀ j res wz, j = (step.retry.getD 3).toNat →
      LoopRun env (env.newId (w.ids + 1)) step j
        (loopWorld env w workflowPath workflow useGit) st2 res wz →
      ∃ r row, res = .ok (some r) ∧ r.status = "completed"
        ∧ getStep wz.db (env.newId (w.ids + 1)) = some row ∧ row.status = "completed"
        ∧ row.attempts = k + 1 := by
    intro j res wz hj loop
    have hjn : j = n := by
      rw [hj, hretry]
      simp
    have hb : (j : Int) = st2.max_attempts - st2.attempts := by
      rw [g3, g4, hj, hretry]
      simp
    obtain ⟨r, row, a1, a2, a3, a4, a5⟩ :=
      loop.failsThenSucceeds hesc hk hr0 hver k (by omega) hb hfail hsucc
    refine ⟨r, row, a1, a2, a3, a4, ?_⟩
    rw [a5, g3]
    simp
  have hsteps := finishRun_steps env (env.newId w.ids) (loopRes, w4)
  obtain ⟨res, rrow, f1, f2, f3, f4⟩ := finishRun_getRun env (env.newId w.ids) (loopRes, w4)
    run0 hrun0
  rw [heq]
  cases ho with
  | noBudget h0 =>
    exfalso
    rw [hretry] at h0
    simp at h0
    omega
  | raised j e _ loop budget =>
    obtain ⟨r, row, a1, _⟩ := key j _ _ budget loop
    cases a1
  | completed j r _ loop hs budget =>
    obtain ⟨r2, row, a1, a2, a3, a4, a5⟩ := key j _ _ budget loop
    rcases f4 with ⟨_, h2, h3, h4, _⟩ | ⟨e, h1, _⟩
    · refine ⟨row, rrow, ?_, ?_, a5, a4, f3, h4⟩
      · rw [f1]
        congr 1
        cases res
        simp only at f2 h2 h3
        rw [f2, h2, h3]
      · unfold getStep at a3 ⊢
        rw [hsteps]
        exact a3
    · cases h1
  | failed j r _ loop hs budget =>
    obtain ⟨r2, row, a1, a2, _⟩ := key j _ _ budget loop
    cases a1
    rw [hs] at a2
    exact absurd a2 (by decide)
  | escalated j r wm succ rr _ loop hs ready hop budget =>
    obtain ⟨r2, row, a1, a2, _⟩ := key j _ _ budget loop
    cases a1
    rw [hs] at a2
    exact absurd a2 (by decide)

theorem C17_scenario_fails_then_succeeds_witness :
    ∃ row run,
      (runWorkflow flakyEnv (World.start Store.empty) "demo.yaml" buildOnly false).1
          = .ok { success := true, runId := flakyEnv.newId (World.start Store.empty).ids,
                  error := none }
      ∧ getStep (runWorkflow flakyEnv (World.start Store.empty) "demo.yaml" buildOnly
            false).2.db (flakyEnv.newId ((World.start Store.empty).ids + 1))
          = some row
      ∧ row.attempts = (2 : Nat) + 1 ∧ row.status = "completed"
      ∧ getRun (runWorkflow flakyEnv (World.start Store.empty) "demo.yaml" buildOnly
            false).2.db (flakyEnv.newId (World.start Store.empty).ids)
          = some run
      ∧ run.status = "completed" :=
  C17_scenario_fails_then_succeeds flakyEnv (World.start Store.empty) "demo.yaml" buildOnly
    false buildStep 3 2 (fresh_start_empty flakyEnv tallyId_injective) List.nodup_nil
    rfl (by decide) (by decide) rfl rfl rfl (fun h => absurd h (by decide))
    (fun j hj => ⟨"boom", by
      show (if (World.start Store.empty).agentCalls + j < 2 then AgentOutcome.raise "boom"
        else AgentOutcome.success "done") = AgentOutcome.raise "boom"
      have : (World.start Store.empty).agentCalls + j < 2 := by
        show 0 + j < 2
        omega
      rw [if_pos this]⟩)
    ⟨"done", rfl⟩

/-! ## Scenario C: verification fails once, then passes -/

theorem AttemptShape.unique {env : Env} {w w1 : World} {id : String} {step : WorkflowStep}
    {G G2 : StepRow → StepRow} {vs vs2 : List VerificationRow}
    (h : AttemptShape env w w1 id step G [] vs) (h2 : AttemptShape env w w1 id step G2 [] vs2)
    {st : StepRow} (hg : getStep w.db id = some st) : vs = vs2 ∧ G st = G2 st := by
  refine ⟨?_, ?_⟩
  · have := h.verifs.symm.trans h2.verifs
    exact List.append_cancel_left this
  · have := (getStep_of_shape h hg).symm.trans (getStep_of_shape h2 hg)
    exact Option.some.inj this

theorem ExecOutcome.of_rejection {env : Env} {w w1 : World} {id : String}
    {step : WorkflowStep} {st : StepRow} {r : StepResult}
    (h : ExecOutcome env w id step st (.ok r) w1)
    (hp : ∃ p, env.runAgent w.agentCalls step.agent step.task = .success p)
    (hv : truthy step.verify_with = true)
    (hkv : hasAgentDefinition (step.verify_with.getD "undefined") = true)
    (hno : ∀ q, (env.verify w.verifyCalls (step.verify_with.getD "undefined") q).passed
      = false) :
    ∃ G v, AttemptShape env w w1 id step G [] [v] ∧ v.status = "failed"
      ∧ ((st.attempts + 1 < st.max_attempts ∧ r.status = "retry")
          ∨ (¬ st.attempts + 1 < st.max_attempts ∧ r.status = "failed")) := by
  obtain ⟨p, hp⟩ := hp
  have hnoraise : ∀ e, ¬ TryRaised env w step e := by
    intro e ht
    rcases ht with ht | ⟨_, _, h2, _⟩
    · rw [hp] at ht
      cases ht
    · rw [hkv] at h2
      cases h2
  cases h with
  | completed _ q G vs shape accepted status verified unverified =>
    exfalso
    obtain ⟨d, hd⟩ := (accepted.2 hv).2
    have := hno q
    rw [hd] at this
    cases this
  | failStepped _ _ G vs canRetry e shape source _ retry failed error =>
    rcases source with ⟨_, h2, _⟩ | ⟨q, reason, _, hc, _, _, _, v, h7, h8⟩
    · exact absurd h2 (hnoraise e)
    · subst h7
      refine ⟨G, v, shape, h8, ?_⟩
      by_cases hlt : st.attempts + 1 < st.max_attempts
      · exact Or.inl ⟨hlt, (retry ⟨hc, hlt⟩).1⟩
      · exact Or.inr ⟨hlt, (failed (fun h => hlt h.2)).1⟩
  | escalated _ m G now shape _ raised _ => exact absurd raised (hnoraise m)

theorem getStepVerification_two (db : Store) (id : String) (v1 v2 : VerificationRow)
    (h : db.verifications.filter (fun r => r.step_id == id) = [v1, v2])
    (hlt : v1.created_at < v2.created_at) : getStepVerification db id = some v2 := by
  unfold getStepVerification
  rw [h]
  simp [laterVerification, hlt]

theorem LoopRun.rejectedThenAccepted {env : Env} {id : String} {step : WorkflowStep} {n : Nat}
    {w w2 : World} {st : StepRow} {res : Except String (Option StepResult)}
    (h : LoopRun env id step n w st res w2) (hn : 2 ≤ n)
    (hb : (n : Int) = st.max_attempts - st.attempts)
    (hk : hasAgentDefinition step.agent = true)
    (hv : truthy step.verify_with = true)
    (hkv : hasAgentDefinition (step.verify_with.getD "undefined") = true)
    (hagent : ∀ j, ∃ p, env.runAgent j step.agent step.task = .success p)
    (hno : ∀ q, (env.verify w.verifyCalls (step.verify_with.getD "undefined") q).passed
      = false)
    (hyes : ∀ q, ∃ d, env.verify (w.verifyCalls + 1) (step.verify_with.getD "undefined") q
      = .verdict true d) :
    ∃ r row v1 v2 c1 c2, res = .ok (some r) ∧ r.status = "completed"
      ∧ getStep w2.db id = some row ∧ row.status = "completed"
      ∧ row.attempts = st.attempts + 2
      ∧ w2.db.verifications = w.db.verifications ++ [v1, v2]
      ∧ v1.step_id = id ∧ v2.step_id = id ∧ v1.status = "failed" ∧ v2.status = "passed"
      ∧ v1.created_at = env.now c1 w.waits ∧ v2.created_at = env.now c2 (w.waits + 1)
      ∧ c1 < c2 := by
  cases h with
  | raised n _ _ e _ ready first =>
    cases first with
    | unknownAgent hu =>
      rw [hu] at hk
      cases hk
  | settled n _ _ r _ ready first hs =>
    exfalso
    obtain ⟨G, v, _, _, hc⟩ := first.of_rejection (hagent _) hv hkv hno
    rcases hc with ⟨_, h2⟩ | ⟨h1, _⟩
    · rw [h2] at hs
      rcases hs with hs | hs | hs <;> exact absurd hs (by decide)
    · apply h1
      push_cast at hb
      omega
  | again n _ _ r w1 G vs _ _ ready first hs shape pending kept rejected rest =>
    obtain ⟨G1, v1, shape1, hv1, _⟩ := first.of_rejection (hagent _) hv hkv hno
    obtain ⟨hvs, hG⟩ := shape.unique shape1 ready.2.2.1
    subst hvs
    obtain ⟨_, _, hv1id, _, c1, _, hc1, hv1t⟩ := shape.vs_spec v1 (List.mem_singleton_self _)
    have hclk : (backoff (n + 1) w1).clock = w1.clock := by
      unfold backoff
      simp
    have hcalls : (backoff (n + 1) w1).verifyCalls = w.verifyCalls + 1 := by
      unfold backoff
      simp [shape.verifyCalls]
    have hver2 : truthy step.verify_with = true →
        hasAgentDefinition (step.verify_with.getD "undefined") = true
        ∧ ∀ q, ∃ d, env.verify (backoff (n + 1) w1).verifyCalls
            (step.verify_with.getD "undefined") q = .verdict true d :=
      fun _ => ⟨hkv, fun q => by rw [hcalls]; exact hyes q⟩
    have fin : ∀ (r2 : StepResult) (wz : World),
        ExecOutcome env (backoff (n + 1) w1) id step (G st) (.ok r2) wz →
        Ready env (backoff (n + 1) w1) id (G st) →
        ∃ row v2 c2, r2.status = "completed"
          ∧ getStep wz.db id = some row ∧ row.status = "completed"
          ∧ row.attempts = st.attempts + 2
          ∧ wz.db.verifications = w.db.verifications ++ [v1, v2]
          ∧ v2.step_id = id ∧ v2.status = "passed"
          ∧ v2.created_at = env.now c2 (w.waits + 1) ∧ c1 < c2 := by
      intro r2 wz ho hr
      obtain ⟨p, hp⟩ := hagent (backoff (n + 1) w1).agentCalls
      have hc := ho.of_success hp hver2
      obtain ⟨_, G2, vs2, shape2, _, status2, verified2, _⟩ := ho.inv_completed hc
      obtain ⟨v2, hvs2, hv2⟩ := verified2 hv
      subst hvs2
      obtain ⟨_, _, hv2id, _, c2, hc2, _, hv2t⟩ := shape2.vs_spec v2 (List.mem_singleton_self _)
      rw [hclk] at hc2
      refine ⟨G2 (G st), v2, c2, hc, getStep_of_shape shape2 hr.2.2.1, (status2 _).1, ?_, ?_,
        hv2id, hv2, ?_, by omega⟩
      · rw [(shape2.keys _).2, (shape.keys _).2]
        omega
      · rw [shape2.verifs, backoff_db, shape.verifs, List.append_assoc]
        rfl
      · rw [hv2t, backoff_succ_waits, shape.waits]
    cases rest with
    | raised _ _ _ e _ ready2 first2 =>
      cases first2 with
      | unknownAgent hu =>
        rw [hu] at hk
        cases hk
    | settled _ _ _ r2 _ ready2 first2 hs2 =>
      obtain ⟨row, v2, c2, a1, a2, a3, a4, a5, a6, a7, a8, a9⟩ := fin r2 _ first2 ready2
      exact ⟨r2, row, v1, v2, c1, c2, rfl, a1, a2, a3, a4, a5, hv1id, a6, hv1, a7, hv1t, a8,
        a9⟩
    | again _ _ _ r2 w3 G3 vs3 _ _ ready2 first2 hs2 shape3 _ _ _ rest2 =>
      exfalso
      obtain ⟨_, _, _, a1, _⟩ := fin r2 _ first2 ready2
      rw [hs2] at a1
      exact absurd a1 (by decide)

theorem finishRun_verifications (env : Env) (runId : String)
    (loop : Except String Unit × World) :
    (finishRun env runId loop).2.db.verifications = loop.2.db.verifications := by
  obtain ⟨r, w4⟩ := loop
  cases r <;> rfl

/-- C19 (Scenario C): a one-step workflow whose step declares a known verifier
and has a budget of at least two attempts, run with an execution collaborator
that always succeeds and a verification that says no on its first call and yes
on its second, ends with the step `completed` after `attempts = 2` and the run
`completed`; the verifications of the step are exactly two rows, the first
`failed` and the second `passed` (none `pending`), and the most recent one
(`getStepVerification`) is the `passed` one.  The clock is assumed to advance
between a read before the backoff wait and a later read after it. -/
theorem C19_scenario_verification_retry (env : Env) (w : World) (workflowPath : String)
    (workflow : Workflow) (useGit : Bool) (step : WorkflowStep)
    (hF : Fresh env w) (hnd : w.db.stepIdsNodup) (h1 : workflow.steps = [step])
    (hretry : 2 ≤ step.retry.getD 3)
    (hk : hasAgentDefinition step.agent = true)
    (hv : truthy step.verify_with = true)
    (hkv : hasAgentDefinition (step.verify_with.getD "undefined") = true)
    (hagent : ∀ j, ∃ p, env.runAgent j step.agent step.task = .success p)
    (hno : ∀ q, (env.verify w.verifyCalls (step.verify_with.getD "undefined") q).passed
      = false)
    (hyes : ∀ q, ∃ d, env.verify (w.verifyCalls + 1) (step.verify_with.getD "undefined") q
      = .verdict true d)
    (hclock : ∀ c c2 s, c < c2 → env.now c s < env.now c2 (s + 1)) :
    ∃ row v1 v2 run,
      (runWorkflow env w workflowPath workflow useGit).1
          = .ok { success := true, runId := env.newId w.ids, error := none }
      ∧ getStep (runWorkflow env w workflowPath workflow useGit).2.db (env.newId (w.ids + 1))
          = some row
      ∧ row.status = "completed" ∧ row.attempts = 2
      ∧ (runWorkflow env w workflowPath workflow useGit).2.db.verifications.filter
          (fun r => r.step_id == env.newId (w.ids + 1)) = [v1, v2]
      ∧ v1.status = "failed" ∧ v2.status = "passed"
      ∧ getStepVerification (runWorkflow env w workflowPath workflow useGit).2.db
          (env.newId (w.ids + 1)) = some v2
      ∧ getRun (runWorkflow env w workflowPath workflow useGit).2.db (env.newId w.ids)
          = some run
      ∧ run.status = "completed" := by
  obtain ⟨loopRes, w4, st, hd, hr, ho, heq, run0, hrun0⟩ :=
    runWorkflow_single env w workflowPath workflow useGit step hF hnd h1
  obtain ⟨st2, g1, _, g3, g4, _, _, g7⟩ := hd
  have hst : st2 = st := Option.some.inj (g1.symm.trans hr.2.2.1)
  subst hst
  have key : ∀ j res wz, j = (step.retry.getD 3).toNat →
      LoopRun env (env.newId (w.ids + 1)) step j
        (loopWorld env w workflowPath workflow useGit) st2 res wz →
      ∃ r row v1 v2, res = .ok (some r) ∧ r.status = "completed"
        ∧ getStep wz.db (env.newId (w.ids + 1)) = some row ∧ row.status = "completed"
        ∧ row.attempts = 2
        ∧ wz.db.verifications.filter (fun r => r.step_id == env.newId (w.ids + 1)) = [v1, v2]
        ∧ v1.status = "failed" ∧ v2.status = "passed"
        ∧ v1.created_at < v2.created_at := by
    intro j res wz hj loop
    have hj2 : 2 ≤ j := by
      rw [hj]
      omega
    have hb : (j : Int) = st2.max_attempts - st2.attempts := by
      rw [g3, g4, hj]
      omega
    obtain ⟨r, row, v1, v2, c1, c2, a1, a2, a3, a4, a5, a6, a7, a8, a9, a10, a11, a12, a13⟩ :=
      loop.rejectedThenAccepted hj2 hb hk hv hkv hagent hno hyes
    refine ⟨r, row, v1, v2, a1, a2, a3, a4, by rw [a5, g3]; rfl, ?_, a9, a10, ?_⟩
    · rw [a6, List.filter_append]
      have h0 : List.filter (fun r => r.step_id == env.newId (w.ids + 1))
          (loopWorld env w workflowPath workflow useGit).db.verifications = [] := by
        rw [List.filter_eq_nil_iff]
        intro v hvm
        simpa using g7 v hvm
      rw [h0]
      simp [a7, a8]
    · rw [a11, a12]
      exact hclock _ _ _ a13
  have hsteps := finishRun_steps env (env.newId w.ids) (loopRes, w4)
  have hverifs := finishRun_verifications env (env.newId w.ids) (loopRes, w4)
  obtain ⟨res, rrow, f1, f2, f3, f4⟩ := finishRun_getRun env (env.newId w.ids) (loopRes, w4)
    run0 hrun0
  rw [heq]
  cases ho with
  | noBudget h0 =>
    exfalso
    omega
  | raised j e _ loop budget =>
    obtain ⟨r, row, v1, v2, a1, _⟩ := key j _ _ budget loop
    cases a1
  | completed j r _ loop hs budget =>
    obtain ⟨r2, row, v1, v2, a1, a2, a3, a4, a5, a6, a7, a8, a9⟩ := key j _ _ budget loop
    rcases f4 with ⟨_, h2, h3, h4, _⟩ | ⟨e, h1, _⟩
    · refine ⟨row, v1, v2, rrow, ?_, ?_, a4, a5, by rw [hverifs]; exact a6, a7, a8, ?_, f3, h4⟩
      · rw [f1]
        congr 1
        cases res
        simp only at f2 h2 h3
        rw [f2, h2, h3]
      · unfold getStep at a3 ⊢
        rw [hsteps]
        exact a3
      · exact getStepVerification_two _ _ v1 v2 (by rw [hverifs]; exact a6) a9
    · cases h1
  | failed j r _ loop hs budget =>
    obtain ⟨r2, row, v1, v2, a1, a2, _⟩ := key j _ _ budget loop
    cases a1
    rw [hs] at a2
    exact absurd a2 (by decide)
  | escalated j r wm succ rr _ loop hs ready hop budget =>
    obtain ⟨r2, row, v1, v2, a1, a2, _⟩ := key j _ _ budget loop
    cases a1
    rw [hs] at a2
    exact absurd a2 (by decide)

theorem C19_scenario_verification_retry_witness :
    ∃ row v1 v2 run,
      (runWorkflow strictOnceEnv (World.start Store.empty) "demo.yaml" reviewedOnly false).1
          = .ok { success := true, runId := strictOnceEnv.newId (World.start Store.empty).ids,
                  error := none }
      ∧ getStep (runWorkflow strictOnceEnv (World.start Store.empty) "demo.yaml" reviewedOnly
            false).2.db (strictOnceEnv.newId ((World.start Store.empty).ids + 1))
          = some row
      ∧ row.status = "completed" ∧ row.attempts = 2
      ∧ (runWorkflow strictOnceEnv (World.start Store.empty) "demo.yaml" reviewedOnly
            false).2.db.verifications.filter
          (fun r => r.step_id == strictOnceEnv.newId ((World.start Store.empty).ids + 1))
          = [v1, v2]
      ∧ v1.status = "failed" ∧ v2.status = "passed"
      ∧ getStepVerification (runWorkflow strictOnceEnv (World.start Store.empty) "demo.yaml"
            reviewedOnly false).2.db
          (strictOnceEnv.newId ((World.start Store.empty).ids + 1)) = some v2
      ∧ getRun (runWorkflow strictOnceEnv (World.start Store.empty) "demo.yaml" reviewedOnly
            false).2.db (strictOnceEnv.newId (World.start Store.empty).ids)
          = some run
      ∧ run.status = "completed" :=
  C19_scenario_verification_retry strictOnceEnv (World.start Store.empty) "demo.yaml"
    reviewedOnly false reviewedStep (fresh_start_empty strictOnceEnv tallyId_injective)
    List.nodup_nil rfl (by decide) rfl rfl rfl (fun _ => ⟨"done", rfl⟩) (fun _ => rfl)
    (fun _ => ⟨"ok", rfl⟩)
    (fun c c2 s h => by
      show 1000 * s + c < 1000 * (s + 1) + c2
      omega)

/-! ## Scenario D: escalation to a role that succeeds -/

theorem successor_id {env : Env} {id : String} {step step2 : WorkflowStep} {n : Nat}
    {w wm w2 : World} {st succ : StepRow} {r : StepResult} {rr : Except String StepResult}
    (loop : LoopRun env id step n w st (.ok (some r)) wm)
    (ready : Ready env wm (r.newStepId.getD "undefined") succ)
    (hop : ExecOutcome env wm (r.newStepId.getD "undefined") step2 succ rr w2)
    (hr : Ready env w id st)
    (hnos : ∀ x ∈ w.db.step_executions, x.escalated_from ≠ some id)
    (hne : id ≠ r.newStepId.getD "undefined")
    {s : StepRow} (hm : s ∈ w2.db.step_executions) (he : s.escalated_from = some id) :
    s.id = r.newStepId.getD "undefined" := by
  obtain ⟨row, h1, hkeys, _⟩ := loop.last_row
  have hst : st ∈ w.db.step_executions := mem_of_getStep _ _ _ hr.2.2.1
  rcases hop.mem_steps hm with ⟨r0, h0, k0, _⟩ | ⟨k1, _⟩
  · have hr0 : r0.escalated_from = some id := k0.2.2.2.2.2.2.2.symm.trans he
    rw [k0.1]
    by_cases hid : r0.id = id
    · exfalso
      have := eq_of_getStep_of_mem _ ready.2.1 h1 h0 hid
      rw [this, hkeys.2.2.2.2.2.2.2] at hr0
      exact hnos st hst hr0
    · rcases loop.loop_mem_steps h0 hid with k2 | ⟨_, _, _, er, k3, k4⟩
      · exact absurd hr0 (hnos r0 k2)
      · cases k3
        rw [k4]
        rfl
  · rw [he] at k1
    exact absurd (Option.some.inj k1) hne

theorem LoopRun.raisedAndEscalated {env : Env} {id : String} {step : WorkflowStep} {n : Nat}
    {w w2 : World} {st : StepRow} {res : Except String (Option StepResult)}
    (h : LoopRun env id step n w st res w2)
    (hk : hasAgentDefinition step.agent = true)
    (hesc : truthy step.escalate_to = true)
    (hraise : ∃ m, env.runAgent w.agentCalls step.agent step.task = .raise m) :
    ∃ r, res = .ok (some r) ∧ r.status = "escalated" ∧ w2.agentCalls = w.agentCalls + 1
      ∧ w2.verifyCalls = w.verifyCalls := by
  obtain ⟨m, hm⟩ := hraise
  cases h with
  | raised n _ _ e _ ready first =>
    cases first with
    | unknownAgent hu =>
      rw [hu] at hk
      cases hk
  | settled n _ _ r _ ready first hs =>
    rcases hs with hs | hs | hs
    · exfalso
      obtain ⟨p, _, _, _, hacc, _⟩ := first.inv_completed hs
      rw [hacc.1] at hm
      cases hm
    · obtain ⟨_, _, _, shape, _⟩ := first.inv_escalated hs
      refine ⟨r, rfl, hs, shape.agentCalls, ?_⟩
      rw [shape.verifyCalls]
      rfl
    · exfalso
      obtain ⟨_, _, _, e, _, source, _⟩ := first.inv_failed hs
      rcases source with ⟨h1, _⟩ | ⟨p, _, hrej, _⟩
      · rw [hesc] at h1
        cases h1
      · rw [hrej.1] at hm
        cases hm
  | again n _ _ r w1 G vs _ _ ready first hs shape pending kept rejected rest =>
    exfalso
    obtain ⟨e, h1 | ⟨p, reason, hrej⟩⟩ := first.inv_retry hs
    · rw [hesc] at h1
      cases h1.1
    · rw [hrej.1] at hm
      cases hm

/-- C20 (Scenario D): a one-step workflow whose step declares `escalate_to`
a known role `r`, run with a collaborator that raises on the step's first
attempt and succeeds on its next call, made for role `r` (a declared verifier,
if any, accepting), ends with the original step `escalated`, with a step that
is escalated from it, has `agent_type = r` and is `completed`, with no other
step escalated from it, and with the run `completed`. -/
theorem C20_scenario_escalation (env : Env) (w : World) (workflowPath : String)
    (workflow : Workflow) (useGit : Bool) (step : WorkflowStep)
    (hF : Fresh env w) (hnd : w.db.stepIdsNodup) (h1 : workflow.steps = [step])
    (hbudget : 1 ≤ step.retry.getD 3)
    (hk : hasAgentDefinition step.agent = true)
    (hesc : truthy step.escalate_to = true)
    (hkr : hasAgentDefinition (step.escalate_to.getD "undefined") = true)
    (hver : truthy step.verify_with = true →
      hasAgentDefinition (step.verify_with.getD "undefined") = true
      ∧ ∀ q, ∃ d, env.verify w.verifyCalls (step.verify_with.getD "undefined") q
          = .verdict true d)
    (hraise : ∃ m, env.runAgent w.agentCalls step.agent step.task = .raise m)
    (hsucc : ∃ p, env.runAgent (w.agentCalls + 1) (step.escalate_to.getD "undefined")
      step.task = .success p) :
    ∃ row next run,
      (runWorkflow env w workflowPath workflow useGit).1
          = .ok { success := true, runId := env.newId w.ids, error := none }
      ∧ getStep (runWorkflow env w workflowPath workflow useGit).2.db (env.newId (w.ids + 1))
          = some row
      ∧ row.status = "escalated"
      ∧ next ∈ (runWorkflow env w workflowPath workflow useGit).2.db.step_executions
      ∧ next.escalated_from = some (env.newId (w.ids + 1))
      ∧ next.agent_type = step.escalate_to.getD "undefined"
      ∧ next.status = "completed"
      ∧ (∀ s ∈ (runWorkflow env w workflowPath workflow useGit).2.db.step_executions,
          s.escalated_from = some (env.newId (w.ids + 1)) → s = next)
      ∧ getRun (runWorkflow env w workflowPath workflow useGit).2.db (env.newId w.ids)
          = some run
      ∧ run.status = "completed" := by
  obtain ⟨loopRes, w4, st, hd, hr, ho, heq, run0, hrun0⟩ :=
    runWorkflow_single env w workflowPath workflow useGit step hF hnd h1
  obtain ⟨st2, g1, _, g3, g4, _, hnos, _⟩ := hd
  have hst : st2 = st := Option.some.inj (g1.symm.trans hr.2.2.1)
  subst hst
  have key : ∀ j res wz, LoopRun env (env.newId (w.ids + 1)) step j
        (loopWorld env w workflowPath workflow useGit) st2 res wz →
      ∃ r, res = .ok (some r) ∧ r.status = "escalated" ∧ wz.agentCalls = w.agentCalls + 1
        ∧ wz.verifyCalls = w.verifyCalls :=
    fun j res wz loop => loop.raisedAndEscalated hk hesc hraise
  have hsteps := finishRun_steps env (env.newId w.ids) (loopRes, w4)
  obtain ⟨res, rrow, f1, f2, f3, f4⟩ := finishRun_getRun env (env.newId w.ids) (loopRes, w4)
    run0 hrun0
  rw [heq]
  cases ho with
  | noBudget h0 =>
    exfalso
    omega
  | raised j e _ loop budget =>
    obtain ⟨r, a1, _⟩ := key j _ _ loop
    cases a1
  | completed j r _ loop hs budget =>
    obtain ⟨r2, a1, a2, _⟩ := key j _ _ loop
    cases a1
    rw [hs] at a2
    exact absurd a2 (by decide)
  | failed j r _ loop hs budget =>
    obtain ⟨r2, a1, a2, _⟩ := key j _ _ loop
    cases a1
    rw [hs] at a2
    exact absurd a2 (by decide)
  | escalated j r wm succ rr _ loop hs ready hop budget =>
    obtain ⟨r2, a1, _, a3, a4⟩ := key j _ _ loop
    obtain ⟨row, b1, _, b3⟩ := loop.last_row
    have hrow : row.status = "escalated" := by
      rcases b3 with ⟨_, h5, _⟩ | ⟨r3, h5, h6, _⟩
      · cases h5
      · cases h5
        exact h6.trans hs
    obtain ⟨succ2, hready2, hnew, _, hfrom, _, hagent⟩ := loop.escalated_ready hs
    have hsame : succ2 = succ := Option.some.inj (hready2.2.2.1.symm.trans ready.2.2.1)
    subst hsame
    have hne : env.newId (w.ids + 1) ≠ r.newStepId.getD "undefined" := by
      intro he
      exact (he ▸ hnew).not_mentions hr.1 (mentions_of_getStep hr.2.2.1)
    have hrow2 := hop.getStep_ne ready.2.2.1 hne b1
    obtain ⟨row3, c1, c2, c3⟩ := hop.row ready
    have hnd2 := (ready.after (hop.exec_touches ready.2.2.1)).2
    obtain ⟨p, hp⟩ := hsucc
    cases rr with
    | error e =>
      exfalso
      cases hop with
      | unknownAgent hu =>
        rw [hkr] at hu
        cases hu
    | ok er =>
      have hp2 : env.runAgent wm.agentCalls (step.escalate_to.getD "undefined") step.task
          = .success p := by
        rw [a3]
        exact hp
      have hc : er.status = "completed" := by
        refine hop.of_success hp2 ?_
        intro hv
        refine ⟨(hver hv).1, fun q => ?_⟩
        rw [a4]
        exact (hver hv).2 q
      have hst3 : row3.status = "completed" := by
        rw [c3]
        simp [settledStatus, hc]
      have hmem3 := mem_of_getStep _ _ _ c1
      rcases f4 with ⟨_, h2, h3, h4, _⟩ | ⟨e, h1, _⟩
      · refine ⟨row, row3, rrow, ?_, ?_, hrow, by rw [hsteps]; exact hmem3,
          c2.2.2.2.2.2.2.2.trans hfrom, c2.2.2.2.2.1.trans hagent, hst3, ?_, f3, h4⟩
        · rw [f1]
          congr 1
          cases res
          simp only at f2 h2 h3
          rw [f2, h2, h3]
        · unfold getStep at hrow2 ⊢
          rw [hsteps]
          exact hrow2
        · intro s hs1 hs2
          rw [hsteps] at hs1
          have hid := successor_id loop ready hop hr hnos hne hs1 hs2
          exact eq_of_getStep_of_mem _ hnd2 c1 hs1 hid
      · simp [hc] at h1

theorem C20_scenario_escalation_witness :
    ∃ row next run,
      (runWorkflow rejectingEnv (World.start Store.empty) "demo.yaml" escalatingWorkflow
          false).1
          = .ok { success := true, runId := rejectingEnv.newId (World.start Store.empty).ids,
                  error := none }
      ∧ getStep (runWorkflow rejectingEnv (World.start Store.empty) "demo.yaml"
            escalatingWorkflow false).2.db
          (rejectingEnv.newId ((World.start Store.empty).ids + 1)) = some row
      ∧ row.status = "escalated"
      ∧ next ∈ (runWorkflow rejectingEnv (World.start Store.empty) "demo.yaml"
          escalatingWorkflow false).2.db.step_executions
      ∧ next.escalated_from = some (rejectingEnv.newId ((World.start Store.empty).ids + 1))
      ∧ next.agent_type = escalatingStep.escalate_to.getD "undefined"
      ∧ next.status = "completed"
      ∧ (∀ s ∈ (runWorkflow rejectingEnv (World.start Store.empty) "demo.yaml"
            escalatingWorkflow false).2.db.step_executions,
          s.escalated_from = some (rejectingEnv.newId ((World.start Store.empty).ids + 1)) →
          s = next)
      ∧ getRun (runWorkflow rejectingEnv (World.start Store.empty) "demo.yaml"
            escalatingWorkflow false).2.db (rejectingEnv.newId (World.start Store.empty).ids)
          = some run
      ∧ run.status = "completed" :=
  C20_scenario_escalation rejectingEnv (World.start Store.empty) "demo.yaml"
    escalatingWorkflow false escalatingStep
    (fresh_start_empty rejectingEnv tallyId_injective) List.nodup_nil rfl (by decide) rfl rfl
    rfl (fun h => absurd h (by decide)) ⟨"compile error", rfl⟩ ⟨"patched", rfl⟩

/-! ## A claim that is rejected -/

theorem executeStep_not_claimed (env : Env) (w : World) (stepId : String) (step : WorkflowStep)
    (hk : hasAgentDefinition step.agent = true)
    (hfree : ∀ r ∈ w.db.agent_sessions, r.id ≠ env.newId w.ids)
    (hnp : ∀ st, getStep w.db stepId = some st → st.status ≠ "pending") :
    executeStep env w stepId step
      = (.error ("Failed to claim step " ++ stepId),
          { w with
            db := w.db.withAgents (w.db.agent_sessions
              ++ [agentRow (env.newId w.ids) step.agent (env.now w.clock w.waits)]),
            ids := w.ids + 1, clock := w.clock + 2,
            log := w.log ++ [Event.claim stepId (env.newId w.ids) false] }) := by
  have hc : (claimStep (w.db.withAgents (w.db.agent_sessions
        ++ [agentRow (env.newId w.ids) step.agent (env.now w.clock w.waits)]))
      (env.now (w.clock + 1) w.waits) stepId (env.newId w.ids)).1 = false := by
    rw [← Bool.not_eq_true, claimStep_fst]
    rintro ⟨st, hg, hp⟩
    exact hnp st hg hp
  unfold executeStep
  simp only [hk, Bool.not_true, Bool.false_eq_true, if_false]
  rw [registerAgent_fresh w.db _ _ _ hfree]
  simp only [hc, Bool.not_false, if_true, claimStep_snd_of_false _ _ _ _ hc]

theorem runSteps_not_claimed (env : Env) (w : World) (stepId : String) (step : WorkflowStep)
    (rest : List (String × WorkflowStep))
    (hk : hasAgentDefinition step.agent = true)
    (hfree : ∀ r ∈ w.db.agent_sessions, r.id ≠ env.newId w.ids)
    (hnp : ∀ st, getStep w.db stepId = some st → st.status ≠ "pending")
    (hbudget : 1 ≤ step.retry.getD 3) :
    runSteps env w ((stepId, step) :: rest)
      = (.error ("Failed to claim step " ++ stepId), (executeStep env w stepId step).2) := by
  have he := executeStep_not_claimed env w stepId step hk hfree hnp
  obtain ⟨n, hn⟩ : ∃ n, (step.retry.getD 3).toNat = n + 1 :=
    ⟨(step.retry.getD 3).toNat - 1, by omega⟩
  unfold runSteps runOneStep executeStepWithRetry
  simp only [hn]
  unfold retryLoop
  rw [he]

/-- C22, counterexample: `executeStep` on a step that is not pending raises
`Failed to claim step <id>`. -/
theorem C22_rejected_claim_raises_counterexample :
    (executeStep tallyEnv (World.start completedStore) "step-1" buildStep).1
      = .error "Failed to claim step step-1" := rfl

/-- C22, amended: when the step handed to `executeStep` is not pending (so
`claimStep` returns false), `executeStep` registers a session, raises
`Failed to claim step <id>` without calling the agent-execution collaborator
and without changing any step or verification; the step loop of `runWorkflow`
lets the exception through, so the `catch` block returns a failure whose
error is that message. -/
theorem C22_rejected_claim_raises (env : Env) (w : World) (stepId : String)
    (step : WorkflowStep) (rest : List (String × WorkflowStep)) (runId : String)
    (hk : hasAgentDefinition step.agent = true)
    (hfree : ∀ r ∈ w.db.agent_sessions, r.id ≠ env.newId w.ids)
    (hnp : ∀ st, getStep w.db stepId = some st → st.status ≠ "pending")
    (hbudget : 1 ≤ step.retry.getD 3) :
    (claimStep w.db (env.now (w.clock + 1) w.waits) stepId (env.newId w.ids)).1 = false
    ∧ (executeStep env w stepId step).1 = .error ("Failed to claim step " ++ stepId)
    ∧ (executeStep env w stepId step).2.agentCalls = w.agentCalls
    ∧ (executeStep env w stepId step).2.verifyCalls = w.verifyCalls
    ∧ (executeStep env w stepId step).2.log
        = w.log ++ [Event.claim stepId (env.newId w.ids) false]
    ∧ (executeStep env w stepId step).2.db.step_executions = w.db.step_executions
    ∧ (executeStep env w stepId step).2.db.verifications = w.db.verifications
    ∧ (executeStep env w stepId step).2.db.workflow_runs = w.db.workflow_runs
    ∧ (finishRun env runId (runSteps env w ((stepId, step) :: rest))).1
        = .ok { success := false, runId := runId,
                error := some ("Failed to claim step " ++ stepId) } := by
  have hc : (claimStep w.db (env.now (w.clock + 1) w.waits) stepId (env.newId w.ids)).1
      = false := by
    rw [← Bool.not_eq_true, claimStep_fst]
    rintro ⟨st, hg, hp⟩
    exact hnp st hg hp
  refine ⟨hc, ?_, ?_, ?_, ?_, ?_, ?_, ?_, ?_⟩
  · rw [executeStep_not_claimed env w stepId step hk hfree hnp]
  · rw [executeStep_not_claimed env w stepId step hk hfree hnp]
  · rw [executeStep_not_claimed env w stepId step hk hfree hnp]
  · rw [executeStep_not_claimed env w stepId step hk hfree hnp]
  · rw [executeStep_not_claimed env w stepId step hk hfree hnp]
    rfl
  · rw [executeStep_not_claimed env w stepId step hk hfree hnp]
    rfl
  · rw [executeStep_not_claimed env w stepId step hk hfree hnp]
    rfl
  · rw [runSteps_not_claimed env w stepId step rest hk hfree hnp hbudget]
    rfl

theorem C22_rejected_claim_raises_witness :
    (claimStep (World.start completedStore).db
        (tallyEnv.now ((World.start completedStore).clock + 1) (World.start completedStore).waits)
        "step-1" (tallyEnv.newId (World.start completedStore).ids)).1 = false
    ∧ (executeStep tallyEnv (World.start completedStore) "step-1" buildStep).1
        = .error ("Failed to claim step " ++ "step-1")
    ∧ (executeStep tallyEnv (World.start completedStore) "step-1" buildStep).2.agentCalls
        = (World.start completedStore).agentCalls
    ∧ (executeStep tallyEnv (World.start completedStore) "step-1" buildStep).2.verifyCalls
        = (World.start completedStore).verifyCalls
    ∧ (executeStep tallyEnv (World.start completedStore) "step-1" buildStep).2.log
        = (World.start completedStore).log
          ++ [Event.claim "step-1" (tallyEnv.newId (World.start completedStore).ids) false]
    ∧ (executeStep tallyEnv (World.start completedStore) "step-1" buildStep).2.db.step_executions
        = (World.start completedStore).db.step_executions
    ∧ (executeStep tallyEnv (World.start completedStore) "step-1" buildStep).2.db.verifications
        = (World.start completedStore).db.verifications
    ∧ (executeStep tallyEnv (World.start completedStore) "step-1" buildStep).2.db.workflow_runs
        = (World.start completedStore).db.workflow_runs
    ∧ (finishRun tallyEnv "run-1"
          (runSteps tallyEnv (World.start completedStore) [("step-1", buildStep)])).1
        = .ok { success := false, runId := "run-1",
                error := some ("Failed to claim step " ++ "step-1") } :=
  C22_rejected_claim_raises tallyEnv (World.start completedStore) "step-1" buildStep []
    "run-1" rfl (fun r hr => by cases hr) (by decide) (by decide)

/-! ## What the retry branch of `failStep` leaves alone -/

/-- C26, counterexample: after the retry branch of `failStep` the step is
still assigned to the session that ran it. -/
theorem C26_retry_keeps_assignment_counterexample :
    (failStep runningStore 7 "step-1" "boom" true).map (fun out => out.1) = .ok "retry"
    ∧ ((failStep runningStore 7 "step-1" "boom" true).toOption.bind
        (fun out => (getStep out.2 "step-1").map (fun r => (r.status, r.assigned_agent))))
      = some ("pending", some "agent-a") := by
  refine ⟨rfl, ?_⟩
  decide

/-- C26, amended: when `failStep` takes the retry branch (`canRetry` true and
`attempts < max_attempts`) it sets the status to `pending` and records the
error, and leaves every other column of the step as it was: `assigned_agent`
and `started_at` keep the values of the last claim, `attempts` and
`max_attempts` are unchanged. -/
theorem C26_retry_branch_frame (db : Store) (now : Nat) (stepId error : String)
    (st : StepRow) (hg : getStep db stepId = some st) (hlt : st.attempts < st.max_attempts) :
    ∃ db2, failStep db now stepId error true = .ok ("retry", db2)
      ∧ getStep db2 stepId = some { st with status := "pending", error := some error }
      ∧ ∀ row, getStep db2 stepId = some row →
          row.assigned_agent = st.assigned_agent ∧ row.started_at = st.started_at
          ∧ row.attempts = st.attempts ∧ row.max_attempts = st.max_attempts
          ∧ row.completed_at = st.completed_at ∧ row.result = st.result := by
  obtain ⟨db2, h1, _, _, _, _, h6⟩ := failStep_of_getStep db now stepId error true st hg
  have hc : (true = true ∧ st.attempts < st.max_attempts) := ⟨rfl, hlt⟩
  rw [if_pos hc] at h1
  have h7 := h6 stepId
  rw [if_pos rfl, if_pos hc] at h7
  refine ⟨db2, h1, h7, fun row hrow => ?_⟩
  rw [h7] at hrow
  have := Option.some.inj hrow
  subst this
  exact ⟨rfl, rfl, rfl, rfl, rfl, rfl⟩

theorem C26_retry_branch_frame_witness :
    ∃ db2, failStep runningStore 7 "step-1" "boom" true = .ok ("retry", db2)
      ∧ getStep db2 "step-1" = some { runningStep with status := "pending",
                                                        error := some "boom" }
      ∧ ∀ row, getStep db2 "step-1" = some row →
          row.assigned_agent = runningStep.assigned_agent
          ∧ row.started_at = runningStep.started_at
          ∧ row.attempts = runningStep.attempts ∧ row.max_attempts = runningStep.max_attempts
          ∧ row.completed_at = runningStep.completed_at ∧ row.result = runningStep.result :=
  C26_retry_branch_frame runningStore 7 "step-1" "boom" runningStep (by decide) (by decide)

/-! ## Nothing in the step loop reads the run table -/

theorem claimStep_setRuns (db : Store) (R : List RunRow) (now : Nat) (stepId agentId : String) :
    claimStep (db.setRuns R) now stepId agentId
      = ((claimStep db now stepId agentId).1, (claimStep db now stepId agentId).2.setRuns R) := by
  unfold claimStep
  have hg : getStep (db.setRuns R) stepId = getStep db stepId := rfl
  rw [hg]
  cases getStep db stepId with
  | none => rfl
  | some st =>
    simp only
    split
    · rfl
    · rfl

theorem completeStep_setRuns (db : Store) (R : List RunRow) (now : Nat) (stepId : String)
    (result : Payload) :
    completeStep (db.setRuns R) now stepId result = (completeStep db now stepId result).setRuns R :=
  rfl

theorem failStep_setRuns (db : Store) (R : List RunRow) (now : Nat) (stepId error : String)
    (canRetry : Bool) :
    failStep (db.setRuns R) now stepId error canRetry
      = (failStep db now stepId error canRetry).map (fun out => (out.1, out.2.setRuns R)) := by
  unfold failStep
  have hg : getStep (db.setRuns R) stepId = getStep db stepId := rfl
  rw [hg]
  cases getStep db stepId with
  | none =>
    simp only
    split
    · rfl
    · rfl
  | some st =>
    simp only
    split
    · rfl
    · rfl

theorem escalateStep_setRuns (db : Store) (R : List RunRow) (newId : String) (now : Nat)
    (stepId newAgentType : String) :
    escalateStep (db.setRuns R) newId now stepId newAgentType
      = (escalateStep db newId now stepId newAgentType).map
          (fun out => (out.1, out.2.setRuns R)) := by
  unfold escalateStep
  have hg : ∀ k, getStep (db.setRuns R) k = getStep db k := fun _ => rfl
  rw [hg, hg]
  cases getStep db stepId with
  | none => rfl
  | some st =>
    simp only
    split
    · rfl
    · rfl

theorem registerAgent_setRuns (db : Store) (R : List RunRow) (id : String) (now : Nat)
    (agentType : String) :
    registerAgent (db.setRuns R) id now agentType
      = (registerAgent db id now agentType).map (fun out => (out.1, out.2.setRuns R)) := by
  unfold registerAgent
  have hg : (db.setRuns R).agent_sessions = db.agent_sessions := rfl
  rw [hg]
  split
  · rfl
  · rfl

theorem createVerification_setRuns (db : Store) (R : List RunRow) (id : String) (now : Nat)
    (stepId verifierAgent : String) :
    createVerification (db.setRuns R) id now stepId verifierAgent
      = (createVerification db id now stepId verifierAgent).map
          (fun out => (out.1, out.2.setRuns R)) := by
  unfold createVerification
  have hg : (db.setRuns R).verifications = db.verifications := rfl
  have hs : getStep (db.setRuns R) stepId = getStep db stepId := rfl
  rw [hg, hs]
  split
  · rfl
  · split
    · rfl
    · rfl

theorem completeVerification_setRuns (db : Store) (R : List RunRow) (now : Nat)
    (verificationId : String) (passed : Bool) (result : Payload) :
    completeVerification (db.setRuns R) now verificationId passed result
      = (completeVerification db now verificationId passed result).setRuns R :=
  rfl

theorem verifyStep_setRuns (env : Env) (w : World) (R : List RunRow) (stepId : String)
    (step : WorkflowStep) (result : Payload) :
    verifyStep env (w.setRuns R) stepId step result
      = ((verifyStep env w stepId step result).1,
          (verifyStep env w stepId step result).2.setRuns R) := by
  unfold verifyStep
  simp only
  split
  · rfl
  · have hc : createVerification (w.setRuns R).db (env.newId (w.setRuns R).ids)
        (env.now (w.setRuns R).clock (w.setRuns R).waits) stepId
        (step.verify_with.getD "undefined")
        = (createVerification w.db (env.newId w.ids) (env.now w.clock w.waits) stepId
            (step.verify_with.getD "undefined")).map (fun out => (out.1, out.2.setRuns R)) :=
      createVerification_setRuns w.db R _ _ _ _
    rw [hc]
    cases createVerification w.db (env.newId w.ids) (env.now w.clock w.waits) stepId
        (step.verify_with.getD "undefined") with
    | error e => rfl
    | ok created =>
      simp only [Except.map]
      have hv : (w.setRuns R).verifyCalls = w.verifyCalls := rfl
      rw [hv]
      cases env.verify w.verifyCalls (step.verify_with.getD "undefined") result with
      | verdict passed detail => rfl
      | raise message => rfl

theorem executeStepTry_setRuns (env : Env) (w : World) (R : List RunRow) (stepId : String)
    (step : WorkflowStep) :
    executeStepTry env (w.setRuns R) stepId step
      = ((executeStepTry env w stepId step).1, (executeStepTry env w stepId step).2.setRuns R) := by
  unfold executeStepTry
  simp only
  have ha : (w.setRuns R).agentCalls = w.agentCalls := rfl
  rw [ha]
  cases env.runAgent w.agentCalls step.agent step.task with
  | raise message => rfl
  | success result =>
    simp only
    split
    · have hv := verifyStep_setRuns env
        { w with agentCalls := w.agentCalls + 1,
                 log := w.log ++ [Event.agent stepId step.agent step.task] } R stepId step result
      have hv2 : verifyStep env
          { w.setRuns R with agentCalls := w.agentCalls + 1,
                             log := (w.setRuns R).log
                               ++ [Event.agent stepId step.agent step.task] } stepId step result
          = _ := hv
      rw [hv2]
      generalize verifyStep env
        { w with agentCalls := w.agentCalls + 1,
                 log := w.log ++ [Event.agent stepId step.agent step.task] } stepId step result
        = q
      obtain ⟨r, w2⟩ := q
      cases r with
      | error e => rfl
      | ok vr =>
        simp only
        split
        · have hf : failStep (w2.setRuns R).db (env.now (w2.setRuns R).clock (w2.setRuns R).waits)
              stepId ("Verification failed: " ++ vr.reason) true
              = (failStep w2.db (env.now w2.clock w2.waits) stepId
                  ("Verification failed: " ++ vr.reason) true).map
                  (fun out => (out.1, out.2.setRuns R)) :=
            failStep_setRuns w2.db R _ _ _ _
          rw [hf]
          cases failStep w2.db (env.now w2.clock w2.waits) stepId
              ("Verification failed: " ++ vr.reason) true with
          | error e => rfl
          | ok failed =>
            simp only [Except.map]
            split
            · rfl
            · rfl
        · rfl
    · rfl

theorem executeStep_setRuns (env : Env) (w : World) (R : List RunRow) (stepId : String)
    (step : WorkflowStep) :
    executeStep env (w.setRuns R) stepId step
      = ((executeStep env w stepId step).1, (executeStep env w stepId step).2.setRuns R) := by
  unfold executeStep
  simp only
  split
  · rfl
  · have hr : registerAgent (w.setRuns R).db (env.newId (w.setRuns R).ids)
        (env.now (w.setRuns R).clock (w.setRuns R).waits) step.agent
        = (registerAgent w.db (env.newId w.ids) (env.now w.clock w.waits) step.agent).map
            (fun out => (out.1, out.2.setRuns R)) :=
      registerAgent_setRuns w.db R _ _ _
    rw [hr]
    cases registerAgent w.db (env.newId w.ids) (env.now w.clock w.waits) step.agent with
    | error e => rfl
    | ok registered =>
      simp only [Except.map]
      have hc : claimStep (registered.2.setRuns R) (env.now ((w.setRuns R).clock + 1)
            (w.setRuns R).waits) stepId registered.1
          = ((claimStep registered.2 (env.now (w.clock + 1) w.waits) stepId registered.1).1,
              (claimStep registered.2 (env.now (w.clock + 1) w.waits) stepId
                registered.1).2.setRuns R) :=
        claimStep_setRuns registered.2 R _ _ _
      rw [hc]
      simp only
      split
      · rfl
      · have ht := executeStepTry_setRuns env
          { w with db := (claimStep registered.2 (env.now (w.clock + 1) w.waits) stepId
                            registered.1).2,
                   ids := w.ids + 1, clock := w.clock + 2,
                   log := w.log ++ [Event.claim stepId registered.1
                     (claimStep registered.2 (env.now (w.clock + 1) w.waits) stepId
                       registered.1).1] } R stepId step
        have ht2 : executeStepTry env
            { w.setRuns R with
              db := (claimStep registered.2 (env.now (w.clock + 1) w.waits) stepId
                      registered.1).2.setRuns R,
              ids := (w.setRuns R).ids + 1, clock := (w.setRuns R).clock + 2,
              log := (w.setRuns R).log ++ [Event.claim stepId registered.1
                (claimStep registered.2 (env.now (w.clock + 1) w.waits) stepId
                  registered.1).1] } stepId step = _ := ht
        rw [ht2]
        generalize executeStepTry env
          { w with db := (claimStep registered.2 (env.now (w.clock + 1) w.waits) stepId
                            registered.1).2,
                   ids := w.ids + 1, clock := w.clock + 2,
                   log := w.log ++ [Event.claim stepId registered.1
                     (claimStep registered.2 (env.now (w.clock + 1) w.waits) stepId
                       registered.1).1] } stepId step = q
        obtain ⟨r, w2⟩ := q
        cases r with
        | ok res => rfl
        | error message =>
          simp only
          split
          · have he : escalateStep (w2.setRuns R).db (env.newId (w2.setRuns R).ids)
                (env.now (w2.setRuns R).clock (w2.setRuns R).waits) stepId
                (step.escalate_to.getD "undefined")
                = (escalateStep w2.db (env.newId w2.ids) (env.now w2.clock w2.waits) stepId
                    (step.escalate_to.getD "undefined")).map
                    (fun out => (out.1, out.2.setRuns R)) :=
              escalateStep_setRuns w2.db R _ _ _ _
            rw [he]
            cases escalateStep w2.db (env.newId w2.ids) (env.now w2.clock w2.waits) stepId
                (step.escalate_to.getD "undefined") with
            | error e => rfl
            | ok escalated => rfl
          · have hf : failStep (w2.setRuns R).db (env.now (w2.setRuns R).clock
                  (w2.setRuns R).waits) stepId message (step.retry != some 0)
                = (failStep w2.db (env.now w2.clock w2.waits) stepId message
                    (step.retry != some 0)).map (fun out => (out.1, out.2.setRuns R)) :=
              failStep_setRuns w2.db R _ _ _ _
            rw [hf]
            cases failStep w2.db (env.now w2.clock w2.waits) stepId message
                (step.retry != some 0) with
            | error e => rfl
            | ok failed => rfl

theorem backoff_setRuns (n : Nat) (w : World) (R : List RunRow) :
    backoff n (w.setRuns R) = (backoff n w).setRuns R := by
  unfold backoff
  split <;> rfl

theorem retryLoop_setRuns (env : Env) (stepId : String) (step : WorkflowStep) (R : List RunRow) :
    ∀ (n : Nat) (w : World) (last : Option StepResult),
      retryLoop env stepId step n (w.setRuns R) last
        = ((retryLoop env stepId step n w last).1,
            (retryLoop env stepId step n w last).2.setRuns R) := by
  intro n
  induction n with
  | zero => intro w last; rfl
  | succ n ih =>
    intro w last
    unfold retryLoop
    rw [executeStep_setRuns]
    generalize executeStep env w stepId step = q
    obtain ⟨r, w1⟩ := q
    cases r with
    | error e => rfl
    | ok res =>
      simp only
      split
      · rfl
      · split
        · rfl
        · split
          · rfl
          · rw [backoff_setRuns, ih]

theorem runOneStep_setRuns (env : Env) (w : World) (R : List RunRow) (stepId : String)
    (step : WorkflowStep) :
    runOneStep env (w.setRuns R) stepId step
      = ((runOneStep env w stepId step).1, (runOneStep env w stepId step).2.setRuns R) := by
  unfold runOneStep executeStepWithRetry
  simp only
  rw [retryLoop_setRuns]
  generalize retryLoop env stepId step (step.retry.getD 3).toNat w none = q
  obtain ⟨r, w1⟩ := q
  cases r with
  | error e => rfl
  | ok res =>
    cases res with
    | none => rfl
    | some result =>
      simp only
      split
      · rfl
      · split
        · rfl
        · split
          · rw [executeStep_setRuns]
            generalize executeStep env w1 (result.newStepId.getD "undefined")
              { step with agent := step.escalate_to.getD "undefined" } = q2
            obtain ⟨r2, w2⟩ := q2
            cases r2 with
            | error e => rfl
            | ok er =>
              simp only
              split
              · rfl
              · rfl
          · rfl

theorem runSteps_setRuns (env : Env) (R : List RunRow) (l : List (String × WorkflowStep)) :
    ∀ w : World, runSteps env (w.setRuns R) l
      = ((runSteps env w l).1, (runSteps env w l).2.setRuns R) := by
  induction l with
  | nil => intro w; rfl
  | cons x rest ih =>
    intro w
    obtain ⟨stepId, step⟩ := x
    unfold runSteps
    rw [runOneStep_setRuns]
    generalize runOneStep env w stepId step = q
    obtain ⟨r, w1⟩ := q
    cases r with
    | error e => rfl
    | ok u =>
      simp only
      rw [ih]

theorem runSteps_cons (env : Env) (w : World) (stepId : String) (step : WorkflowStep)
    (rest : List (String × WorkflowStep)) :
    runSteps env w ((stepId, step) :: rest)
      = match runOneStep env w stepId step with
        | (.error e, w1) => (.error e, w1)
        | (.ok _, w1) => runSteps env w1 rest := by
  conv_lhs => unfold runSteps

theorem runSteps_append (env : Env) (l1 l2 : List (String × WorkflowStep)) :
    ∀ w : World, runSteps env w (l1 ++ l2)
      = match runSteps env w l1 with
        | (.error e, w1) => (.error e, w1)
        | (.ok _, w1) => runSteps env w1 l2 := by
  induction l1 with
  | nil => intro w; rfl
  | cons x rest ih =>
    intro w
    obtain ⟨stepId, step⟩ := x
    rw [List.cons_append, runSteps_cons, runSteps_cons]
    generalize runOneStep env w stepId step = q
    obtain ⟨r, w1⟩ := q
    cases r with
    | error e => rfl
    | ok u =>
      simp only
      rw [ih]

/-! ## Cancellation while `runWorkflow` runs -/

theorem cancelRun_ok_setRuns {db cancelled : Store} {now : Nat} {runId : String}
    (h : cancelRun db now runId = .ok cancelled) :
    ∃ R, cancelled = db.setRuns R := by
  unfold cancelRun at h
  split at h
  · cases h
  · split at h
    · cases h
    · cases h
      exact ⟨_, rfl⟩

theorem cancelBetween_eq (env : Env) (w : World) (runId : String) (now : Nat)
    (first rest : List (String × WorkflowStep)) :
    (cancelBetween env w runId now first rest).1 = (runSteps env w (first ++ rest)).1
    ∧ ∃ R, (cancelBetween env w runId now first rest).2
        = (runSteps env w (first ++ rest)).2.setRuns R := by
  unfold cancelBetween
  rw [runSteps_append]
  generalize runSteps env w first = q
  obtain ⟨r, w1⟩ := q
  cases r with
  | error e => exact ⟨rfl, w1.db.workflow_runs, rfl⟩
  | ok u =>
    simp only
    cases hc : cancelRun w1.db now runId with
    | error e => exact ⟨rfl, (runSteps env w1 rest).2.db.workflow_runs, rfl⟩
    | ok cancelled =>
      obtain ⟨R, hR⟩ := cancelRun_ok_setRuns hc
      simp only
      have hw : ({ w1 with db := cancelled } : World) = w1.setRuns R := by
        rw [hR]
        rfl
      rw [hw, runSteps_setRuns]
      exact ⟨rfl, R, rfl⟩

theorem finishRun_status (env : Env) (runId : String) (loop : Except String Unit × World) :
    (getRun (finishRun env runId loop).2.db runId).map (fun r => r.status)
      = (getRun loop.2.db runId).map
          (fun _ => match loop.1 with
            | .ok _ => "completed"
            | .error _ => "failed") := by
  obtain ⟨r, w4⟩ := loop
  cases r with
  | error e =>
    show (getRun (updateRunStatus w4.db _ runId "failed" (some e)) runId).map _ = _
    rw [getRun_updateRunStatus, if_pos rfl]
    cases getRun w4.db runId <;> rfl
  | ok u =>
    show (getRun (updateRunStatus w4.db _ runId "completed" none) runId).map _ = _
    rw [getRun_updateRunStatus, if_pos rfl]
    cases getRun w4.db runId <;> rfl

/-- C21, counterexample: a two-step run cancelled after step 1 completed and
before step 2 is claimed.  The cancellation is written, yet step 2 is claimed
and completed, and the run ends `completed`. -/
theorem C21_cancel_ignored_counterexample :
    ((runSteps tallyEnv (loopWorld tallyEnv (World.start Store.empty) "demo.yaml"
          twoStepWorkflow false)
        ((declaredSteps tallyEnv (World.start Store.empty) twoStepWorkflow).take 1)).1
      = .ok ())
    ∧ ((cancelRun (runSteps tallyEnv (loopWorld tallyEnv (World.start Store.empty) "demo.yaml"
            twoStepWorkflow false)
          ((declaredSteps tallyEnv (World.start Store.empty) twoStepWorkflow).take 1)).2.db
        50 "i").toOption.bind (fun db => (getRun db "i").map (fun r => r.status))
      = some "cancelled")
    ∧ ((getRun (finishRun tallyEnv "i"
          (cancelBetween tallyEnv (loopWorld tallyEnv (World.start Store.empty) "demo.yaml"
              twoStepWorkflow false) "i" 50
            ((declaredSteps tallyEnv (World.start Store.empty) twoStepWorkflow).take 1)
            ((declaredSteps tallyEnv (World.start Store.empty) twoStepWorkflow).drop 1))).2.db
        "i").map (fun r => r.status) = some "completed")
    ∧ ((getStep (finishRun tallyEnv "i"
          (cancelBetween tallyEnv (loopWorld tallyEnv (World.start Store.empty) "demo.yaml"
              twoStepWorkflow false) "i" 50
            ((declaredSteps tallyEnv (World.start Store.empty) twoStepWorkflow).take 1)
            ((declaredSteps tallyEnv (World.start Store.empty) twoStepWorkflow).drop 1))).2.db
        "iii").map (fun r => (r.step_name, r.status)) = some ("build", "completed"))
    ∧ ((finishRun tallyEnv "i"
          (cancelBetween tallyEnv (loopWorld tallyEnv (World.start Store.empty) "demo.yaml"
              twoStepWorkflow false) "i" 50
            ((declaredSteps tallyEnv (World.start Store.empty) twoStepWorkflow).take 1)
            ((declaredSteps tallyEnv (World.start Store.empty) twoStepWorkflow).drop 1))).2.log.countP
        (Event.isClaim "iii") = 1) := by
  refine ⟨rfl, ?_, ?_, ?_, ?_⟩ <;> decide

/-- C21, amended: `runWorkflow` never reads the status of its run.  When
`cancelRun` is served between two steps, the step loop goes on exactly as
without it: it returns the same result, leaves the same steps, sessions and
verifications, and makes the same calls (so the next step is claimed and run).
The final write of `runWorkflow` then replaces `cancelled` by `completed` or
`failed`. -/
theorem C21_cancel_not_observed (env : Env) (w : World) (runId : String) (now : Nat)
    (first rest : List (String × WorkflowStep)) :
    (cancelBetween env w runId now first rest).1 = (runSteps env w (first ++ rest)).1
    ∧ (cancelBetween env w runId now first rest).2.db.step_executions
        = (runSteps env w (first ++ rest)).2.db.step_executions
    ∧ (cancelBetween env w runId now first rest).2.db.agent_sessions
        = (runSteps env w (first ++ rest)).2.db.agent_sessions
    ∧ (cancelBetween env w runId now first rest).2.db.verifications
        = (runSteps env w (first ++ rest)).2.db.verifications
    ∧ (cancelBetween env w runId now first rest).2.log
        = (runSteps env w (first ++ rest)).2.log
    ∧ (cancelBetween env w runId now first rest).2.agentCalls
        = (runSteps env w (first ++ rest)).2.agentCalls
    ∧ (getRun (finishRun env runId (cancelBetween env w runId now first rest)).2.db
          runId).map (fun r => r.status)
        = (getRun (cancelBetween env w runId now first rest).2.db runId).map
            (fun _ => match (runSteps env w (first ++ rest)).1 with
              | .ok _ => "completed"
              | .error _ => "failed") := by
  obtain ⟨h1, R, h2⟩ := cancelBetween_eq env w runId now first rest
  refine ⟨h1, ?_, ?_, ?_, ?_, ?_, ?_⟩
  · rw [h2]; rfl
  · rw [h2]; rfl
  · rw [h2]; rfl
  · rw [h2]; rfl
  · rw [h2]; rfl
  · rw [finishRun_status, h1]

/-! ## A budget of zero, and the error of a run that failed on verification -/

/-- C23: what the code does for a step declared with `retry: 0` and a
collaborator that would succeed.  The loop of `executeStepWithRetry` runs zero
times and returns `null`, reading `result.status` raises inside the `try`
block, and the run is failed: the step is never claimed, the collaborator is
never called, and the step stays pending with 0 attempts. -/
theorem C23_retry_zero_never_runs :
    (runWorkflow tallyEnv (World.start Store.empty) "demo.yaml" noRetryWorkflow false).1
      = .ok { success := false, runId := "i",
              error := some "Cannot read properties of null (reading \x27status\x27)" }
    ∧ (runWorkflow tallyEnv (World.start Store.empty) "demo.yaml" noRetryWorkflow false).2.log
        = []
    ∧ (runWorkflow tallyEnv (World.start Store.empty) "demo.yaml" noRetryWorkflow
          false).2.agentCalls = 0
    ∧ (getStep (runWorkflow tallyEnv (World.start Store.empty) "demo.yaml" noRetryWorkflow
          false).2.db "ii").map (fun r => (r.status, r.attempts, r.max_attempts))
        = some ("pending", 0, 0)
    ∧ (getRun (runWorkflow tallyEnv (World.start Store.empty) "demo.yaml" noRetryWorkflow
          false).2.db "i").map (fun r => r.status) = some "failed" := by
  refine ⟨rfl, ?_, ?_, ?_, ?_⟩ <;> decide

/-- C24: what the code does when a step ends unrecoverably failed by a
verification failure.  The step's error is `Verification failed: ...`, but the
result that `executeStep` returns on this path has no `error` key, so the
error of the run is `Step "build" failed: undefined`. -/
theorem C24_run_error_undefined :
    (runWorkflow naysayerEnv (World.start Store.empty) "demo.yaml" reviewedOnly false).1
      = .ok { success := false, runId := "i",
              error := some "Step \"build\" failed: undefined" }
    ∧ (getStep (runWorkflow naysayerEnv (World.start Store.empty) "demo.yaml" reviewedOnly
          false).2.db "ii").map (fun r => (r.status, r.attempts, r.error))
        = some ("failed", 3, some "Verification failed: Requirements not met")
    ∧ (getRun (runWorkflow naysayerEnv (World.start Store.empty) "demo.yaml" reviewedOnly
          false).2.db "i").map (fun r => (r.status, r.error))
        = some ("failed", some "Step \"build\" failed: undefined") := by
  refine ⟨rfl, ?_, ?_⟩ <;> decide

/-! ## Session statistics -/

theorem countP_add_countP_of_xor {α : Type} (p q : α → Bool) (l : List α)
    (h : ∀ x ∈ l, (p x = true ∧ q x = false) ∨ (p x = false ∧ q x = true)) :
    l.countP p + l.countP q = l.length := by
  induction l with
  | nil => rfl
  | cons a l ih =>
    have iht := ih (fun x hx => h x (List.mem_cons_of_mem _ hx))
    rcases h a (List.mem_cons_self _ _) with ⟨h1, h2⟩ | ⟨h1, h2⟩
    · rw [List.countP_cons_of_pos _ _ h1, List.countP_cons_of_neg _ _ (by simp [h2]),
        List.length_cons]
      omega
    · rw [List.countP_cons_of_neg _ _ (by simp [h1]), List.countP_cons_of_pos _ _ h2,
        List.length_cons]
      omega

theorem mem_getAgentStats {db : Store} {now : Nat} {s : AgentStat}
    (h : s ∈ getAgentStats db now) :
    (∃ r ∈ db.agent_sessions, heartbeatRecent now r = true ∧ r.agent_type = s.agent_type)
    ∧ s.total = ((db.agent_sessions.filter (heartbeatRecent now)).filter
        (fun r => r.agent_type == s.agent_type)).length
    ∧ s.busy = ((db.agent_sessions.filter (heartbeatRecent now)).filter
        (fun r => r.agent_type == s.agent_type)).countP (fun r => r.status == "busy")
    ∧ s.idle = ((db.agent_sessions.filter (heartbeatRecent now)).filter
        (fun r => r.agent_type == s.agent_type)).countP (fun r => r.status == "idle") := by
  unfold getAgentStats at h
  simp only [List.mem_map] at h
  obtain ⟨t, ht, rfl⟩ := h
  rw [List.mem_insertionSort, List.mem_dedup, List.mem_map] at ht
  obtain ⟨r, hr, rfl⟩ := ht
  rw [List.mem_filter] at hr
  exact ⟨⟨r, hr.1, hr.2, rfl⟩, rfl, rfl, rfl⟩

/-- C29: `getAgentStats` at time `now` reports one group per `agent_type`
that has a session with `last_heartbeat > now - 300000`; the `total`, `busy`
and `idle` of a group count exactly the sessions of that type with such a
heartbeat (all of them, the busy ones, the idle ones); no two groups share a
type; sessions whose heartbeat is 300000 ms old or older contribute to no
count (dropping them changes nothing); and when every session is idle or busy
(`registerAgent` inserts `idle`, and no operation writes another status),
`total = busy + idle` in every group. -/
theorem C29_agent_stats_window (db : Store) (now : Nat)
    (hstatus : ∀ r ∈ db.agent_sessions, r.status = "idle" ∨ r.status = "busy") :
    (∀ s ∈ getAgentStats db now,
        s.total = (db.agent_sessions.filter (fun r =>
            decide ((now : Int) - 300000 < (r.last_heartbeat : Int))
              && r.agent_type == s.agent_type)).length
        ∧ s.busy = (db.agent_sessions.filter (fun r =>
            decide ((now : Int) - 300000 < (r.last_heartbeat : Int))
              && r.agent_type == s.agent_type)).countP (fun r => r.status == "busy")
        ∧ s.idle = (db.agent_sessions.filter (fun r =>
            decide ((now : Int) - 300000 < (r.last_heartbeat : Int))
              && r.agent_type == s.agent_type)).countP (fun r => r.status == "idle")
        ∧ s.total = s.busy + s.idle)
    ∧ (∀ t, (∃ s ∈ getAgentStats db now, s.agent_type = t)
        ↔ ∃ r ∈ db.agent_sessions, (now : Int) - 300000 < (r.last_heartbeat : Int)
            ∧ r.agent_type = t)
    ∧ ((getAgentStats db now).map (fun s => s.agent_type)).Nodup
    ∧ getAgentStats
        { db with agent_sessions := db.agent_sessions.filter (fun r =>
            decide ((now : Int) - 300000 < (r.last_heartbeat : Int))) } now
        = getAgentStats db now := by
  have hrec : ∀ r, heartbeatRecent now r
      = decide ((now : Int) - 300000 < (r.last_heartbeat : Int)) := fun r => rfl
  have hfun : heartbeatRecent now
      = fun r => decide ((now : Int) - 300000 < (r.last_heartbeat : Int)) := funext hrec
  refine ⟨?_, ?_, ?_, ?_⟩
  · intro s hs
    obtain ⟨_, h1, h2, h3⟩ := mem_getAgentStats hs
    rw [List.filter_filter] at h1 h2 h3
    have hf : (fun a => (a.agent_type == s.agent_type && heartbeatRecent now a))
        = (fun r => decide ((now : Int) - 300000 < (r.last_heartbeat : Int))
            && r.agent_type == s.agent_type) := by
      funext a
      rw [hrec, Bool.and_comm]
    rw [hf] at h1 h2 h3
    refine ⟨h1, h2, h3, ?_⟩
    rw [h1, h2, h3, ← countP_add_countP_of_xor (fun r => r.status == "busy")
      (fun r => r.status == "idle")]
    intro x hx
    rw [List.mem_filter] at hx
    rcases hstatus x hx.1 with h | h
    · right
      simp [h]
    · left
      simp [h]
  · intro t
    constructor
    · rintro ⟨s, hs, rfl⟩
      obtain ⟨⟨r, hr, hr2, hr3⟩, _⟩ := mem_getAgentStats hs
      rw [hrec] at hr2
      exact ⟨r, hr, by simpa using hr2, hr3⟩
    · rintro ⟨r, hr, hr2, rfl⟩
      unfold getAgentStats
      simp only [List.mem_map, List.mem_insertionSort, List.mem_dedup, List.mem_filter]
      exact ⟨_, ⟨r.agent_type, ⟨r, ⟨hr, by rw [hrec]; simpa using hr2⟩, rfl⟩, rfl⟩, rfl⟩
  · unfold getAgentStats
    simp only [List.map_map]
    have : ((fun s : AgentStat => s.agent_type) ∘ fun t =>
        ({ agent_type := t,
           total := (List.filter (fun r => r.agent_type == t)
             (List.filter (heartbeatRecent now) db.agent_sessions)).length,
           busy := List.countP (fun r => r.status == "busy")
             (List.filter (fun r => r.agent_type == t)
               (List.filter (heartbeatRecent now) db.agent_sessions)),
           idle := List.countP (fun r => r.status == "idle")
             (List.filter (fun r => r.agent_type == t)
               (List.filter (heartbeatRecent now) db.agent_sessions)) } : AgentStat)) = id := by
      funext t
      rfl
    rw [this, List.map_id]
    exact (List.perm_insertionSort _ _).nodup_iff.mpr (List.nodup_dedup _)
  · unfold getAgentStats
    simp only
    rw [← hfun, List.filter_filter]
    simp only [Bool.and_self]

theorem C29_agent_stats_window_witness :
    (∀ s ∈ getAgentStats sessionStore 1000000,
        s.total = (sessionStore.agent_sessions.filter (fun r =>
            decide (((1000000 : Nat) : Int) - 300000 < (r.last_heartbeat : Int))
              && r.agent_type == s.agent_type)).length
        ∧ s.busy = (sessionStore.agent_sessions.filter (fun r =>
            decide (((1000000 : Nat) : Int) - 300000 < (r.last_heartbeat : Int))
              && r.agent_type == s.agent_type)).countP (fun r => r.status == "busy")
        ∧ s.idle = (sessionStore.agent_sessions.filter (fun r =>
            decide (((1000000 : Nat) : Int) - 300000 < (r.last_heartbeat : Int))
              && r.agent_type == s.agent_type)).countP (fun r => r.status == "idle")
        ∧ s.total = s.busy + s.idle)
    ∧ (∀ t, (∃ s ∈ getAgentStats sessionStore 1000000, s.agent_type = t)
        ↔ ∃ r ∈ sessionStore.agent_sessions,
            ((1000000 : Nat) : Int) - 300000 < (r.last_heartbeat : Int) ∧ r.agent_type = t)
    ∧ ((getAgentStats sessionStore 1000000).map (fun s => s.agent_type)).Nodup
    ∧ getAgentStats
        { sessionStore with agent_sessions := sessionStore.agent_sessions.filter (fun r =>
            decide (((1000000 : Nat) : Int) - 300000 < (r.last_heartbeat : Int))) } 1000000
        = getAgentStats sessionStore 1000000 :=
  C29_agent_stats_window sessionStore 1000000 (by decide)

/-! ## `validateWorkflow` -/

theorem includesAgentType_iff (v : JsValue) :
    includesAgentType v = true ↔ ∃ role ∈ agentTypes, v = .str role := by
  cases v with
  | str s =>
    simp only [includesAgentType, List.contains_iff_exists_mem_beq, beq_iff_eq]
    constructor
    · rintro ⟨a, ha, rfl⟩
      exact ⟨s, ha, rfl⟩
    · rintro ⟨role, hr, he⟩
      cases he
      exact ⟨s, hr, rfl⟩
  | _ =>
    simp only [includesAgentType]
    constructor
    · intro h
      cases h
    · rintro ⟨role, _, he⟩
      cases he

theorem isNumber_iff (v : JsValue) : v.isNumber = true ↔ ∃ n, v = .number n := by
  cases v <;> simp [JsValue.isNumber]

theorem truthy_of_includes {v : JsValue} (h : includesAgentType v = true) : v.truthy = true := by
  obtain ⟨role, hr, rfl⟩ := (includesAgentType_iff v).mp h
  simp only [agentTypes, List.mem_cons, List.mem_singleton, List.not_mem_nil, or_false] at hr
  rcases hr with rfl | rfl | rfl | rfl | rfl <;> rfl

theorem validateStep_ok_iff (i : Nat) (step : JsValue) :
    validateStep i step = .ok () ↔ specValidStep step := by
  unfold validateStep specValidStep
  simp only [← includesAgentType_iff, ← isNumber_iff]
  cases h0 : step.nullish
  · cases h1 : (step.prop "name").truthy
    · simp
    · cases h2 : (step.prop "agent").truthy
      · simp
        intro _ h
        have := truthy_of_includes h
        rw [h2] at this
        cases this
      · cases h3 : includesAgentType (step.prop "agent")
        · simp
        · cases h4 : (step.prop "task").truthy
          · simp
          · cases h5 : (step.prop "retry").isDefined <;>
              cases h6 : (step.prop "retry").isNumber <;>
              cases h7 : (step.prop "escalate_to").truthy <;>
              cases h8 : includesAgentType (step.prop "escalate_to") <;>
              cases h9 : (step.prop "verify_with").truthy <;>
              cases h10 : includesAgentType (step.prop "verify_with") <;> simp
  · simp

theorem validateStep_cases (i : Nat) (step : JsValue) :
    validateStep i step = .ok () ∨ ∃ e, validateStep i step = .error e := by
  cases h : validateStep i step with
  | ok u => exact Or.inl rfl
  | error e => exact Or.inr ⟨e, rfl⟩

theorem validateSteps_ok_iff (steps : List JsValue) :
    ∀ i, validateSteps i steps = .ok () ↔ ∀ step ∈ steps, specValidStep step := by
  induction steps with
  | nil => intro i; simp [validateSteps]
  | cons s rest ih =>
    intro i
    unfold validateSteps
    rcases validateStep_cases i s with h | ⟨e, h⟩
    · rw [h]
      simp only [List.mem_cons, forall_eq_or_imp]
      rw [ih (i + 1)]
      exact ⟨fun hr => ⟨(validateStep_ok_iff i s).mp h, hr⟩, fun hr => hr.2⟩
    · rw [h]
      simp only [List.mem_cons, forall_eq_or_imp]
      constructor
      · intro hc
        cases hc
      · intro hr
        have := (validateStep_ok_iff i s).mpr hr.1
        rw [h] at this
        cases this

theorem validateSteps_cases (steps : List JsValue) (i : Nat) :
    validateSteps i steps = .ok () ∨ ∃ e, validateSteps i steps = .error e := by
  cases h : validateSteps i steps with
  | ok u => exact Or.inl rfl
  | error e => exact Or.inr ⟨e, rfl⟩

theorem validateWorkflow_ok_iff (workflow : JsValue) :
    validateWorkflow workflow = .ok true ↔ specValidWorkflow workflow := by
  unfold validateWorkflow specValidWorkflow
  cases h0 : workflow.nullish
  · cases h1 : (workflow.prop "name").truthy
    · simp
    · simp only [Bool.false_eq_true, if_false, Bool.not_true, true_and]
      cases h2 : workflow.prop "steps" with
      | array steps =>
        simp only
        cases steps with
        | nil => simp
        | cons s rest =>
          simp only [List.length_cons, Nat.succ_ne_zero, beq_iff_eq, if_false]
          rcases validateSteps_cases (s :: rest) 0 with h | ⟨e, h⟩
          · rw [h]
            simp only [true_iff]
            exact ⟨s :: rest, rfl, List.cons_ne_nil _ _, (validateSteps_ok_iff _ 0).mp h⟩
          · rw [h]
            constructor
            · intro hc
              cases hc
            · rintro ⟨steps2, he, _, hall⟩
              have hs : s :: rest = steps2 := by
                cases he
                rfl
              rw [← hs] at hall
              have := (validateSteps_ok_iff _ 0).mpr hall
              rw [h] at this
              cases this
      | _ =>
        constructor
        · intro hc
          cases hc
        · rintro ⟨steps2, he, _⟩
          cases he
  · simp

theorem validateWorkflow_cases (workflow : JsValue) :
    validateWorkflow workflow = .ok true ∨ ∃ e, validateWorkflow workflow = .error e := by
  unfold validateWorkflow
  split
  · exact Or.inr ⟨_, rfl⟩
  · split
    · exact Or.inr ⟨_, rfl⟩
    · split
      · split
        · exact Or.inr ⟨_, rfl⟩
        · split
          · exact Or.inr ⟨_, rfl⟩
          · exact Or.inl rfl
      · exact Or.inr ⟨_, rfl⟩

/-- C27: `validateWorkflow` returns `true` exactly for the workflows the
specification calls valid: a non-empty name, a non-empty list of steps, and in
every step a non-empty name and task, an agent among the five roles,
`escalate_to` and `verify_with` among the five roles when present (a value
JavaScript counts as true), and `retry` a number when present (not
`undefined`).  For every other input it raises.  So in an accepted workflow
every `agent`, and every `escalate_to` or `verify_with` that is present, is
one of the five roles. -/
theorem C27_validateWorkflow_accepts_iff (workflow : JsValue) :
    (validateWorkflow workflow = .ok true ↔ specValidWorkflow workflow)
    ∧ (validateWorkflow workflow = .ok true ∨ ∃ e, validateWorkflow workflow = .error e)
    ∧ (validateWorkflow workflow = .ok true →
        ∃ steps, workflow.prop "steps" = .array steps ∧
          ∀ step ∈ steps, ∀ key ∈ ["agent", "escalate_to", "verify_with"],
            (step.prop key).truthy = true →
            ∃ role ∈ ["planner", "developer", "verifier", "tester", "reviewer"],
              step.prop key = .str role) := by
  refine ⟨validateWorkflow_ok_iff workflow, validateWorkflow_cases workflow, fun h => ?_⟩
  obtain ⟨_, _, steps, h1, _, h3⟩ := (validateWorkflow_ok_iff workflow).mp h
  refine ⟨steps, h1, fun step hs key hk ht => ?_⟩
  obtain ⟨_, _, _, ha, he, hv, _⟩ := h3 step hs
  simp only [List.mem_cons, List.mem_singleton, List.not_mem_nil, or_false] at hk
  rcases hk with rfl | rfl | rfl
  · exact ha
  · exact he ht
  · exact hv ht

theorem C27_validateWorkflow_accepts_iff_witness :
    (validateWorkflow (workflowWithRetry (.number (.finite 3))) = .ok true
      ↔ specValidWorkflow (workflowWithRetry (.number (.finite 3))))
    ∧ (validateWorkflow (workflowWithRetry (.number (.finite 3))) = .ok true
        ∨ ∃ e, validateWorkflow (workflowWithRetry (.number (.finite 3))) = .error e)
    ∧ (validateWorkflow (workflowWithRetry (.number (.finite 3))) = .ok true →
        ∃ steps, (workflowWithRetry (.number (.finite 3))).prop "steps" = .array steps ∧
          ∀ step ∈ steps, ∀ key ∈ ["agent", "escalate_to", "verify_with"],
            (step.prop key).truthy = true →
            ∃ role ∈ ["planner", "developer", "verifier", "tester", "reviewer"],
              step.prop key = .str role) :=
  C27_validateWorkflow_accepts_iff (workflowWithRetry (.number (.finite 3)))

/-- C28, counterexample: a workflow whose only step has `retry: -1` is
accepted. -/
theorem C28_negative_retry_accepted_counterexample :
    validateWorkflow (workflowWithRetry (.number (.finite (-1)))) = .ok true := rfl

/-- C28, amended: `validateWorkflow` checks only the type of `retry`.  It
raises for every workflow in which some step's `retry` is present (not
`undefined`) and is not of type number; and it accepts every number, whether
negative, fractional, `NaN` or infinite. -/
theorem C28_retry_type_only (workflow : JsValue) (steps : List JsValue) (step : JsValue)
    (hsteps : workflow.prop "steps" = .array steps) (hmem : step ∈ steps)
    (hdef : (step.prop "retry").isDefined = true)
    (hnum : (step.prop "retry").isNumber = false) :
    (∃ e, validateWorkflow workflow = .error e)
    ∧ ∀ n : JsNumber, validateWorkflow (workflowWithRetry (.number n)) = .ok true := by
  refine ⟨?_, fun n => ?_⟩
  · rcases validateWorkflow_cases workflow with h | h
    · exfalso
      obtain ⟨_, _, steps2, h1, _, h3⟩ := (validateWorkflow_ok_iff workflow).mp h
      rw [hsteps] at h1
      have hs : steps = steps2 := by
        cases h1
        rfl
      rw [← hs] at h3
      obtain ⟨_, _, _, _, _, _, hr⟩ := h3 step hmem
      obtain ⟨n, hn⟩ := hr hdef
      rw [hn] at hnum
      cases hnum
    · exact h
  · rw [validateWorkflow_ok_iff]
    refine ⟨rfl, rfl, [stepWithRetry (.number n)], rfl, List.cons_ne_nil _ _, ?_⟩
    intro s hs
    rw [List.mem_singleton] at hs
    subst hs
    refine ⟨rfl, rfl, rfl, ⟨"developer", by decide, rfl⟩, fun h => ?_, fun h => ?_,
      fun _ => ⟨n, rfl⟩⟩
    · cases h
    · cases h

theorem C28_retry_type_only_witness :
    (∃ e, validateWorkflow (workflowWithRetry (.str "3")) = .error e)
    ∧ ∀ n : JsNumber, validateWorkflow (workflowWithRetry (.number n)) = .ok true :=
  C28_retry_type_only (workflowWithRetry (.str "3")) [stepWithRetry (.str "3")]
    (stepWithRetry (.str "3")) rfl (List.mem_singleton_self _) rfl rfl

/-! ## Results and errors of steps -/

theorem consistent_of_pending {r : StepRow} (hs : r.status = "pending") (hr : r.result = none) :
    r.consistent := by
  refine ⟨?_, fun h => ?_⟩
  · rw [hr, hs]
    simp
  · rw [hs] at h
    exact absurd h (by decide)

theorem result_none_of_pending {r : StepRow} (h : r.consistent) (hs : r.status = "pending") :
    r.result = none := by
  cases hr : r.result with
  | none => rfl
  | some p =>
    have := h.1.mp (by rw [hr]; rfl)
    rw [hs] at this
    exact absurd this (by decide)

theorem AttemptShape.shape_consistent {env : Env} {w w1 : World} {id : String}
    {step : WorkflowStep} {G : StepRow → StepRow} {added : List StepRow}
    {vs : List VerificationRow} (shape : AttemptShape env w w1 id step G added vs)
    {st : StepRow} (hr : Ready env w id st) (hall : w.db.consistent)
    (hG : (G st).consistent) (hadd : ∀ a ∈ added, a.consistent) : w1.db.consistent := by
  intro r hm
  rcases shape.shape_mem_steps hm with ⟨r0, h0, _, h2, h3⟩ | h
  · by_cases hid : r0.id = id
    · have := eq_of_getStep_of_mem _ hr.2.1 hr.2.2.1 h0 hid
      rw [h3 hid, this]
      exact hG
    · rw [h2 hid]
      exact hall r0 h0
  · exact hadd r h

theorem ExecOutcome.exec_consistent {env : Env} {w w1 : World} {id : String}
    {step : WorkflowStep} {st : StepRow} {rr : Except String StepResult}
    (h : ExecOutcome env w id step st rr w1) (hr : Ready env w id st)
    (hall : w.db.consistent) : w1.db.consistent := by
  have hst : st.consistent := hall st (mem_of_getStep _ _ _ hr.2.2.1)
  have hnone := result_none_of_pending hst hr.2.2.2
  cases h with
  | unknownAgent _ => exact hall
  | completed _ p G vs shape _ status _ _ =>
    refine shape.shape_consistent hr hall ⟨?_, fun hf => ?_⟩ (fun a ha => by cases ha)
    · rw [(status st).1, (status st).2.1]
      simp
    · rw [(status st).1] at hf
      exact absurd hf (by decide)
  | failStepped _ res G vs canRetry e shape _ _ retry failed error =>
    refine shape.shape_consistent hr hall ⟨?_, fun _ => ?_⟩ (fun a ha => by cases ha)
    · rw [(error st).2, hnone]
      by_cases hc : canRetry = true ∧ st.attempts + 1 < st.max_attempts
      · rw [(retry hc).2 st]
        simp
      · rw [(failed hc).2 st]
        simp
    · rw [(error st).1]
      rfl
  | escalated _ m G now shape _ _ status =>
    refine shape.shape_consistent hr hall ⟨?_, fun hf => ?_⟩ (fun a ha => ?_)
    · rw [(status st).1, (status st).2.1, hnone]
      simp
    · rw [(status st).1] at hf
      exact absurd hf (by decide)
    · rw [List.mem_singleton] at ha
      rw [ha]
      exact consistent_of_pending rfl rfl

theorem LoopRun.loop_consistent {env : Env} {id : String} {step : WorkflowStep} {n : Nat}
    {w w2 : World} {st : StepRow} {res : Except String (Option StepResult)}
    (h : LoopRun env id step n w st res w2) : w.db.consistent → w2.db.consistent := by
  induction h with
  | raised n w st e w1 ready first => exact first.exec_consistent ready
  | settled n w st r w1 ready first hs => exact first.exec_consistent ready
  | again n w st r w1 G vs res w2 ready first hs shape pending kept rejected rest ih =>
    intro hall
    apply ih
    rw [backoff_db]
    exact first.exec_consistent ready hall

theorem OneStep.step_consistent {env : Env} {id : String} {step : WorkflowStep} {w w1 : World}
    {st : StepRow} {res : Except String Unit}
    (h : OneStep env id step w st res w1) (hall : w.db.consistent) : w1.db.consistent := by
  cases h with
  | noBudget _ => exact hall
  | raised n e _ loop => exact loop.loop_consistent hall
  | completed n r _ loop hs => exact loop.loop_consistent hall
  | failed n r _ loop hs => exact loop.loop_consistent hall
  | escalated n r wm succ rr _ loop hs ready hop =>
    exact hop.exec_consistent ready (loop.loop_consistent hall)

theorem StepsRun.steps_consistent {env : Env} {l : List (String × WorkflowStep)} {w w2 : World}
    {res : Except String Unit} (h : StepsRun env l w res w2) :
    w.db.consistent → w2.db.consistent := by
  induction h with
  | done w => exact id
  | stop id step rest w st e w1 decl ready first => exact first.step_consistent
  | next id step rest w st w1 res w2 decl ready first tail ih =>
    exact fun hall => ih (first.step_consistent hall)

theorem loopWorld_consistent {env : Env} {w : World} (workflowPath : String)
    (workflow : Workflow) (useGit : Bool) (hall : w.db.consistent) :
    (loopWorld env w workflowPath workflow useGit).db.consistent := by
  intro r hm
  rw [loopWorld_steps, List.mem_append] at hm
  rcases hm with hm | hm
  · exact hall r hm
  · obtain ⟨_, _, _, _, _, _, _, h4⟩ := mem_createdRows _ _ _ _ _ _ _ r hm
    rw [h4]
    exact consistent_of_pending rfl rfl

/-- C25, counterexample: a step that failed twice, was retried and then
completed carries the error of its last failure. -/
theorem C25_completed_step_keeps_error_counterexample :
    (getStep (runWorkflow flakyEnv (World.start Store.empty) "demo.yaml" buildOnly false).2.db
        "ii").map (fun r => (r.status, r.result, r.error))
      = some ("completed", some "done", some "boom") := by
  decide

/-- C25, amended: when `runWorkflow` returns (started from fresh identifiers
and a store whose steps satisfy the same), every step satisfies: `result` is
present if and only if the status is `completed`, and a step whose status is
`failed` has an `error`. -/
theorem C25_result_iff_completed (env : Env) (w : World) (workflowPath : String)
    (workflow : Workflow) (useGit : Bool) (hF : Fresh env w) (hnd : w.db.stepIdsNodup)
    (hall : ∀ r ∈ w.db.step_executions,
      (r.result.isSome = true ↔ r.status = "completed")
      ∧ (r.status = "failed" → r.error.isSome = true)) :
    ∀ r ∈ (runWorkflow env w workflowPath workflow useGit).2.db.step_executions,
      (r.result.isSome = true ↔ r.status = "completed")
      ∧ (r.status = "failed" → r.error.isSome = true) := by
  obtain ⟨loopRes, w4, hrun, heq, _⟩ :=
    runWorkflow_spec env w workflowPath workflow useGit hF hnd
  rw [heq, finishRun_steps]
  exact hrun.steps_consistent (loopWorld_consistent workflowPath workflow useGit hall)

theorem C25_result_iff_completed_witness :
    ∃ r ∈ (runWorkflow flakyEnv (World.start Store.empty) "demo.yaml" buildOnly
        false).2.db.step_executions,
      r.id = tallyId 1
      ∧ (r.result.isSome = true ↔ r.status = "completed")
      ∧ (r.status = "failed" → r.error.isSome = true) := by
  have hex : ∃ r ∈ (runWorkflow flakyEnv (World.start Store.empty) "demo.yaml" buildOnly
      false).2.db.step_executions, r.id = tallyId 1 := by
    decide
  obtain ⟨r, hr, hid⟩ := hex
  exact ⟨r, hr, hid,
    C25_result_iff_completed flakyEnv (World.start Store.empty) "demo.yaml" buildOnly false
      (fresh_start_empty flakyEnv tallyId_injective) List.nodup_nil
      (fun r hr => by cases hr) r hr⟩

/-! ## The most recent verification of a step -/

theorem foldl_laterVerification_mem (l : List VerificationRow) :
    ∀ (init : Option VerificationRow) (b : VerificationRow),
      l.foldl laterVerification init = some b → b ∈ l ∨ init = some b := by
  induction l with
  | nil =>
    intro init b h
    exact Or.inr h
  | cons a l ih =>
    intro init b h
    rw [List.foldl_cons] at h
    rcases ih _ b h with h1 | h1
    · exact Or.inl (List.mem_cons_of_mem _ h1)
    · unfold laterVerification at h1
      cases init with
      | none =>
        simp only [Option.some.injEq] at h1
        exact Or.inl (h1 ▸ List.mem_cons_self _ _)
      | some b0 =>
        simp only at h1
        split at h1
        · simp only [Option.some.injEq] at h1
          exact Or.inl (h1 ▸ List.mem_cons_self _ _)
        · exact Or.inr h1

theorem getStepVerification_last (db : Store) (id : String) (old : List VerificationRow)
    (v : VerificationRow)
    (h : db.verifications.filter (fun r => r.step_id == id) = old ++ [v])
    (hlt : ∀ u ∈ old, u.created_at < v.created_at) : getStepVerification db id = some v := by
  unfold getStepVerification
  rw [h, List.foldl_append, List.foldl_cons, List.foldl_nil]
  cases hb : List.foldl laterVerification none old with
  | none => rfl
  | some b =>
    rcases foldl_laterVerification_mem old none b hb with h1 | h1
    · simp [laterVerification, hlt b h1]
    · cases h1

theorem getStepVerification_congr {db db2 : Store} (id : String)
    (h : db2.verifications.filter (fun r => r.step_id == id)
      = db.verifications.filter (fun r => r.step_id == id)) :
    getStepVerification db2 id = getStepVerification db id := by
  unfold getStepVerification
  rw [h]

theorem Gated.of_not_completed {db : Store} {id : String} {row : StepRow}
    (hg : getStep db id = some row) (hs : row.status ≠ "completed") : Gated db id := by
  intro row2 hg2 hc
  rw [hg] at hg2
  have := Option.some.inj hg2
  subst this
  exact absurd hc hs

theorem Gated.kept {env : Env} {S : String → Prop} {w w1 : World} {k : String}
    {row : StepRow} (h : Gated w.db k) (ht : Touches env S w w1) (hF : Fresh env w)
    (hg : getStep w.db k = some row) (hk : ¬ S k) : Gated w1.db k := by
  have hg1 := ht.getStep_fixed hg hk
  have hmen := mentions_of_getStep hg
  have hv : getStepVerification w1.db k = getStepVerification w.db k := by
    apply getStepVerification_congr
    obtain ⟨vs, e1, p1⟩ := ht.verifs
    rw [e1, List.filter_append]
    have : List.filter (fun r => r.step_id == k) vs = [] := by
      rw [List.filter_eq_nil_iff]
      intro v hv he
      have he2 : v.step_id = k := by simpa using he
      rcases (p1 v hv).2 with q | q
      · exact hk (he2 ▸ q)
      · exact (he2 ▸ q : IsNew env w w1 k).not_mentions hF hmen
    rw [this, List.append_nil]
  intro row2 hg2 hc
  rw [hg1] at hg2
  have := Option.some.inj hg2
  subst this
  rw [hv]
  exact h row hg hc

/-! ## The verification gate along a run -/

theorem ExecOutcome.exec_verifs {env : Env} {w w1 : World} {id : String}
    {step : WorkflowStep} {st : StepRow} {rr : Except String StepResult}
    (h : ExecOutcome env w id step st rr w1) {v : VerificationRow}
    (hv : v ∈ w1.db.verifications) : v ∈ w.db.verifications ∨ v.step_id = id := by
  have key : ∀ {G : StepRow → StepRow} {added : List StepRow} {vs : List VerificationRow},
      AttemptShape env w w1 id step G added vs →
      v ∈ w.db.verifications ∨ v.step_id = id := by
    intro G added vs shape
    rw [shape.verifs, List.mem_append] at hv
    rcases hv with hv | hv
    · exact Or.inl hv
    · exact Or.inr (shape.vs_spec v hv).2.2.1
  cases h with
  | unknownAgent _ => exact Or.inl hv
  | completed _ p G vs shape _ _ _ _ => exact key shape
  | failStepped _ res G vs canRetry e shape _ _ _ _ _ => exact key shape
  | escalated _ m G now shape _ _ _ => exact key shape

theorem LoopRun.loop_verifs {env : Env} {id : String} {step : WorkflowStep} {n : Nat}
    {w w2 : World} {st : StepRow} {res : Except String (Option StepResult)}
    (h : LoopRun env id step n w st res w2) {v : VerificationRow}
    (hv : v ∈ w2.db.verifications) : v ∈ w.db.verifications ∨ v.step_id = id := by
  obtain ⟨wl, stl, rr, _, _, hret, ho, _⟩ := h.last
  rcases ho.exec_verifs hv with h1 | h1
  · obtain ⟨vs, e1, p1⟩ := hret.verifs
    rw [e1, List.mem_append] at h1
    rcases h1 with h1 | h1
    · exact Or.inl h1
    · exact Or.inr (p1 v h1).1
  · exact Or.inr h1

theorem ExecOutcome.exec_gated {env : Env} {w w1 : World} {id : String}
    {step : WorkflowStep} {st : StepRow} {rr : Except String StepResult}
    (h : ExecOutcome env w id step st rr w1) (hr : Ready env w id st)
    (hv : truthy step.verify_with = true)
    (hold : ∀ v ∈ w.db.verifications, v.step_id = id →
      ∀ c, w.clock ≤ c → v.created_at < env.now c w.waits) :
    Gated w1.db id := by
  obtain ⟨row, g1, _, g3⟩ := h.row hr
  by_cases hc : row.status = "completed"
  swap
  · exact Gated.of_not_completed g1 hc
  rw [g3] at hc
  cases rr with
  | error e => simp [settledStatus] at hc
  | ok r =>
    have hrs : r.status = "completed" := by
      unfold settledStatus at hc
      simp only at hc
      split at hc
      · exact absurd hc (by decide)
      · exact hc
    obtain ⟨p, G, vs, shape, _, _, verified, _⟩ := h.inv_completed hrs
    obtain ⟨v, hvs, hpass⟩ := verified hv
    subst hvs
    obtain ⟨_, _, hid, _, c, hc1, _, hct⟩ := shape.vs_spec v (List.mem_singleton_self _)
    intro row2 _ _
    refine ⟨v, ?_, hpass⟩
    apply getStepVerification_last _ _ (w.db.verifications.filter (fun r => r.step_id == id))
    · rw [shape.verifs, List.filter_append]
      simp [hid]
    · intro u hu
      rw [List.mem_filter] at hu
      rw [hct]
      exact hold u hu.1 (by simpa using hu.2) c hc1

theorem LoopRun.loop_gated {env : Env} {id : String} {step : WorkflowStep} {n : Nat}
    {w w2 : World} {st : StepRow} {res : Except String (Option StepResult)}
    (h : LoopRun env id step n w st res w2)
    (hnov : ∀ v ∈ w.db.verifications, v.step_id ≠ id)
    (hv : truthy step.verify_with = true) (hclock : ClockAdvances env) :
    Gated w2.db id := by
  obtain ⟨wl, stl, rr, hrl, _, hret, ho, _⟩ := h.last
  apply ho.exec_gated hrl hv
  intro v hvm hid c hc
  obtain ⟨vs, e1, p1⟩ := hret.verifs
  rw [e1, List.mem_append] at hvm
  rcases hvm with hvm | hvm
  · exact absurd hid (hnov v hvm)
  · obtain ⟨_, _, c0, s0, h1, h2, h3⟩ := p1 v hvm
    rw [h3]
    exact hclock c0 c s0 wl.waits (by omega) h1

theorem LoopRun.successors_pending {env : Env} {id : String} {step : WorkflowStep} {n : Nat}
    {w w2 : World} {st : StepRow} {res : Except String (Option StepResult)}
    (h : LoopRun env id step n w st res w2) (hr : Ready env w id st)
    (hnos : ∀ x ∈ w.db.step_executions, x.escalated_from ≠ some id)
    {s : StepRow} (hm : s ∈ w2.db.step_executions) (he : s.escalated_from = some id) :
    s.status = "pending" := by
  obtain ⟨row, h1, hkeys, _⟩ := h.last_row
  have hnd2 := (hr.after h.loop_touches).2
  have hst : st ∈ w.db.step_executions := mem_of_getStep _ _ _ hr.2.2.1
  by_cases hid : s.id = id
  · exfalso
    have := eq_of_getStep_of_mem _ hnd2 h1 hm hid
    rw [this, hkeys.2.2.2.2.2.2.2] at he
    exact hnos st hst he
  · rcases h.loop_mem_steps hm hid with k2 | ⟨_, k3, _⟩
    · exact absurd he (hnos s k2)
    · exact k3

theorem Gated.of_pending_member {db : Store} (hnd : db.stepIdsNodup) {s : StepRow}
    (hm : s ∈ db.step_executions) (hs : s.status ≠ "completed") : Gated db s.id :=
  Gated.of_not_completed (getStep_of_mem db hnd s hm) hs

theorem Declared.gatedChain {w : World} {id : String} {step : WorkflowStep}
    (hd : Declared w id step) : GatedChain w.db id := by
  obtain ⟨st, hg, hp, _, _, _, hnos, _⟩ := hd
  refine ⟨Gated.of_not_completed hg (by rw [hp]; decide), fun s hs he => ?_⟩
  exact absurd he (hnos s hs)

theorem OneStep.step_gated {env : Env} {id : String} {step : WorkflowStep} {w w1 : World}
    {st : StepRow} {res : Except String Unit}
    (h : OneStep env id step w st res w1) (hr : Ready env w id st) (hd : Declared w id step)
    (hv : truthy step.verify_with = true) (hclock : ClockAdvances env) :
    GatedChain w1.db id := by
  have hdc := hd.gatedChain
  obtain ⟨_, _, _, _, _, _, hnos, hnov⟩ := hd
  have key : ∀ {n : Nat} {res2 : Except String (Option StepResult)},
      LoopRun env id step n w st res2 w1 → GatedChain w1.db id := by
    intro n res2 loop
    refine ⟨loop.loop_gated hnov hv hclock, fun s hs he => ?_⟩
    have hp := loop.successors_pending hr hnos hs he
    exact Gated.of_pending_member (hr.after loop.loop_touches).2 hs (by rw [hp]; decide)
  cases h with
  | noBudget _ => exact hdc
  | raised n e _ loop => exact key loop
  | completed n r _ loop hs => exact key loop
  | failed n r _ loop hs => exact key loop
  | escalated n r wm succ rr _ loop hs ready hop =>
    obtain ⟨row, h1, hkeys, h3⟩ := loop.last_row
    have hrow : row.status = "escalated" := by
      rcases h3 with ⟨_, h5, _⟩ | ⟨r2, h5, h6, _⟩
      · cases h5
      · cases h5
        exact h6.trans hs
    obtain ⟨succ2, hready2, hnew, _⟩ := loop.escalated_ready hs
    have hne : id ≠ r.newStepId.getD "undefined" := by
      intro he
      exact (he ▸ hnew).not_mentions hr.1 (mentions_of_getStep hr.2.2.1)
    have hrow2 := hop.getStep_ne ready.2.2.1 hne h1
    refine ⟨Gated.of_not_completed hrow2 (by rw [hrow]; decide), fun s hs2 he => ?_⟩
    have hsid := successor_id loop ready hop hr hnos hne hs2 he
    rw [hsid]
    apply hop.exec_gated ready hv
    intro v hvm hid c _
    exfalso
    rcases loop.loop_verifs hvm with k1 | k1
    · apply hnew.not_mentions hr.1
      exact Or.inr (Or.inr (Or.inr ⟨v, k1, Or.inr hid⟩))
    · exact hne (k1.symm.trans hid)

theorem GatedChain.chain_kept {env : Env} {S : String → Prop} {w w1 : World} {k : String}
    {row : StepRow} (h : GatedChain w.db k) (ht : Touches env S w w1) (hF : Fresh env w)
    (hnd : w.db.stepIdsNodup) (hg : getStep w.db k = some row) (hk : ¬ S k)
    (hroots : ∀ r ∈ w.db.step_executions, S r.id → r.escalated_from = none) :
    GatedChain w1.db k := by
  refine ⟨h.1.kept ht hF hg hk, fun s hs he => ?_⟩
  obtain ⟨F, added, e1, e2, e3, _, e5⟩ := ht.steps
  rw [e1, List.mem_append, List.mem_map] at hs
  rcases hs with ⟨s0, hs0, hF0⟩ | hs
  · have hfrom : s0.escalated_from = some k := by
      rw [← (e2 s0).2.2.2.2.2.2.2, hF0]
      exact he
    have hnS : ¬ S s0.id := by
      intro hS
      rw [hroots s0 hs0 hS] at hfrom
      cases hfrom
    have hsame : s = s0 := by rw [← hF0, e3 s0 hs0 hnS]
    rw [hsame]
    exact (h.2 s0 hs0 hfrom).kept ht hF (getStep_of_mem _ hnd s0 hs0) hnS
  · exfalso
    obtain ⟨_, _, k2, hk2, hor⟩ := e5 s hs
    rw [he] at hk2
    have hkk : k = k2 := Option.some.inj hk2
    rcases hor with q | q
    · exact hk (hkk ▸ q)
    · exact (hkk ▸ q : IsNew env w w1 k).not_mentions hF (mentions_of_getStep hg)

theorem StepsRun.steps_gated {env : Env} {l : List (String × WorkflowStep)} {w w2 : World}
    {res : Except String Unit} (h : StepsRun env l w res w2) (hclock : ClockAdvances env) :
    Fresh env w → w.db.stepIdsNodup → (l.map Prod.fst).Nodup →
    (∀ x ∈ l, Declared w x.1 x.2) →
    (∀ x ∈ l, ∀ row, getStep w.db x.1 = some row → row.escalated_from = none) →
    ∀ x ∈ l, truthy x.2.verify_with = true → GatedChain w2.db x.1 := by
  induction h with
  | done w =>
    intro _ _ _ _ _ x hx
    cases hx
  | stop id step rest w st e w1 decl ready first =>
    intro hF hnd hids hdecl hroots x hx hv
    have ht := first.step_touches ready
    rw [List.map_cons, List.nodup_cons] at hids
    rw [List.mem_cons] at hx
    rcases hx with hx | hx
    · subst hx
      exact first.step_gated ready decl hv hclock
    · refine ((hdecl x (List.mem_cons_of_mem _ hx)).preserved ht ?_ hF).gatedChain
      intro hk
      apply hids.1
      rw [← hk]
      exact List.mem_map.mpr ⟨x, hx, rfl⟩
  | next id step rest w st w1 res w2 decl ready first tail ih =>
    intro hF hnd hids hdecl hroots x hx hv
    have ht := first.step_touches ready
    have hfn := ready.after ht
    rw [List.map_cons, List.nodup_cons] at hids
    have hnot : ∀ y ∈ rest, ¬ (y.1 = id) := fun y hy hk => by
      apply hids.1
      rw [← hk]
      exact List.mem_map.mpr ⟨y, hy, rfl⟩
    have hdecl1 : ∀ y ∈ rest, Declared w1 y.1 y.2 := fun y hy =>
      (hdecl y (List.mem_cons_of_mem _ hy)).preserved ht (hnot y hy) hF
    have hroots1 : ∀ y ∈ rest, ∀ row, getStep w1.db y.1 = some row →
        row.escalated_from = none := by
      intro y hy row hg
      obtain ⟨sy, hgy, _⟩ := hdecl y (List.mem_cons_of_mem _ hy)
      have := ht.getStep_fixed hgy (hnot y hy)
      rw [this] at hg
      rw [← Option.some.inj hg]
      exact hroots y (List.mem_cons_of_mem _ hy) sy hgy
    rw [List.mem_cons] at hx
    rcases hx with hx | hx
    swap
    · exact ih hfn.1 hfn.2 hids.2 hdecl1 hroots1 x hx hv
    subst hx
    have hhead := first.step_gated ready decl hv hclock
    have t1 := (tail.spec hfn.1 hfn.2 hids.2 hdecl1).1
    obtain ⟨row1, hg1, _⟩ := ht.getStep_keys ready.2.2.1
    refine hhead.chain_kept t1 hfn.1 hfn.2 hg1 hids.1 ?_
    intro r hr hS
    rw [List.mem_map] at hS
    obtain ⟨y, hy, hyr⟩ := hS
    apply hroots1 y hy r
    rw [hyr]
    exact getStep_of_mem _ hfn.2 r hr

theorem GatedChain.chain_congr {db db2 : Store} {id : String}
    (hs : db2.step_executions = db.step_executions)
    (hv : db2.verifications = db.verifications) (h : GatedChain db id) :
    GatedChain db2 id := by
  unfold GatedChain Gated getStep getStepVerification at h ⊢
  rw [hs, hv]
  exact h

/-- C15: verification gates completion.  With the collaborators (and so the
verification outcome) arbitrary, identifiers fresh and the clock advancing
across a backoff wait: in the store that `runWorkflow` leaves, every step row
of a declared step with `verify_with`, and every row escalated from such a
step, is `completed` only if the most recent verification of that row
(`getStepVerification`) is `passed`; and in the store that one `executeStep`
leaves on a pending step with `verify_with` and no earlier verification, the
step is `completed` only if its most recent verification is `passed`. -/
theorem C15_verification_gates_completion (env : Env) (w : World) (workflowPath : String)
    (workflow : Workflow) (useGit : Bool) (hF : Fresh env w) (hnd : w.db.stepIdsNodup)
    (hclock : ClockAdvances env) :
    (∀ x ∈ declaredSteps env w workflow, truthy x.2.verify_with = true →
      ∀ s ∈ (runWorkflow env w workflowPath workflow useGit).2.db.step_executions,
        s.id = x.1 ∨ s.escalated_from = some x.1 → s.status = "completed" →
        ∃ v, getStepVerification (runWorkflow env w workflowPath workflow useGit).2.db s.id
            = some v ∧ v.status = "passed")
    ∧ (∀ id step st row, getStep w.db id = some st → st.status = "pending" →
        truthy step.verify_with = true → (∀ v ∈ w.db.verifications, v.step_id ≠ id) →
        getStep (executeStep env w id step).2.db id = some row → row.status = "completed" →
        ∃ v, getStepVerification (executeStep env w id step).2.db id = some v
          ∧ v.status = "passed") := by
  constructor
  · intro x hx hv s hs hor hc
    obtain ⟨loopRes, w4, hrun, heq, hF1, hnd1, hids, hdecl⟩ :=
      runWorkflow_spec env w workflowPath workflow useGit hF hnd
    have hroots : ∀ y ∈ declaredSteps env w workflow, ∀ row,
        getStep (loopWorld env w workflowPath workflow useGit).db y.1 = some row →
        row.escalated_from = none := by
      intro y hy row hg
      obtain ⟨now, k, h⟩ := loopWorld_getStep workflowPath workflow useGit hF hnd y hy
      rw [h] at hg
      rw [← Option.some.inj hg]
      rfl
    have hg := hrun.steps_gated hclock hF1 hnd1 hids hdecl hroots x hx hv
    have hnd4 := ((hrun.spec hF1 hnd1 hids hdecl).1).nodup hF1 hnd1
    have hsteps := finishRun_steps env (env.newId w.ids) (loopRes, w4)
    have hverifs := finishRun_verifications env (env.newId w.ids) (loopRes, w4)
    rw [heq] at hs ⊢
    have hfin := GatedChain.chain_congr hsteps hverifs hg
    have hndf : (finishRun env (env.newId w.ids) (loopRes, w4)).2.db.stepIdsNodup := by
      unfold Store.stepIdsNodup at hnd4 ⊢
      rw [hsteps]
      exact hnd4
    have hgs := getStep_of_mem _ hndf s hs
    rcases hor with h1 | h1
    · have := hfin.1
      rw [← h1] at this
      exact this s hgs hc
    · exact hfin.2 s hs h1 s hgs hc
  · intro id step st row hg hp hv hnov hrow hc
    have ho := executeStep_outcome env w id step st hF hnd hg hp
    have hgate := ho.exec_gated ⟨hF, hnd, hg, hp⟩ hv
      (fun v hvm hid _ _ => absurd hid (hnov v hvm))
    exact hgate row hrow hc

theorem C15_verification_gates_completion_witness :
    ∃ s ∈ (runWorkflow strictOnceEnv (World.start Store.empty) "demo.yaml" reviewedOnly
        false).2.db.step_executions,
      s.id = tallyId 1 ∧ s.status = "completed"
      ∧ ∃ v, getStepVerification (runWorkflow strictOnceEnv (World.start Store.empty)
            "demo.yaml" reviewedOnly false).2.db s.id = some v ∧ v.status = "passed" := by
  have hex : ∃ s ∈ (runWorkflow strictOnceEnv (World.start Store.empty) "demo.yaml"
      reviewedOnly false).2.db.step_executions, s.id = tallyId 1 ∧ s.status = "completed" := by
    decide
  obtain ⟨s, hs, hid, hc⟩ := hex
  refine ⟨s, hs, hid, hc, ?_⟩
  exact (C15_verification_gates_completion strictOnceEnv (World.start Store.empty) "demo.yaml"
    reviewedOnly false (fresh_start_empty strictOnceEnv tallyId_injective) List.nodup_nil
    (fun c c2 s s2 h1 h2 => by
      show 1000 * s + c < 1000 * s2 + c2
      omega)).1
    (tallyId 1, reviewedStep) (by decide) rfl s hs (Or.inl hid) hc

/-! ## The number of attempts of a retry loop -/

theorem LoopRun.bounded {env : Env} {id : String} {step : WorkflowStep} {n : Nat}
    {w w2 : World} {st : StepRow} {res : Except String (Option StepResult)}
    (h : LoopRun env id step n w st res w2) :
    ∃ evs, w2.log = w.log ++ evs ∧ evs.countP (Event.isClaim id) ≤ n
      ∧ evs.countP (Event.isAgentCall id) ≤ n
      ∧ w2.agentCalls ≤ w.agentCalls + n
      ∧ ∀ q, res = .ok q → 1 ≤ evs.countP (Event.isClaim id)
          ∧ ∃ r, q = some r
            ∧ (r.status = "completed" ∨ r.status = "failed" ∨ r.status = "escalated") := by
  induction h with
  | raised n w st e w1 ready first =>
    cases first with
    | unknownAgent hu =>
      refine ⟨[], by simp, by simp, by simp, by omega, fun q hq => ?_⟩
      cases hq
  | settled n w st r w1 ready first hs =>
    have key : ∀ {G : StepRow → StepRow} {added : List StepRow} {vs : List VerificationRow},
        AttemptShape env w w1 id step G added vs →
        ∃ evs, w1.log = w.log ++ evs ∧ evs.countP (Event.isClaim id) ≤ n + 1
          ∧ evs.countP (Event.isAgentCall id) ≤ n + 1
          ∧ w1.agentCalls ≤ w.agentCalls + (n + 1)
          ∧ ∀ q, (Except.ok (some r) : Except String (Option StepResult)) = .ok q → 1 ≤ evs.countP (Event.isClaim id)
              ∧ ∃ r2, q = some r2
                ∧ (r2.status = "completed" ∨ r2.status = "failed"
                    ∨ r2.status = "escalated") := by
      intro G added vs shape
      obtain ⟨evs, l1, l2, l3⟩ := shape.counts
      refine ⟨evs, l1, by omega, by omega, by rw [shape.agentCalls]; omega, fun q hq => ?_⟩
      cases hq
      refine ⟨by omega, r, rfl, ?_⟩
      rcases hs with hs | hs | hs
      · exact Or.inl hs
      · exact Or.inr (Or.inr hs)
      · exact Or.inr (Or.inl hs)
    rcases hs with hs | hs | hs
    · obtain ⟨p, G, vs, shape, _⟩ := first.inv_completed hs
      exact key shape
    · obtain ⟨m, G, now, shape, _⟩ := first.inv_escalated hs
      exact key shape
    · obtain ⟨G, vs, canRetry, e, shape, _⟩ := first.inv_failed hs
      exact key shape
  | again n w st r w1 G vs res w2 ready first hs shape pending kept rejected rest ih =>
    obtain ⟨evs2, m1, m2, m3, m4, m5⟩ := ih
    obtain ⟨evs, l1, l2, l3⟩ := shape.counts
    refine ⟨evs ++ evs2, ?_, ?_, ?_, ?_, fun q hq => ?_⟩
    · rw [m1, backoff_log, l1, List.append_assoc]
    · rw [List.countP_append, l2]
      omega
    · rw [List.countP_append, l3]
      omega
    · rw [backoff_agentCalls, shape.agentCalls] at m4
      omega
    · obtain ⟨_, k2⟩ := m5 q hq
      refine ⟨?_, k2⟩
      rw [List.countP_append, l2]
      omega

/-- C31: for a workflow step with `retry = n ≥ 1` whose stored row is pending
with `attempts = 0` and `max_attempts = n`, from fresh identifiers and for
every behaviour of the collaborators: whenever `executeStepWithRetry` returns
(no call of `executeStep` raised), what it returns is not `null` and has
status `completed`, `failed` or `escalated` (never `retry`), and it made at
least one and at most `n` calls of `executeStep`.  Every call of `executeStep`
that returns records exactly one successful claim of the step and one call of
the execution collaborator, so the calls are counted by the claims of the
step recorded during the loop. -/
theorem C31_retry_loop_bounded (env : Env) (w : World) (id : String) (step : WorkflowStep)
    (st : StepRow) (n : Nat) (res : Option StepResult)
    (hF : Fresh env w) (hnd : w.db.stepIdsNodup)
    (hn : 1 ≤ n) (hretry : step.retry = some (n : Int))
    (hg : getStep w.db id = some st) (hp : st.status = "pending")
    (ha : st.attempts = 0) (hm : st.max_attempts = n)
    (hok : (executeStepWithRetry env w id step).1 = .ok res) :
    ∃ r evs, res = some r
      ∧ (r.status = "completed" ∨ r.status = "failed" ∨ r.status = "escalated")
      ∧ r.status ≠ "retry"
      ∧ (executeStepWithRetry env w id step).2.log = w.log ++ evs
      ∧ 1 ≤ evs.countP (Event.isClaim id) ∧ evs.countP (Event.isClaim id) ≤ n
      ∧ evs.countP (Event.isAgentCall id) ≤ n
      ∧ (executeStepWithRetry env w id step).2.agentCalls ≤ w.agentCalls + n := by
  obtain ⟨k, rfl⟩ : ∃ k, n = k + 1 := ⟨n - 1, by omega⟩
  have hb : (k : Int) + 1 = st.max_attempts - st.attempts := by
    rw [hm, ha]
    push_cast
    omega
  have hrun := retryLoop_run env id step k w st none ⟨hF, hnd, hg, hp⟩ hb
  have heq : executeStepWithRetry env w id step = retryLoop env id step (k + 1) w none := by
    unfold executeStepWithRetry
    rw [hretry]
    rfl
  rw [heq] at hok ⊢
  obtain ⟨evs, l1, l2, l3, l4, l5⟩ := hrun.bounded
  obtain ⟨c1, r, c2, c3⟩ := l5 res hok
  refine ⟨r, evs, c2, c3, ?_, l1, c1, l2, l3, l4⟩
  intro hr
  rw [hr] at c3
  rcases c3 with c3 | c3 | c3 <;> exact absurd c3 (by decide)

theorem C31_retry_loop_bounded_witness :
    ∃ r evs, some (StepResult.mk "completed" (some "done") none none none) = some r
      ∧ (r.status = "completed" ∨ r.status = "failed" ∨ r.status = "escalated")
      ∧ r.status ≠ "retry"
      ∧ (executeStepWithRetry flakyEnv
          (loopWorld flakyEnv (World.start Store.empty) "demo.yaml" buildOnly false)
          (tallyId 1) buildStep).2.log
        = (loopWorld flakyEnv (World.start Store.empty) "demo.yaml" buildOnly false).log ++ evs
      ∧ 1 ≤ evs.countP (Event.isClaim (tallyId 1))
      ∧ evs.countP (Event.isClaim (tallyId 1)) ≤ 3
      ∧ evs.countP (Event.isAgentCall (tallyId 1)) ≤ 3
      ∧ (executeStepWithRetry flakyEnv
          (loopWorld flakyEnv (World.start Store.empty) "demo.yaml" buildOnly false)
          (tallyId 1) buildStep).2.agentCalls
        ≤ (loopWorld flakyEnv (World.start Store.empty) "demo.yaml" buildOnly false).agentCalls
          + 3 :=
  C31_retry_loop_bounded flakyEnv
    (loopWorld flakyEnv (World.start Store.empty) "demo.yaml" buildOnly false)
    (tallyId 1) buildStep
    (StepRow.created (tallyId 1) 1 (tallyId 0) 0 buildStep) 3
    (some (StepResult.mk "completed" (some "done") none none none))
    (loopWorld_fresh "demo.yaml" buildOnly false
      (fresh_start_empty flakyEnv tallyId_injective))
    (loopWorld_nodup "demo.yaml" buildOnly false
      (fresh_start_empty flakyEnv tallyId_injective) List.nodup_nil)
    (by decide) rfl (by decide) rfl rfl rfl rfl

/-! ## Lines of text -/

theorem dropWhile_eq_self_of_length (p : Char → Bool) (l : List Char)
    (h : (l.dropWhile p).length = l.length) : l.dropWhile p = l :=
  (List.dropWhile_suffix p).eq_of_length h

theorem jsTrim_fixed {v : List Char} (h : jsTrim v = v) :
    v.dropWhile isJsWhiteSpace = v ∧ v.reverse.dropWhile isJsWhiteSpace = v.reverse := by
  unfold jsTrim at h
  have h1 : ((v.dropWhile isJsWhiteSpace).reverse.dropWhile isJsWhiteSpace).length
      ≤ (v.dropWhile isJsWhiteSpace).length := by
    have := (List.dropWhile_suffix isJsWhiteSpace
      (l := (v.dropWhile isJsWhiteSpace).reverse)).length_le
    simpa using this
  have h2 : (v.dropWhile isJsWhiteSpace).length ≤ v.length :=
    (List.dropWhile_suffix isJsWhiteSpace).length_le
  have h3 := congrArg List.length h
  rw [List.length_reverse] at h3
  have h4 : v.dropWhile isJsWhiteSpace = v :=
    dropWhile_eq_self_of_length _ _ (by omega)
  refine ⟨h4, ?_⟩
  rw [h4] at h
  have := congrArg List.reverse h
  rw [List.reverse_reverse] at this
  exact this

theorem Trimmed.of_jsTrim {v : List Char} (hne : v ≠ []) (h : jsTrim v = v) : Trimmed v :=
  ⟨hne, (jsTrim_fixed h).1, (jsTrim_fixed h).2⟩

theorem head_of_dropWhile_fixed {p : Char → Bool} {c : Char} {l : List Char}
    (h : (c :: l).dropWhile p = c :: l) : p c = false := by
  cases hp : p c with
  | false => rfl
  | true =>
    rw [List.dropWhile_cons, hp] at h
    simp only [if_true] at h
    have h2 := (List.dropWhile_suffix p (l := l)).length_le
    rw [h] at h2
    simp at h2

theorem dropWhile_append_of_fixed {p : Char → Bool} {l : List Char} (X : List Char)
    (hl : l ≠ []) (h : l.dropWhile p = l) : (l ++ X).dropWhile p = l ++ X := by
  cases l with
  | nil => exact absurd rfl hl
  | cons c l =>
    have hp := head_of_dropWhile_fixed h
    rw [List.cons_append, List.dropWhile_cons, hp]
    simp

theorem dropWhile_spaces (k : Nat) (X : List Char) :
    (List.replicate k ' ' ++ X).dropWhile isJsWhiteSpace = X.dropWhile isJsWhiteSpace := by
  induction k with
  | zero => rfl
  | succ k ih =>
    rw [List.replicate_succ, List.cons_append, List.dropWhile_cons]
    have : isJsWhiteSpace ' ' = true := by decide
    rw [this]
    simpa using ih

theorem jsTrim_of_trimmed {X : List Char} (h : Trimmed X) (k : Nat) :
    jsTrim (List.replicate k ' ' ++ X) = X := by
  unfold jsTrim
  rw [dropWhile_spaces, h.2.1, h.2.2, List.reverse_reverse]

theorem Trimmed.append {b v : List Char} (hb : Trimmed b) (hv : Trimmed v) :
    Trimmed (b ++ v) := by
  refine ⟨by simp [hb.1], dropWhile_append_of_fixed v hb.1 hb.2.1, ?_⟩
  rw [List.reverse_append]
  exact dropWhile_append_of_fixed _ (by simp [hv.1]) hv.2.2

theorem Trimmed.head_not_space {X : List Char} (h : Trimmed X) :
    ∃ c rest, X = c :: rest ∧ isJsWhiteSpace c = false := by
  obtain ⟨hne, h1, _⟩ := h
  cases X with
  | nil => exact absurd rfl hne
  | cons c rest => exact ⟨c, rest, rfl, head_of_dropWhile_fixed h1⟩

theorem indent_of_trimmed {X : List Char} (h : Trimmed X) (k : Nat) :
    ((List.replicate k ' ' ++ X).takeWhile (fun c => c == ' ')).length = k := by
  obtain ⟨c, rest, rfl, hc⟩ := h.head_not_space
  have hc2 : (c == ' ') = false := by
    cases hb : c == ' ' with
    | false => rfl
    | true =>
      have : c = ' ' := by simpa using hb
      rw [this] at hc
      exact absurd hc (by decide)
  induction k with
  | zero =>
    simp [List.takeWhile_cons, hc2]
  | succ k ih =>
    rw [List.replicate_succ, List.cons_append, List.takeWhile_cons]
    simp only [beq_self_eq_true, if_true, List.length_cons]
    rw [ih]

/-! ## Keys and values of a line -/

theorem Carried.trimmed {v : List Char} (h : Carried v) : Trimmed v :=
  Trimmed.of_jsTrim h.1 h.2.2

theorem dropWhile_fixed_of_all {p : Char → Bool} :
    ∀ l : List Char, (∀ c ∈ l, p c = false) → l.dropWhile p = l := by
  intro l h
  cases l with
  | nil => rfl
  | cons c l =>
    rw [List.dropWhile_cons, h c (List.mem_cons_self _ _)]
    simp

theorem isKeyText_spec {key : List Char} (h : isKeyText key = true) :
    key ≠ [] ∧ ∀ c ∈ key, isJsWhiteSpace c = false ∧ c ≠ ':' ∧ c ≠ '#' ∧ c ≠ '-' := by
  unfold isKeyText at h
  simp only [Bool.and_eq_true, Bool.not_eq_true', List.isEmpty_eq_false, List.all_eq_true,
    bne_iff_ne, ne_eq] at h
  refine ⟨?_, fun c hc => ?_⟩
  · intro he
    rw [he] at h
    simp at h
  · obtain ⟨⟨⟨h1, h2⟩, h3⟩, h4⟩ := h.2 c hc
    exact ⟨h1, h2, h3, h4⟩

theorem trimmed_of_key {key : List Char} (h : isKeyText key = true) : Trimmed key := by
  obtain ⟨hne, hall⟩ := isKeyText_spec h
  refine ⟨hne, dropWhile_fixed_of_all _ (fun c hc => (hall c hc).1), ?_⟩
  exact dropWhile_fixed_of_all _ (fun c hc => (hall c (List.mem_reverse.mp hc)).1)

theorem jsTrim_of_key {key : List Char} (h : isKeyText key = true) : jsTrim key = key := by
  have := jsTrim_of_trimmed (trimmed_of_key h) 0
  simpa using this

theorem jsTrim_space_cons {v : List Char} (h : Carried v) : jsTrim (' ' :: v) = v := by
  have := jsTrim_of_trimmed h.trimmed 1
  simpa using this

theorem takeWhile_key (key rest : List Char) (h : ∀ c ∈ key, c ≠ ':') :
    (key ++ ':' :: rest).takeWhile (fun c => c != ':') = key := by
  induction key with
  | nil => simp [List.takeWhile_cons]
  | cons c key ih =>
    have hc : (c != ':') = true := by simpa using h c (List.mem_cons_self _ _)
    rw [List.cons_append, List.takeWhile_cons, hc]
    simp only [if_true]
    rw [ih (fun d hd => h d (List.mem_cons_of_mem _ hd))]

theorem dropWhile_key (key rest : List Char) (h : ∀ c ∈ key, c ≠ ':') :
    (key ++ ':' :: rest).dropWhile (fun c => c != ':') = ':' :: rest := by
  induction key with
  | nil => simp [List.dropWhile_cons]
  | cons c key ih =>
    have hc : (c != ':') = true := by simpa using h c (List.mem_cons_self _ _)
    rw [List.cons_append, List.dropWhile_cons, hc]
    simp only [if_true]
    rw [ih (fun d hd => h d (List.mem_cons_of_mem _ hd))]

theorem jsSplit_none (sep : Char) (l : List Char) (h : sep ∉ l) : jsSplit sep l = [l] := by
  induction l with
  | nil => rfl
  | cons c l ih =>
    have hc : (c == sep) = false := by
      cases hb : c == sep with
      | false => rfl
      | true =>
        exfalso
        apply h
        have : c = sep := by simpa using hb
        rw [this]
        exact List.mem_cons_self _ _
    unfold jsSplit
    rw [hc, ih (fun hm => h (List.mem_cons_of_mem _ hm))]
    rfl

theorem jsSplit_append (sep : Char) (l rest : List Char) (h : sep ∉ l) :
    jsSplit sep (l ++ sep :: rest) = l :: jsSplit sep rest := by
  induction l with
  | nil =>
    show jsSplit sep (sep :: rest) = _
    conv_lhs => unfold jsSplit
    simp
  | cons c l ih =>
    have hc : (c == sep) = false := by
      cases hb : c == sep with
      | false => rfl
      | true =>
        exfalso
        apply h
        have : c = sep := by simpa using hb
        rw [this]
        exact List.mem_cons_self _ _
    rw [List.cons_append]
    conv_lhs => unfold jsSplit
    rw [hc, ih (fun hm => h (List.mem_cons_of_mem _ hm))]
    rfl

theorem jsSplit_joinLines (lines : List (List Char)) (hne : lines ≠ [])
    (h : ∀ l ∈ lines, '\n' ∉ l) : jsSplit '\n' (joinLines lines) = lines := by
  induction lines with
  | nil => exact absurd rfl hne
  | cons l rest ih =>
    cases rest with
    | nil =>
      show jsSplit '\n' l = [l]
      exact jsSplit_none _ _ (h l (List.mem_cons_self _ _))
    | cons l2 rest2 =>
      show jsSplit '\n' (l ++ '\n' :: joinLines (l2 :: rest2)) = _
      rw [jsSplit_append _ _ _ (h l (List.mem_cons_self _ _)),
        ih (List.cons_ne_nil _ _) (fun x hx => h x (List.mem_cons_of_mem _ hx))]

/-! ## One line of the format -/

theorem Trimmed.glue {b v : List Char} (hb1 : b ≠ []) (hb2 : b.dropWhile isJsWhiteSpace = b)
    (hv : Trimmed v) : Trimmed (b ++ v) := by
  refine ⟨by simp [hb1], dropWhile_append_of_fixed v hb1 hb2, ?_⟩
  rw [List.reverse_append]
  exact dropWhile_append_of_fixed _ (by simp [hv.1]) hv.2.2

theorem trimmed_key_colon {key : List Char} (h : isKeyText key = true) :
    Trimmed (key ++ [':']) := by
  have hk := trimmed_of_key h
  refine ⟨by simp, dropWhile_append_of_fixed _ hk.1 hk.2.1, ?_⟩
  rw [List.reverse_append]
  rfl

theorem trimmed_key_value {key v : List Char} (h : isKeyText key = true) (hv : Carried v) :
    Trimmed (key ++ ':' :: ' ' :: v) := by
  have hk := trimmed_of_key h
  have : key ++ ':' :: ' ' :: v = (key ++ [':', ' ']) ++ v := by simp
  rw [this]
  exact Trimmed.glue (by simp) (dropWhile_append_of_fixed _ hk.1 hk.2.1) hv.trimmed

theorem key_head {key : List Char} (h : isKeyText key = true) :
    ∃ c ks, key = c :: ks ∧ c ≠ '#' ∧ c ≠ '-' := by
  obtain ⟨hne, hall⟩ := isKeyText_spec h
  cases key with
  | nil => exact absurd rfl hne
  | cons c ks =>
    have := hall c (List.mem_cons_self _ _)
    exact ⟨c, ks, rfl, this.2.2.1, this.2.2.2⟩

theorem parseLine_keyValue (st : YamlState) (k : Nat) (key v : List Char)
    (hkey : isKeyText key = true) (hv : Carried v) :
    parseLine st (List.replicate k ' ' ++ (key ++ ':' :: ' ' :: v))
      = { root := st.root.modifyAt
            (fun o => o.setProp (String.mk key) (parseValue v))
            (popStack k st.top st.below).1.obj,
          top := (popStack k st.top st.below).1,
          below := (popStack k st.top st.below).2 } := by
  have ht := jsTrim_of_trimmed (trimmed_key_value hkey hv) k
  have hi := indent_of_trimmed (trimmed_key_value hkey hv) k
  have hcolon := (isKeyText_spec hkey).2
  have htake := takeWhile_key key (' ' :: v) (fun c hc => (hcolon c hc).2.1)
  have hdrop := dropWhile_key key (' ' :: v) (fun c hc => (hcolon c hc).2.1)
  have hkt := jsTrim_of_key hkey
  have hvt := jsTrim_space_cons hv
  obtain ⟨c, ks, hck, h1, h2⟩ := key_head hkey
  have hne : (key ++ ':' :: ' ' :: v).isEmpty = false := by
    rw [hck]
    rfl
  have hhash : jsStartsWith (key ++ ':' :: ' ' :: v) ['#'] = false := by
    rw [hck]
    simp [jsStartsWith, List.isPrefixOf, Ne.symm h1]
  have hdash : jsStartsWith (key ++ ':' :: ' ' :: v) ['-', ' '] = false := by
    rw [hck]
    simp [jsStartsWith, List.isPrefixOf, Ne.symm h2]
  have hcont : (key ++ ':' :: ' ' :: v).contains ':' = true := by simp
  have hvne : v.isEmpty = false := by
    cases v with
    | nil => exact absurd rfl hv.1
    | cons _ _ => rfl
  unfold parseLine
  simp only [ht, hi, hne, hhash, hdash, hcont, htake, hdrop, hkt, hvt, hvne, List.drop_one,
    List.tail_cons, Bool.or_self, Bool.false_eq_true, if_false, if_true, Bool.not_false]

theorem parseLine_section (st : YamlState) (k : Nat) (key : List Char)
    (hkey : isKeyText key = true) :
    parseLine st (List.replicate k ' ' ++ (key ++ [':']))
      = if (popStack k st.top st.below).1.isArrayItem then
          { root := st.root.modifyAt (fun o => o.setProp (String.mk key) .null)
              (popStack k st.top st.below).1.obj,
            top := { (popStack k st.top st.below).1 with lastKey := some (String.mk key) },
            below := (popStack k st.top st.below).2 }
        else
          { root := st.root.modifyAt (fun o => o.setProp (String.mk key) .null)
              (popStack k st.top st.below).1.obj,
            top := { obj := (popStack k st.top st.below).1.obj, indent := k,
                     lastKey := some (String.mk key), isArrayItem := false },
            below := (popStack k st.top st.below).1 :: (popStack k st.top st.below).2 } := by
  have ht := jsTrim_of_trimmed (trimmed_key_colon hkey) k
  have hi := indent_of_trimmed (trimmed_key_colon hkey) k
  have hcolon := (isKeyText_spec hkey).2
  have htake := takeWhile_key key [] (fun c hc => (hcolon c hc).2.1)
  have hdrop := dropWhile_key key [] (fun c hc => (hcolon c hc).2.1)
  have hkt := jsTrim_of_key hkey
  have hvt : jsTrim [] = [] := rfl
  obtain ⟨c, ks, hck, h1, h2⟩ := key_head hkey
  have hne : (key ++ [':']).isEmpty = false := by
    rw [hck]
    rfl
  have hhash : jsStartsWith (key ++ [':']) ['#'] = false := by
    rw [hck]
    simp [jsStartsWith, List.isPrefixOf, Ne.symm h1]
  have hdash : jsStartsWith (key ++ [':']) ['-', ' '] = false := by
    rw [hck]
    simp [jsStartsWith, List.isPrefixOf, Ne.symm h2]
  have hcont : (key ++ [':']).contains ':' = true := by simp
  unfold parseLine
  simp only [ht, hi, hne, hhash, hdash, hcont, htake, hdrop, hkt, hvt, List.drop_one,
    List.tail_cons, Bool.or_self, Bool.false_eq_true, if_false, if_true, Bool.not_false,
    List.isEmpty_nil, Bool.not_true]

theorem parseLine_item (st : YamlState) (k : Nat) (key v : List Char)
    (hkey : isKeyText key = true) (hv : Carried v) :
    parseLine st (List.replicate k ' ' ++ ('-' :: ' ' :: (key ++ ':' :: ' ' :: v)))
      = if truthy (popStack k st.top st.below).1.lastKey then
          { root := st.root.modifyAt
              (pushItem ((popStack k st.top st.below).1.lastKey.getD "")
                (.object [(String.mk key, parseValue v)]))
              (popStack k st.top st.below).1.obj,
            top := { obj := (popStack k st.top st.below).1.obj ++
                       [((popStack k st.top st.below).1.lastKey.getD "",
                         ((st.root.atPath (popStack k st.top st.below).1.obj).prop
                           ((popStack k st.top st.below).1.lastKey.getD "")).items.length)],
                     indent := k, lastKey := none, isArrayItem := true },
            below := (popStack k st.top st.below).1 :: (popStack k st.top st.below).2 }
        else
          { root := st.root, top := (popStack k st.top st.below).1,
            below := (popStack k st.top st.below).2 } := by
  have htr : Trimmed ('-' :: ' ' :: (key ++ ':' :: ' ' :: v)) := by
    have : '-' :: ' ' :: (key ++ ':' :: ' ' :: v) = ['-', ' '] ++ (key ++ ':' :: ' ' :: v) := rfl
    rw [this]
    exact Trimmed.glue (by simp) rfl (trimmed_key_value hkey hv)
  have ht := jsTrim_of_trimmed htr k
  have hi := indent_of_trimmed htr k
  have hcolon := (isKeyText_spec hkey).2
  have hsplit : jsSplit ':' (key ++ ':' :: ' ' :: v) = [key, ' ' :: v] := by
    rw [jsSplit_append _ _ _ (fun hm => (hcolon _ hm).2.1 rfl)]
    rw [jsSplit_none]
    intro hm
    rw [List.mem_cons] at hm
    rcases hm with hm | hm
    · exact absurd hm (by decide)
    · exact hv.2.1 hm
  have hkt := jsTrim_of_key hkey
  have hvt := jsTrim_space_cons hv
  have hne : ('-' :: ' ' :: (key ++ ':' :: ' ' :: v)).isEmpty = false := rfl
  have hhash : jsStartsWith ('-' :: ' ' :: (key ++ ':' :: ' ' :: v)) ['#'] = false := by
    simp [jsStartsWith, List.isPrefixOf]
  have hdash : jsStartsWith ('-' :: ' ' :: (key ++ ':' :: ' ' :: v)) ['-', ' '] = true := by
    simp [jsStartsWith, List.isPrefixOf]
  have hcont : (key ++ ':' :: ' ' :: v).contains ':' = true := by simp
  have hvne : v.isEmpty = false := by
    cases v with
    | nil => exact absurd rfl hv.1
    | cons _ _ => rfl
  unfold parseLine
  simp only [ht, hi, hne, hhash, hdash, hcont, hsplit, hkt, hvt, hvne, List.drop_succ_cons,
    List.drop_zero, List.map_cons, List.map_nil, List.getD_cons_zero, List.getD_cons_succ,
    Bool.or_self, Bool.false_eq_true, if_false, if_true, Bool.not_false]

/-! ## The values of the format -/

theorem parseValue_plain {s : List Char} (h : isPlainText s = true) :
    parseValue s = .str (String.mk s) ∧ Carried s ∧ '\n' ∉ s := by
  unfold isPlainText at h
  simp only [Bool.and_eq_true, Bool.not_eq_true', List.isEmpty_eq_false, beq_iff_eq,
    bne_iff_ne, ne_eq] at h
  obtain ⟨⟨⟨⟨⟨⟨⟨⟨⟨h1, h2⟩, h3⟩, h4⟩, h5⟩, h6⟩, h7⟩, h8⟩, h9⟩, h10⟩ := h
  have hne : s ≠ [] := by
    intro he
    rw [he] at h1
    simp at h1
  refine ⟨?_, ⟨hne, ?_, h4⟩, ?_⟩
  · unfold parseValue
    rw [h5, h6, h7]
    have e1 : (s == "true".data) = false := by simpa using h8
    have e2 : (s == "false".data) = false := by simpa using h9
    have e3 : (s == "null".data) = false := by simpa using h10
    rw [e1, e2, e3]
    simp
  · simpa using h2
  · simpa using h3

/-- The decimal digits. -/
theorem digitChar_mem (m : Nat) (hm : m < 10) : Nat.digitChar m ∈ "0123456789".data := by
  interval_cases m <;> decide

theorem digitChar_value (m : Nat) (hm : m < 10) : (Nat.digitChar m).toNat - 48 = m := by
  interval_cases m <;> rfl

theorem toDigitsCore_mem (fuel : Nat) :
    ∀ (n : Nat) (ds : List Char), (∀ c ∈ ds, c ∈ "0123456789".data) →
      ∀ c ∈ Nat.toDigitsCore 10 fuel n ds, c ∈ "0123456789".data := by
  induction fuel with
  | zero =>
    intro n ds hds c hc
    exact hds c hc
  | succ fuel ih =>
    intro n ds hds c hc
    unfold Nat.toDigitsCore at hc
    simp only at hc
    have hd : ∀ x ∈ Nat.digitChar (n % 10) :: ds, x ∈ "0123456789".data := by
      intro x hx
      rw [List.mem_cons] at hx
      rcases hx with hx | hx
      · rw [hx]
        exact digitChar_mem _ (Nat.mod_lt _ (by decide))
      · exact hds x hx
    split at hc
    · exact hd c hc
    · exact ih _ _ hd c hc

theorem toDigitsCore_length (fuel : Nat) :
    ∀ (n : Nat) (ds : List Char), ds.length ≤ (Nat.toDigitsCore 10 fuel n ds).length := by
  induction fuel with
  | zero =>
    intro n ds
    exact le_refl _
  | succ fuel ih =>
    intro n ds
    unfold Nat.toDigitsCore
    simp only
    split
    · simp
    · have := ih (n / 10) (Nat.digitChar (n % 10) :: ds)
      simp only [List.length_cons] at this
      omega

theorem toDigitsCore_ne_nil (fuel n : Nat) (ds : List Char) :
    Nat.toDigitsCore 10 (fuel + 1) n ds ≠ [] := by
  unfold Nat.toDigitsCore
  simp only
  split
  · simp
  · intro he
    have := toDigitsCore_length fuel (n / 10) (Nat.digitChar (n % 10) :: ds)
    rw [he] at this
    simp at this

theorem toDigitsCore_value (fuel : Nat) :
    ∀ (n : Nat) (ds : List Char), n < fuel →
      List.foldl (fun acc c => 10 * acc + (c.toNat - 48)) 0 (Nat.toDigitsCore 10 fuel n ds)
        = List.foldl (fun acc c => 10 * acc + (c.toNat - 48)) n ds := by
  induction fuel with
  | zero =>
    intro n ds hn
    omega
  | succ fuel ih =>
    intro n ds hn
    unfold Nat.toDigitsCore
    simp only
    split
    · rename_i h0
      rw [List.foldl_cons, digitChar_value _ (Nat.mod_lt _ (by decide))]
      have : 10 * 0 + n % 10 = n := by omega
      rw [this]
    · rename_i h0
      rw [ih (n / 10) _ (by omega), List.foldl_cons,
        digitChar_value _ (Nat.mod_lt _ (by decide))]
      have : 10 * (n / 10) + n % 10 = n := Nat.div_add_mod n 10
      rw [this]

theorem digit_facts : ∀ c ∈ "0123456789".data,
    c.isDigit = true ∧ isJsWhiteSpace c = false ∧ c ≠ ':' ∧ c ≠ '\n' ∧ c ≠ doubleQuote
      ∧ c ≠ singleQuote := by
  decide

theorem parseValue_digits (n : Nat) (hn : n < 2 ^ 53) :
    parseValue (Nat.toDigits 10 n) = .number (.finite n) ∧ Carried (Nat.toDigits 10 n)
      ∧ '\n' ∉ Nat.toDigits 10 n := by
  have hmem : ∀ c ∈ Nat.toDigits 10 n, c ∈ "0123456789".data :=
    toDigitsCore_mem (n + 1) n [] (fun c hc => by cases hc)
  have hne : Nat.toDigits 10 n ≠ [] := toDigitsCore_ne_nil n n []
  have hval : digitsValue (Nat.toDigits 10 n) = n :=
    toDigitsCore_value (n + 1) n [] (by omega)
  generalize Nat.toDigits 10 n = v at hmem hne hval
  have hall : v.all Char.isDigit = true := by
    rw [List.all_eq_true]
    intro c hc
    exact (digit_facts c (hmem c hc)).1
  have hws : ∀ c ∈ v, isJsWhiteSpace c = false := fun c hc => (digit_facts c (hmem c hc)).2.1
  refine ⟨?_, ⟨hne, fun hm => (digit_facts _ (hmem _ hm)).2.2.1 rfl, ?_⟩,
    fun hm => (digit_facts _ (hmem _ hm)).2.2.2.1 rfl⟩
  · cases v with
    | nil => exact absurd rfl hne
    | cons c rest =>
      have hc := digit_facts c (hmem c (List.mem_cons_self _ _))
      unfold parseValue
      have q1 : jsStartsWith (c :: rest) [doubleQuote] = false := by
        simp [jsStartsWith, List.isPrefixOf, Ne.symm hc.2.2.2.2.1]
      have q2 : jsStartsWith (c :: rest) [singleQuote] = false := by
        simp [jsStartsWith, List.isPrefixOf, Ne.symm hc.2.2.2.2.2]
      rw [q1, q2, hall, hval]
      simp only [Bool.false_and, Bool.or_self, Bool.false_eq_true, if_false, List.isEmpty_cons,
        Bool.not_false, Bool.and_self, if_true]
      unfold toDouble
      rw [if_pos hn]
  · unfold jsTrim
    rw [dropWhile_fixed_of_all v hws,
      dropWhile_fixed_of_all v.reverse (fun c hc => hws c (List.mem_reverse.mp hc)),
      List.reverse_reverse]

/-- C32 (evaluation of the code): the two kinds of line do not extract a value
the same way.  The plain line `name: Phase 1: plan` stores everything after
the first colon, `Phase 1: plan`, while the list-opening line
`- name: Phase 1: plan` stores only the text between the first and the second
colon, `Phase 1`; the same step written with `name` on a continuation line
keeps the whole value, and of the URL in `- url: http://example.com/a` only
`http` is left. -/
theorem C32_list_item_value_truncated :
    parseYaml "name: Phase 1: plan" = .object [("name", .str "Phase 1: plan")]
    ∧ parseYaml "steps:\n  - name: Phase 1: plan"
        = .object [("steps", .array [.object [("name", .str "Phase 1")]])]
    ∧ parseYaml "steps:\n  - agent: planner\n    name: Phase 1: plan"
        = .object [("steps", .array [.object [("agent", .str "planner"),
            ("name", .str "Phase 1: plan")]])]
    ∧ parseYaml "steps:\n  - url: http://example.com/a"
        = .object [("steps", .array [.object [("url", .str "http")]])]
    ∧ parseYaml "url: http://example.com/a"
        = .object [("url", .str "http://example.com/a")] :=
  ⟨rfl, rfl, rfl, rfl, rfl⟩

/-! ## The parser along the lines of a workflow -/

theorem find_append_steps (hdr : List (String × JsValue)) (sv : JsValue)
    (h : ∀ f ∈ hdr, f.1 ≠ "steps") :
    List.find? (fun f => f.1 == "steps") (hdr ++ [("steps", sv)]) = some ("steps", sv) := by
  induction hdr with
  | nil => rfl
  | cons f hdr ih =>
    have hf : (f.1 == "steps") = false := by simpa using h f (List.mem_cons_self _ _)
    rw [List.cons_append, List.find?_cons, hf]
    exact ih (fun g hg => h g (List.mem_cons_of_mem _ hg))

theorem prop_append_steps (hdr : List (String × JsValue)) (sv : JsValue)
    (h : ∀ f ∈ hdr, f.1 ≠ "steps") :
    (JsValue.object (hdr ++ [("steps", sv)])).prop "steps" = sv := by
  unfold JsValue.prop
  simp only [find_append_steps hdr sv h]

theorem setField_append_steps (hdr : List (String × JsValue)) (sv x : JsValue)
    (h : ∀ f ∈ hdr, f.1 ≠ "steps") :
    setField (hdr ++ [("steps", sv)]) "steps" x = hdr ++ [("steps", x)] := by
  induction hdr with
  | nil => rfl
  | cons f hdr ih =>
    have hf : (f.1 == "steps") = false := by simpa using h f (List.mem_cons_self _ _)
    rw [List.cons_append]
    unfold setField
    rw [hf]
    simp only [Bool.false_eq_true, if_false, List.cons_append]
    rw [ih (fun g hg => h g (List.mem_cons_of_mem _ hg))]

theorem setField_fresh (cur : List (String × JsValue)) (key : String) (v : JsValue)
    (h : ∀ f ∈ cur, f.1 ≠ key) : setField cur key v = cur ++ [(key, v)] := by
  induction cur with
  | nil => rfl
  | cons f cur ih =>
    have hf : (f.1 == key) = false := by simpa using h f (List.mem_cons_self _ _)
    unfold setField
    rw [hf]
    simp only [Bool.false_eq_true, if_false, List.cons_append]
    rw [ih (fun g hg => h g (List.mem_cons_of_mem _ hg))]

theorem modifyItem_last (g : JsValue → JsValue) (done : List JsValue) (x : JsValue) :
    modifyItem g done.length (done ++ [x]) = done ++ [g x] := by
  induction done with
  | nil => rfl
  | cons d done ih =>
    show d :: modifyItem g done.length (done ++ [x]) = _
    rw [ih]
    rfl

theorem modifyAt_root (f : JsValue → JsValue) (v : JsValue) : JsValue.modifyAt f [] v = f v := by
  unfold JsValue.modifyAt
  rfl

theorem modifyAt_item (f : JsValue → JsValue) (hdr : List (String × JsValue))
    (done : List JsValue) (cur : List (String × JsValue)) (h : ∀ f ∈ hdr, f.1 ≠ "steps") :
    JsValue.modifyAt f [("steps", done.length)]
        (.object (hdr ++ [("steps", .array (done ++ [.object cur]))]))
      = .object (hdr ++ [("steps", .array (done ++ [f (.object cur)]))]) := by
  unfold JsValue.modifyAt
  rw [prop_append_steps _ _ h]
  simp only
  rw [modifyItem_last]
  unfold JsValue.setProp
  simp only
  rw [setField_append_steps _ _ _ h]
  congr 4

theorem loopState_append (hdr : List (String × JsValue)) (done : List JsValue)
    (cur : List (String × JsValue)) :
    loopState hdr (done ++ [.object cur]) = itemState hdr done cur := by
  unfold loopState itemState
  have : (done ++ [JsValue.object cur]).isEmpty = false := by
    cases done <;> rfl
  rw [this]
  simp

theorem loopState_root (hdr : List (String × JsValue)) (done : List JsValue) :
    ∃ sv, (loopState hdr done).root = .object (hdr ++ [("steps", sv)]) ∧ sv.items = done
      ∧ popStack 2 (loopState hdr done).top (loopState hdr done).below
          = (stepsEntry, [rootEntry]) := by
  unfold loopState
  cases done with
  | nil => exact ⟨.null, rfl, rfl, rfl⟩
  | cons d done => exact ⟨.array (d :: done), rfl, rfl, rfl⟩

theorem parseLine_open (hdr : List (String × JsValue)) (done : List JsValue)
    (key v : List Char) (line : List Char)
    (hline : line = List.replicate 2 ' ' ++ ('-' :: ' ' :: (key ++ ':' :: ' ' :: v)))
    (hkey : isKeyText key = true) (hv : Carried v) (h : ∀ f ∈ hdr, f.1 ≠ "steps") :
    parseLine (loopState hdr done) line
      = itemState hdr done [(String.mk key, parseValue v)] := by
  obtain ⟨sv, h1, h2, h3⟩ := loopState_root hdr done
  rw [hline, parseLine_item _ _ _ _ hkey hv, h3]
  have ht : truthy stepsEntry.lastKey = true := rfl
  simp only [ht, if_true]
  have hk : stepsEntry.lastKey.getD "" = "steps" := rfl
  have ho : stepsEntry.obj = [] := rfl
  rw [hk, ho, h1, modifyAt_root]
  unfold itemState pushItem JsValue.atPath
  rw [prop_append_steps _ _ h, h2]
  unfold JsValue.setProp
  simp only
  rw [setField_append_steps _ _ _ h]
  rfl

theorem parseLine_continue (hdr : List (String × JsValue)) (done : List JsValue)
    (cur : List (String × JsValue)) (key v : List Char) (line : List Char)
    (hline : line = List.replicate 4 ' ' ++ (key ++ ':' :: ' ' :: v))
    (hkey : isKeyText key = true) (hv : Carried v) (h : ∀ f ∈ hdr, f.1 ≠ "steps")
    (hfresh : ∀ f ∈ cur, f.1 ≠ String.mk key) :
    parseLine (itemState hdr done cur) line
      = itemState hdr done (cur ++ [(String.mk key, parseValue v)]) := by
  rw [hline, parseLine_keyValue _ _ _ _ hkey hv]
  have hpop : popStack 4 (itemState hdr done cur).top (itemState hdr done cur).below
      = (itemEntry done.length, [stepsEntry, rootEntry]) := rfl
  rw [hpop]
  have ho : (itemEntry done.length).obj = [("steps", done.length)] := rfl
  simp only [ho]
  have hr : (itemState hdr done cur).root
      = .object (hdr ++ [("steps", .array (done ++ [.object cur]))]) := rfl
  rw [hr, modifyAt_item _ _ _ _ h]
  unfold itemState JsValue.setProp
  simp only
  rw [setField_fresh _ _ _ hfresh]

theorem fold_optional (hdr : List (String × JsValue)) (done : List JsValue)
    (cur : List (String × JsValue)) (pre : String) (key : List Char) (o : Option (List Char))
    (hpre : ∀ v, pre.data ++ v = List.replicate 4 ' ' ++ (key ++ ':' :: ' ' :: v))
    (hkey : isKeyText key = true) (ho : ∀ v, o = some v → Carried v)
    (h : ∀ f ∈ hdr, f.1 ≠ "steps") (hfresh : ∀ f ∈ cur, f.1 ≠ String.mk key) :
    List.foldl parseLine (itemState hdr done cur) (optionalLine pre o)
      = itemState hdr done (cur ++ optionalField (String.mk key) (o.map parseValue)) := by
  cases o with
  | none =>
    show itemState hdr done cur = itemState hdr done (cur ++ [])
    rw [List.append_nil]
  | some v =>
    show parseLine (itemState hdr done cur) (pre.data ++ v) = _
    exact parseLine_continue hdr done cur key v _ (hpre v) hkey (ho v rfl) h hfresh

theorem fresh_singleton (k2 : String) (v : JsValue) (key : String) (hk : k2 ≠ key) :
    ∀ f ∈ [(k2, v)], f.1 ≠ key := by
  intro f hf
  rw [List.mem_singleton] at hf
  rw [hf]
  exact hk

theorem fresh_append (cur : List (String × JsValue)) (k2 : String) (v : JsValue) (key : String)
    (h : ∀ f ∈ cur, f.1 ≠ key) (hk : k2 ≠ key) : ∀ f ∈ cur ++ [(k2, v)], f.1 ≠ key := by
  intro f hf
  rw [List.mem_append] at hf
  rcases hf with hf | hf
  · exact h f hf
  · exact fresh_singleton k2 v key hk f hf

theorem fresh_optional (cur : List (String × JsValue)) (k2 : String) (o : Option JsValue)
    (key : String) (h : ∀ f ∈ cur, f.1 ≠ key) (hk : k2 ≠ key) :
    ∀ f ∈ cur ++ optionalField k2 o, f.1 ≠ key := by
  cases o with
  | none =>
    intro f hf
    exact h f (by simpa [optionalField] using hf)
  | some v => exact fresh_append cur k2 v key h hk

theorem fold_renderStep (hdr : List (String × JsValue)) (done : List JsValue)
    (step : WorkflowStep) (hs : renderableStep step) (h : ∀ f ∈ hdr, f.1 ≠ "steps") :
    List.foldl parseLine (loopState hdr done) (renderStep step)
      = loopState hdr (done ++ [stepObject step]) := by
  obtain ⟨h1, h2, h3, h4, h5, h6⟩ := hs
  have c1 := parseValue_plain h1
  have c2 := parseValue_plain h2
  have c3 := parseValue_plain h3
  have f1 : ∀ f ∈ [(String.mk "name".data, parseValue step.name.data)],
      f.1 ≠ String.mk "agent".data := fresh_singleton _ _ _ (by decide)
  have f2 : ∀ f ∈ [(String.mk "name".data, parseValue step.name.data)]
        ++ [(String.mk "agent".data, parseValue step.agent.data)],
      f.1 ≠ String.mk "task".data :=
    fresh_append _ _ _ _ (fresh_singleton _ _ _ (by decide)) (by decide)
  have f3 : ∀ f ∈ [(String.mk "name".data, parseValue step.name.data)]
        ++ [(String.mk "agent".data, parseValue step.agent.data)]
        ++ [(String.mk "task".data, parseValue step.task.data)],
      f.1 ≠ String.mk "retry".data :=
    fresh_append _ _ _ _ (fresh_append _ _ _ _ (fresh_singleton _ _ _ (by decide)) (by decide))
      (by decide)
  have f4 : ∀ f ∈ [(String.mk "name".data, parseValue step.name.data)]
        ++ [(String.mk "agent".data, parseValue step.agent.data)]
        ++ [(String.mk "task".data, parseValue step.task.data)]
        ++ optionalField (String.mk "retry".data)
            ((step.retry.map (fun r => Nat.toDigits 10 r.toNat)).map parseValue),
      f.1 ≠ String.mk "escalate_to".data :=
    fresh_optional _ _ _ _
      (fresh_append _ _ _ _ (fresh_append _ _ _ _ (fresh_singleton _ _ _ (by decide))
        (by decide)) (by decide)) (by decide)
  have f5 : ∀ f ∈ [(String.mk "name".data, parseValue step.name.data)]
        ++ [(String.mk "agent".data, parseValue step.agent.data)]
        ++ [(String.mk "task".data, parseValue step.task.data)]
        ++ optionalField (String.mk "retry".data)
            ((step.retry.map (fun r => Nat.toDigits 10 r.toNat)).map parseValue)
        ++ optionalField (String.mk "escalate_to".data)
            ((step.escalate_to.map String.data).map parseValue),
      f.1 ≠ String.mk "verify_with".data :=
    fresh_optional _ _ _ _ (fresh_optional _ _ _ _
      (fresh_append _ _ _ _ (fresh_append _ _ _ _ (fresh_singleton _ _ _ (by decide))
        (by decide)) (by decide)) (by decide)) (by decide)
  have o1 : ∀ v, step.retry.map (fun r => Nat.toDigits 10 r.toNat) = some v → Carried v := by
    intro v hv
    cases hr : step.retry with
    | none =>
      rw [hr] at hv
      cases hv
    | some r =>
      rw [hr] at hv
      have hb := h4 r hr
      have : r.toNat < 2 ^ 53 := by omega
      have := (parseValue_digits r.toNat this).2.1
      simp only [Option.map_some', Option.some.injEq] at hv
      rw [← hv]
      exact this
  have o2 : ∀ v, step.escalate_to.map String.data = some v → Carried v := by
    intro v hv
    cases he : step.escalate_to with
    | none =>
      rw [he] at hv
      cases hv
    | some e =>
      rw [he] at hv
      simp only [Option.map_some', Option.some.injEq] at hv
      rw [← hv]
      exact (parseValue_plain (h5 e he)).2.1
  have o3 : ∀ v, step.verify_with.map String.data = some v → Carried v := by
    intro v hv
    cases he : step.verify_with with
    | none =>
      rw [he] at hv
      cases hv
    | some e =>
      rw [he] at hv
      simp only [Option.map_some', Option.some.injEq] at hv
      rw [← hv]
      exact (parseValue_plain (h6 e he)).2.1
  have e1 : (step.retry.map (fun r => Nat.toDigits 10 r.toNat)).map parseValue
      = step.retry.map (fun (r : Int) => JsValue.number (.finite (r : ℚ))) := by
    cases hr : step.retry with
    | none => rfl
    | some r =>
      have hb := h4 r hr
      have hlt : r.toNat < 2 ^ 53 := by omega
      simp only [Option.map_some']
      rw [(parseValue_digits r.toNat hlt).1]
      have : ((r.toNat : ℕ) : ℚ) = (r : ℚ) := by
        rw [← Int.cast_natCast, Int.toNat_of_nonneg hb.1]
      rw [this]
  have e2 : (step.escalate_to.map String.data).map parseValue
      = step.escalate_to.map JsValue.str := by
    cases he : step.escalate_to with
    | none => rfl
    | some e =>
      simp only [Option.map_some']
      rw [(parseValue_plain (h5 e he)).1]
  have e3 : (step.verify_with.map String.data).map parseValue
      = step.verify_with.map JsValue.str := by
    cases he : step.verify_with with
    | none => rfl
    | some e =>
      simp only [Option.map_some']
      rw [(parseValue_plain (h6 e he)).1]
  unfold renderStep stepObject
  rw [loopState_append]
  simp only [List.foldl_append, List.foldl_cons, List.foldl_nil]
  rw [parseLine_open hdr done "name".data step.name.data ("  - name: ".data ++ step.name.data) rfl (by decide) c1.2.1 h,
    parseLine_continue hdr done _ "agent".data step.agent.data ("    agent: ".data ++ step.agent.data) rfl (by decide) c2.2.1 h f1,
    parseLine_continue hdr done _ "task".data step.task.data ("    task: ".data ++ step.task.data) rfl (by decide) c3.2.1 h f2,
    fold_optional hdr done _ "    retry: " "retry".data _ (fun _ => rfl) (by decide) o1 h f3,
    fold_optional hdr done _ "    escalate_to: " "escalate_to".data _ (fun _ => rfl) (by decide)
      o2 h f4,
    fold_optional hdr done _ "    verify_with: " "verify_with".data _ (fun _ => rfl) (by decide)
      o3 h f5,
    e1, e2, e3, c1.1, c2.1, c3.1]
  rfl

theorem fold_renderSteps (hdr : List (String × JsValue)) (h : ∀ f ∈ hdr, f.1 ≠ "steps")
    (steps : List WorkflowStep) :
    ∀ done, (∀ step ∈ steps, renderableStep step) →
      List.foldl parseLine (loopState hdr done) (renderSteps steps)
        = loopState hdr (done ++ steps.map stepObject) := by
  induction steps with
  | nil =>
    intro done _
    simp [renderSteps]
  | cons step rest ih =>
    intro done hall
    unfold renderSteps
    rw [List.foldl_append, fold_renderStep hdr done step (hall step (List.mem_cons_self _ _)) h,
      ih _ (fun s hs => hall s (List.mem_cons_of_mem _ hs))]
    simp

theorem fold_header (name : String) (desc : Option String)
    (hn : isPlainText name.data = true)
    (hd : ∀ d, desc = some d → isPlainText d.data = true) :
    List.foldl parseLine YamlState.initial
        (["name: ".data ++ name.data] ++ optionalLine "description: " (desc.map String.data)
          ++ ["steps:".data])
      = headerState ([("name", .str name)] ++ optionalField "description" (desc.map .str)) := by
  have c1 := parseValue_plain hn
  have l1 : "name: ".data ++ name.data
      = List.replicate 0 ' ' ++ ("name".data ++ ':' :: ' ' :: name.data) := rfl
  have l3 : "steps:".data = List.replicate 0 ' ' ++ ("steps".data ++ [':']) := rfl
  simp only [List.foldl_append, List.foldl_cons, List.foldl_nil]
  rw [l1, parseLine_keyValue _ _ _ _ (by decide) c1.2.1, c1.1]
  cases desc with
  | none =>
    show parseLine _ "steps:".data = _
    rw [l3, parseLine_section _ _ _ (by decide)]
    rfl
  | some d =>
    have c2 := parseValue_plain (hd d rfl)
    have l2 : "description: ".data ++ d.data
      = List.replicate 0 ' ' ++ ("description".data ++ ':' :: ' ' :: d.data) := rfl
    show parseLine (parseLine _ ("description: ".data ++ d.data)) "steps:".data = _
    rw [l2, parseLine_keyValue _ _ _ _ (by decide) c2.2.1, c2.1, l3,
      parseLine_section _ _ _ (by decide)]
    rfl

/-! ## The format of the help text parses back -/

theorem newline_free_line {pre : String} {v : List Char} (hp : '\n' ∉ pre.data)
    (hv : '\n' ∉ v) : '\n' ∉ pre.data ++ v := by
  intro hm
  rw [List.mem_append] at hm
  rcases hm with hm | hm
  · exact hp hm
  · exact hv hm

theorem newline_free_optional {pre : String} {o : Option (List Char)} (hp : '\n' ∉ pre.data)
    (ho : ∀ v, o = some v → '\n' ∉ v) : ∀ l ∈ optionalLine pre o, '\n' ∉ l := by
  intro l hl
  cases o with
  | none => simp [optionalLine] at hl
  | some v =>
    simp only [optionalLine, List.mem_singleton] at hl
    rw [hl]
    exact newline_free_line hp (ho v rfl)

theorem newline_free_step {step : WorkflowStep} (hs : renderableStep step) :
    ∀ l ∈ renderStep step, '\n' ∉ l := by
  obtain ⟨h1, h2, h3, h4, h5, h6⟩ := hs
  intro l hl
  unfold renderStep at hl
  simp only [List.mem_append, List.mem_cons, List.mem_singleton, List.not_mem_nil,
    or_false] at hl
  rcases hl with (((hl | hl | hl) | hl) | hl) | hl
  · rw [hl]
    exact newline_free_line (by decide) (parseValue_plain h1).2.2
  · rw [hl]
    exact newline_free_line (by decide) (parseValue_plain h2).2.2
  · rw [hl]
    exact newline_free_line (by decide) (parseValue_plain h3).2.2
  · refine newline_free_optional (by decide) ?_ l hl
    intro v hv
    cases hr : step.retry with
    | none =>
      rw [hr] at hv
      cases hv
    | some r =>
      rw [hr] at hv
      simp only [Option.map_some', Option.some.injEq] at hv
      rw [← hv]
      have hb := h4 r hr
      exact (parseValue_digits r.toNat (by omega)).2.2
  · refine newline_free_optional (by decide) ?_ l hl
    intro v hv
    cases he : step.escalate_to with
    | none =>
      rw [he] at hv
      cases hv
    | some e =>
      rw [he] at hv
      simp only [Option.map_some', Option.some.injEq] at hv
      rw [← hv]
      exact (parseValue_plain (h5 e he)).2.2
  · refine newline_free_optional (by decide) ?_ l hl
    intro v hv
    cases he : step.verify_with with
    | none =>
      rw [he] at hv
      cases hv
    | some e =>
      rw [he] at hv
      simp only [Option.map_some', Option.some.injEq] at hv
      rw [← hv]
      exact (parseValue_plain (h6 e he)).2.2

theorem newline_free_steps (steps : List WorkflowStep)
    (hs : ∀ step ∈ steps, renderableStep step) : ∀ l ∈ renderSteps steps, '\n' ∉ l := by
  induction steps with
  | nil =>
    intro l hl
    cases hl
  | cons step rest ih =>
    intro l hl
    unfold renderSteps at hl
    rw [List.mem_append] at hl
    rcases hl with hl | hl
    · exact newline_free_step (hs step (List.mem_cons_self _ _)) l hl
    · exact ih (fun s hm => hs s (List.mem_cons_of_mem _ hm)) l hl

theorem newline_free_lines {workflow : Workflow} (hwf : renderable workflow) :
    ∀ l ∈ renderLines workflow, '\n' ∉ l := by
  obtain ⟨h1, h2, h3⟩ := hwf
  intro l hl
  unfold renderLines at hl
  simp only [List.mem_append, List.mem_cons, List.mem_singleton, List.not_mem_nil,
    or_false] at hl
  rcases hl with ((hl | hl) | hl) | hl
  · rw [hl]
    exact newline_free_line (by decide) (parseValue_plain h1).2.2
  · refine newline_free_optional (by decide) ?_ l hl
    intro v hv
    cases hd : workflow.description with
    | none =>
      rw [hd] at hv
      cases hv
    | some d =>
      rw [hd] at hv
      simp only [Option.map_some', Option.some.injEq] at hv
      rw [← hv]
      exact (parseValue_plain (h2 d hd)).2.2
  · rw [hl]
    decide
  · exact newline_free_steps _ h3 l hl

theorem header_without_steps (name : String) (desc : Option String) :
    ∀ f ∈ [("name", JsValue.str name)] ++ optionalField "description" (desc.map .str),
      f.1 ≠ "steps" :=
  fresh_optional _ _ _ _ (fresh_singleton _ _ _ (by decide)) (by decide)

theorem parseYaml_render (workflow : Workflow) (hwf : renderable workflow) :
    parseYaml (renderWorkflow workflow)
      = (loopState ([("name", .str workflow.name)]
            ++ optionalField "description" (workflow.description.map .str))
          (workflow.steps.map stepObject)).root := by
  have hsplit := jsSplit_joinLines (renderLines workflow)
    (by unfold renderLines; simp) (newline_free_lines hwf)
  unfold parseYaml renderWorkflow parseLines
  rw [hsplit]
  unfold renderLines
  rw [List.foldl_append, fold_header workflow.name workflow.description hwf.1 hwf.2.1]
  have h0 : headerState ([("name", .str workflow.name)]
        ++ optionalField "description" (workflow.description.map .str))
      = loopState ([("name", .str workflow.name)]
        ++ optionalField "description" (workflow.description.map .str)) [] := rfl
  rw [h0, fold_renderSteps _ (header_without_steps _ _) workflow.steps [] hwf.2.2]
  rfl

theorem parseYaml_render_steps (workflow : Workflow) (hwf : renderable workflow)
    (hsteps : workflow.steps ≠ []) :
    parseYaml (renderWorkflow workflow) = workflowObject workflow := by
  rw [parseYaml_render workflow hwf]
  unfold loopState workflowObject
  have : (workflow.steps.map stepObject).isEmpty = false := by
    cases hs : workflow.steps with
    | nil => exact absurd hs hsteps
    | cons _ _ => rfl
  rw [this]
  rfl

theorem specValidStep_stepObject (step : WorkflowStep) (hs : renderableStep step)
    (hr : rolesValid step) : specValidStep (stepObject step) := by
  obtain ⟨h1, h2, h3, h4, h5, h6⟩ := hs
  obtain ⟨r1, r2, r3⟩ := hr
  have n1 : step.name ≠ "" := by
    intro he
    rw [he] at h1
    exact absurd h1 (by decide)
  have n3 : step.task ≠ "" := by
    intro he
    rw [he] at h3
    exact absurd h3 (by decide)
  unfold specValidStep stepObject
  cases hre : step.retry <;> cases hes : step.escalate_to <;> cases hvw : step.verify_with <;>
    simp [optionalField, JsValue.prop, JsValue.truthy, JsValue.nullish, JsValue.isDefined,
      List.find?, n1, n3, r1] <;>
    first
      | exact fun _ => r2 _ hes
      | exact fun _ => r3 _ hvw
      | exact ⟨fun _ => r2 _ hes, fun _ => r3 _ hvw⟩

theorem truthy_name_of_plain {name : String} (h : isPlainText name.data = true) :
    (JsValue.str name).truthy = true := by
  have : name ≠ "" := by
    intro he
    rw [he] at h
    exact absurd h (by decide)
  simpa [JsValue.truthy] using this

/-- C30 (counterexample): the claim does not hold for a workflow without
steps.  Its rendering is the two lines `name: demo` and `steps:`; `parseYaml`
leaves `steps` at the `null` that the line `steps:` stores, not at a list of
length 0, and `validateWorkflow` rejects the result although no role is
invalid. -/
theorem C30_stepless_workflow_counterexample :
    renderable steplessWorkflow
    ∧ (∀ step ∈ steplessWorkflow.steps, rolesValid step)
    ∧ renderWorkflow steplessWorkflow = "name: demo\nsteps:"
    ∧ parseYaml (renderWorkflow steplessWorkflow)
        = .object [("name", .str "demo"), ("steps", .null)]
    ∧ parseYaml (renderWorkflow steplessWorkflow) ≠ workflowObject steplessWorkflow
    ∧ validateWorkflow (parseYaml (renderWorkflow steplessWorkflow)) = .error .noSteps := by
  refine ⟨⟨by decide, fun d hd => (by cases hd), fun s hs => (by cases hs)⟩,
    fun s hs => (by cases hs), rfl, rfl, ?_, rfl⟩
  intro he
  have h1 : parseYaml (renderWorkflow steplessWorkflow)
      = .object [("name", .str "demo"), ("steps", .null)] := rfl
  have h2 : workflowObject steplessWorkflow
      = .object [("name", .str "demo"), ("steps", .array [])] := rfl
  rw [h1, h2] at he
  injection he with he
  injection he with _ he
  injection he with he
  injection he with _ he
  cases he

/-- C30 (amended): for every workflow with at least one step whose name,
description and step fields `name`, `agent`, `task`, `escalate_to` and
`verify_with` are plain texts (not empty, no colon or newline, no leading or
trailing whitespace, not surrounded by quotes, not a numeral, `true`, `false`
or `null`) and whose `retry` is a natural number below 2^53, `parseYaml` of its
rendering in the format of the help text is the object with the same name and
description and the list of the step objects in the same order, `retry` being
a number; and `validateWorkflow` accepts that object when the roles are among
the agent types. -/
theorem C30_help_format_round_trip (workflow : Workflow) (hwf : renderable workflow)
    (hsteps : workflow.steps ≠ []) :
    parseYaml (renderWorkflow workflow) = workflowObject workflow
    ∧ ((∀ step ∈ workflow.steps, rolesValid step) →
        validateWorkflow (parseYaml (renderWorkflow workflow)) = .ok true) := by
  have hparse := parseYaml_render_steps workflow hwf hsteps
  refine ⟨hparse, fun hroles => ?_⟩
  rw [hparse, validateWorkflow_ok_iff]
  refine ⟨rfl, ?_, workflow.steps.map stepObject, ?_, ?_, ?_⟩
  · have : (workflowObject workflow).prop "name" = .str workflow.name := rfl
    rw [this]
    exact truthy_name_of_plain hwf.1
  · unfold workflowObject
    exact prop_append_steps _ _ (header_without_steps _ _)
  · intro he
    apply hsteps
    cases hs : workflow.steps with
    | nil => rfl
    | cons a b =>
      rw [hs] at he
      cases he
  · intro s hs
    rw [List.mem_map] at hs
    obtain ⟨step, hm, rfl⟩ := hs
    exact specValidStep_stepObject step (hwf.2.2 step hm) (hroles step hm)

theorem C30_help_format_round_trip_witness :
    parseYaml (renderWorkflow helpExample)
      = .object [("name", .str "My Workflow"), ("description", .str "Workflow description"),
          ("steps", .array [
            .object [("name", .str "Step 1"), ("agent", .str "planner"),
              ("task", .str "Define the plan"), ("retry", .number (.finite 3)),
              ("verify_with", .str "reviewer")],
            .object [("name", .str "Step 2"), ("agent", .str "developer"),
              ("task", .str "Implement solution"), ("escalate_to", .str "reviewer")]])]
    ∧ validateWorkflow (parseYaml (renderWorkflow helpExample)) = .ok true := by
  have hwf : renderable helpExample := by
    refine ⟨by decide, ?_, ?_⟩
    · intro d hd
      cases hd
      decide
    · intro s hs
      simp only [helpExample, List.mem_cons, List.mem_singleton, List.not_mem_nil,
        or_false] at hs
      rcases hs with rfl | rfl
      · refine ⟨by decide, by decide, by decide, ?_, ?_, ?_⟩
        · intro r hr
          cases hr
          decide
        · intro e he
          cases he
        · intro e he
          cases he
          decide
      · refine ⟨by decide, by decide, by decide, ?_, ?_, ?_⟩
        · intro r hr
          cases hr
        · intro e he
          cases he
          decide
        · intro e he
          cases he
  have hroles : ∀ step ∈ helpExample.steps, rolesValid step := by
    intro s hs
    simp only [helpExample, List.mem_cons, List.mem_singleton, List.not_mem_nil,
      or_false] at hs
    rcases hs with rfl | rfl
    · refine ⟨by decide, ?_, ?_⟩
      · intro e he
        cases he
      · intro e he
        cases he
        decide
    · refine ⟨by decide, ?_, ?_⟩
      · intro e he
        cases he
        decide
      · intro e he
        cases he
  have h := C30_help_format_round_trip helpExample hwf (by decide)
  exact ⟨h.1.trans rfl, h.2 hroles⟩

end SoulFlow
